import Mathlib

/-!
# Mach-O / fat-archive parsing core of dyld: embedding and verified properties

The definitions below embed `common/MachOFile.cpp` (namespace `dyld3`).

* An image is a view of process memory starting at the object's `this` pointer:
  `Mem` maps a byte offset from `this` to the byte stored there.  Pointers into the
  image are represented by their offset from `this`; it is assumed that the image is
  mapped low enough that `this + offset` never wraps the 64-bit address space.
* Blocks (`^(...) { ... }`) that capture variables by reference become functions on an
  explicit state; the `bool& stop` out-parameter becomes a returned `Bool`.
* `Diagnostics` keeps the recorded messages as values of `DiagMsg` instead of
  formatted strings; the `path` argument, which only feeds message text, is dropped.
-/

set_option autoImplicit false

namespace Dyld

/-! ## Memory and little/big-endian field access -/

/-- Bytes of the process memory, addressed by offset from the object's `this`. -/
abbrev Mem := Nat → Nat

/-- One byte. -/
def read8 (m : Mem) (a : Nat) : Nat := m a % 256

/-- A `uint32_t` field in host (little-endian) byte order. -/
def read32 (m : Mem) (a : Nat) : Nat :=
  read8 m a + 256 * read8 m (a + 1) + 65536 * read8 m (a + 2) + 16777216 * read8 m (a + 3)

/-- A `uint64_t` field in host (little-endian) byte order. -/
def read64 (m : Mem) (a : Nat) : Nat :=
  read32 m a + 4294967296 * read32 m (a + 4)

/-- `OSSwapBigToHostInt32` applied to a 32-bit field: the field read big-endian. -/
def read32be (m : Mem) (a : Nat) : Nat :=
  16777216 * read8 m a + 65536 * read8 m (a + 1) + 256 * read8 m (a + 2) + read8 m (a + 3)

/-- `OSSwapBigToHostInt64` applied to a 64-bit field: the field read big-endian. -/
def read64be (m : Mem) (a : Nat) : Nat :=
  4294967296 * read32be m a + read32be m (a + 4)

/-- The memory seen through the pointer `this + off`. -/
def shift (m : Mem) (off : Nat) : Mem := fun a => m (off + a)

/-- Memory holding the given bytes from offset 0 on, and zero bytes after them. -/
def memOfList (l : List Nat) : Mem := fun a => l.getD a 0

/-- Little-endian bytes of a 32-bit value. -/
def le32 (x : Nat) : List Nat :=
  [x % 256, x / 256 % 256, x / 65536 % 256, x / 16777216 % 256]

/-- Little-endian bytes of a 64-bit value. -/
def le64 (x : Nat) : List Nat := le32 (x % 4294967296) ++ le32 (x / 4294967296)

/-- Big-endian bytes of a 32-bit value. -/
def be32 (x : Nat) : List Nat :=
  [x / 16777216 % 256, x / 65536 % 256, x / 256 % 256, x % 256]

/-! ## Constants of `<mach-o/loader.h>`, `<mach-o/fat.h>`, `<mach/machine.h>` -/

def MH_MAGIC : Nat := 0xfeedface
def MH_MAGIC_64 : Nat := 0xfeedfacf
def MH_CIGAM : Nat := 0xcefaedfe
def MH_CIGAM_64 : Nat := 0xcffaedfe
def FAT_MAGIC : Nat := 0xcafebabe
def FAT_MAGIC_64 : Nat := 0xcafebabf

def MH_EXECUTE : Nat := 0x2
def MH_PRELOAD : Nat := 0x5
def MH_KEXT_BUNDLE : Nat := 0xb
def MH_DYLIB_IN_CACHE : Nat := 0x80000000

def LC_SEGMENT : Nat := 0x1
def LC_SEGMENT_64 : Nat := 0x19
def LC_LOAD_DYLINKER : Nat := 0xe
def SG_NORELOC : Nat := 0x4

def VM_PROT_READ : Nat := 0x1
def VM_PROT_EXECUTE : Nat := 0x4

def CPU_SUBTYPE_MASK : Nat := 0xff000000
def CPU_TYPE_ARM : Nat := 12
def CPU_TYPE_ARM64 : Nat := 0x0100000c
def CPU_TYPE_ARM64_32 : Nat := 0x0200000c
def CPU_SUBTYPE_ARM_V7K : Nat := 12
def CPU_SUBTYPE_ARM64_ALL : Nat := 0
def CPU_SUBTYPE_ARM64_V8 : Nat := 1

/-- `sizeof(mach_header)`. -/
def sizeof_mach_header : Nat := 28
/-- `sizeof(mach_header_64)`. -/
def sizeof_mach_header_64 : Nat := 32
/-- `sizeof(load_command)`. -/
def sizeof_load_command : Nat := 8
/-- `sizeof(segment_command)`. -/
def sizeof_segment_command : Nat := 56
/-- `sizeof(segment_command_64)`. -/
def sizeof_segment_command_64 : Nat := 72
/-- `sizeof(section)`. -/
def sizeof_section : Nat := 68
/-- `sizeof(section_64)`. -/
def sizeof_section_64 : Nat := 80
/-- `sizeof(fat_header)`. -/
def sizeof_fat_header : Nat := 8
/-- `sizeof(fat_arch)`. -/
def sizeof_fat_arch : Nat := 20
/-- `sizeof(fat_arch_64)`. -/
def sizeof_fat_arch_64 : Nat := 32

/-! ## Diagnostics -/

/-- The messages the embedded functions hand to `Diagnostics::error` / `appendError`,
one constructor per format string, with the numeric arguments that matter. -/
inductive DiagMsg where
  /-- "file does not start with MH_MAGIC[_64]: 0x%08X 0x%08X" -/
  | notMachOWords (h0 h1 : Nat)
  /-- "unknown mach-o filetype (%u)" -/
  | unknownFiletype (filetype : Nat)
  /-- "malformed load command #%u of %u ..., extends past sizeofcmds" -/
  | lcExtendsPastSizeofcmds (i ncmds : Nat)
  /-- "malformed load command #%u of %u ..., size (0x%X) too small" -/
  | lcSizeTooSmall (i ncmds cmdsize : Nat)
  /-- "malformed load command #%u of %u ..., size (0x%X) not multiple of 4" -/
  | lcSizeNotMultipleOf4 (i ncmds cmdsize : Nat)
  /-- "malformed load command #%u of %u ..., size (0x%X) is too large, ..." -/
  | lcSizeTooLarge (i ncmds cmdsize : Nat)
  /-- "MachO header exceeds file length" -/
  | headerExceedsFileLength
  /-- "file does not start with MH_MAGIC[_64]" -/
  | notMachO
  /-- "load commands exceed length of first segment" -/
  | loadCommandsExceedLength
  /-- "slice %d extends beyond end of file" -/
  | sliceExtendsBeyondFile (sliceIndex : Nat)
  /-- "cpu type in slice (0x%08X) does not match fat header (0x%08X)" -/
  | sliceCpuTypeMismatch (inSlice inHeader : Nat)
  /-- "cpu subtype in slice (0x%08X) does not match fat header (0x%08X)" -/
  | sliceCpuSubtypeMismatch (inSlice inHeader : Nat)
  /-- "file is static library" -/
  | fileIsStaticLibrary
  /-- "slice is not page aligned" -/
  | sliceNotPageAligned
  /-- "fat header too large: %u entries" -/
  | fatHeaderTooLarge (numArchs : Nat)
  /-- "fat header malformed, architecture slices extend beyond end of file" -/
  | fatHeaderMalformed
  /-- "not a fat file" -/
  | notFatFile
  /-- "load command size too small for LC_SEGMENT_64" / "... for LC_SEGMENT" -/
  | segCmdSizeTooSmall (is64 : Bool)
  /-- "segment load command size 0x%X will not fit whole number of sections" -/
  | segCmdSizeNotWholeSections (cmdsize : Nat)
  /-- "load command size 0x%X does not match nsects %d" -/
  | segCmdSizeNsectsMismatch (cmdsize nsects : Nat)
  /-- "segment load command content extends beyond end of file" -/
  | segCmdContentBeyondFile
  /-- "segment '%s' filesize exceeds vmsize" -/
  | segFilesizeExceedsVmsize (segname : List Nat)
  /-- "__TEXT segment permissions is not 'r-x'" -/
  | textPermissions
  /-- "__LINKEDIT segment permissions is not 'r--'" -/
  | linkeditPermissions
  /-- "%.*s segment permissions has invalid bits set" -/
  | segPermissionsInvalidBits (segname : List Nat)
  /-- "%.*s segment content extends beyond end of file" -/
  | segContentBeyondFile (segname : List Nat)
  /-- "%.*s segment vm range wraps" -/
  | segVmRangeWraps (segname : List Nat)
  /-- "missing __TEXT segment" -/
  | missingTEXT
  /-- "missing __LINKEDIT segment" -/
  | missingLINKEDIT
  /-- "segment %.*s vm range overlaps segment %.*s" -/
  | segVmOverlap (seg1 seg2 : List Nat)
  /-- "segment %.*s file content overlaps segment %.*s" -/
  | segFileOverlap (seg1 seg2 : List Nat)
  /-- "segment load commands out of order with respect to layout for %.*s and %.*s" -/
  | segOutOfOrder (seg1 seg2 : List Nat)
  /-- "section '%s' size too large 0x%llX" -/
  | sectSizeTooLarge (sectname : List Nat) (size : Nat)
  /-- "section '%s' start address ... is before containing segment's address ..." -/
  | sectStartBeforeSegment (sectname : List Nat) (addr vmaddr : Nat)
  /-- "section '%s' end address ... is beyond containing segment's end address ..." -/
  | sectEndBeyondSegment (sectname : List Nat) (sectEnd segEnd : Nat)
  /-- "malformed uleb128" -/
  | malformedUleb128
  /-- "uleb128 too big for uint64" -/
  | uleb128TooBig
  /-- "malformed trie node, child node extends past end of trie\n" -/
  | trieChildPastEnd
  /-- "malformed trie child, nodeOffset=0x%llX out of range\n" -/
  | trieNodeOffsetOutOfRange (nodeOffset : Nat)
  /-- "malformed trie child, cycle to nodeOffset=0x%llX\n" -/
  | trieCycle (nodeOffset : Nat)
  /-- "unknown pointer format 0x%04X" -/
  | unknownPointerFormat (pointer_format : Nat)
  /-- "malformed import table" -/
  | malformedImportTable
  /-- "malformed import table, string overflow" -/
  | importStringOverflow
  /-- "unknown imports format" -/
  | unknownImportsFormat
  deriving DecidableEq, Repr

/-- The load-command index (`#%u`) a malformed-load-command message names. -/
def DiagMsg.loadCommandIndex : DiagMsg → Option Nat
  | .lcExtendsPastSizeofcmds i _ => some i
  | .lcSizeTooSmall i _ _ => some i
  | .lcSizeNotMultipleOf4 i _ _ => some i
  | .lcSizeTooLarge i _ _ => some i
  | _ => none

/-- Modelled from the spec: class `Diagnostics` is not among the sources.  It is an error
accumulator with a boolean "has error" query; `error` records a message and
`appendError` appends one.  The recorded messages are kept in order. -/
structure Diagnostics where
  msgs : List DiagMsg := []
  deriving DecidableEq, Repr

/-- `Diagnostics::error`. -/
def Diagnostics.error (d : Diagnostics) (m : DiagMsg) : Diagnostics := ⟨d.msgs ++ [m]⟩

/-- `Diagnostics::errorMessageCStr`: the recorded text. -/
def Diagnostics.errorMessageCStr (d : Diagnostics) : List DiagMsg := d.msgs

/-- `Diagnostics::appendError("%s, ", text)`: appends the given text to what is recorded. -/
def Diagnostics.appendError (d : Diagnostics) (text : List DiagMsg) : Diagnostics :=
  ⟨d.msgs ++ text⟩

/-- `Diagnostics::hasError`. -/
def Diagnostics.hasError (d : Diagnostics) : Bool := !d.msgs.isEmpty

/-- `Diagnostics::noError`. -/
def Diagnostics.noError (d : Diagnostics) : Bool := d.msgs.isEmpty

/-! ## Mach header accessors -/

def magic (mh : Mem) : Nat := read32 mh 0
def cputype (mh : Mem) : Nat := read32 mh 4
def cpusubtype (mh : Mem) : Nat := read32 mh 8
def filetype (mh : Mem) : Nat := read32 mh 12
def ncmds (mh : Mem) : Nat := read32 mh 16
def sizeofcmds (mh : Mem) : Nat := read32 mh 20
def flags (mh : Mem) : Nat := read32 mh 24

/-- `MachOFile::is64`. -/
def is64 (mh : Mem) : Bool := magic mh == MH_MAGIC_64

/-- `MachOFile::machHeaderSize`. -/
def machHeaderSize (mh : Mem) : Nat :=
  if is64 mh then sizeof_mach_header_64 else sizeof_mach_header

/-- `MachOFile::hasMachOMagic`. -/
def hasMachOMagic (mh : Mem) : Bool := magic mh == MH_MAGIC || magic mh == MH_MAGIC_64

/-- `MachOFile::hasMachOBigEndianMagic`. -/
def hasMachOBigEndianMagic (mh : Mem) : Bool := magic mh == MH_CIGAM || magic mh == MH_CIGAM_64

/-- `MachOFile::inDyldCache`. -/
def inDyldCache (mh : Mem) : Bool := (flags mh &&& MH_DYLIB_IN_CACHE) != 0

/-- `MachOFile::isPreload`. -/
def isPreload (mh : Mem) : Bool := filetype mh == MH_PRELOAD

/-- `MachOFile::isKextBundle`. -/
def isKextBundle (mh : Mem) : Bool := filetype mh == MH_KEXT_BUNDLE

/-- The `cmd` field of the load command at `cmd`. -/
def lc_cmd (mh : Mem) (cmd : Nat) : Nat := read32 mh cmd

/-- The `cmdsize` field of the load command at `cmd`. -/
def lc_cmdsize (mh : Mem) (cmd : Nat) : Nat := read32 mh (cmd + 4)

/-! ## `MachOFile::forEachLoadCommand` -/

/-- The `for` loop of `MachOFile::forEachLoadCommand`.  The first argument is the number
of iterations still to run (`ncmds - i`), `i` the loop counter and `cmd` the current
command.  The callback receives the command and the captured state, and returns the new
state together with the value it left in `stop`. -/
def forEachLoadCommandLoop {σ : Type} (mh : Mem) (startCmds cmdsEnd cmdsLast : Nat)
    (callback : Nat → Diagnostics × σ → (Diagnostics × σ) × Bool) :
    Nat → Nat → Nat → Diagnostics × σ → Diagnostics × σ
  | 0, _, _, st => st
  | n + 1, i, cmd, st =>
    if cmd > cmdsLast then
      (st.1.error (.lcExtendsPastSizeofcmds i (ncmds mh)), st.2)
    else
      let cmdsize := lc_cmdsize mh cmd
      if cmdsize < 8 then
        (st.1.error (.lcSizeTooSmall i (ncmds mh) cmdsize), st.2)
      else if cmdsize % 4 != 0 then
        (st.1.error (.lcSizeNotMultipleOf4 i (ncmds mh) cmdsize), st.2)
      else
        let nextCmd := cmd + cmdsize
        if nextCmd > cmdsEnd || nextCmd < startCmds then
          (st.1.error (.lcSizeTooLarge i (ncmds mh) cmdsize), st.2)
        else
          let r := callback cmd st
          if r.2 then r.1
          else forEachLoadCommandLoop mh startCmds cmdsEnd cmdsLast callback n (i + 1) nextCmd r.1

/-- `MachOFile::forEachLoadCommand(diag, callback)`.  The state pairs `diag` with the
variables the callback block captures by reference. -/
def forEachLoadCommand {σ : Type} (mh : Mem)
    (callback : Nat → Diagnostics × σ → (Diagnostics × σ) × Bool)
    (st : Diagnostics × σ) : Diagnostics × σ :=
  if magic mh == MH_MAGIC_64 || magic mh == MH_MAGIC then
    let startCmds := if magic mh == MH_MAGIC_64 then sizeof_mach_header_64 else sizeof_mach_header
    if filetype mh > 12 then
      (st.1.error (.unknownFiletype (filetype mh)), st.2)
    else
      let cmdsEnd := startCmds + sizeofcmds mh
      let cmdsLast := startCmds + sizeofcmds mh - sizeof_load_command
      forEachLoadCommandLoop mh startCmds cmdsEnd cmdsLast callback (ncmds mh) 0 startCmds st
  else if hasMachOBigEndianMagic mh then
    st
  else
    (st.1.error (.notMachOWords (read32 mh 0) (read32 mh 4)), st.2)

/-! ## Iteration over a list with a stop flag, and the commands an image exposes -/

/-- Calls `callback` on the elements of a list in order until it asks to stop; returns the
final state and whether a stop was requested. -/
def iterStop {α τ : Type} (callback : α → τ → τ × Bool) : List α → τ → τ × Bool
  | [], t => (t, false)
  | a :: as, t =>
    let r := callback a t
    if r.2 then (r.1, true) else iterStop callback as r.1

/-- The checks of the loop of `forEachLoadCommand` without the callback: the commands
that pass them, in order, and the message of the first command that fails them. -/
def scanLoadCommands (mh : Mem) (startCmds cmdsEnd cmdsLast : Nat) :
    Nat → Nat → Nat → List Nat × Option DiagMsg
  | 0, _, _ => ([], none)
  | n + 1, i, cmd =>
    if cmd > cmdsLast then
      ([], some (.lcExtendsPastSizeofcmds i (ncmds mh)))
    else
      let cmdsize := lc_cmdsize mh cmd
      if cmdsize < 8 then
        ([], some (.lcSizeTooSmall i (ncmds mh) cmdsize))
      else if cmdsize % 4 != 0 then
        ([], some (.lcSizeNotMultipleOf4 i (ncmds mh) cmdsize))
      else
        let nextCmd := cmd + cmdsize
        if nextCmd > cmdsEnd || nextCmd < startCmds then
          ([], some (.lcSizeTooLarge i (ncmds mh) cmdsize))
        else
          let r := scanLoadCommands mh startCmds cmdsEnd cmdsLast n (i + 1) nextCmd
          (cmd :: r.1, r.2)

/-- Region offset (from the end of the mach header) of command `k` when the commands are
laid out back to back. -/
def cmdOffset (mh : Mem) : Nat → Nat
  | 0 => 0
  | k + 1 => cmdOffset mh k + lc_cmdsize mh (machHeaderSize mh + cmdOffset mh k)

/-- Address (offset from `this`) of command `k`. -/
def cmdAddr (mh : Mem) (k : Nat) : Nat := machHeaderSize mh + cmdOffset mh k

/-- Command `k` is well formed: it starts at a region offset `o` with
`o + 8 ≤ sizeofcmds`, its `cmdsize` is at least 8 and a multiple of 4, and it ends at
`o + cmdsize ≤ sizeofcmds`. -/
def cmdValid (mh : Mem) (k : Nat) : Prop :=
  cmdOffset mh k + 8 ≤ sizeofcmds mh ∧
  8 ≤ lc_cmdsize mh (cmdAddr mh k) ∧
  lc_cmdsize mh (cmdAddr mh k) % 4 = 0 ∧
  cmdOffset mh k + lc_cmdsize mh (cmdAddr mh k) ≤ sizeofcmds mh

instance (mh : Mem) (k : Nat) : Decidable (cmdValid mh k) := by
  unfold cmdValid; infer_instance

/-- The commands of the image that pass the checks of `forEachLoadCommand`, and the
message for the first one that does not. -/
def scanImage (mh : Mem) : List Nat × Option DiagMsg :=
  scanLoadCommands mh (machHeaderSize mh) (machHeaderSize mh + sizeofcmds mh)
    (machHeaderSize mh + sizeofcmds mh - sizeof_load_command) (ncmds mh) 0 (machHeaderSize mh)

/-- How `forEachLoadCommand` ends after its callback ran over the well-formed commands. -/
def finishScan {σ : Type} (r : (Diagnostics × σ) × Bool) (err : Option DiagMsg) :
    Diagnostics × σ :=
  if r.2 then r.1 else
    match err with
    | none => r.1
    | some e => (r.1.1.error e, r.1.2)

/-- An image of one 64-bit header followed by one 8-byte load command (`cmd = 0x1b`),
used to exercise `forEachLoadCommand`. -/
def oneCommandImage : Mem :=
  memOfList (le32 MH_MAGIC_64 ++ le32 0 ++ le32 0 ++ le32 2 ++ le32 1 ++ le32 8 ++ le32 0
    ++ le32 0 ++ le32 0x1b ++ le32 8)

/-- A visitor that appends the command it is handed to a list and never asks to stop. -/
def recordVisitor (cmd : Nat) (st : Diagnostics × List Nat) : (Diagnostics × List Nat) × Bool :=
  ((st.1, st.2 ++ [cmd]), false)

/-! ## Integer conversions -/

/-- Conversion of an unsigned value to `int32_t` (low 32 bits, two's complement). -/
def toInt32 (x : Nat) : Int :=
  if x % 4294967296 < 2147483648 then (x % 4294967296 : Nat) else (x % 4294967296 : Nat) - 4294967296

/-- Conversion of an unsigned value to `int64_t` (low 64 bits, two's complement). -/
def toInt64 (x : Nat) : Int :=
  if x % 18446744073709551616 < 9223372036854775808 then (x % 18446744073709551616 : Nat)
  else (x % 18446744073709551616 : Nat) - 18446744073709551616

/-- Conversion of a signed value to `size_t` / `uint64_t`. -/
def toUInt64 (x : Int) : Nat := (x % 18446744073709551616).toNat

/-- Truncation to `uint32_t`. -/
def u32 (x : Nat) : Nat := x % 4294967296

/-- Truncation to `uint64_t`; `u64 (a + b)` is the C sum of two `uint64_t`. -/
def u64 (x : Nat) : Nat := x % 18446744073709551616

/-- Bitwise complement of a `uint32_t`. -/
def not32 (x : Nat) : Nat := 4294967295 - x % 4294967296

/-- Modelled from the spec: the helper `greaterThanAddOrOverflow(addLHS, addRHS, b)` is
declared outside the sources.  Following the invariant `fileOffset+fileSize ≤ fileLength`
and the truncation/overflow error class of the spec, it is true exactly when the sum of
the first two arguments overflows 64 bits or exceeds the third. -/
def greaterThanAddOrOverflow (addLHS addRHS b : Nat) : Bool :=
  decide (18446744073709551616 ≤ addLHS + addRHS) || decide (b < addLHS + addRHS)

/-! ## Segment and section load commands -/

/-- A 16-byte name field as the bytes before its first NUL. -/
def name16 (mh : Mem) (a : Nat) : List Nat :=
  ((List.range 16).map (fun i => read8 mh (a + i))).takeWhile (fun c => c != 0)

/-- "__TEXT". -/
def str_TEXT : List Nat := [0x5f, 0x5f, 0x54, 0x45, 0x58, 0x54]
/-- "__LINKEDIT". -/
def str_LINKEDIT : List Nat := [0x5f, 0x5f, 0x4c, 0x49, 0x4e, 0x4b, 0x45, 0x44, 0x49, 0x54]
/-- "__DWARF". -/
def str_DWARF : List Nat := [0x5f, 0x5f, 0x44, 0x57, 0x41, 0x52, 0x46]

/-! Fields of `segment_command_64` at `seg`. -/
def seg64_segname (mh : Mem) (seg : Nat) : List Nat := name16 mh (seg + 8)
def seg64_vmaddr (mh : Mem) (seg : Nat) : Nat := read64 mh (seg + 24)
def seg64_vmsize (mh : Mem) (seg : Nat) : Nat := read64 mh (seg + 32)
def seg64_fileoff (mh : Mem) (seg : Nat) : Nat := read64 mh (seg + 40)
def seg64_filesize (mh : Mem) (seg : Nat) : Nat := read64 mh (seg + 48)
def seg64_initprot (mh : Mem) (seg : Nat) : Nat := read32 mh (seg + 60)
def seg64_nsects (mh : Mem) (seg : Nat) : Nat := read32 mh (seg + 64)
def seg64_flags (mh : Mem) (seg : Nat) : Nat := read32 mh (seg + 68)

/-! Fields of `segment_command` at `seg`. -/
def seg32_segname (mh : Mem) (seg : Nat) : List Nat := name16 mh (seg + 8)
def seg32_vmaddr (mh : Mem) (seg : Nat) : Nat := read32 mh (seg + 24)
def seg32_vmsize (mh : Mem) (seg : Nat) : Nat := read32 mh (seg + 28)
def seg32_fileoff (mh : Mem) (seg : Nat) : Nat := read32 mh (seg + 32)
def seg32_filesize (mh : Mem) (seg : Nat) : Nat := read32 mh (seg + 36)
def seg32_initprot (mh : Mem) (seg : Nat) : Nat := read32 mh (seg + 44)
def seg32_nsects (mh : Mem) (seg : Nat) : Nat := read32 mh (seg + 48)
def seg32_flags (mh : Mem) (seg : Nat) : Nat := read32 mh (seg + 52)

/-- Address of section `k` of the `segment_command_64` at `seg` (`&sectionsStart[k]`). -/
def sect64_at (seg k : Nat) : Nat := seg + sizeof_segment_command_64 + sizeof_section_64 * k
def sect64_sectname (mh : Mem) (sect : Nat) : List Nat := name16 mh sect
def sect64_addr (mh : Mem) (sect : Nat) : Nat := read64 mh (sect + 32)
def sect64_size (mh : Mem) (sect : Nat) : Nat := read64 mh (sect + 40)

/-- Address of section `k` of the `segment_command` at `seg` (`&sectionsStart[k]`). -/
def sect32_at (seg k : Nat) : Nat := seg + sizeof_segment_command + sizeof_section * k
def sect32_sectname (mh : Mem) (sect : Nat) : List Nat := name16 mh sect
def sect32_addr (mh : Mem) (sect : Nat) : Nat := read32 mh (sect + 32)
def sect32_size (mh : Mem) (sect : Nat) : Nat := read32 mh (sect + 36)

/-- `MachOFile::hasLoadCommand`. -/
def hasLoadCommand (mh : Mem) (cmdNum : Nat) : Bool :=
  (forEachLoadCommand mh
    (fun cmd (st : Diagnostics × Bool) =>
      if lc_cmd mh cmd == cmdNum then ((st.1, true), true) else (st, false))
    ({}, false)).2

/-- `MachOFile::isStaticExecutable`. -/
def isStaticExecutable (mh : Mem) : Bool :=
  if filetype mh != MH_EXECUTE then false
  else !hasLoadCommand mh LC_LOAD_DYLINKER

/-- The kinds of `enum class Malformed` that `MachOFile::enforceFormat` switches over. -/
inductive Malformed where
  | linkeditOrder | linkeditAlignment | linkeditPermissions | dyldInfoAndlocalRelocs
  | segmentOrder | textPermissions | executableData | writableData | codeSigAlignment
  | sectionsAddrRangeWithinSegment | noLinkedDylibs | loaderPathsAreReal
  | mainExecInDyldCache | noUUID | zerofillSwiftMetadata | sdkOnOrAfter2021
  | sdkOnOrAfter2022
  deriving DecidableEq, Repr

/-- Modelled from the spec: `Header::SegmentInfo` is declared outside the sources.  It
carries the segment's name, vm address and size, file offset and size, initial protection
and its position among the segments (`segmentIndex`), each as stored in the command. -/
structure SegmentInfo where
  segmentName : List Nat
  vmaddr : Nat
  vmsize : Nat
  fileOffset : Nat
  fileSize : Nat
  initProt : Nat
  segmentIndex : Nat
  deriving DecidableEq, Repr

/-- The `SegmentInfo` of the `segment_command_64` at `cmd`. -/
def segmentInfo64 (mh : Mem) (cmd segIndex : Nat) : SegmentInfo :=
  { segmentName := seg64_segname mh cmd, vmaddr := seg64_vmaddr mh cmd,
    vmsize := seg64_vmsize mh cmd, fileOffset := seg64_fileoff mh cmd,
    fileSize := seg64_filesize mh cmd, initProt := seg64_initprot mh cmd,
    segmentIndex := segIndex }

/-- The `SegmentInfo` of the `segment_command` at `cmd`. -/
def segmentInfo32 (mh : Mem) (cmd segIndex : Nat) : SegmentInfo :=
  { segmentName := seg32_segname mh cmd, vmaddr := seg32_vmaddr mh cmd,
    vmsize := seg32_vmsize mh cmd, fileOffset := seg32_fileoff mh cmd,
    fileSize := seg32_filesize mh cmd, initProt := seg32_initprot mh cmd,
    segmentIndex := segIndex }

/-- The block `forEachSegment` passes to `forEachLoadCommand`: its state is the caller's
state and the running segment index. -/
def segmentCallback {τ : Type} (mh : Mem) (callback : SegmentInfo → τ → τ × Bool) (cmd : Nat)
    (st : Diagnostics × (τ × Nat)) : (Diagnostics × (τ × Nat)) × Bool :=
  if lc_cmd mh cmd == LC_SEGMENT_64 then
    let r := callback (segmentInfo64 mh cmd st.2.2) st.2.1
    ((st.1, (r.1, st.2.2 + 1)), r.2)
  else if lc_cmd mh cmd == LC_SEGMENT then
    let r := callback (segmentInfo32 mh cmd st.2.2) st.2.1
    ((st.1, (r.1, st.2.2 + 1)), r.2)
  else (st, false)

/-- Modelled from the spec: `Header::forEachSegment` is defined outside the sources.  It
walks the load commands with `forEachLoadCommand` (on diagnostics of its own) and hands
each `LC_SEGMENT_64` / `LC_SEGMENT` command, in command order, to the callback as a
`SegmentInfo`, numbering the segments 0, 1, 2, ... -/
def forEachSegment {τ : Type} (mh : Mem) (callback : SegmentInfo → τ → τ × Bool) (t : τ) : τ :=
  (forEachLoadCommand mh (segmentCallback mh callback) ({}, (t, 0))).2.1

/-! ## `MachOFile::validSegments` -/

/-- The local `int32_t sectionsSpace = cmd->cmdsize - sizeof(segment_command_64)`: the
subtraction is done in `size_t` and the result converted to `int32_t`. -/
def sectionsSpace64 (mh : Mem) (cmd : Nat) : Int :=
  toInt32 (u64 (lc_cmdsize mh cmd + 18446744073709551616 - sizeof_segment_command_64))

/-- The local `int32_t sectionsSpace = cmd->cmdsize - sizeof(segment_command)`. -/
def sectionsSpace32 (mh : Mem) (cmd : Nat) : Int :=
  toInt32 (u64 (lc_cmdsize mh cmd + 18446744073709551616 - sizeof_segment_command))

/-- First block of `validSegments` ("check segment load command size"), the branch for
an `LC_SEGMENT_64` command at `seg`.  The state is `diag` and `badSegmentLoadCommand`;
the returned flag is `stop`. -/
def checkSegmentCommand64 (mh : Mem) (fileLen : Nat) (seg : Nat)
    (st : Diagnostics × Bool) : (Diagnostics × Bool) × Bool :=
  if sectionsSpace64 mh seg < 0 then
    ((st.1.error (.segCmdSizeTooSmall true), true), true)
  else if toUInt64 (sectionsSpace64 mh seg) % sizeof_section_64 != 0 then
    ((st.1.error (.segCmdSizeNotWholeSections (lc_cmdsize mh seg)), true), true)
  else if sectionsSpace64 mh seg != toInt32 (u64 (seg64_nsects mh seg * sizeof_section_64)) then
    ((st.1.error (.segCmdSizeNsectsMismatch (lc_cmdsize mh seg) (seg64_nsects mh seg)), true), true)
  else if greaterThanAddOrOverflow (seg64_fileoff mh seg) (seg64_filesize mh seg) fileLen then
    ((st.1.error .segCmdContentBeyondFile, true), true)
  else if decide (seg64_filesize mh seg > seg64_vmsize mh seg)
      && (seg64_vmsize mh seg != 0 || (seg64_flags mh seg &&& SG_NORELOC) == 0) then
    ((st.1.error (.segFilesizeExceedsVmsize (seg64_segname mh seg)), true), true)
  else (st, false)

/-- First block of `validSegments`, the branch for an `LC_SEGMENT` command at `seg`. -/
def checkSegmentCommand32 (mh : Mem) (seg : Nat)
    (st : Diagnostics × Bool) : (Diagnostics × Bool) × Bool :=
  if sectionsSpace32 mh seg < 0 then
    ((st.1.error (.segCmdSizeTooSmall false), true), true)
  else if toUInt64 (sectionsSpace32 mh seg) % sizeof_section != 0 then
    ((st.1.error (.segCmdSizeNotWholeSections (lc_cmdsize mh seg)), true), true)
  else if sectionsSpace32 mh seg != toInt32 (u64 (seg32_nsects mh seg * sizeof_section)) then
    ((st.1.error (.segCmdSizeNsectsMismatch (lc_cmdsize mh seg) (seg32_nsects mh seg)), true), true)
  else if decide (seg32_filesize mh seg > seg32_vmsize mh seg)
      && (seg32_vmsize mh seg != 0 || (seg32_flags mh seg &&& SG_NORELOC) == 0) then
    ((st.1.error (.segFilesizeExceedsVmsize (seg32_segname mh seg)), true), true)
  else (st, false)

/-- First block of `validSegments` ("check segment load command size"): the callback
passed to `forEachLoadCommand`, dispatching on `cmd->cmd`. -/
def checkSegmentLoadCommand (mh : Mem) (fileLen : Nat) (cmd : Nat)
    (st : Diagnostics × Bool) : (Diagnostics × Bool) × Bool :=
  if lc_cmd mh cmd == LC_SEGMENT_64 then checkSegmentCommand64 mh fileLen cmd st
  else if lc_cmd mh cmd == LC_SEGMENT then checkSegmentCommand32 mh cmd st
  else (st, false)

/-- The variables captured by the second block of `validSegments`. -/
structure SegmentCheckState where
  diag : Diagnostics
  badPermissions : Bool
  badSize : Bool
  hasTEXT : Bool
  hasLINKEDIT : Bool
  deriving DecidableEq, Repr

/-- Second block of `validSegments` ("check mapping permissions of segments"), first
statement of the callback: the `if` / `else if` chain on the segment name.
`enforceFormat kind` stands for `this->enforceFormat(kind)`, whose platform lookup lies
outside the sources. -/
def checkSegmentPermissions (enforceFormat : Malformed → Bool) (info : SegmentInfo)
    (st : SegmentCheckState) : SegmentCheckState × Bool :=
  if info.segmentName == str_TEXT then
    if info.initProt != (VM_PROT_READ ||| VM_PROT_EXECUTE)
        && enforceFormat .textPermissions then
      ({ st with diag := st.diag.error .textPermissions, badPermissions := true,
                 hasTEXT := true }, true)
    else ({ st with hasTEXT := true }, false)
  else if info.segmentName == str_LINKEDIT then
    if info.initProt != VM_PROT_READ && enforceFormat .linkeditPermissions then
      ({ st with diag := st.diag.error .linkeditPermissions, badPermissions := true,
                 hasLINKEDIT := true }, true)
    else ({ st with hasLINKEDIT := true }, false)
  else if (info.initProt &&& 0xFFFFFFF8) != 0 then
    ({ st with diag := st.diag.error (.segPermissionsInvalidBits info.segmentName),
               badPermissions := true }, true)
  else (st, false)

/-- Second block, second statement of the callback: the file-range test.  `r` is the
state and the value of `stop` left by the statement before. -/
def checkSegmentFileRange (fileLen : Nat) (info : SegmentInfo)
    (r : SegmentCheckState × Bool) : SegmentCheckState × Bool :=
  if greaterThanAddOrOverflow info.fileOffset info.fileSize fileLen then
    ({ r.1 with diag := r.1.diag.error (.segContentBeyondFile info.segmentName),
                 badSize := true }, true)
  else r

/-- Second block, third statement of the callback: the vm-range wrap test, by `is64()`. -/
def checkSegmentVmWrap (mh : Mem) (info : SegmentInfo)
    (r : SegmentCheckState × Bool) : SegmentCheckState × Bool :=
  if is64 mh then
    if u64 (info.vmaddr + info.vmsize) < info.vmaddr then
      ({ r.1 with diag := r.1.diag.error (.segVmRangeWraps info.segmentName),
                   badSize := true }, true)
    else r
  else
    if u32 (u64 (info.vmaddr + info.vmsize)) < u32 info.vmaddr then
      ({ r.1 with diag := r.1.diag.error (.segVmRangeWraps info.segmentName),
                   badSize := true }, true)
    else r

/-- Second block of `validSegments`: the callback passed to `forEachSegment`, its three
statements in order. -/
def checkSegmentBounds (mh : Mem) (enforceFormat : Malformed → Bool) (fileLen : Nat)
    (info : SegmentInfo) (st : SegmentCheckState) : SegmentCheckState × Bool :=
  checkSegmentVmWrap mh info
    (checkSegmentFileRange fileLen info (checkSegmentPermissions enforceFormat info st))

/-- The test of the third block for overlapping vm ranges, with the locals
`seg1vmEnd` / `seg2vmEnd` (`vmaddr + vmsize` in `uint64_t`) written out. -/
def vmOverlapTest (info1 info2 : SegmentInfo) : Bool :=
  (decide (info2.vmaddr ≤ info1.vmaddr) && decide (u64 (info2.vmaddr + info2.vmsize) > info1.vmaddr)
      && decide (u64 (info1.vmaddr + info1.vmsize) > info1.vmaddr))
    || (decide (info2.vmaddr ≥ info1.vmaddr)
      && decide (info2.vmaddr < u64 (info1.vmaddr + info1.vmsize))
      && decide (u64 (info2.vmaddr + info2.vmsize) > info2.vmaddr))

/-- The test of the third block for overlapping file ranges, with the locals
`seg1FileEnd` / `seg2FileEnd` (`fileOffset + fileSize` in `uint64_t`) written out. -/
def fileOverlapTest (info1 info2 : SegmentInfo) : Bool :=
  (decide (info2.fileOffset ≤ info1.fileOffset)
      && decide (u64 (info2.fileOffset + info2.fileSize) > info1.fileOffset)
      && decide (u64 (info1.fileOffset + info1.fileSize) > info1.fileOffset))
    || (decide (info2.fileOffset ≥ info1.fileOffset)
      && decide (info2.fileOffset < u64 (info1.fileOffset + info1.fileSize))
      && decide (u64 (info2.fileOffset + info2.fileSize) > info2.fileOffset))

/-- Third block of `validSegments` ("check for overlapping segments"), inner callback run
for `info2` while the outer callback holds `info1`: the vm-overlap statement.  The state
is `diag`, `badSegments` and the outer `stop1`; the returned flag is `stop2`. -/
def checkPairVmOverlap (info1 info2 : SegmentInfo) (st : Diagnostics × Bool × Bool) :
    (Diagnostics × Bool × Bool) × Bool :=
  if vmOverlapTest info1 info2 then
    ((st.1.error (.segVmOverlap info1.segmentName info2.segmentName), true, true), true)
  else (st, false)

/-- Third block, inner callback: the file-overlap statement, disabled for images in the
dyld cache. -/
def checkPairFileOverlap (mh : Mem) (info1 info2 : SegmentInfo)
    (a : (Diagnostics × Bool × Bool) × Bool) : (Diagnostics × Bool × Bool) × Bool :=
  if fileOverlapTest info1 info2 then
    if !inDyldCache mh then
      ((a.1.1.error (.segFileOverlap info1.segmentName info2.segmentName), true, true), true)
    else a
  else a

/-- Third block, inner callback: the segment-order statement. -/
def checkPairOrder (mh : Mem) (enforceFormat : Malformed → Bool) (info1 info2 : SegmentInfo)
    (b : (Diagnostics × Bool × Bool) × Bool) : (Diagnostics × Bool × Bool) × Bool :=
  if decide (info1.segmentIndex < info2.segmentIndex) && !b.1.2.2 then
    if decide (info1.vmaddr > info2.vmaddr)
        || (decide (info1.fileOffset > info2.fileOffset) && info1.fileOffset != 0
          && info2.fileOffset != 0) then
      if !inDyldCache mh && enforceFormat .segmentOrder && !isStaticExecutable mh then
        if info1.segmentName != str_DWARF && info2.segmentName != str_DWARF then
          ((b.1.1.error (.segOutOfOrder info1.segmentName info2.segmentName), true, true), true)
        else b
      else b
    else b
  else b

/-- Third block of `validSegments`: the inner callback, which returns at once when handed
the segment of the outer callback and otherwise runs its three statements in order. -/
def checkSegmentPair (mh : Mem) (enforceFormat : Malformed → Bool)
    (info1 info2 : SegmentInfo) (st : Diagnostics × Bool × Bool) :
    (Diagnostics × Bool × Bool) × Bool :=
  if info1.segmentIndex == info2.segmentIndex then (st, false)
  else
    checkPairOrder mh enforceFormat info1 info2
      (checkPairFileOverlap mh info1 info2 (checkPairVmOverlap info1 info2 st))

/-- Third block of `validSegments`: the outer callback.  The state is `diag` and
`badSegments`; the returned flag is `stop1`. -/
def checkSegmentOverlaps (mh : Mem) (enforceFormat : Malformed → Bool)
    (info1 : SegmentInfo) (st : Diagnostics × Bool) : (Diagnostics × Bool) × Bool :=
  let r := forEachSegment mh (checkSegmentPair mh enforceFormat info1) (st.1, st.2, false)
  ((r.1, r.2.1), r.2.2)

/-- Body of the section loop of the fourth block for the `section_64` at `sect` of the
`segment_command_64` at `seg`.  The state is `diag` and `badSections`.  (The embedding is
of the dyld build, in which neither `BUILDING_APP_CACHE_UTIL` nor `BUILDING_DYLDINFO` is
defined; `ignoreError` is `!enforceFormat(sectionsAddrRangeWithinSegment)`.) -/
def checkSection64 (mh : Mem) (enforceFormat : Malformed → Bool) (seg sect : Nat)
    (st : Diagnostics × Bool) : Diagnostics × Bool :=
  if toInt64 (sect64_size mh sect) < 0 then
    (st.1.error (.sectSizeTooLarge (sect64_sectname mh sect) (sect64_size mh sect)), true)
  else if sect64_addr mh sect < seg64_vmaddr mh seg then
    (st.1.error (.sectStartBeforeSegment (sect64_sectname mh sect) (sect64_addr mh sect)
      (seg64_vmaddr mh seg)), true)
  else if u64 (sect64_addr mh sect + sect64_size mh sect)
      > u64 (seg64_vmaddr mh seg + seg64_vmsize mh seg) then
    if !(!enforceFormat .sectionsAddrRangeWithinSegment) then
      (st.1.error (.sectEndBeyondSegment (sect64_sectname mh sect)
        (u64 (sect64_addr mh sect + sect64_size mh sect))
        (u64 (seg64_vmaddr mh seg + seg64_vmsize mh seg))), true)
    else st
  else st

/-- The section loop of the fourth block for a `segment_command_64` at `seg`: the first
argument counts the sections still to visit, `k` is the index of the current one. -/
def checkSections64 (mh : Mem) (enforceFormat : Malformed → Bool) (seg : Nat) :
    Nat → Nat → Diagnostics × Bool → Diagnostics × Bool
  | 0, _, st => st
  | n + 1, k, st =>
    checkSections64 mh enforceFormat seg n (k + 1)
      (checkSection64 mh enforceFormat seg (sect64_at seg k) st)

/-- Body of the section loop of the fourth block for the `section` at `sect` of the
`segment_command` at `seg`; sums are in `uint32_t`. -/
def checkSection32 (mh : Mem) (seg sect : Nat) (st : Diagnostics × Bool) :
    Diagnostics × Bool :=
  if toInt64 (sect32_size mh sect) < 0 then
    (st.1.error (.sectSizeTooLarge (sect32_sectname mh sect) (sect32_size mh sect)), true)
  else if sect32_addr mh sect < seg32_vmaddr mh seg then
    (st.1.error (.sectStartBeforeSegment (sect32_sectname mh sect) (sect32_addr mh sect)
      (seg32_vmaddr mh seg)), true)
  else if u32 (sect32_addr mh sect + sect32_size mh sect)
      > u32 (seg32_vmaddr mh seg + seg32_vmsize mh seg) then
    (st.1.error (.sectEndBeyondSegment (sect32_sectname mh sect)
      (u32 (sect32_addr mh sect + sect32_size mh sect))
      (u32 (seg32_vmaddr mh seg + seg32_vmsize mh seg))), true)
  else st

/-- The section loop of the fourth block for a `segment_command` at `seg`.  The block
never writes `stop`, so the `!stop` of the loop condition holds throughout. -/
def checkSections32 (mh : Mem) (seg : Nat) :
    Nat → Nat → Diagnostics × Bool → Diagnostics × Bool
  | 0, _, st => st
  | n + 1, k, st =>
    checkSections32 mh seg n (k + 1) (checkSection32 mh seg (sect32_at seg k) st)

/-- Fourth block of `validSegments` ("check sections are within segment"): the callback
passed to `forEachLoadCommand`.  The state is `diag` and `badSections`. -/
def checkSections (mh : Mem) (enforceFormat : Malformed → Bool) (cmd : Nat)
    (st : Diagnostics × Bool) : (Diagnostics × Bool) × Bool :=
  if lc_cmd mh cmd == LC_SEGMENT_64 then
    (checkSections64 mh enforceFormat cmd (seg64_nsects mh cmd) 0 st, false)
  else if lc_cmd mh cmd == LC_SEGMENT then
    (checkSections32 mh cmd (seg32_nsects mh cmd) 0 st, false)
  else (st, false)

/-- `MachOFile::validSegments(diag, path, fileLen)`: the resulting diagnostics and the
returned value. -/
def validSegments (mh : Mem) (enforceFormat : Malformed → Bool) (diag : Diagnostics)
    (fileLen : Nat) : Diagnostics × Bool :=
  let s1 := forEachLoadCommand mh (checkSegmentLoadCommand mh fileLen) (diag, false)
  if s1.2 then (s1.1, false)
  else
    let s2 := forEachSegment mh (checkSegmentBounds mh enforceFormat fileLen)
      { diag := s1.1, badPermissions := false, badSize := false, hasTEXT := false,
        hasLINKEDIT := false }
    if s2.badPermissions || s2.badSize then (s2.diag, false)
    else if !s2.hasTEXT then (s2.diag.error .missingTEXT, false)
    else if !s2.hasLINKEDIT && !isPreload mh then (s2.diag.error .missingLINKEDIT, false)
    else
      let s3 := forEachSegment mh (checkSegmentOverlaps mh enforceFormat) (s2.diag, false)
      if s3.2 then (s3.1, false)
      else
        let s4 := forEachLoadCommand mh (checkSections mh enforceFormat) (s3.1, false)
        (s4.1, !s4.2)

/-- The load commands `forEachLoadCommand` hands to a visitor that never stops. -/
def loadCommandsOf (mh : Mem) : List Nat :=
  (forEachLoadCommand mh recordVisitor ({}, [])).2

/-- The segments `forEachSegment` hands to a visitor that never stops. -/
def segmentsOf (mh : Mem) : List SegmentInfo :=
  forEachSegment mh (fun info (acc : List SegmentInfo) => (acc ++ [info], false)) []

/-- The commands `forEachLoadCommand` can reach on an image with any magic and filetype,
and the message it records after them. -/
def imageScan (mh : Mem) : List Nat × Option DiagMsg :=
  if magic mh == MH_MAGIC_64 || magic mh == MH_MAGIC then
    if filetype mh > 12 then ([], some (.unknownFiletype (filetype mh)))
    else scanImage mh
  else if hasMachOBigEndianMagic mh then ([], none)
  else ([], some (.notMachOWords (read32 mh 0) (read32 mh 4)))

/-- The segments among a list of commands, numbered from `idx` on. -/
def segInfosFrom (mh : Mem) : List Nat → Nat → List SegmentInfo
  | [], _ => []
  | cmd :: rest, idx =>
    if lc_cmd mh cmd == LC_SEGMENT_64 then
      segmentInfo64 mh cmd idx :: segInfosFrom mh rest (idx + 1)
    else if lc_cmd mh cmd == LC_SEGMENT then
      segmentInfo32 mh cmd idx :: segInfosFrom mh rest (idx + 1)
    else segInfosFrom mh rest idx

/-! ## Concrete images used to exercise the embedding -/

/-- A name padded with NUL bytes to the 16 bytes of a `segname` / `sectname` field. -/
def pad16 (name : List Nat) : List Nat := name ++ List.replicate (16 - name.length) 0

/-- Bytes of a `mach_header_64` (cputype and cpusubtype 0). -/
def machHeader64 (filetype ncmds sizeofcmds flags : Nat) : List Nat :=
  le32 MH_MAGIC_64 ++ le32 0 ++ le32 0 ++ le32 filetype ++ le32 ncmds ++ le32 sizeofcmds
    ++ le32 flags ++ le32 0

/-- Bytes of a `segment_command_64` with the given `cmdsize` and fields (`maxprot` 7). -/
def segmentCommand64 (cmdsize : Nat) (name : List Nat)
    (vmaddr vmsize fileoff filesize initprot nsects flags : Nat) : List Nat :=
  le32 LC_SEGMENT_64 ++ le32 cmdsize ++ pad16 name ++ le64 vmaddr ++ le64 vmsize
    ++ le64 fileoff ++ le64 filesize ++ le32 7 ++ le32 initprot ++ le32 nsects ++ le32 flags

/-- Bytes of a `section_64` with the given name, address and size (other fields 0). -/
def section64 (sectname segname : List Nat) (addr size : Nat) : List Nat :=
  pad16 sectname ++ pad16 segname ++ le64 addr ++ le64 size ++ List.replicate 32 0

/-- "__DATA". -/
def str_DATA : List Nat := [0x5f, 0x5f, 0x44, 0x41, 0x54, 0x41]

/-- The policy under which every format check is enforced. -/
def enforceAll : Malformed → Bool := fun _ => true

/-- A well-formed 64-bit image: `__TEXT` (`r-x`, vm `[0x1000,0x2000)`, file `[0,0x1000)`)
and `__LINKEDIT` (`r--`, vm `[0x2000,0x3000)`, file `[0x1000,0x2000)`), no sections. -/
def goodImage : Mem :=
  memOfList (machHeader64 6 2 144 0
    ++ segmentCommand64 72 str_TEXT 0x1000 0x1000 0 0x1000 5 0 0
    ++ segmentCommand64 72 str_LINKEDIT 0x2000 0x1000 0x1000 0x1000 1 0 0)

/-- Two segments with vm ranges `[0x1000,0x2000)` and `[0x1800,0x2800)` and disjoint file
ranges. -/
def vmOverlapImage : Mem :=
  memOfList (machHeader64 6 2 144 0
    ++ segmentCommand64 72 str_TEXT 0x1000 0x1000 0 0x1000 5 0 0
    ++ segmentCommand64 72 str_LINKEDIT 0x1800 0x1000 0x1000 0x1000 1 0 0)

/-- End of a segment's vm range as the validator computes it
(`uint64_t segNvmEnd = info.vmaddr + info.vmsize`); it equals the exact sum whenever that
sum is below `2^64`. -/
def SegmentInfo.vmEnd (s : SegmentInfo) : Nat := u64 (s.vmaddr + s.vmsize)

/-- "__LLVM". -/
def str_LLVM : List Nat := [0x5f, 0x5f, 0x4c, 0x4c, 0x56, 0x4d]

/-- An image flagged `MH_DYLIB_IN_CACHE` whose two segments have disjoint vm ranges and
file ranges `[0,0x1000)` and `[0x800,0x1800)`. -/
def cacheOverlapImage : Mem :=
  memOfList (machHeader64 6 2 144 MH_DYLIB_IN_CACHE
    ++ segmentCommand64 72 str_TEXT 0x1000 0x1000 0 0x1000 5 0 0
    ++ segmentCommand64 72 str_LINKEDIT 0x2000 0x1000 0x800 0x1000 1 0 0)

/-- `goodImage` with a third segment `__LLVM` marked `SG_NORELOC` whose `vmsize` is
`0x1000` and whose `filesize` is `0x2000`. -/
def norelocImage : Mem :=
  memOfList (machHeader64 6 3 216 0
    ++ segmentCommand64 72 str_TEXT 0x1000 0x1000 0 0x1000 5 0 0
    ++ segmentCommand64 72 str_LINKEDIT 0x2000 0x1000 0x1000 0x1000 1 0 0
    ++ segmentCommand64 72 str_LLVM 0x3000 0x1000 0x2000 0x2000 1 0 SG_NORELOC)

/-- A preload image whose only command is a `__TEXT` `segment_command_64` of
`cmdsize` 72 (room for no section) that declares `nsects = 0x10000000`. -/
def truncatedNsectsImage : Mem :=
  memOfList (machHeader64 MH_PRELOAD 1 72 0
    ++ segmentCommand64 72 str_TEXT 0 0x1000 0 0x1000 5 0x10000000 0)

/-- A preload image whose `__TEXT` segment has vm range
`[0xFFFFFFFFFFFFF000, 0xFFFFFFFFFFFFF800)` and one section at `0xFFFFFFFFFFFFFFF0` of
size `0x20`. -/
def wrapSectionImage : Mem :=
  memOfList (machHeader64 MH_PRELOAD 1 152 0
    ++ segmentCommand64 152 str_TEXT 0xFFFFFFFFFFFFF000 0x800 0 0x800 5 1 0
    ++ section64 [0x5f, 0x5f, 0x74, 0x65, 0x78, 0x74] str_TEXT 0xFFFFFFFFFFFFFFF0 0x20)

/-! ## `GradedArchs` -/

/-- An entry of `GradedArchs::_orderedCpuTypes`, with the fields in the order of the
initialisers `{GRADE_xxx, n}`: type, subtype, osBinary, grade. -/
structure CpuGrade where
  type : Nat
  subtype : Nat
  osBinary : Bool
  grade : Int
  deriving DecidableEq, Repr

/-- A grading table: the entries of `_orderedCpuTypes` in order. -/
structure GradedArchs where
  orderedCpuTypes : List CpuGrade
  deriving DecidableEq, Repr

/-- The `for` loop of `GradedArchs::grade` over the remaining entries. -/
def GradedArchs.gradeLoop (cputype cpusubtype : Nat) (isOSBinary : Bool) : List CpuGrade → Int
  | [] => 0
  | p :: rest =>
    if p.type == 0 then 0
    else if p.type == cputype && p.subtype == (cpusubtype &&& not32 CPU_SUBTYPE_MASK) then
      if p.osBinary then
        if isOSBinary then p.grade
        else GradedArchs.gradeLoop cputype cpusubtype isOSBinary rest
      else p.grade
    else GradedArchs.gradeLoop cputype cpusubtype isOSBinary rest

/-- `GradedArchs::grade`. -/
def GradedArchs.grade (archs : GradedArchs) (cputype cpusubtype : Nat) (isOSBinary : Bool) : Int :=
  GradedArchs.gradeLoop cputype cpusubtype isOSBinary archs.orderedCpuTypes

/-- The entries of a zero-terminated table: those before the first entry of type 0. -/
def GradedArchs.entries (archs : GradedArchs) : List CpuGrade :=
  archs.orderedCpuTypes.takeWhile (fun p => p.type != 0)

/-- An entry qualifies for a query: its type equals `cputype`, its subtype equals
`cpusubtype` with the feature bits cleared, and its os-binary requirement is satisfied. -/
def CpuGrade.qualifies (p : CpuGrade) (cputype cpusubtype : Nat) (isOSBinary : Bool) : Bool :=
  p.type == cputype && p.subtype == (cpusubtype &&& not32 CPU_SUBTYPE_MASK)
    && (!p.osBinary || isOSBinary)

def CPU_TYPE_I386 : Nat := 7
def CPU_TYPE_X86_64 : Nat := 0x01000007
def CPU_SUBTYPE_I386_ALL : Nat := 3
def CPU_SUBTYPE_X86_64_ALL : Nat := 3
def CPU_SUBTYPE_X86_64_H : Nat := 8
def CPU_SUBTYPE_ARM_V7 : Nat := 9
def CPU_SUBTYPE_ARM_V7S : Nat := 11
def CPU_SUBTYPE_ARM_V7M : Nat := 15
def CPU_SUBTYPE_ARM_V7EM : Nat := 16
def CPU_SUBTYPE_ARM64E : Nat := 2
def CPU_SUBTYPE_ARM64_32_V8 : Nat := 1

/-- `GradedArchs::x86_64`. -/
def GradedArchs.x86_64 : GradedArchs :=
  ⟨[⟨CPU_TYPE_X86_64, CPU_SUBTYPE_X86_64_ALL, false, 1⟩, ⟨0, 0, false, 0⟩]⟩

/-- `GradedArchs::x86_64h`. -/
def GradedArchs.x86_64h : GradedArchs :=
  ⟨[⟨CPU_TYPE_X86_64, CPU_SUBTYPE_X86_64_H, false, 2⟩,
    ⟨CPU_TYPE_X86_64, CPU_SUBTYPE_X86_64_ALL, false, 1⟩, ⟨0, 0, false, 0⟩]⟩

/-- `GradedArchs::arm64e_keysoff_pb`. -/
def GradedArchs.arm64e_keysoff_pb : GradedArchs :=
  ⟨[⟨CPU_TYPE_ARM64, CPU_SUBTYPE_ARM64E, true, 2⟩,
    ⟨CPU_TYPE_ARM64, CPU_SUBTYPE_ARM64_ALL, false, 1⟩, ⟨0, 0, false, 0⟩]⟩

/-! ## `FatFile` -/

/-- Byte swap of a 32-bit value: `OSSwapBigToHostInt32` on a little-endian host. -/
def OSSwapBigToHostInt32 (x : Nat) : Nat :=
  (x % 256) * 16777216 + (x / 256 % 256) * 65536 + (x / 65536 % 256) * 256
    + (x / 16777216 % 256)

/-- Byte swap of a 64-bit value: `OSSwapBigToHostInt64` on a little-endian host. -/
def OSSwapBigToHostInt64 (x : Nat) : Nat :=
  OSSwapBigToHostInt32 (x % 4294967296) * 4294967296 + OSSwapBigToHostInt32 (x / 4294967296)

/-- The `magic` field of a `fat_header`, as stored. -/
def fat_magic (fat : Mem) : Nat := read32 fat 0

/-- The `nfat_arch` field of a `fat_header`, as stored. -/
def fat_nfat_arch (fat : Mem) : Nat := read32 fat 4

/-- `MachOFile::uses16KPages`. -/
def uses16KPages (mh : Mem) : Bool :=
  if cputype mh == CPU_TYPE_ARM64 || cputype mh == CPU_TYPE_ARM64_32 then true
  else if cputype mh == CPU_TYPE_ARM then
    if isKextBundle mh then false
    else cpusubtype mh == CPU_SUBTYPE_ARM_V7K
  else false

/-- `MachOFile::isMachO(diag, fileSize)`: the resulting diagnostics and the returned
value.  The block passed to `forEachLoadCommand` is empty. -/
def isMachO (mh : Mem) (diag : Diagnostics) (fileSize : Nat) : Diagnostics × Bool :=
  if fileSize < sizeof_mach_header then
    (diag.error .headerExceedsFileLength, false)
  else if !hasMachOMagic mh then
    if !hasMachOBigEndianMagic mh then (diag.error .notMachO, false)
    else (diag, false)
  else if sizeofcmds mh + machHeaderSize mh > fileSize then
    (diag.error .loadCommandsExceedLength, false)
  else
    let r := forEachLoadCommand mh (fun _ (st : Diagnostics × Unit) => (st, false)) (diag, ())
    (r.1, r.1.noError)

/-- The bytes of "!<arch>". -/
def str_arch : List Nat := [0x21, 0x3c, 0x61, 0x72, 0x63, 0x68, 0x3e]

/-- `strncmp(p, "!<arch>", 7) == 0` for the bytes at `a`. -/
def startsWithArch (m : Mem) (a : Nat) : Bool :=
  (List.range 7).map (fun i => read8 m (a + i)) == str_arch

/-- `FatFile::isValidSlice`: the resulting diagnostics and the returned value. -/
def isValidSlice (fat : Mem) (diag : Diagnostics) (fileLen sliceIndex sliceCpuType
    sliceCpuSubType sliceOffset sliceLen : Nat) : Diagnostics × Bool :=
  if greaterThanAddOrOverflow sliceOffset sliceLen fileLen then
    (diag.error (.sliceExtendsBeyondFile sliceIndex), false)
  else
    let mf := shift fat sliceOffset
    let r := isMachO mf diag sliceLen
    if !r.2 then (r.1, false)
    else if cputype mf != sliceCpuType then
      (r.1.error (.sliceCpuTypeMismatch (cputype mf) sliceCpuType), false)
    else if (cpusubtype mf &&& not32 CPU_SUBTYPE_MASK)
        != (sliceCpuSubType &&& not32 CPU_SUBTYPE_MASK) then
      (r.1.error (.sliceCpuSubtypeMismatch (cpusubtype mf) sliceCpuSubType), false)
    else
      let pageSizeMask := if uses16KPages mf then 0x3FFF else 0xFFF
      if (sliceOffset &&& pageSizeMask) != 0 then
        if startsWithArch fat sliceOffset then (r.1.error .fileIsStaticLibrary, false)
        else (r.1.error .sliceNotPageAligned, false)
      else (r.1, true)

/-- A slice as handed to the callback of `forEachSlice`: cpu type and subtype, the
offset of `sliceStart` from the start of the fat file, and the slice size. -/
structure Slice where
  cpuType : Nat
  cpuSubType : Nat
  offset : Nat
  size : Nat
  deriving DecidableEq, Repr

/-- Descriptor `i` of a `FAT_MAGIC` file (`archs[i]`, a `fat_arch`), fields swapped to
host order. -/
def fatArch (fat : Mem) (i : Nat) : Slice :=
  { cpuType := OSSwapBigToHostInt32 (read32 fat (sizeof_fat_header + sizeof_fat_arch * i)),
    cpuSubType := OSSwapBigToHostInt32 (read32 fat (sizeof_fat_header + sizeof_fat_arch * i + 4)),
    offset := OSSwapBigToHostInt32 (read32 fat (sizeof_fat_header + sizeof_fat_arch * i + 8)),
    size := OSSwapBigToHostInt32 (read32 fat (sizeof_fat_header + sizeof_fat_arch * i + 12)) }

/-- Descriptor `i` of a `FAT_MAGIC_64` file (`archs[i]`, a `fat_arch_64`), fields swapped
to host order. -/
def fatArch64 (fat : Mem) (i : Nat) : Slice :=
  { cpuType := OSSwapBigToHostInt32 (read32 fat (sizeof_fat_header + sizeof_fat_arch_64 * i)),
    cpuSubType :=
      OSSwapBigToHostInt32 (read32 fat (sizeof_fat_header + sizeof_fat_arch_64 * i + 4)),
    offset := OSSwapBigToHostInt64 (read64 fat (sizeof_fat_header + sizeof_fat_arch_64 * i + 8)),
    size := OSSwapBigToHostInt64 (read64 fat (sizeof_fat_header + sizeof_fat_arch_64 * i + 16)) }

/-- The condition `!validate || isValidSlice(d, fileLen, i, ...)` for descriptor `a`:
what it leaves in the diagnostics `d` and its value. -/
def sliceValidation (fat : Mem) (d : Diagnostics) (fileLen : Nat) (validate : Bool) (i : Nat)
    (a : Slice) : Diagnostics × Bool :=
  if !validate then (d, true)
  else isValidSlice fat d fileLen i a.cpuType a.cpuSubType a.offset a.size

/-- One iteration of the `for` loop of the `FAT_MAGIC` branch of `forEachSlice`, for
descriptor `i`: the slice is validated on a fresh `sliceDiag`, the callback runs if the
condition holds, and unless it asked to stop the slice's error text is appended to
`diag`.  Returns the new state and `stop`. -/
def forEachSliceStep32 {σ : Type} (fat : Mem) (fileLen : Nat) (validate : Bool)
    (callback : Slice → σ → σ × Bool) (i : Nat) (st : Diagnostics × σ) :
    (Diagnostics × σ) × Bool :=
  if (sliceValidation fat {} fileLen validate i (fatArch fat i)).2 then
    if (callback (fatArch fat i) st.2).2 then
      ((st.1, (callback (fatArch fat i) st.2).1), true)
    else if (sliceValidation fat {} fileLen validate i (fatArch fat i)).1.hasError then
      ((st.1.appendError
          (sliceValidation fat {} fileLen validate i (fatArch fat i)).1.errorMessageCStr,
        (callback (fatArch fat i) st.2).1), false)
    else ((st.1, (callback (fatArch fat i) st.2).1), false)
  else if (sliceValidation fat {} fileLen validate i (fatArch fat i)).1.hasError then
    ((st.1.appendError
        (sliceValidation fat {} fileLen validate i (fatArch fat i)).1.errorMessageCStr,
      st.2), false)
  else (st, false)

/-- The `for` loop of the `FAT_MAGIC` branch of `FatFile::forEachSlice`.  The first
argument counts the iterations still to run, `i` is the loop counter.  The state is `diag`
and what the callback captures. -/
def forEachSliceLoop32 {σ : Type} (fat : Mem) (fileLen : Nat) (validate : Bool)
    (callback : Slice → σ → σ × Bool) :
    Nat → Nat → Diagnostics × σ → Diagnostics × σ
  | 0, _, st => st
  | n + 1, i, st =>
    if (forEachSliceStep32 fat fileLen validate callback i st).2 then
      (forEachSliceStep32 fat fileLen validate callback i st).1
    else
      forEachSliceLoop32 fat fileLen validate callback n (i + 1)
        (forEachSliceStep32 fat fileLen validate callback i st).1

/-- One iteration of the `for` loop of the `FAT_MAGIC_64` branch of `forEachSlice`: the
slice is validated on `diag` itself.  Returns the new state and `stop`. -/
def forEachSliceStep64 {σ : Type} (fat : Mem) (fileLen : Nat) (validate : Bool)
    (callback : Slice → σ → σ × Bool) (i : Nat) (st : Diagnostics × σ) :
    (Diagnostics × σ) × Bool :=
  if (sliceValidation fat st.1 fileLen validate i (fatArch64 fat i)).2 then
    (((sliceValidation fat st.1 fileLen validate i (fatArch64 fat i)).1,
      (callback (fatArch64 fat i) st.2).1), (callback (fatArch64 fat i) st.2).2)
  else (((sliceValidation fat st.1 fileLen validate i (fatArch64 fat i)).1, st.2), false)

/-- The `for` loop of the `FAT_MAGIC_64` branch of `FatFile::forEachSlice`. -/
def forEachSliceLoop64 {σ : Type} (fat : Mem) (fileLen : Nat) (validate : Bool)
    (callback : Slice → σ → σ × Bool) :
    Nat → Nat → Diagnostics × σ → Diagnostics × σ
  | 0, _, st => st
  | n + 1, i, st =>
    if (forEachSliceStep64 fat fileLen validate callback i st).2 then
      (forEachSliceStep64 fat fileLen validate callback i st).1
    else
      forEachSliceLoop64 fat fileLen validate callback n (i + 1)
        (forEachSliceStep64 fat fileLen validate callback i st).1

/-- The "look for one more slice" step after the loop of the `FAT_MAGIC` branch; it runs
also when the loop was left by `break`. -/
def forEachSliceExtra {σ : Type} (fat : Mem) (fileLen : Nat) (validate : Bool)
    (callback : Slice → σ → σ × Bool) (numArchs maxArchs : Nat) (st : Diagnostics × σ) :
    Diagnostics × σ :=
  if numArchs != maxArchs then
    if (fatArch fat numArchs).cpuType == CPU_TYPE_ARM64
        && ((fatArch fat numArchs).cpuSubType == CPU_SUBTYPE_ARM64_ALL
          || (fatArch fat numArchs).cpuSubType == CPU_SUBTYPE_ARM64_V8) then
      if (sliceValidation fat st.1 fileLen validate numArchs (fatArch fat numArchs)).2 then
        ((sliceValidation fat st.1 fileLen validate numArchs (fatArch fat numArchs)).1,
          (callback (fatArch fat numArchs) st.2).1)
      else ((sliceValidation fat st.1 fileLen validate numArchs (fatArch fat numArchs)).1, st.2)
    else st
  else st

/-- `FatFile::forEachSlice(diag, fileLen, validate, callback)`.  The state is `diag` and
what the callback captures.  `maxArchs` is `(4096 - sizeof(fat_header)) / sizeof(fat_arch)`. -/
def forEachSlice {σ : Type} (fat : Mem) (fileLen : Nat) (validate : Bool)
    (callback : Slice → σ → σ × Bool) (st : Diagnostics × σ) : Diagnostics × σ :=
  if fat_magic fat == OSSwapBigToHostInt32 FAT_MAGIC then
    if OSSwapBigToHostInt32 (fat_nfat_arch fat) > (4096 - sizeof_fat_header) / sizeof_fat_arch then
      (st.1.error (.fatHeaderTooLarge (OSSwapBigToHostInt32 (fat_nfat_arch fat))), st.2)
    else if sizeof_fat_header
        + (u32 (OSSwapBigToHostInt32 (fat_nfat_arch fat) + 1) * sizeof_fat_arch) > fileLen then
      (st.1.error .fatHeaderMalformed, st.2)
    else
      forEachSliceExtra fat fileLen validate callback (OSSwapBigToHostInt32 (fat_nfat_arch fat))
        ((4096 - sizeof_fat_header) / sizeof_fat_arch)
        (forEachSliceLoop32 fat fileLen validate callback
          (OSSwapBigToHostInt32 (fat_nfat_arch fat)) 0 st)
  else if fat_magic fat == OSSwapBigToHostInt32 FAT_MAGIC_64 then
    if OSSwapBigToHostInt32 (fat_nfat_arch fat)
        > (4096 - sizeof_fat_header) / sizeof_fat_arch_64 then
      (st.1.error (.fatHeaderTooLarge (OSSwapBigToHostInt32 (fat_nfat_arch fat))), st.2)
    else if sizeof_fat_header
        + (OSSwapBigToHostInt32 (fat_nfat_arch fat) * sizeof_fat_arch_64) > fileLen then
      (st.1.error .fatHeaderMalformed, st.2)
    else
      forEachSliceLoop64 fat fileLen validate callback
        (OSSwapBigToHostInt32 (fat_nfat_arch fat)) 0 st
  else
    (st.1.error .notFatFile, st.2)

/-- What `isFatFileWithSlice` leaves behind: the returned value, the reference
parameters `sliceOffset`, `sliceLen`, `missingSlice`, and the diagnostics. -/
structure SliceSelection where
  result : Bool
  sliceOffset : Nat
  sliceLen : Nat
  missingSlice : Bool
  diag : Diagnostics
  deriving DecidableEq, Repr

/-- The grade of a slice: `archs.grade(sliceCpuType, sliceCpuSubType, isOSBinary)`. -/
def sliceGrade (archs : GradedArchs) (isOSBinary : Bool) (s : Slice) : Int :=
  archs.grade s.cpuType s.cpuSubType isOSBinary

/-- The block `isFatFileWithSlice` passes to `forEachSlice`.  The state is `sliceOffset`,
`sliceLen` and `bestGrade`. -/
def bestSliceCallback (archs : GradedArchs) (isOSBinary : Bool) (s : Slice)
    (st : Nat × Nat × Int) : (Nat × Nat × Int) × Bool :=
  if sliceGrade archs isOSBinary s != 0 then
    if sliceGrade archs isOSBinary s > st.2.2 then
      ((s.offset, s.size, sliceGrade archs isOSBinary s), false)
    else (st, false)
  else (st, false)

/-- `FatFile::isFatFileWithSlice`.  `sliceOffset0` and `sliceLen0` are the values the
reference parameters hold at entry. -/
def isFatFileWithSlice (fat : Mem) (diag : Diagnostics) (fileLen : Nat) (archs : GradedArchs)
    (isOSBinary : Bool) (sliceOffset0 sliceLen0 : Nat) : SliceSelection :=
  if fat_magic fat != OSSwapBigToHostInt32 FAT_MAGIC
      && fat_magic fat != OSSwapBigToHostInt32 FAT_MAGIC_64 then
    { result := false, sliceOffset := sliceOffset0, sliceLen := sliceLen0,
      missingSlice := false, diag := diag }
  else
    let r := forEachSlice fat fileLen true (bestSliceCallback archs isOSBinary)
      (diag, (sliceOffset0, sliceLen0, 0))
    if r.1.hasError then
      { result := false, sliceOffset := r.2.1, sliceLen := r.2.2.1, missingSlice := false,
        diag := r.1 }
    else
      { result := r.2.2.2 != 0, sliceOffset := r.2.1, sliceLen := r.2.2.1,
        missingSlice := r.2.2.2 == 0, diag := r.1 }

/-- The slices `forEachSlice` hands, with validation, to a visitor that never stops,
and the diagnostics it ends with. -/
def sliceScan (fat : Mem) (diag : Diagnostics) (fileLen : Nat) : Diagnostics × List Slice :=
  forEachSlice fat fileLen true (fun s (acc : List Slice) => (acc ++ [s], false)) (diag, [])

/-- Memory made of byte lists placed at given offsets; zero bytes elsewhere. -/
def memOfPieces : List (Nat × List Nat) → Mem
  | [] => fun _ => 0
  | (base, bytes) :: rest => fun a =>
    if base ≤ a ∧ a < base + bytes.length then bytes.getD (a - base) 0
    else memOfPieces rest a

/-- Bytes of a `fat_arch` descriptor (big-endian fields, `align` 12). -/
def fatArchBytes (cputype cpusubtype offset size : Nat) : List Nat :=
  be32 cputype ++ be32 cpusubtype ++ be32 offset ++ be32 size ++ be32 12

/-- Bytes of a `mach_header_64` of filetype `MH_DYLIB` with no load commands. -/
def emptyDylibHeader (cputype cpusubtype : Nat) : List Nat :=
  le32 MH_MAGIC_64 ++ le32 cputype ++ le32 cpusubtype ++ le32 6 ++ le32 0 ++ le32 0
    ++ le32 0 ++ le32 0

/-- A `FAT_MAGIC` archive of length `0x2020` with an x86_64 slice at `0x1000` and an
x86_64h slice at `0x2000`, each a 32-byte image without load commands. -/
def twoSliceFat : Mem :=
  memOfPieces
    [(0, be32 FAT_MAGIC ++ be32 2
        ++ fatArchBytes CPU_TYPE_X86_64 CPU_SUBTYPE_X86_64_ALL 0x1000 32
        ++ fatArchBytes CPU_TYPE_X86_64 CPU_SUBTYPE_X86_64_H 0x2000 32),
     (0x1000, emptyDylibHeader CPU_TYPE_X86_64 CPU_SUBTYPE_X86_64_ALL),
     (0x2000, emptyDylibHeader CPU_TYPE_X86_64 CPU_SUBTYPE_X86_64_H)]

/-- A `FAT_MAGIC` archive of length `0x2020` whose first descriptor (i386, offset
`0x1000`) points at zero bytes and whose second descriptor is a well-formed x86_64 slice
at `0x2000`. -/
def brokenFirstSliceFat : Mem :=
  memOfPieces
    [(0, be32 FAT_MAGIC ++ be32 2
        ++ fatArchBytes CPU_TYPE_I386 CPU_SUBTYPE_I386_ALL 0x1000 32
        ++ fatArchBytes CPU_TYPE_X86_64 CPU_SUBTYPE_X86_64_ALL 0x2000 32),
     (0x2000, emptyDylibHeader CPU_TYPE_X86_64 CPU_SUBTYPE_X86_64_ALL)]

/-! ### The static tables of `GradedArchs`

Each table lists the entries given to the constructor, followed by the zero entry that
terminates it. -/

/-- The zero entry that terminates a table. -/
def CpuGrade.terminator : CpuGrade := ⟨0, 0, false, 0⟩

def GRADE_i386 (g : Int) : CpuGrade := ⟨CPU_TYPE_I386, CPU_SUBTYPE_I386_ALL, false, g⟩
def GRADE_x86_64 (g : Int) : CpuGrade := ⟨CPU_TYPE_X86_64, CPU_SUBTYPE_X86_64_ALL, false, g⟩
def GRADE_x86_64h (g : Int) : CpuGrade := ⟨CPU_TYPE_X86_64, CPU_SUBTYPE_X86_64_H, false, g⟩
def GRADE_armv7 (g : Int) : CpuGrade := ⟨CPU_TYPE_ARM, CPU_SUBTYPE_ARM_V7, false, g⟩
def GRADE_armv7s (g : Int) : CpuGrade := ⟨CPU_TYPE_ARM, CPU_SUBTYPE_ARM_V7S, false, g⟩
def GRADE_armv7k (g : Int) : CpuGrade := ⟨CPU_TYPE_ARM, CPU_SUBTYPE_ARM_V7K, false, g⟩
def GRADE_armv7m (g : Int) : CpuGrade := ⟨CPU_TYPE_ARM, CPU_SUBTYPE_ARM_V7M, false, g⟩
def GRADE_armv7em (g : Int) : CpuGrade := ⟨CPU_TYPE_ARM, CPU_SUBTYPE_ARM_V7EM, false, g⟩
def GRADE_arm64 (g : Int) : CpuGrade := ⟨CPU_TYPE_ARM64, CPU_SUBTYPE_ARM64_ALL, false, g⟩
def GRADE_arm64e (g : Int) : CpuGrade := ⟨CPU_TYPE_ARM64, CPU_SUBTYPE_ARM64E, false, g⟩
def GRADE_arm64e_pb (g : Int) : CpuGrade := ⟨CPU_TYPE_ARM64, CPU_SUBTYPE_ARM64E, true, g⟩
def GRADE_arm64_32 (g : Int) : CpuGrade :=
  ⟨CPU_TYPE_ARM64_32, CPU_SUBTYPE_ARM64_32_V8, false, g⟩

/-- The static tables `GradedArchs::i386`, `x86_64`, `x86_64h`, `arm64`, `arm64e_keysoff`,
`arm64e_keysoff_pb`, `arm64e`, `arm64e_pb`, `armv7`, `armv7s`, `armv7k`, `armv7m`,
`armv7em`, `arm64_32`, `launch_AS`, `launch_AS_Sim`, `launch_Intel_h`, `launch_Intel`,
`launch_Intel_Sim`, in the order of the source. -/
def GradedArchs.staticTables : List GradedArchs :=
  [⟨[GRADE_i386 1, .terminator]⟩,
   ⟨[GRADE_x86_64 1, .terminator]⟩,
   ⟨[GRADE_x86_64h 2, GRADE_x86_64 1, .terminator]⟩,
   ⟨[GRADE_arm64 1, .terminator]⟩,
   ⟨[GRADE_arm64e 2, GRADE_arm64 1, .terminator]⟩,
   ⟨[GRADE_arm64e_pb 2, GRADE_arm64 1, .terminator]⟩,
   ⟨[GRADE_arm64e 1, .terminator]⟩,
   ⟨[GRADE_arm64e_pb 1, .terminator]⟩,
   ⟨[GRADE_armv7 1, .terminator]⟩,
   ⟨[GRADE_armv7s 2, GRADE_armv7 1, .terminator]⟩,
   ⟨[GRADE_armv7k 1, .terminator]⟩,
   ⟨[GRADE_armv7m 1, .terminator]⟩,
   ⟨[GRADE_armv7em 1, .terminator]⟩,
   ⟨[GRADE_arm64_32 1, .terminator]⟩,
   ⟨[GRADE_arm64e 3, GRADE_arm64 2, GRADE_x86_64 1, .terminator]⟩,
   ⟨[GRADE_arm64 2, GRADE_x86_64 1, .terminator]⟩,
   ⟨[GRADE_x86_64h 3, GRADE_x86_64 2, GRADE_i386 1, .terminator]⟩,
   ⟨[GRADE_x86_64 2, GRADE_i386 1, .terminator]⟩,
   ⟨[GRADE_x86_64 2, GRADE_i386 1, .terminator]⟩]

/-- A table listed highest grade first: no entry has a higher grade than an entry
before it. -/
def GradedArchs.highestFirst (archs : GradedArchs) : Prop :=
  archs.entries.Pairwise (fun p q => q.grade ≤ p.grade)

instance (archs : GradedArchs) : Decidable archs.highestFirst := by
  unfold GradedArchs.highestFirst; infer_instance

/-! ### Descriptors read by `forEachSlice` -/

/-- The indices `i` of the descriptors `archs[i]` the `for` loop of the `FAT_MAGIC` branch
of `forEachSlice` reads, in order: iteration `i` reads `archs[i]` before anything else, and
the loop is left after the iteration in which the callback asks to stop. -/
def forEachSliceLoop32Reads {σ : Type} (fat : Mem) (fileLen : Nat) (validate : Bool)
    (callback : Slice → σ → σ × Bool) :
    Nat → Nat → Diagnostics × σ → List Nat
  | 0, _, _ => []
  | n + 1, i, st =>
    i :: (if (forEachSliceStep32 fat fileLen validate callback i st).2 then []
      else forEachSliceLoop32Reads fat fileLen validate callback n (i + 1)
        (forEachSliceStep32 fat fileLen validate callback i st).1)

/-- The indices of the descriptors the `for` loop of the `FAT_MAGIC_64` branch reads. -/
def forEachSliceLoop64Reads {σ : Type} (fat : Mem) (fileLen : Nat) (validate : Bool)
    (callback : Slice → σ → σ × Bool) :
    Nat → Nat → Diagnostics × σ → List Nat
  | 0, _, _ => []
  | n + 1, i, st =>
    i :: (if (forEachSliceStep64 fat fileLen validate callback i st).2 then []
      else forEachSliceLoop64Reads fat fileLen validate callback n (i + 1)
        (forEachSliceStep64 fat fileLen validate callback i st).1)

/-- The slice descriptors `FatFile::forEachSlice` reads, each as the pair (offset of the
descriptor from the start of the buffer, size of the descriptor): those of the loop, and
for `FAT_MAGIC` the descriptor `archs[numArchs]` read after the loop when
`numArchs != maxArchs`.  Nothing is read on the paths that return early. -/
def forEachSliceReads {σ : Type} (fat : Mem) (fileLen : Nat) (validate : Bool)
    (callback : Slice → σ → σ × Bool) (st : Diagnostics × σ) : List (Nat × Nat) :=
  if fat_magic fat == OSSwapBigToHostInt32 FAT_MAGIC then
    if OSSwapBigToHostInt32 (fat_nfat_arch fat) > (4096 - sizeof_fat_header) / sizeof_fat_arch then
      []
    else if sizeof_fat_header
        + (u32 (OSSwapBigToHostInt32 (fat_nfat_arch fat) + 1) * sizeof_fat_arch) > fileLen then
      []
    else
      (forEachSliceLoop32Reads fat fileLen validate callback
          (OSSwapBigToHostInt32 (fat_nfat_arch fat)) 0 st).map
        (fun i => (sizeof_fat_header + sizeof_fat_arch * i, sizeof_fat_arch))
      ++ (if OSSwapBigToHostInt32 (fat_nfat_arch fat)
            != (4096 - sizeof_fat_header) / sizeof_fat_arch then
          [(sizeof_fat_header + sizeof_fat_arch * OSSwapBigToHostInt32 (fat_nfat_arch fat),
            sizeof_fat_arch)]
        else [])
  else if fat_magic fat == OSSwapBigToHostInt32 FAT_MAGIC_64 then
    if OSSwapBigToHostInt32 (fat_nfat_arch fat)
        > (4096 - sizeof_fat_header) / sizeof_fat_arch_64 then
      []
    else if sizeof_fat_header
        + (OSSwapBigToHostInt32 (fat_nfat_arch fat) * sizeof_fat_arch_64) > fileLen then
      []
    else
      (forEachSliceLoop64Reads fat fileLen validate callback
          (OSSwapBigToHostInt32 (fat_nfat_arch fat)) 0 st).map
        (fun i => (sizeof_fat_header + sizeof_fat_arch_64 * i, sizeof_fat_arch_64))
  else
    []

/-! ## ULEB128 -/

/-- The `do ... while` loop of `MachOFile::read_uleb128`.  The first argument bounds the
number of iterations; the loop is left at the latest in its eleventh iteration, where
`bit` is 70.  `p` and `end` are offsets from the start of the buffer `m`.  Returns `diag`,
the final `p` and `result`.  `result |= (slice << bit)` is a `uint64_t` operation. -/
def read_uleb128Loop (m : Mem) (tend : Nat) :
    Nat → Diagnostics → Nat → Nat → Nat → Diagnostics × Nat × Nat
  | 0, diag, p, result, _ => (diag, p, result)
  | fuel + 1, diag, p, result, bit =>
    if p == tend then (diag.error .malformedUleb128, p, result)
    else if bit > 63 then (diag.error .uleb128TooBig, p, result)
    else if (read8 m p &&& 0x80) != 0 then
      read_uleb128Loop m tend fuel diag (p + 1)
        (result ||| u64 ((read8 m p &&& 0x7f) <<< bit)) (bit + 7)
    else (diag, p + 1, result ||| u64 ((read8 m p &&& 0x7f) <<< bit))

/-- `MachOFile::read_uleb128(diag, p, end)`: the resulting diagnostics, the new value of
the reference parameter `p`, and the returned value. -/
def read_uleb128 (m : Mem) (diag : Diagnostics) (p tend : Nat) : Diagnostics × Nat × Nat :=
  read_uleb128Loop m tend 11 diag p 0 0

/-- The value of the ULEB128 encoding that occupies the `len` bytes from `p` on: the sum of
the 7-bit groups, group `i` shifted by `7 * i`. -/
def ulebValue (m : Mem) (p : Nat) : Nat → Nat
  | 0 => 0
  | len + 1 => read8 m p % 128 + 128 * ulebValue m (p + 1) len

/-- The bytes from `p` on form a ULEB128 encoding of `len` bytes: `len - 1` bytes with the
continuation bit set, then one byte with the bit clear. -/
def ulebEncoded (m : Mem) (p : Nat) : Nat → Prop
  | 0 => False
  | len + 1 =>
    if len = 0 then read8 m p < 128
    else 128 ≤ read8 m p ∧ ulebEncoded m (p + 1) len

instance (m : Mem) (p len : Nat) : Decidable (ulebEncoded m p len) := by
  induction len generalizing p with
  | zero => unfold ulebEncoded; infer_instance
  | succ n ih => unfold ulebEncoded; infer_instance

/-- Ten bytes encoding 2^64: nine bytes `0x80`, then `0x02`. -/
def ulebTwoPow64 : List Nat := [0x80, 0x80, 0x80, 0x80, 0x80, 0x80, 0x80, 0x80, 0x80, 0x02]

/-! ## Chained fixups: `walkChain` -/

/-- Modelled from the spec: the pointer-format constants `DYLD_CHAINED_PTR_*` are declared
outside the sources; the values are those of `<mach-o/fixup-chains.h>`.  Only their being
different from one another matters to `walkChain`. -/
def DYLD_CHAINED_PTR_ARM64E : Nat := 1
def DYLD_CHAINED_PTR_64 : Nat := 2
def DYLD_CHAINED_PTR_32 : Nat := 3
def DYLD_CHAINED_PTR_32_CACHE : Nat := 4
def DYLD_CHAINED_PTR_32_FIRMWARE : Nat := 5
def DYLD_CHAINED_PTR_64_OFFSET : Nat := 6
def DYLD_CHAINED_PTR_ARM64E_KERNEL : Nat := 7
def DYLD_CHAINED_PTR_64_KERNEL_CACHE : Nat := 8
def DYLD_CHAINED_PTR_ARM64E_USERLAND : Nat := 9
def DYLD_CHAINED_PTR_ARM64E_FIRMWARE : Nat := 10
def DYLD_CHAINED_PTR_X86_64_KERNEL_CACHE : Nat := 11
def DYLD_CHAINED_PTR_ARM64E_USERLAND24 : Nat := 12
def DYLD_CHAINED_PTR_ARM64E_SHARED_CACHE : Nat := 13

/-- Modelled from the spec: the union `ChainedFixupPointerOnDisk` is declared outside the
sources.  It is one on-disk word whose bit layout depends on the pointer format; a value
of this model is the 64-bit raw word, and the accessors below are the bit-fields
`walkChain` reads, laid out as in `<mach-o/fixup-chains.h>`.  The 32-bit layouts occupy
the low four bytes.  `arm64e.rebase.next`: 11 bits from bit 51. -/
def arm64e_rebase_next (raw : Nat) : Nat := raw / 2 ^ 51 % 2 ^ 11

/-- Field `cache64e.regular.next`: 11 bits from bit 52. -/
def cache64e_regular_next (raw : Nat) : Nat := raw / 2 ^ 52 % 2 ^ 11

/-- Field `generic64.rebase.next`: 12 bits from bit 51. -/
def generic64_rebase_next (raw : Nat) : Nat := raw / 2 ^ 51 % 2 ^ 12

/-- Field `kernel64.next`: 12 bits from bit 51. -/
def kernel64_next (raw : Nat) : Nat := raw / 2 ^ 51 % 2 ^ 12

/-- Field `generic32.rebase.target`: the low 26 bits. -/
def generic32_rebase_target (raw : Nat) : Nat := raw % 2 ^ 26

/-- Field `generic32.rebase.next`: 5 bits from bit 26. -/
def generic32_rebase_next (raw : Nat) : Nat := raw / 2 ^ 26 % 2 ^ 5

/-- Field `generic32.rebase.bind`: bit 31. -/
def generic32_rebase_bind (raw : Nat) : Nat := raw / 2 ^ 31 % 2

/-- Field `firmware32.next`: 6 bits from bit 26. -/
def firmware32_next (raw : Nat) : Nat := raw / 2 ^ 26 % 2 ^ 6

/-- The test of the inner `while` of the `DYLD_CHAINED_PTR_32` case on the word `raw`:
`bind == 0 && target > max_valid_pointer`, a non-pointer co-opted into the chain. -/
def isParkedNonPointer (max_valid_pointer raw : Nat) : Bool :=
  generic32_rebase_bind raw == 0 && decide (generic32_rebase_target raw > max_valid_pointer)

/-- The inner `while` loop of the `DYLD_CHAINED_PTR_32` case of `walkChain`: it reads the
words of memory as they are now.  The first argument bounds the number of iterations;
`none` when the bound is reached. -/
def skipNonPointers (mem : Mem) (max_valid_pointer : Nat) : Nat → Nat → Option Nat
  | 0, _ => none
  | fuel + 1, chain =>
    if isParkedNonPointer max_valid_pointer (read64 mem chain) then
      skipNonPointers mem max_valid_pointer fuel
        (chain + generic32_rebase_next (read64 mem chain) * 4)
    else some chain

/-- What the `switch` of `walkChain` does. -/
inductive ChainStep where
  /-- `chainEnd = true` -/
  | chainEnd
  /-- `chain` is moved to the given location -/
  | moveTo (chain : Nat)
  /-- the `default` case: an error is recorded and `stop = true` -/
  | unknownFormat
  /-- the inner loop of the `DYLD_CHAINED_PTR_32` case did not end within the bound -/
  | noProgress
  deriving DecidableEq, Repr

/-- The `switch (pointer_format)` of `walkChain`, for the snapshot `chainContent` of the
word at `chain` and the memory `mem` left by the handler.  `stride` is the value of
`ChainedFixupPointerOnDisk::strideSize(pointer_format)`, which is declared outside the
sources; `next*stride` is an `unsigned` product. -/
def walkChainSwitch (pointer_format stride : Nat) (notifyNonPointers : Bool)
    (max_valid_pointer fuel chain chainContent : Nat) (mem : Mem) : ChainStep :=
  if pointer_format == DYLD_CHAINED_PTR_ARM64E
      || pointer_format == DYLD_CHAINED_PTR_ARM64E_KERNEL
      || pointer_format == DYLD_CHAINED_PTR_ARM64E_USERLAND
      || pointer_format == DYLD_CHAINED_PTR_ARM64E_USERLAND24
      || pointer_format == DYLD_CHAINED_PTR_ARM64E_FIRMWARE then
    if arm64e_rebase_next chainContent == 0 then .chainEnd
    else .moveTo (chain + u32 (arm64e_rebase_next chainContent * stride))
  else if pointer_format == DYLD_CHAINED_PTR_ARM64E_SHARED_CACHE then
    if cache64e_regular_next chainContent == 0 then .chainEnd
    else .moveTo (chain + u32 (cache64e_regular_next chainContent * stride))
  else if pointer_format == DYLD_CHAINED_PTR_64
      || pointer_format == DYLD_CHAINED_PTR_64_OFFSET then
    if generic64_rebase_next chainContent == 0 then .chainEnd
    else .moveTo (chain + generic64_rebase_next chainContent * 4)
  else if pointer_format == DYLD_CHAINED_PTR_32 then
    if generic32_rebase_next chainContent == 0 then .chainEnd
    else if !notifyNonPointers then
      match skipNonPointers mem max_valid_pointer fuel
          (chain + generic32_rebase_next chainContent * 4) with
      | some c => .moveTo c
      | none => .noProgress
    else .moveTo (chain + generic32_rebase_next chainContent * 4)
  else if pointer_format == DYLD_CHAINED_PTR_64_KERNEL_CACHE
      || pointer_format == DYLD_CHAINED_PTR_X86_64_KERNEL_CACHE then
    if kernel64_next chainContent == 0 then .chainEnd
    else .moveTo (chain + u32 (kernel64_next chainContent * stride))
  else if pointer_format == DYLD_CHAINED_PTR_32_FIRMWARE then
    if firmware32_next chainContent == 0 then .chainEnd
    else .moveTo (chain + firmware32_next chainContent * 4)
  else .unknownFormat

/-- What a run of `walkChain` leaves behind. -/
structure ChainWalk (σ : Type) where
  /-- the returned value `stop`; `none` when the run did not end within the bound -/
  returned : Option Bool
  diag : Diagnostics
  /-- the memory and what the handler captures -/
  state : Mem × σ
  /-- the handler calls made, in order: the location handed over and the snapshot
  `chainContent` taken just before the call -/
  calls : List (Nat × Nat)

/-- Puts a call in front of the calls of the rest of the run. -/
def ChainWalk.afterCall {σ : Type} (c : Nat × Nat) (r : ChainWalk σ) : ChainWalk σ :=
  { returned := r.returned, diag := r.diag, state := r.state, calls := c :: r.calls }

/-- The `while (!stop && !chainEnd)` loop of `walkChain`, entered with both flags false.
The handler receives the location and may change the memory and its own state; it returns
the new state and `stop`.  `fuel` bounds the iterations of the inner loop, the first
numeric argument after it those of this loop. -/
def walkChainLoop {σ : Type} (pointer_format stride : Nat) (notifyNonPointers : Bool)
    (max_valid_pointer : Nat) (handler : Nat → Mem × σ → (Mem × σ) × Bool) (fuel : Nat) :
    Nat → Diagnostics → Nat → Mem × σ → ChainWalk σ
  | 0, diag, _, st => { returned := none, diag := diag, state := st, calls := [] }
  | n + 1, diag, chain, st =>
    if (handler chain st).2 then
      { returned := some true, diag := diag, state := (handler chain st).1,
        calls := [(chain, read64 st.1 chain)] }
    else
      match walkChainSwitch pointer_format stride notifyNonPointers max_valid_pointer fuel
          chain (read64 st.1 chain) (handler chain st).1.1 with
      | .chainEnd =>
        { returned := some false, diag := diag, state := (handler chain st).1,
          calls := [(chain, read64 st.1 chain)] }
      | .moveTo c =>
        (walkChainLoop pointer_format stride notifyNonPointers max_valid_pointer handler
          fuel n diag c (handler chain st).1).afterCall (chain, read64 st.1 chain)
      | .unknownFormat =>
        { returned := some true, diag := diag.error (.unknownPointerFormat pointer_format),
          state := (handler chain st).1, calls := [(chain, read64 st.1 chain)] }
      | .noProgress =>
        { returned := none, diag := diag, state := (handler chain st).1,
          calls := [(chain, read64 st.1 chain)] }

/-- `MachOFile::walkChain(diag, chain, pointer_format, notifyNonPointers,
max_valid_pointer, handler)`, run for at most `fuel` iterations of each of its loops. -/
def walkChain {σ : Type} (diag : Diagnostics) (chain pointer_format stride : Nat)
    (notifyNonPointers : Bool) (max_valid_pointer : Nat)
    (handler : Nat → Mem × σ → (Mem × σ) × Bool) (st : Mem × σ) (fuel : Nat) : ChainWalk σ :=
  walkChainLoop pointer_format stride notifyNonPointers max_valid_pointer handler fuel fuel
    diag chain st

/-- A handler that leaves everything as it is and never asks to stop. -/
def idleHandler (_ : Nat) (st : Mem × Unit) : (Mem × Unit) × Bool := (st, false)

/-- A recognised pointer format together with a word whose `next` field, as that format
lays it out, is zero. -/
def endsChain (pointer_format chainContent : Nat) : Prop :=
  ((pointer_format = DYLD_CHAINED_PTR_ARM64E
      ∨ pointer_format = DYLD_CHAINED_PTR_ARM64E_KERNEL
      ∨ pointer_format = DYLD_CHAINED_PTR_ARM64E_USERLAND
      ∨ pointer_format = DYLD_CHAINED_PTR_ARM64E_USERLAND24
      ∨ pointer_format = DYLD_CHAINED_PTR_ARM64E_FIRMWARE)
    ∧ arm64e_rebase_next chainContent = 0)
  ∨ (pointer_format = DYLD_CHAINED_PTR_ARM64E_SHARED_CACHE
    ∧ cache64e_regular_next chainContent = 0)
  ∨ ((pointer_format = DYLD_CHAINED_PTR_64 ∨ pointer_format = DYLD_CHAINED_PTR_64_OFFSET)
    ∧ generic64_rebase_next chainContent = 0)
  ∨ (pointer_format = DYLD_CHAINED_PTR_32 ∧ generic32_rebase_next chainContent = 0)
  ∨ ((pointer_format = DYLD_CHAINED_PTR_64_KERNEL_CACHE
      ∨ pointer_format = DYLD_CHAINED_PTR_X86_64_KERNEL_CACHE)
    ∧ kernel64_next chainContent = 0)
  ∨ (pointer_format = DYLD_CHAINED_PTR_32_FIRMWARE ∧ firmware32_next chainContent = 0)

/-- Two `DYLD_CHAINED_PTR_32` words: the first a rebase of target 0x10 with `next` 1, the
second, four bytes on, with bind bit 0, target 0x3FFFFFF and `next` 0. -/
def parkedEndChain : Mem := memOfList (le32 0x04000010 ++ le32 0x03FFFFFF)

/-- One `DYLD_CHAINED_PTR_32` word with bind bit 0, target 0x3FFFFFF and `next` 0. -/
def parkedFirstChain : Mem := memOfList (le32 0x03FFFFFF)

/-! ## Export trie: `trieWalk`

The trie blob is the memory `m`; `start` is offset 0 and `end` is offset `tend`, so a
pointer into the blob is its offset from `start` and `&start[nodeOffset]` is `nodeOffset`.
Pointer arithmetic does not wrap.  The symbol is the list of its characters; the
terminating NUL is what `symbol.getD i 0` gives at its end. -/

/-- The loop `while ( c != '\0' )` of `trieWalk` over one edge label.  The state is `p`,
`ss` (as an index into the symbol) and `wrongEdge`; the last component collects the
characters read, which is the edge label.  The first argument bounds the number of
iterations; `none` when the bound is reached. -/
def trieEdgeScan (m : Mem) (symbol : List Nat) :
    Nat → Nat → Nat → Bool → List Nat → Option (Nat × Nat × Bool × List Nat)
  | 0, _, _, _, _ => none
  | fuel + 1, p, ss, wrongEdge, label =>
    if read8 m p == 0 then some (p, ss, wrongEdge, label)
    else if wrongEdge then
      trieEdgeScan m symbol fuel (p + 1) ss true (label ++ [read8 m p])
    else
      trieEdgeScan m symbol fuel (p + 1) (ss + 1) (read8 m p != symbol.getD ss 0)
        (label ++ [read8 m p])

/-- The statements `while ( (*p & 0x80) != 0 ) ++p; ++p;` of `trieWalk`, which skip the
child offset of an edge that does not match.  `none` when the bound is reached. -/
def trieSkipUleb (m : Mem) : Nat → Nat → Option Nat
  | 0, _ => none
  | fuel + 1, p =>
    if (read8 m p &&& 0x80) != 0 then trieSkipUleb m fuel (p + 1) else some (p + 1)

/-- How the `for` loop over the children of a node is left. -/
inductive TrieChildren where
  /-- by `return nullptr`, with the diagnostics at that point, and the edge that had
  matched when it is the child's `nodeOffset` that is rejected -/
  | returned (diag : Diagnostics) (edge : Option (List Nat × Nat))
  /-- by `break`: an edge matched; `nodeOffset`, the new `symbol` and the edge label -/
  | matched (diag : Diagnostics) (nodeOffset ss : Nat) (label : List Nat)
  /-- with `childrenRemaining` 0: no edge matched and `nodeOffset` is still 0 -/
  | noMatch
  /-- an inner loop did not end within the bound -/
  | noProgress
  deriving DecidableEq, Repr

/-- The loop `for (; childrenRemaining > 0; --childrenRemaining)` of `trieWalk`.  `si` is
`symbol` (as an index), the arguments after it are `childrenRemaining` and `p`. -/
def trieChildrenLoop (m : Mem) (tend : Nat) (symbol : List Nat) (fuel : Nat)
    (diag : Diagnostics) (si : Nat) : Nat → Nat → TrieChildren
  | 0, _ => .noMatch
  | n + 1, p =>
    match trieEdgeScan m symbol fuel p si false [] with
    | none => .noProgress
    | some (p1, ss, wrongEdge, label) =>
      if wrongEdge then
        match trieSkipUleb m fuel (p1 + 1) with
        | none => .noProgress
        | some p2 =>
          if p2 > tend then .returned (diag.error .trieChildPastEnd) none
          else trieChildrenLoop m tend symbol fuel diag si n p2
      else if (read_uleb128 m diag (p1 + 1) tend).1.hasError then
        .returned (read_uleb128 m diag (p1 + 1) tend).1 none
      else if (read_uleb128 m diag (p1 + 1) tend).2.2 == 0
          || decide ((read_uleb128 m diag (p1 + 1) tend).2.2 > tend) then
        .returned ((read_uleb128 m diag (p1 + 1) tend).1.error
            (.trieNodeOffsetOutOfRange (read_uleb128 m diag (p1 + 1) tend).2.2))
          (some (label, (read_uleb128 m diag (p1 + 1) tend).2.2))
      else
        .matched (read_uleb128 m diag (p1 + 1) tend).1 (read_uleb128 m diag (p1 + 1) tend).2.2
          ss label

/-- The statements `uint64_t terminalSize = *p++; if ( terminalSize > 127 ) { --p;
terminalSize = read_uleb128(diag, p, end); }`: the diagnostics, `p` and `terminalSize`
after them. -/
def trieTerminalSize (m : Mem) (tend : Nat) (diag : Diagnostics) (p : Nat) :
    Diagnostics × Nat × Nat :=
  if read8 m p > 127 then read_uleb128 m diag p tend else (diag, p + 1, read8 m p)

/-- What `trieWalk` returns. -/
inductive TrieOutcome where
  /-- a pointer into the blob, as its offset from `start` -/
  | found (p : Nat)
  /-- `nullptr` -/
  | null
  /-- a loop did not end within the bound -/
  | noProgress
  deriving DecidableEq, Repr

/-- What a run of `trieWalk` leaves behind. -/
structure TrieWalk where
  outcome : TrieOutcome
  diag : Diagnostics
  /-- the array `visitedNodeOffsets`; the macro `STACK_ALLOC_OVERFLOW_SAFE_ARRAY` that
  declares it is outside the sources, and the array is taken to grow as needed -/
  visitedNodeOffsets : List Nat
  /-- the offsets `p` pointed at when an iteration of the outer loop began: the nodes
  walked, in order -/
  nodes : List Nat
  /-- the child edges that matched, in order: the label and the child's `nodeOffset`;
  each is followed, except that the walk ends at the last one when its offset fails the
  range or the cycle test -/
  edges : List (List Nat × Nat)
  deriving DecidableEq, Repr

/-- The state of the loop `while ( p < end )` of `trieWalk` when an iteration begins:
`diag`, `p`, `symbol` (as an index), `visitedNodeOffsets`, and the nodes and edges
recorded so far. -/
structure TrieState where
  diag : Diagnostics
  p : Nat
  symbol : Nat
  visitedNodeOffsets : List Nat
  nodes : List Nat
  edges : List (List Nat × Nat)

/-- What one iteration of the outer loop of `trieWalk` does. -/
inductive TrieStep where
  /-- the function returns -/
  | done (r : TrieWalk)
  /-- the loop goes on with the given state -/
  | next (s : TrieState)

/-- The body of the loop `while ( p < end )` of `trieWalk`.  `visitedNodeOffsets` holds
`uint32_t` values, which the cycle test compares with the 64-bit `nodeOffset`.  When no
edge matched, `p = end` ends the loop and `nullptr` is returned. -/
def trieWalkBody (m : Mem) (tend : Nat) (symbol : List Nat) (fuel : Nat) (s : TrieState) :
    TrieStep :=
  if decide (read8 m s.p > 127) && (trieTerminalSize m tend s.diag s.p).1.hasError then
    .done ⟨.null, (trieTerminalSize m tend s.diag s.p).1, s.visitedNodeOffsets,
      s.nodes ++ [s.p], s.edges⟩
  else if symbol.getD s.symbol 0 == 0 && (trieTerminalSize m tend s.diag s.p).2.2 != 0 then
    .done ⟨.found (trieTerminalSize m tend s.diag s.p).2.1,
      (trieTerminalSize m tend s.diag s.p).1, s.visitedNodeOffsets, s.nodes ++ [s.p],
      s.edges⟩
  else if (trieTerminalSize m tend s.diag s.p).2.1 + (trieTerminalSize m tend s.diag s.p).2.2
      > tend then
    .done ⟨.null, (trieTerminalSize m tend s.diag s.p).1, s.visitedNodeOffsets,
      s.nodes ++ [s.p], s.edges⟩
  else
    match trieChildrenLoop m tend symbol fuel (trieTerminalSize m tend s.diag s.p).1 s.symbol
        (read8 m ((trieTerminalSize m tend s.diag s.p).2.1
          + (trieTerminalSize m tend s.diag s.p).2.2))
        ((trieTerminalSize m tend s.diag s.p).2.1
          + (trieTerminalSize m tend s.diag s.p).2.2 + 1) with
    | .returned d e =>
      .done ⟨.null, d, s.visitedNodeOffsets, s.nodes ++ [s.p], s.edges ++ e.toList⟩
    | .noProgress =>
      .done ⟨.noProgress, (trieTerminalSize m tend s.diag s.p).1, s.visitedNodeOffsets,
        s.nodes ++ [s.p], s.edges⟩
    | .noMatch =>
      .done ⟨.null, (trieTerminalSize m tend s.diag s.p).1, s.visitedNodeOffsets,
        s.nodes ++ [s.p], s.edges⟩
    | .matched d nodeOffset ss label =>
      if nodeOffset > tend then
        .done ⟨.null, d.error (.trieNodeOffsetOutOfRange nodeOffset), s.visitedNodeOffsets,
          s.nodes ++ [s.p], s.edges ++ [(label, nodeOffset)]⟩
      else if s.visitedNodeOffsets.contains nodeOffset then
        .done ⟨.null, d.error (.trieCycle nodeOffset), s.visitedNodeOffsets,
          s.nodes ++ [s.p], s.edges ++ [(label, nodeOffset)]⟩
      else
        .next ⟨d, nodeOffset, ss, s.visitedNodeOffsets ++ [u32 nodeOffset],
          s.nodes ++ [s.p], s.edges ++ [(label, nodeOffset)]⟩

/-- The loop `while ( p < end )` of `trieWalk`.  `fuel` bounds the iterations of the inner
loops, the argument after it those of this loop. -/
def trieWalkLoop (m : Mem) (tend : Nat) (symbol : List Nat) (fuel : Nat) :
    Nat → TrieState → TrieWalk
  | 0, s => ⟨.noProgress, s.diag, s.visitedNodeOffsets, s.nodes, s.edges⟩
  | n + 1, s =>
    if ¬ s.p < tend then ⟨.null, s.diag, s.visitedNodeOffsets, s.nodes, s.edges⟩
    else
      match trieWalkBody m tend symbol fuel s with
      | .done r => r
      | .next s' => trieWalkLoop m tend symbol fuel n s'

/-- `MachOFile::trieWalk(diag, start, end, symbol)` on the blob `m` of `tend` bytes, run
for at most `fuel` iterations of each of its loops. -/
def trieWalk (m : Mem) (tend : Nat) (symbol : List Nat) (diag : Diagnostics) (fuel : Nat) :
    TrieWalk :=
  trieWalkLoop m tend symbol fuel fuel ⟨diag, 0, 0, [0], [], []⟩

/-- What holds of the state when an iteration of the outer loop begins: the labels of the
edges taken spell the part of the symbol consumed, and the edges lead from the root
through the nodes walked to `p`. -/
def TrieState.spells (symbol : List Nat) (s : TrieState) : Prop :=
  (s.edges.map Prod.fst).flatten = symbol.take s.symbol
  ∧ s.edges.map Prod.snd = (s.nodes ++ [s.p]).tail
  ∧ (s.nodes ++ [s.p]).head? = some 0

/-- What holds of a run that found the symbol. -/
def TrieWalk.foundSound (m : Mem) (symbol : List Nat) (r : TrieWalk) : Prop :=
  ∀ pos, r.outcome = .found pos →
    (r.edges.map Prod.fst).flatten = symbol
    ∧ r.edges.map Prod.snd = r.nodes.tail
    ∧ r.nodes.head? = some 0
    ∧ ∃ node len, r.nodes.getLast? = some node ∧ ulebEncoded m node len
        ∧ ulebValue m node len ≠ 0 ∧ pos = node + len

/-- What holds of the state when an iteration of the outer loop begins, for a blob shorter
than 2^32 bytes: `visitedNodeOffsets` holds the nodes walked and `p`, no offset twice. -/
def TrieState.acyclic (tend : Nat) (s : TrieState) : Prop :=
  s.visitedNodeOffsets = s.nodes ++ [s.p]
  ∧ (s.nodes ++ [s.p]).Nodup
  ∧ s.edges.map Prod.snd = (s.nodes ++ [s.p]).tail
  ∧ s.p ≤ tend ∧ ∀ x ∈ s.nodes, x < tend

/-- No node is walked twice, and an edge that leads to a node walked before is not
followed: the run ends with `nullptr` and a diagnostic naming the offset. -/
def TrieWalk.acyclic (r : TrieWalk) : Prop :=
  r.nodes.Nodup
  ∧ (∀ x ∈ r.nodes, x ∈ r.visitedNodeOffsets)
  ∧ (r.edges.map Prod.snd = r.nodes.tail
    ∨ ∃ off, r.edges.map Prod.snd = r.nodes.tail ++ [off]
        ∧ (off ∈ r.nodes →
          r.outcome = .null
          ∧ ∃ d : Diagnostics, r.diag = d.error (.trieCycle off)
              ∨ r.diag = d.error (.trieNodeOffsetOutOfRange off)))

/-- The characters of "_foo", "bar", "_foobar" and "_foobaz". -/
def str_foo : List Nat := [0x5f, 0x66, 0x6f, 0x6f]
def str_bar : List Nat := [0x62, 0x61, 0x72]
def str_foobar : List Nat := [0x5f, 0x66, 0x6f, 0x6f, 0x62, 0x61, 0x72]
def str_foobaz : List Nat := [0x5f, 0x66, 0x6f, 0x6f, 0x62, 0x61, 0x7a]

/-- The export trie of "_foo" and "_foobar", 21 bytes: the root at 0 with the edge "_foo"
to the node at 8, which has a terminal payload of two bytes and the edge "bar" to the node
at 17, which has a terminal payload of two bytes and no children. -/
def fooTrie : Mem :=
  memOfList ([0x00, 0x01] ++ str_foo ++ [0x00, 0x08]
    ++ [0x02, 0x00, 0x10, 0x01] ++ str_bar ++ [0x00, 0x11]
    ++ [0x02, 0x00, 0x20, 0x00])

/-- A blob of 2^32 + 32 bytes: the root at 0 with the edge "a" to the node at 2^32 + 16,
which has no terminal payload and the edge "a" to itself. -/
def largeCyclicTrie : Mem :=
  memOfPieces
    [(0, [0x00, 0x01, 0x61, 0x00, 0x90, 0x80, 0x80, 0x80, 0x10]),
     (4294967312, [0x00, 0x01, 0x61, 0x00, 0x90, 0x80, 0x80, 0x80, 0x10])]

/-! ## Export trie: what a well-formed trie is

These definitions follow the description of the trie, not the code: a node is
`[terminal size ULEB128][payload][child count][(NUL-terminated label, child offset
ULEB128) ...]`. -/

/-- The bytes from `p` on are the list `l`. -/
def bytesAt (m : Mem) : Nat → List Nat → Prop
  | _, [] => True
  | p, c :: l => read8 m p = c ∧ bytesAt m (p + 1) l

instance (m : Mem) (p : Nat) (l : List Nat) : Decidable (bytesAt m p l) := by
  induction l generalizing p with
  | nil => unfold bytesAt; infer_instance
  | cons c l ih => unfold bytesAt; infer_instance

/-- A node of a trie: the size of its terminal payload (0 when the node is not a symbol),
the offset of the first payload byte, and the child edges, each a label and the offset of
the child node. -/
structure TrieNode where
  terminalSize : Nat
  payload : Nat
  children : List (List Nat × Nat)
  deriving DecidableEq, Repr

/-- The child edges `children` are encoded from `p` on, inside the blob: each is its
label, without NUL, then a NUL, then the child offset as a ULEB128 of at most ten
bytes. -/
def trieChildrenAt (m : Mem) (tend : Nat) : Nat → List (List Nat × Nat) → Prop
  | _, [] => True
  | p, e :: rest =>
    (∀ c ∈ e.1, c ≠ 0) ∧ bytesAt m p e.1 ∧ read8 m (p + e.1.length) = 0 ∧
    ∃ len, len < 11 ∧ ulebEncoded m (p + e.1.length + 1) len ∧
      ulebValue m (p + e.1.length + 1) len = e.2 ∧
      p + e.1.length + 1 + len ≤ tend ∧
      trieChildrenAt m tend (p + e.1.length + 1 + len) rest

/-- The node `node` is encoded at offset `o` of the blob: the terminal size as a ULEB128
of at most ten bytes, the payload, the child count in one byte, and the child edges. -/
def trieNodeAt (m : Mem) (tend o : Nat) (node : TrieNode) : Prop :=
  ∃ len, len < 11 ∧ ulebEncoded m o len ∧ ulebValue m o len = node.terminalSize ∧
    node.payload = o + len ∧ node.payload + node.terminalSize < tend ∧
    read8 m (node.payload + node.terminalSize) = node.children.length ∧
    trieChildrenAt m tend (node.payload + node.terminalSize + 1) node.children

/-- In the trie `t`, which gives the node at each offset where there is one, the path from
the node at `o` that spells `s` ends at the node at `o'`. -/
inductive TriePath (t : Nat → Option TrieNode) : Nat → List Nat → Nat → Prop where
  | here (o : Nat) : TriePath t o [] o
  | edge (o : Nat) (node : TrieNode) (e : List Nat × Nat) (s : List Nat) (o' : Nat) :
      t o = some node → e ∈ node.children → TriePath t e.2 s o' →
      TriePath t o (e.1 ++ s) o'

/-- The blob `m` of `tend` bytes is a well-formed encoding of the trie `t`: there is a
root at offset 0, every node is encoded at its offset, every child offset is non-zero,
inside the blob and the offset of a node, no sibling label is a prefix of another, and
the trie is acyclic: `rank` decreases along every edge. -/
structure WellFormedTrie (m : Mem) (tend : Nat) (t : Nat → Option TrieNode)
    (rank : Nat → Nat) : Prop where
  root : ∃ node, t 0 = some node
  encoded : ∀ o node, t o = some node → trieNodeAt m tend o node
  children : ∀ o node, t o = some node → ∀ e ∈ node.children,
    e.2 ≠ 0 ∧ e.2 < tend ∧ (∃ child, t e.2 = some child) ∧ rank e.2 < rank o
  siblings : ∀ o node, t o = some node →
    node.children.Pairwise (fun a b => ¬ a.1 <+: b.1 ∧ ¬ b.1 <+: a.1)

/-- The symbol is in the trie `t`: the path from the root that spells it ends at a node
with a terminal payload. -/
def trieHasSymbol (t : Nat → Option TrieNode) (o : Nat) (s : List Nat) : Prop :=
  ∃ o' node, TriePath t o s o' ∧ t o' = some node ∧ node.terminalSize ≠ 0

/-- The trie `fooTrie` encodes. -/
def fooTrieNodes (o : Nat) : Option TrieNode :=
  if o = 0 then some ⟨0, 1, [(str_foo, 8)]⟩
  else if o = 8 then some ⟨2, 9, [(str_bar, 17)]⟩
  else if o = 17 then some ⟨2, 18, []⟩
  else none

/-- A blob of 2^32 + 32 bytes: the root at 0 with the edge "a" to the node at 2^32 + 16,
which has the edge "b" to the node at 16, which has a terminal payload of one byte and no
children. -/
def largeTrie : Mem :=
  memOfPieces
    [(0, [0x00, 0x01, 0x61, 0x00, 0x90, 0x80, 0x80, 0x80, 0x10]),
     (16, [0x01, 0x00, 0x00]),
     (4294967312, [0x00, 0x01, 0x62, 0x00, 0x10])]

/-- The trie `largeTrie` encodes. -/
def largeTrieNodes (o : Nat) : Option TrieNode :=
  if o = 0 then some ⟨0, 1, [([0x61], 4294967312)]⟩
  else if o = 4294967312 then some ⟨0, 4294967313, [([0x62], 16)]⟩
  else if o = 16 then some ⟨1, 17, []⟩
  else none

/-- A rank for `fooTrieNodes`: the height of the node. -/
def fooTrieRank (o : Nat) : Nat := if o = 0 then 2 else if o = 8 then 1 else 0

/-- A rank for `largeTrieNodes`: the height of the node. -/
def largeTrieRank (o : Nat) : Nat := if o = 0 then 2 else if o = 4294967312 then 1 else 0

/-- The pointer formats the `switch` of `walkChain` has a case for. -/
def handledByWalkChain (pointer_format : Nat) : Prop :=
  pointer_format = DYLD_CHAINED_PTR_ARM64E
  ∨ pointer_format = DYLD_CHAINED_PTR_ARM64E_KERNEL
  ∨ pointer_format = DYLD_CHAINED_PTR_ARM64E_USERLAND
  ∨ pointer_format = DYLD_CHAINED_PTR_ARM64E_USERLAND24
  ∨ pointer_format = DYLD_CHAINED_PTR_ARM64E_FIRMWARE
  ∨ pointer_format = DYLD_CHAINED_PTR_ARM64E_SHARED_CACHE
  ∨ pointer_format = DYLD_CHAINED_PTR_64
  ∨ pointer_format = DYLD_CHAINED_PTR_64_OFFSET
  ∨ pointer_format = DYLD_CHAINED_PTR_32
  ∨ pointer_format = DYLD_CHAINED_PTR_64_KERNEL_CACHE
  ∨ pointer_format = DYLD_CHAINED_PTR_X86_64_KERNEL_CACHE
  ∨ pointer_format = DYLD_CHAINED_PTR_32_FIRMWARE

instance (pointer_format : Nat) : Decidable (handledByWalkChain pointer_format) := by
  unfold handledByWalkChain; infer_instance

/-- A handler that leaves everything as it is and asks to stop. -/
def stoppingHandler (_ : Nat) (st : Mem × Unit) : (Mem × Unit) × Bool := (st, true)

/-! ## Chained fixups: `forEachChainedFixupTarget` -/

/-- Modelled from the spec: the import formats and the layouts of
`dyld_chained_fixups_header` and of the three import records are declared outside the
sources; they are those of `<mach-o/fixup-chains.h>`.  The header is the memory `header`,
read at offsets from its start. -/
def DYLD_CHAINED_IMPORT : Nat := 1
def DYLD_CHAINED_IMPORT_ADDEND : Nat := 2
def DYLD_CHAINED_IMPORT_ADDEND64 : Nat := 3

def fixups_imports_offset (header : Mem) : Nat := read32 header 8
def fixups_symbols_offset (header : Mem) : Nat := read32 header 12
def fixups_imports_count (header : Mem) : Nat := read32 header 16
def fixups_imports_format (header : Mem) : Nat := read32 header 20

/-- `sizeof(dyld_chained_import)`, `sizeof(dyld_chained_import_addend)` and
`sizeof(dyld_chained_import_addend64)`. -/
def sizeof_dyld_chained_import : Nat := 4
def sizeof_dyld_chained_import_addend : Nat := 8
def sizeof_dyld_chained_import_addend64 : Nat := 16

/-- Fields of `dyld_chained_import` and `dyld_chained_import_addend`, from the 32-bit
word `raw`: `lib_ordinal` (8 bits), `weak_import` (1 bit), `name_offset` (23 bits). -/
def import_lib_ordinal (raw : Nat) : Nat := raw % 2 ^ 8
def import_weak_import (raw : Nat) : Nat := raw / 2 ^ 8 % 2
def import_name_offset (raw : Nat) : Nat := raw / 2 ^ 9 % 2 ^ 23

/-- Fields of `dyld_chained_import_addend64`, from the 64-bit word `raw`: `lib_ordinal`
(16 bits), `weak_import` (1 bit), `reserved` (15 bits), `name_offset` (32 bits). -/
def import64_lib_ordinal (raw : Nat) : Nat := raw % 2 ^ 16
def import64_weak_import (raw : Nat) : Nat := raw / 2 ^ 16 % 2
def import64_name_offset (raw : Nat) : Nat := raw / 2 ^ 32 % 2 ^ 32

/-- Conversion of an unsigned value to `int8_t`. -/
def toInt8 (x : Nat) : Int := if x % 256 < 128 then (x % 256 : Nat) else (x % 256 : Nat) - 256

/-- Conversion of an unsigned value to `int16_t`. -/
def toInt16 (x : Nat) : Int :=
  if x % 65536 < 32768 then (x % 65536 : Nat) else (x % 65536 : Nat) - 65536

/-- The statements that set `libOrdinal` from the `uint8_t libVal`. -/
def libOrdinal8 (libVal : Nat) : Int := if libVal > 0xF0 then toInt8 libVal else libVal

/-- The statements that set `libOrdinal` from the `uint16_t libVal`. -/
def libOrdinal16 (libVal : Nat) : Int := if libVal > 0xFFF0 then toInt16 libVal else libVal

/-- What the callback of `forEachChainedFixupTarget` is handed: `libOrdinal`, `symbolName`
as its offset from `header`, `addend` and `weakImport`. -/
structure ImportTarget where
  libOrdinal : Int
  symbolName : Nat
  addend : Nat
  weakImport : Bool
  deriving DecidableEq, Repr

/-- The `name_offset` of import record `i`, in the format `imports_format`. -/
def importNameOffset (header : Mem) (imports_format i : Nat) : Nat :=
  if imports_format == DYLD_CHAINED_IMPORT then
    import_name_offset (read32 header (fixups_imports_offset header
      + sizeof_dyld_chained_import * i))
  else if imports_format == DYLD_CHAINED_IMPORT_ADDEND then
    import_name_offset (read32 header (fixups_imports_offset header
      + sizeof_dyld_chained_import_addend * i))
  else
    import64_name_offset (read64 header (fixups_imports_offset header
      + sizeof_dyld_chained_import_addend64 * i))

/-- The value `libVal` read from import record `i`, in the format `imports_format`. -/
def importLibVal (header : Mem) (imports_format i : Nat) : Nat :=
  if imports_format == DYLD_CHAINED_IMPORT then
    import_lib_ordinal (read32 header (fixups_imports_offset header
      + sizeof_dyld_chained_import * i))
  else if imports_format == DYLD_CHAINED_IMPORT_ADDEND then
    import_lib_ordinal (read32 header (fixups_imports_offset header
      + sizeof_dyld_chained_import_addend * i))
  else
    import64_lib_ordinal (read64 header (fixups_imports_offset header
      + sizeof_dyld_chained_import_addend64 * i))

/-- The arguments of `callback(libOrdinal, symbolName, addend, weak_import, stop)` for the
record `i` of the imports table, in each of the three loops.  The `int32_t` addend of
`dyld_chained_import_addend` is converted to `uint64_t`. -/
def importTarget (header : Mem) (imports_format i : Nat) : ImportTarget :=
  if imports_format == DYLD_CHAINED_IMPORT then
    { libOrdinal := libOrdinal8 (importLibVal header imports_format i),
      symbolName := fixups_symbols_offset header + importNameOffset header imports_format i,
      addend := 0,
      weakImport := import_weak_import (read32 header
        (fixups_imports_offset header + sizeof_dyld_chained_import * i)) != 0 }
  else if imports_format == DYLD_CHAINED_IMPORT_ADDEND then
    { libOrdinal := libOrdinal8 (importLibVal header imports_format i),
      symbolName := fixups_symbols_offset header + importNameOffset header imports_format i,
      addend := toUInt64 (toInt32 (read32 header
        (fixups_imports_offset header + sizeof_dyld_chained_import_addend * i + 4))),
      weakImport := import_weak_import (read32 header
        (fixups_imports_offset header + sizeof_dyld_chained_import_addend * i)) != 0 }
  else
    { libOrdinal := libOrdinal16 (importLibVal header imports_format i),
      symbolName := fixups_symbols_offset header + importNameOffset header imports_format i,
      addend := read64 header
        (fixups_imports_offset header + sizeof_dyld_chained_import_addend64 * i + 8),
      weakImport := import64_weak_import (read64 header
        (fixups_imports_offset header + sizeof_dyld_chained_import_addend64 * i)) != 0 }

/-- Each of the three `for` loops of `forEachChainedFixupTarget`, which differ in the
record they read only.  The first argument counts the iterations still to run, `i` is the
loop counter.  The state is `diag` and what the callback captures; the callback returns
the new state and `stop`. -/
def forEachChainedFixupTargetLoop {σ : Type} (header : Mem) (imports_format
    maxSymbolOffset : Nat) (callback : ImportTarget → σ → σ × Bool) :
    Nat → Nat → Diagnostics × σ → Diagnostics × σ
  | 0, _, st => st
  | n + 1, i, st =>
    if importNameOffset header imports_format i > maxSymbolOffset then
      (st.1.error .importStringOverflow, st.2)
    else if (callback (importTarget header imports_format i) st.2).2 then
      (st.1, (callback (importTarget header imports_format i) st.2).1)
    else
      forEachChainedFixupTargetLoop header imports_format maxSymbolOffset callback n (i + 1)
        (st.1, (callback (importTarget header imports_format i) st.2).1)

/-- `MachOFile::forEachChainedFixupTarget(diag, header, chainedFixups, callback)`;
`datasize` is `chainedFixups->datasize`. -/
def forEachChainedFixupTarget {σ : Type} (header : Mem) (datasize : Nat)
    (callback : ImportTarget → σ → σ × Bool) (st : Diagnostics × σ) : Diagnostics × σ :=
  if fixups_imports_offset header > datasize || fixups_symbols_offset header > datasize then
    (st.1.error .malformedImportTable, st.2)
  else if fixups_imports_format header == DYLD_CHAINED_IMPORT
      || fixups_imports_format header == DYLD_CHAINED_IMPORT_ADDEND
      || fixups_imports_format header == DYLD_CHAINED_IMPORT_ADDEND64 then
    forEachChainedFixupTargetLoop header (fixups_imports_format header)
      (datasize - fixups_symbols_offset header) callback (fixups_imports_count header) 0 st
  else
    (st.1.error .unknownImportsFormat, st.2)

/-- The targets `forEachChainedFixupTarget` hands to a callback that never asks to stop,
and the diagnostics it ends with. -/
def importTargets (header : Mem) (datasize : Nat) : Diagnostics × List ImportTarget :=
  forEachChainedFixupTarget header datasize
    (fun t (acc : List ImportTarget) => (acc ++ [t], false)) ({}, [])

/-- A chained-fixups blob of 0x40 bytes: imports at 0x20, symbols at 0x30, one import of
format `DYLD_CHAINED_IMPORT` with `lib_ordinal` 1 and `name_offset` 0x10. -/
def poolEndImportHeader : Mem :=
  memOfPieces
    [(0, le32 0 ++ le32 0x1c ++ le32 0x20 ++ le32 0x30 ++ le32 1 ++ le32 1 ++ le32 0),
     (0x20, le32 (0x10 * 512 + 1))]

/-- A chained-fixups blob of 0x40 bytes: imports at 0x20, symbols at 0x30, two imports of
format `DYLD_CHAINED_IMPORT` with `lib_ordinal` 0xF0 and 0xFE (and `name_offset` 1, 2). -/
def specialOrdinalHeader : Mem :=
  memOfPieces
    [(0, le32 0 ++ le32 0x1c ++ le32 0x20 ++ le32 0x30 ++ le32 2 ++ le32 1 ++ le32 0),
     (0x20, le32 (1 * 512 + 0xF0) ++ le32 (2 * 512 + 0xFE))]

/-! ## `PointerMetaData` -/

/-- Bit-fields of `ChainedFixupPointerOnDisk` read by the constructor of
`PointerMetaData`, from the 64-bit word `raw`, laid out as in `<mach-o/fixup-chains.h>`.
`arm64e.authRebase`: `target` 32 bits, `diversity` 16, `addrDiv` 1, `key` 2, `next` 11,
`bind` 1, `auth` 1. -/
def arm64e_authRebase_auth (raw : Nat) : Nat := raw / 2 ^ 63 % 2
def arm64e_authRebase_key (raw : Nat) : Nat := raw / 2 ^ 49 % 2 ^ 2
def arm64e_authRebase_addrDiv (raw : Nat) : Nat := raw / 2 ^ 48 % 2
def arm64e_authRebase_diversity (raw : Nat) : Nat := raw / 2 ^ 32 % 2 ^ 16

/-- Field `arm64e.bind.bind`: bit 62. -/
def arm64e_bind_bind (raw : Nat) : Nat := raw / 2 ^ 62 % 2

/-- Field `arm64e.rebase.high8`: 8 bits from bit 43. -/
def arm64e_rebase_high8 (raw : Nat) : Nat := raw / 2 ^ 43 % 2 ^ 8

/-- Fields of `cache64e.auth`: `runtimeOffset` 34 bits, `diversity` 16, `addrDiv` 1,
`keyIsData` 1, `next` 11, `auth` 1. -/
def cache64e_auth_auth (raw : Nat) : Nat := raw / 2 ^ 63 % 2
def cache64e_auth_keyIsData (raw : Nat) : Nat := raw / 2 ^ 51 % 2
def cache64e_auth_addrDiv (raw : Nat) : Nat := raw / 2 ^ 50 % 2
def cache64e_auth_diversity (raw : Nat) : Nat := raw / 2 ^ 34 % 2 ^ 16

/-- Field `cache64e.regular.high8`: 8 bits from bit 34. -/
def cache64e_regular_high8 (raw : Nat) : Nat := raw / 2 ^ 34 % 2 ^ 8

/-- Field `generic64.bind.bind`: bit 63. -/
def generic64_bind_bind (raw : Nat) : Nat := raw / 2 ^ 63 % 2

/-- Field `generic64.rebase.high8`: 8 bits from bit 36. -/
def generic64_rebase_high8 (raw : Nat) : Nat := raw / 2 ^ 36 % 2 ^ 8

/-- Modelled from the spec: `struct PointerMetaData` is declared outside the sources.  It
holds what the decoding extracts from one fixup word: whether the pointer is authenticated,
its diversity, address-diversity flag and key, and the high8 tag bits.  The fields are
bit-fields wide enough for the values assigned here (16, 8, 1, 2 and 1 bits). -/
structure PointerMetaData where
  diversity : Nat
  high8 : Nat
  authenticated : Nat
  key : Nat
  usesAddrDiversity : Nat
  deriving DecidableEq, Repr

/-- The pointer formats of the first case group of the `switch` in the constructor of
`PointerMetaData`. -/
def isArm64eFamily (pointer_format : Nat) : Bool :=
  pointer_format == DYLD_CHAINED_PTR_ARM64E
    || pointer_format == DYLD_CHAINED_PTR_ARM64E_KERNEL
    || pointer_format == DYLD_CHAINED_PTR_ARM64E_USERLAND
    || pointer_format == DYLD_CHAINED_PTR_ARM64E_FIRMWARE
    || pointer_format == DYLD_CHAINED_PTR_ARM64E_USERLAND24

/-- `PointerMetaData::PointerMetaData(fixupLoc, pointer_format)`; `raw` is the 64-bit word
at `fixupLoc`. -/
def PointerMetaData.ofFixup (raw pointer_format : Nat) : PointerMetaData :=
  if isArm64eFamily pointer_format then
    if arm64e_authRebase_auth raw != 0 then
      { diversity := arm64e_authRebase_diversity raw, high8 := 0,
        authenticated := arm64e_authRebase_auth raw, key := arm64e_authRebase_key raw,
        usesAddrDiversity := arm64e_authRebase_addrDiv raw }
    else if arm64e_bind_bind raw == 0 then
      { diversity := 0, high8 := arm64e_rebase_high8 raw,
        authenticated := arm64e_authRebase_auth raw, key := 0, usesAddrDiversity := 0 }
    else
      { diversity := 0, high8 := 0, authenticated := arm64e_authRebase_auth raw, key := 0,
        usesAddrDiversity := 0 }
  else if pointer_format == DYLD_CHAINED_PTR_ARM64E_SHARED_CACHE then
    if cache64e_auth_auth raw != 0 then
      { diversity := cache64e_auth_diversity raw, high8 := 0,
        authenticated := cache64e_auth_auth raw,
        key := if cache64e_auth_keyIsData raw != 0 then 2 else 0,
        usesAddrDiversity := cache64e_auth_addrDiv raw }
    else
      { diversity := 0, high8 := cache64e_regular_high8 raw,
        authenticated := cache64e_auth_auth raw, key := 0, usesAddrDiversity := 0 }
  else if pointer_format == DYLD_CHAINED_PTR_64
      || pointer_format == DYLD_CHAINED_PTR_64_OFFSET then
    if generic64_bind_bind raw == 0 then
      { diversity := 0, high8 := generic64_rebase_high8 raw, authenticated := 0, key := 0,
        usesAddrDiversity := 0 }
    else
      { diversity := 0, high8 := 0, authenticated := 0, key := 0, usesAddrDiversity := 0 }
  else
    { diversity := 0, high8 := 0, authenticated := 0, key := 0, usesAddrDiversity := 0 }

/-! ## Code signature: `forEachCodeDirectoryBlob` -/

/-- Modelled from the spec: the code-signing constants and the layouts of `CS_SuperBlob`,
`CS_BlobIndex` and `CS_CodeDirectory` are declared outside the sources; the values are
those of the kernel's `cs_blobs.h`.  A SuperBlob is `magic`, `length`, `count` (12 bytes)
followed by `count` index entries of `type` and `offset` (8 bytes each); a code directory
starts with `magic` and `length` and has its one-byte `hashType` at offset 37.  All fields
are stored big-endian. -/
def CSMAGIC_EMBEDDED_SIGNATURE : Nat := 0xfade0cc0
def CSMAGIC_CODEDIRECTORY : Nat := 0xfade0c02
def CSMAGIC_REQUIREMENTS : Nat := 0xfade0c01
def CSSLOT_CODEDIRECTORY : Nat := 0
def CSSLOT_REQUIREMENTS : Nat := 2
def CSSLOT_ALTERNATE_CODEDIRECTORIES : Nat := 0x1000
def CSSLOT_ALTERNATE_CODEDIRECTORY_LIMIT : Nat := 0x1005
def CS_HASHTYPE_SHA1 : Nat := 1
def CS_HASHTYPE_SHA256 : Nat := 2
def CS_HASHTYPE_SHA256_TRUNCATED : Nat := 3
def CS_HASHTYPE_SHA384 : Nat := 4

/-- `sizeof(CS_SuperBlob)` and `sizeof(CS_BlobIndex)`. -/
def sizeof_CS_SuperBlob : Nat := 12
def sizeof_CS_BlobIndex : Nat := 8

/-- `htonl` on a little-endian host: the byte swap of a 32-bit value. -/
def htonl (x : Nat) : Nat := OSSwapBigToHostInt32 x

/-- Difference of two `size_t` values, which wraps modulo 2^64. -/
def sub64 (a b : Nat) : Nat :=
  (a % 18446744073709551616 + 18446744073709551616 - b % 18446744073709551616)
    % 18446744073709551616

/-- `MachOFile::isMainExecutable`. -/
def isMainExecutable (mh : Mem) : Bool := filetype mh == MH_EXECUTE

/-- The search of a priority table in `hash_rank` and `hash_rank_watchOS_dylibs`: `n + 1`
for the first `n` with `priorities[n] == type`, and 0 when there is none. -/
def hashRankIn : List Nat → Nat → Nat → Nat
  | [], _, _ => 0
  | p :: rest, type, n => if p == type then n + 1 else hashRankIn rest type (n + 1)

/-- The table `hashPriorities`. -/
def hashPriorities : List Nat :=
  [CS_HASHTYPE_SHA1, CS_HASHTYPE_SHA256_TRUNCATED, CS_HASHTYPE_SHA256, CS_HASHTYPE_SHA384]

/-- The table `hashPriorities_watchOS_dylibs`. -/
def hashPriorities_watchOS_dylibs : List Nat :=
  [CS_HASHTYPE_SHA256_TRUNCATED, CS_HASHTYPE_SHA256, CS_HASHTYPE_SHA384, CS_HASHTYPE_SHA1]

/-- The field `hashType` of the code directory at offset `cd` of the signature. -/
def cd_hashType (sig : Mem) (cd : Nat) : Nat := read8 sig (cd + 37)

/-- The static function `hash_rank(cd)`. -/
def hash_rank (sig : Mem) (cd : Nat) : Nat := hashRankIn hashPriorities (cd_hashType sig cd) 0

/-- The static function `hash_rank_watchOS_dylibs(cd)`. -/
def hash_rank_watchOS_dylibs (sig : Mem) (cd : Nat) : Nat :=
  hashRankIn hashPriorities_watchOS_dylibs (cd_hashType sig cd) 0

/-- The function `hashRankFn` points to. -/
def hashRankFn (isWatchOS : Bool) (sig : Mem) (cd : Nat) : Nat :=
  if isWatchOS then hash_rank_watchOS_dylibs sig cd else hash_rank sig cd

/-- The field `index[i].type` of the SuperBlob, as stored. -/
def blobIndex_type (sig : Mem) (i : Nat) : Nat :=
  read32 sig (sizeof_CS_SuperBlob + sizeof_CS_BlobIndex * i)

/-- The field `index[i].offset` of the SuperBlob, as stored. -/
def blobIndex_offset (sig : Mem) (i : Nat) : Nat :=
  read32 sig (sizeof_CS_SuperBlob + sizeof_CS_BlobIndex * i + 4)

/-- The test on `index[i].type` at the head of the loop body: the stored value is compared
with `htonl` of the slot constants. -/
def isCodeDirectorySlot (sig : Mem) (i : Nat) : Bool :=
  blobIndex_type sig i == htonl CSSLOT_CODEDIRECTORY
    || (decide (blobIndex_type sig i ≥ htonl CSSLOT_ALTERNATE_CODEDIRECTORIES)
      && decide (blobIndex_type sig i ≤ htonl CSSLOT_ALTERNATE_CODEDIRECTORY_LIMIT))

/-- The part of the loop body before the platform test, for sub-blob `i`: `none` when one
of the three `continue` statements is taken, and otherwise the code directory `cd`, as its
offset `cdOffset` from the start of the signature.  `sizeofCD` is
`sizeof(CS_CodeDirectory)`, which is declared outside the sources. -/
def codeDirectoryAt (sig : Mem) (codeSignLen sizeofCD i : Nat) : Option Nat :=
  if isCodeDirectorySlot sig i then
    if htonl (blobIndex_offset sig i) > sub64 codeSignLen sizeofCD then none
    else if htonl (read32 sig (htonl (blobIndex_offset sig i) + 4))
        > sub64 codeSignLen (htonl (blobIndex_offset sig i)) then none
    else some (htonl (blobIndex_offset sig i))
  else none

/-- The statement `if ( !bestCd || (hashRankFn(cd) > hashRankFn(bestCd)) ) bestCd = cd;`. -/
def betterCodeDirectory (isWatchOS : Bool) (sig : Mem) (cd : Nat) : Option Nat → Option Nat
  | none => some cd
  | some bestCd =>
    if hashRankFn isWatchOS sig cd > hashRankFn isWatchOS sig bestCd then some cd
    else some bestCd

/-- The body of the `for` loop of `forEachCodeDirectoryBlob`, for sub-blob `i`.  The state
is `bestCd` and what the callback captures. -/
def forEachCodeDirectoryBlobStep {σ : Type} (mh : Mem) (isWatchOS : Bool) (sig : Mem)
    (codeSignLen sizeofCD : Nat) (callback : Nat → σ → σ) (i : Nat) (st : Option Nat × σ) :
    Option Nat × σ :=
  match codeDirectoryAt sig codeSignLen sizeofCD i with
  | none => st
  | some cd =>
    if isWatchOS && isMainExecutable mh then (st.1, callback cd st.2)
    else if read32 sig cd == htonl CSMAGIC_CODEDIRECTORY then
      (betterCodeDirectory isWatchOS sig cd st.1, st.2)
    else st

/-- The `for` loop of `forEachCodeDirectoryBlob`.  The first argument counts the
iterations still to run, `i` is the loop counter. -/
def forEachCodeDirectoryBlobLoop {σ : Type} (mh : Mem) (isWatchOS : Bool) (sig : Mem)
    (codeSignLen sizeofCD : Nat) (callback : Nat → σ → σ) :
    Nat → Nat → Option Nat × σ → Option Nat × σ
  | 0, _, st => st
  | n + 1, i, st =>
    forEachCodeDirectoryBlobLoop mh isWatchOS sig codeSignLen sizeofCD callback n (i + 1)
      (forEachCodeDirectoryBlobStep mh isWatchOS sig codeSignLen sizeofCD callback i st)

/-- The three tests at the head of `forEachCodeDirectoryBlob`: true when the function
returns before its loop. -/
def superBlobRejected (sig : Mem) (codeSignLen : Nat) : Bool :=
  decide (codeSignLen < sizeof_CS_SuperBlob)
    || read32 sig 0 != htonl CSMAGIC_EMBEDDED_SIGNATURE
    || decide (sub64 codeSignLen sizeof_CS_SuperBlob / sizeof_CS_BlobIndex
        < htonl (read32 sig 8))

/-- `MachOFile::forEachCodeDirectoryBlob(codeSigStart, codeSignLen, callback)`.  The
signature is the memory `sig`, read at offsets from `codeSigStart`; `isWatchOS` is the
value of `builtForPlatform(Platform::watchOS)`, which is defined outside the sources. -/
def forEachCodeDirectoryBlob {σ : Type} (mh : Mem) (isWatchOS : Bool) (sig : Mem)
    (codeSignLen sizeofCD : Nat) (callback : Nat → σ → σ) (st : σ) : σ :=
  if superBlobRejected sig codeSignLen then st
  else
    match forEachCodeDirectoryBlobLoop mh isWatchOS sig codeSignLen sizeofCD callback
        (htonl (read32 sig 8)) 0 (none, st) with
    | (none, st') => st'
    | (some bestCd, st') => callback bestCd st'

/-- `MachOFile::forEachCDHashOfCodeSignature(codeSigStart, codeSignLen, callback)`.  The
block it passes to `forEachCodeDirectoryBlob` reads the directory's length and declares
`cdHash`; the statements that compute the digest and call `callback` are commented out. -/
def forEachCDHashOfCodeSignature {σ : Type} (mh : Mem) (isWatchOS : Bool) (sig : Mem)
    (codeSignLen sizeofCD : Nat) (_callback : List Nat → σ → σ) (st : σ) : σ :=
  forEachCodeDirectoryBlob mh isWatchOS sig codeSignLen sizeofCD (fun _ s => s) st

/-- The code directories `forEachCodeDirectoryBlob` hands to its callback, in order. -/
def codeDirectoryBlobs (mh : Mem) (isWatchOS : Bool) (sig : Mem)
    (codeSignLen sizeofCD : Nat) : List Nat :=
  forEachCodeDirectoryBlob mh isWatchOS sig codeSignLen sizeofCD
    (fun cd (acc : List Nat) => acc ++ [cd]) []

/-- Sub-blob `i` as the loop takes it for `bestCd`: it passes the tests of the code as
the code makes them, the slot test on the stored word and the two range tests with their
wrapping subtractions (`codeDirectoryAt`), and carries the code-directory magic. -/
def cdCandidateAt (sig : Mem) (codeSignLen sizeofCD i : Nat) : Option Nat :=
  match codeDirectoryAt sig codeSignLen sizeofCD i with
  | none => none
  | some cd => if read32 sig cd == htonl CSMAGIC_CODEDIRECTORY then some cd else none

/-- The sub-blobs the loop takes for `bestCd`, in SuperBlob index order; none when the
head tests fail.  They are what the code tests for, which `inBoundsCandidates` need not
agree with. -/
def cdCandidates (sig : Mem) (codeSignLen sizeofCD : Nat) : List Nat :=
  if superBlobRejected sig codeSignLen then []
  else (List.range' 0 (htonl (read32 sig 8))).filterMap (cdCandidateAt sig codeSignLen sizeofCD)

/-- Big-endian bytes of a SuperBlob header with magic `CSMAGIC_EMBEDDED_SIGNATURE`. -/
def superBlobHeader (length count : Nat) : List Nat :=
  be32 CSMAGIC_EMBEDDED_SIGNATURE ++ be32 length ++ be32 count

/-- Big-endian bytes of the first 40 bytes of a code directory: magic, length, seven
32-bit fields left zero, `hashSize`, `hashType`, `platform`, `pageSize`. -/
def codeDirectoryBytes (length hashType : Nat) : List Nat :=
  be32 CSMAGIC_CODEDIRECTORY ++ be32 length ++ List.replicate 28 0 ++ [32, hashType, 0, 12]

/-- A signature of 0x200 bytes with a SHA-1 code directory at 0x40 (slot 0) and a SHA-256
one at 0x100 (slot 0x1000). -/
def sha1ThenSha256Signature : Mem :=
  memOfPieces [(0, superBlobHeader 0x200 2 ++ be32 CSSLOT_CODEDIRECTORY ++ be32 0x40
      ++ be32 CSSLOT_ALTERNATE_CODEDIRECTORIES ++ be32 0x100),
    (0x40, codeDirectoryBytes 0x60 CS_HASHTYPE_SHA1),
    (0x100, codeDirectoryBytes 0x60 CS_HASHTYPE_SHA256)]

/-- A signature buffer of 20 bytes, a SuperBlob with one index entry of type
`CSSLOT_CODEDIRECTORY` and offset 0x1000, in a memory that has the bytes of a code
directory at 0x1000, past the end of the buffer. -/
def shortSignature : Mem :=
  memOfPieces [(0, superBlobHeader 20 1 ++ be32 CSSLOT_CODEDIRECTORY ++ be32 0x1000),
    (0x1000, codeDirectoryBytes 0x60 CS_HASHTYPE_SHA256)]

/-- A signature of 0x100 bytes whose only sub-blob is a requirements blob of 12 bytes at
0x20, in slot `CSSLOT_REQUIREMENTS`. -/
def requirementsSignature : Mem :=
  memOfPieces [(0, superBlobHeader 0x100 1 ++ be32 CSSLOT_REQUIREMENTS ++ be32 0x20),
    (0x20, be32 CSMAGIC_REQUIREMENTS ++ be32 12 ++ be32 0)]

/-- A signature of 0x100 bytes whose only sub-blob, in slot `CSSLOT_REQUIREMENTS`, has
the bytes of a code directory. -/
def misfiledDirectorySignature : Mem :=
  memOfPieces [(0, superBlobHeader 0x100 1 ++ be32 CSSLOT_REQUIREMENTS ++ be32 0x20),
    (0x20, codeDirectoryBytes 0x60 CS_HASHTYPE_SHA256)]

/-- A 64-bit header of file type `MH_EXECUTE` with no load commands. -/
def mainExecutableHeader : Mem :=
  memOfList (le32 MH_MAGIC_64 ++ le32 0 ++ le32 0 ++ le32 MH_EXECUTE ++ le32 0 ++ le32 0
    ++ le32 0 ++ le32 0)

/-- A 64-bit header of file type `MH_DYLIB` with no load commands. -/
def dylibHeader : Mem :=
  memOfList (le32 MH_MAGIC_64 ++ le32 0 ++ le32 0 ++ le32 6 ++ le32 0 ++ le32 0
    ++ le32 0 ++ le32 0)

/-! ## `MachOFile::removeLoadCommand` -/

/-- Memory after a store of the `uint32_t` value `v` at `a`, in host (little-endian) byte
order. -/
def write32 (m : Mem) (a v : Nat) : Mem := fun x =>
  if x = a then v % 256
  else if x = a + 1 then v / 256 % 256
  else if x = a + 2 then v / 65536 % 256
  else if x = a + 3 then v / 16777216 % 256
  else m x

/-- Memory after `memmove(dst, src, n)`: the `n` bytes that were at `src` before the call
are at `dst`, also when the two ranges overlap. -/
def memmove (m : Mem) (dst src n : Nat) : Mem := fun x =>
  if dst ≤ x ∧ x < dst + n then m (src + (x - dst)) else m x

/-- Memory after `bzero(p, n)`. -/
def bzero (m : Mem) (p n : Nat) : Mem := fun x =>
  if p ≤ x ∧ x < p + n then 0 else m x

/-- The `n` bytes at `a`. -/
def readBytes (m : Mem) : Nat → Nat → List Nat
  | _, 0 => []
  | a, n + 1 => read8 m a :: readBytes m (a + 1) n

/-- The variables of `MachOFile::removeLoadCommand`: the image (`*this` and the bytes that
follow it, which the function writes), `diag` paired with what the callback captures, and
the locals `cmd` and `bytesRemaining`.  `calls` is not a variable of the code: it records,
for each call of the callback, the bytes of the command the callback was handed and the
value it left in `remove`. -/
structure RemoveRun (σ : Type) where
  mem : Mem
  st : Diagnostics × σ
  cmd : Nat
  bytesRemaining : Nat
  calls : List (List Nat × Bool)

/-- How one turn of the loop of `removeLoadCommand` ends: with `return`, with `break`, or
by going on to the next turn. -/
inductive RemoveStep (σ : Type) where
  | returned (s : RemoveRun σ)
  | broke (s : RemoveRun σ)
  | next (s : RemoveRun σ)

/-- The image after `this->sizeofcmds -= cmd->cmdsize`. -/
def removeShrink (m : Mem) (cmd : Nat) : Mem :=
  write32 m 20 (u32 (sizeofcmds m + 4294967296 - lc_cmdsize m cmd))

/-- The image after `this->ncmds--`. -/
def removeCount (m : Mem) : Mem :=
  write32 m 16 (u32 (ncmds m + 4294967296 - 1))

/-- The image after the three statements of the `remove` branch, `nextCmd` being
`cmd + cmd->cmdsize` as computed at the top of the turn. -/
def removeCommandMem (m : Mem) (cmd bytesRemaining : Nat) : Mem :=
  removeCount (memmove (removeShrink m cmd) cmd (cmd + lc_cmdsize m cmd) bytesRemaining)

/-- The state after the callback ran on the command at `cmd` and the `if ( remove )`
statement was executed.  The callback receives the image as it is at the time of the call,
the command, and the captured state; it returns the new state, the value it left in
`remove` and the value it left in `stop`. -/
def removeAfterCallback {σ : Type}
    (callback : Mem → Nat → Diagnostics × σ → (Diagnostics × σ) × Bool × Bool)
    (s : RemoveRun σ) : RemoveRun σ :=
  if (callback s.mem s.cmd s.st).2.1 then
    { mem := removeCommandMem s.mem s.cmd s.bytesRemaining
      st := (callback s.mem s.cmd s.st).1
      cmd := s.cmd
      bytesRemaining := s.bytesRemaining
      calls := s.calls ++ [(readBytes s.mem s.cmd (lc_cmdsize s.mem s.cmd), true)] }
  else
    { mem := s.mem
      st := (callback s.mem s.cmd s.st).1
      cmd := s.cmd + lc_cmdsize s.mem s.cmd
      bytesRemaining := u32 (s.bytesRemaining + 4294967296 - lc_cmdsize s.mem s.cmd)
      calls := s.calls ++ [(readBytes s.mem s.cmd (lc_cmdsize s.mem s.cmd), false)] }

/-- The state with one more message in `diag`. -/
def RemoveRun.error {σ : Type} (s : RemoveRun σ) (msg : DiagMsg) : RemoveRun σ :=
  { s with st := (s.st.1.error msg, s.st.2) }

/-- One turn of the `for` loop of `removeLoadCommand`, `i` being the loop counter. -/
def removeLoadCommandBody {σ : Type} (startCmds cmdsEnd : Nat)
    (callback : Mem → Nat → Diagnostics × σ → (Diagnostics × σ) × Bool × Bool)
    (i : Nat) (s : RemoveRun σ) : RemoveStep σ :=
  if lc_cmdsize s.mem s.cmd < 8 then
    .returned (s.error (.lcSizeTooSmall i (ncmds s.mem) (lc_cmdsize s.mem s.cmd)))
  else if s.cmd + lc_cmdsize s.mem s.cmd > cmdsEnd
      ∨ s.cmd + lc_cmdsize s.mem s.cmd < startCmds then
    .returned (s.error (.lcSizeTooLarge i (ncmds s.mem) (lc_cmdsize s.mem s.cmd)))
  else if (callback s.mem s.cmd s.st).2.2 then .broke (removeAfterCallback callback s)
  else .next (removeAfterCallback callback s)

/-- The `for` loop of `removeLoadCommand`.  The first argument is the number of turns
still to run (`origNcmds - i`); the flag of the result says whether the function
returned from inside the loop. -/
def removeLoadCommandLoop {σ : Type} (startCmds cmdsEnd : Nat)
    (callback : Mem → Nat → Diagnostics × σ → (Diagnostics × σ) × Bool × Bool) :
    Nat → Nat → RemoveRun σ → RemoveRun σ × Bool
  | 0, _, s => (s, false)
  | n + 1, i, s =>
    match removeLoadCommandBody startCmds cmdsEnd callback i s with
    | .returned s' => (s', true)
    | .broke s' => (s', false)
    | .next s' => removeLoadCommandLoop startCmds cmdsEnd callback n (i + 1) s'

/-- The end of `removeLoadCommand`: `bzero(cmd, bytesRemaining)` unless the function
returned from inside the loop.  `cmd` points into the image, so it is not null. -/
def removeLoadCommandFinish {σ : Type} (r : RemoveRun σ × Bool) : RemoveRun σ :=
  if r.2 then r.1
  else { r.1 with mem := bzero r.1.mem r.1.cmd r.1.bytesRemaining }

/-- `MachOFile::removeLoadCommand(diag, callback)`, on the image `mh`; the image after the
call is the field `mem` of the result. -/
def removeLoadCommand {σ : Type} (mh : Mem)
    (callback : Mem → Nat → Diagnostics × σ → (Diagnostics × σ) × Bool × Bool)
    (st : Diagnostics × σ) : RemoveRun σ :=
  if magic mh == MH_MAGIC_64 || magic mh == MH_MAGIC then
    removeLoadCommandFinish
      (removeLoadCommandLoop
        (if magic mh == MH_MAGIC_64 then sizeof_mach_header_64 else sizeof_mach_header)
        ((if magic mh == MH_MAGIC_64 then sizeof_mach_header_64 else sizeof_mach_header)
          + sizeofcmds mh)
        callback (ncmds mh) 0
        { mem := mh
          st := st
          cmd := if magic mh == MH_MAGIC_64 then sizeof_mach_header_64 else sizeof_mach_header
          bytesRemaining := sizeofcmds mh
          calls := [] })
  else if hasMachOBigEndianMagic mh then
    { mem := mh, st := st, cmd := 0, bytesRemaining := 0, calls := [] }
  else
    { mem := mh, st := (st.1.error (.notMachOWords (read32 mh 0) (read32 mh 4)), st.2),
      cmd := 0, bytesRemaining := 0, calls := [] }

/-- The bytes of command `k` of the image. -/
def commandBytes (mh : Mem) (k : Nat) : List Nat :=
  readBytes mh (cmdAddr mh k) (lc_cmdsize mh (cmdAddr mh k))

/-- The bytes of the commands from `k` on whose mark (the value the callback left in
`remove`) is false, in order. -/
def keptCommands (mh : Mem) : Nat → List Bool → List Nat
  | _, [] => []
  | k, true :: marks => keptCommands mh (k + 1) marks
  | k, false :: marks => commandBytes mh k ++ keptCommands mh (k + 1) marks

/-- The sum of the `cmdsize` of the commands from `k` on whose mark is true. -/
def removedSize (mh : Mem) : Nat → List Bool → Nat
  | _, [] => 0
  | k, true :: marks => lc_cmdsize mh (cmdAddr mh k) + removedSize mh (k + 1) marks
  | k, false :: marks => removedSize mh (k + 1) marks

/-- An image of one 64-bit header followed by three load commands, of 8, 12 and 8 bytes
with `cmd` 0x1b, 0x26 and 0x32, and four bytes 0xff after the region. -/
def threeCommandImage : Mem :=
  memOfList (le32 MH_MAGIC_64 ++ le32 0 ++ le32 0 ++ le32 2 ++ le32 3 ++ le32 28 ++ le32 0
    ++ le32 0 ++ le32 0x1b ++ le32 8 ++ le32 0x26 ++ le32 12 ++ le32 7 ++ le32 0x32 ++ le32 8
    ++ [255, 255, 255, 255])

/-- A visitor that marks for removal the commands whose `cmd` is 0x26 and never asks to
stop. -/
def dropVisitor (m : Mem) (cmd : Nat) (st : Diagnostics × Unit) :
    (Diagnostics × Unit) × Bool × Bool :=
  (st, lc_cmd m cmd == 0x26, false)

/-- What holds of the variables of `removeLoadCommand` at the top of turn `i` of its loop,
on an image `mh` whose first `i` commands are well formed and with a callback that has
not asked to stop: the callback has been handed the first `i` commands of `mh`; `cmd` is
just after the commands kept so far, which are at the start of the region;
`bytesRemaining` reaches from `cmd` to the original end of the region; the bytes of the
commands from `i` on are at `cmd`; and the header counts what was removed. -/
structure RemoveInv {σ : Type} (mh : Mem) (i : Nat) (s : RemoveRun σ) : Prop where
  seen : s.calls.map Prod.fst = (List.range i).map (commandBytes mh)
  len : s.calls.length = i
  cmd_eq : s.cmd = machHeaderSize mh + (keptCommands mh 0 (s.calls.map Prod.snd)).length
  split : (keptCommands mh 0 (s.calls.map Prod.snd)).length
    + removedSize mh 0 (s.calls.map Prod.snd) = cmdOffset mh i
  remaining : s.cmd + s.bytesRemaining = machHeaderSize mh + sizeofcmds mh
  kept : ∀ j, j < (keptCommands mh 0 (s.calls.map Prod.snd)).length →
    read8 s.mem (machHeaderSize mh + j) = (keptCommands mh 0 (s.calls.map Prod.snd)).getD j 0
  rest : ∀ j, cmdOffset mh i + j < sizeofcmds mh →
    read8 s.mem (s.cmd + j) = read8 mh (machHeaderSize mh + cmdOffset mh i + j)
  count : ncmds s.mem + (s.calls.map Prod.snd).count true = ncmds mh
  size : sizeofcmds s.mem + removedSize mh 0 (s.calls.map Prod.snd) = sizeofcmds mh

/-! ## Images and visitors for `removeLoadCommand`, `forEachLoadCommand`, `forEachSlice` -/

/-- A visitor of `removeLoadCommand` that marks nothing for removal and asks to stop at
its first call. -/
def stopVisitor (_ : Mem) (_ : Nat) (st : Diagnostics × Unit) :
    (Diagnostics × Unit) × Bool × Bool :=
  (st, false, true)

/-- A header with magic `MH_CIGAM_64` that declares one load command of 8 bytes. -/
def bigEndianImage : Mem :=
  memOfList (le32 MH_CIGAM_64 ++ le32 0 ++ le32 0 ++ le32 2 ++ le32 1 ++ le32 8 ++ le32 0
    ++ le32 0 ++ le32 0x1b ++ le32 8)

/-- A header whose first word is 0x12345678, none of the four Mach-O magic values, and
that declares one load command of 8 bytes. -/
def unknownMagicImage : Mem :=
  memOfList (le32 0x12345678 ++ le32 0 ++ le32 0 ++ le32 2 ++ le32 1 ++ le32 8 ++ le32 0
    ++ le32 0 ++ le32 0x1b ++ le32 8)

/-- A `FAT_MAGIC` archive of length `0x4020` that declares one slice, x86_64 at `0x1000`,
and has after its descriptor the descriptor of an arm64 slice at `0x4000`; each slice is
a 32-byte image without load commands. -/
def hiddenArm64Fat : Mem :=
  memOfPieces
    [(0, be32 FAT_MAGIC ++ be32 1
        ++ fatArchBytes CPU_TYPE_X86_64 CPU_SUBTYPE_X86_64_ALL 0x1000 32
        ++ fatArchBytes CPU_TYPE_ARM64 CPU_SUBTYPE_ARM64_ALL 0x4000 32),
     (0x1000, emptyDylibHeader CPU_TYPE_X86_64 CPU_SUBTYPE_X86_64_ALL),
     (0x4000, emptyDylibHeader CPU_TYPE_ARM64 CPU_SUBTYPE_ARM64_ALL)]

/-- A visitor of `forEachSlice` that records the slice it is handed and sets `stop` at
every call. -/
def stopAtSlice (s : Slice) (acc : List Slice) : List Slice × Bool := (acc ++ [s], true)

/-! ## `isFileRelativePath` and the first statement of `FileSystemPhysical::loadFile`

A path is the list of its characters; the terminating NUL is what `path.getD i 0` gives
at its end. -/

/-- `isFileRelativePath(path)`. -/
def isFileRelativePath (path : List Nat) : Bool :=
  if path.getD 0 0 == 0x2f then false
  else if path.getD 0 0 != 0x2e then true
  else if path.getD 1 0 == 0x2f then true
  else if path.getD 1 0 == 0x2e && path.getD 2 0 == 0x2f then true
  else false

/-- The test of the first statement of `FileSystemPhysical::loadFile`,
`!_allowRelativePaths && isFileRelativePath(path)`: when it holds, `loadFile` reports
"relative file paths not allowed" and returns false before it opens anything. -/
def loadFileRejectsAsRelative (_allowRelativePaths : Bool) (path : List Nat) : Bool :=
  !_allowRelativePaths && isFileRelativePath path

/-- ".hidden/lib.dylib". -/
def str_hiddenLib : List Nat :=
  [0x2e, 0x68, 0x69, 0x64, 0x64, 0x65, 0x6e, 0x2f, 0x6c, 0x69, 0x62, 0x2e, 0x64, 0x79, 0x6c,
    0x69, 0x62]

/-- "..". -/
def str_dotdot : List Nat := [0x2e, 0x2e]

/-! ## `MachOFile::enforceFormat` -/

/-- Modelled from the spec: `mach_o::Platform` is declared outside the sources.  These
are the platforms `enforceFormat` compares with, the empty platform of a binary that
carries no platform information (`platform.empty()`), and any other platform, by its
number. -/
inductive Platform where
  | macOS | iOS | tvOS | macCatalyst | watchOS | driverKit | visionOS | visionOS_simulator
  | empty
  | other (value : Nat)
  deriving DecidableEq, Repr

/-- Modelled from the spec: `mach_o::PlatformAndVersions` is declared outside the sources;
`enforceFormat` reads its `platform` and `sdk.value()`, a 32-bit version number. -/
structure PlatformAndVersions where
  platform : Platform
  sdk : Nat
  deriving DecidableEq, Repr

/-- The `switch (kind)` of the macOS branch of the block `enforceFormat` passes to
`unzip`; `result` is the captured variable. -/
def enforceFormat_macOS (kind : Malformed) (sdk : Nat) (result : Bool) : Bool :=
  match kind with
  | .linkeditOrder | .linkeditAlignment | .dyldInfoAndlocalRelocs =>
    if sdk ≥ 0x000A0E00 then true else result
  | .segmentOrder | .linkeditPermissions | .textPermissions | .executableData
  | .writableData | .codeSigAlignment =>
    if sdk ≥ 0x000A0F00 then true else result
  | .sectionsAddrRangeWithinSegment =>
    if sdk ≥ 0x000A1000 then true else result
  | .noLinkedDylibs | .loaderPathsAreReal | .mainExecInDyldCache | .zerofillSwiftMetadata
  | .sdkOnOrAfter2021 =>
    if sdk ≥ 0x000D0000 then true else result
  | .noUUID | .sdkOnOrAfter2022 =>
    if sdk ≥ 0x000E0000 then true else result

/-- The `switch (kind)` of the branch for iOS, tvOS and macCatalyst. -/
def enforceFormat_iOS (kind : Malformed) (sdk : Nat) (result : Bool) : Bool :=
  match kind with
  | .linkeditOrder | .dyldInfoAndlocalRelocs | .textPermissions | .executableData
  | .writableData => true
  | .linkeditAlignment | .segmentOrder | .linkeditPermissions | .codeSigAlignment =>
    if sdk ≥ 0x000D0000 then true else result
  | .sectionsAddrRangeWithinSegment =>
    if sdk ≥ 0x000E0000 then true else result
  | .noLinkedDylibs | .loaderPathsAreReal | .mainExecInDyldCache | .zerofillSwiftMetadata
  | .sdkOnOrAfter2021 =>
    if sdk ≥ 0x00100000 then true else result
  | .noUUID | .sdkOnOrAfter2022 =>
    if sdk ≥ 0x00110000 then true else result

/-- The `switch (kind)` of the watchOS branch. -/
def enforceFormat_watchOS (kind : Malformed) (sdk : Nat) (result : Bool) : Bool :=
  match kind with
  | .linkeditOrder | .dyldInfoAndlocalRelocs | .textPermissions | .executableData
  | .writableData => true
  | .linkeditAlignment | .segmentOrder | .linkeditPermissions | .codeSigAlignment
  | .sectionsAddrRangeWithinSegment | .noLinkedDylibs | .loaderPathsAreReal
  | .mainExecInDyldCache | .zerofillSwiftMetadata | .sdkOnOrAfter2021 =>
    if sdk ≥ 0x00090000 then true else result
  | .noUUID | .sdkOnOrAfter2022 =>
    if sdk ≥ 0x000A0000 then true else result

/-- The block `enforceFormat` passes to `pvs.unzip`, run on `p` with the captured
`result`. -/
def enforceFormatBlock (kind : Malformed) (p : PlatformAndVersions) (result : Bool) : Bool :=
  if p.platform = .macOS then enforceFormat_macOS kind p.sdk result
  else if p.platform = .iOS ∨ p.platform = .tvOS ∨ p.platform = .macCatalyst then
    enforceFormat_iOS kind p.sdk result
  else if p.platform = .watchOS then enforceFormat_watchOS kind p.sdk result
  else if p.platform = .driverKit then true
  else if p.platform = .visionOS ∨ p.platform = .visionOS_simulator then
    if kind = .sdkOnOrAfter2022 then (if p.sdk < 0x00020000 then false else true)
    else true
  else if p.platform = .empty then false
  else true

/-- `MachOFile::enforceFormat(kind)` as built into dyld (the two special cases for kernel
collections and static executables are compiled only under `BUILDING_DYLDINFO` or
`BUILDING_APP_CACHE_UTIL`).  `Header::platformAndVersions` and
`PlatformAndVersions::unzip` are declared outside the sources: `unzipped` is the list of
the values `unzip` hands to the block, in order; it is the one value of the image, or two
for a zippered image. -/
def enforceFormat (kind : Malformed) (unzipped : List PlatformAndVersions) : Bool :=
  unzipped.foldl (fun result p => enforceFormatBlock kind p result) false

/-- A dylib whose first segment is `__LINKEDIT` (vm `[0x1000,0x2000)`, file
`[0x1000,0x2000)`) and whose second is `__TEXT` (vm `[0x2000,0x3000)`, file `[0,0x1000)`):
the vm addresses rise, the file offsets fall, and the later file offset is 0. -/
def zeroOffsetLastImage : Mem :=
  memOfList (machHeader64 6 2 144 0
    ++ segmentCommand64 72 str_LINKEDIT 0x1000 0x1000 0x1000 0x1000 1 0 0
    ++ segmentCommand64 72 str_TEXT 0x2000 0x1000 0 0x1000 5 0 0)

/-- The test of the segment-order statement of `validSegments` on `info1` and `info2`. -/
def orderTest (info1 info2 : SegmentInfo) : Bool :=
  decide (info1.vmaddr > info2.vmaddr)
    || (decide (info1.fileOffset > info2.fileOffset) && info1.fileOffset != 0
      && info2.fileOffset != 0)

/-! ## `walkChain`: visitors that write into the slot they are handed -/

/-- Where the `next` field of the snapshot `chainContent` leads from `chain`, before any
skipping of non-pointers: the `switch` of `walkChain` taken with `notifyNonPointers`
true, where it reads nothing but the snapshot. -/
def firstHop (pointer_format stride chain chainContent : Nat) : ChainStep :=
  walkChainSwitch pointer_format stride true 0 0 chain chainContent (fun _ => 0)

/-- The link of the word `chainContent` at `chain` ends the chain or leads at least `slot`
bytes on, past the slot at `chain`. -/
def linkClearsSlot (pointer_format stride slot chain chainContent : Nat) : Prop :=
  match firstHop pointer_format stride chain chainContent with
  | .moveTo c => chain + slot ≤ c
  | _ => True

instance (pointer_format stride slot chain chainContent : Nat) :
    Decidable (linkClearsSlot pointer_format stride slot chain chainContent) := by
  unfold linkClearsSlot
  split <;> infer_instance

/-- A visitor that fills the eight bytes of the slot it is handed with 0xFF and never asks
to stop. -/
def fillHandler (chain : Nat) (st : Mem × Unit) : (Mem × Unit) × Bool :=
  ((fun x => if chain ≤ x ∧ x < chain + 8 then 255 else st.1 x, ()), false)

/-- One word whose `kernel64.next` is 1, followed by zero bytes. -/
def unalignedChain : Mem := memOfList (le64 (2 ^ 51))

/-- Two words eight bytes apart: the first with `generic64.rebase.next` 2, the second with
`next` 0. -/
def twoWordChain : Mem := memOfList (le64 (2 * 2 ^ 51 + 0x1000) ++ le64 0x2000)

/-! ## Export trie: blobs that end early, and a blob beyond 4 GiB with an empty label -/

/-- A blob of one byte, a root with no terminal payload, in a memory of zero bytes. -/
def oneByteTrie : Mem := memOfList [0x00]

/-- The same blob of one byte, in a memory that goes on after it with a child count of 1,
the edge "a" and the child offset 5. -/
def oneByteTrieThenEdge : Mem := memOfList [0x00, 0x01, 0x61, 0x00, 0x05]

/-- A blob of three bytes, a root with one child whose label "a" has no NUL inside the
blob, in a memory of zero bytes. -/
def openLabelTrie : Mem := memOfList [0x00, 0x01, 0x61]

/-- The same blob of three bytes, in a memory that goes on after it with 'b' and a
NUL. -/
def openLabelTrieThenB : Mem := memOfList [0x00, 0x01, 0x61, 0x62, 0x00, 0x00]

/-- A blob of 2^32 + 32 bytes: the root at 0 with an edge of empty label to the node at
2^32 + 16, which has no terminal payload and an edge of empty label to itself. -/
def emptyLabelLoopTrie : Mem :=
  memOfPieces
    [(0, [0x00, 0x01, 0x00, 0x90, 0x80, 0x80, 0x80, 0x10]),
     (4294967312, [0x00, 0x01, 0x00, 0x90, 0x80, 0x80, 0x80, 0x10])]

/-! ## Code signature: the candidates as the description states them

These definitions follow the description of `forEachCodeDirectoryBlob`, not its code:
slot types are compared after decoding, and the ranges are tested in exact arithmetic. -/

/-- The declared slot type of sub-blob `i`, decoded from its big-endian on-disk form. -/
def slotType (sig : Mem) (i : Nat) : Nat := htonl (blobIndex_type sig i)

/-- A slot type of a code directory: `CSSLOT_CODEDIRECTORY` or one of the alternate
code-directory types `CSSLOT_ALTERNATE_CODEDIRECTORIES` to
`CSSLOT_ALTERNATE_CODEDIRECTORY_LIMIT`. -/
def isCodeDirectoryType (t : Nat) : Prop :=
  t = CSSLOT_CODEDIRECTORY
    ∨ (CSSLOT_ALTERNATE_CODEDIRECTORIES ≤ t ∧ t ≤ CSSLOT_ALTERNATE_CODEDIRECTORY_LIMIT)

instance (t : Nat) : Decidable (isCodeDirectoryType t) := by
  unfold isCodeDirectoryType
  infer_instance

/-- Sub-blob `i` as an in-bounds candidate carrying the code-directory magic: its decoded
slot type is a code-directory type, `cdOffset + sizeof(CS_CodeDirectory)` and
`cdOffset + cdLength` are at most `codeSignLen` in exact arithmetic, and its decoded
magic is `CSMAGIC_CODEDIRECTORY`.  The value is its offset `cdOffset`. -/
def inBoundsCandidateAt (sig : Mem) (codeSignLen sizeofCD i : Nat) : Option Nat :=
  if isCodeDirectoryType (slotType sig i)
      ∧ htonl (blobIndex_offset sig i) + sizeofCD ≤ codeSignLen
      ∧ htonl (blobIndex_offset sig i)
          + htonl (read32 sig (htonl (blobIndex_offset sig i) + 4)) ≤ codeSignLen
      ∧ htonl (read32 sig (htonl (blobIndex_offset sig i))) = CSMAGIC_CODEDIRECTORY
  then some (htonl (blobIndex_offset sig i))
  else none

/-- The in-bounds candidates carrying the code-directory magic, in SuperBlob index order,
of a signature whose SuperBlob has the embedded-signature magic and an index that fits:
`subBlobCount * sizeof(CS_BlobIndex) + sizeof(CS_SuperBlob) ≤ codeSignLen`.  Any other
signature has none. -/
def inBoundsCandidates (sig : Mem) (codeSignLen sizeofCD : Nat) : List Nat :=
  if sizeof_CS_SuperBlob ≤ codeSignLen
      ∧ htonl (read32 sig 0) = CSMAGIC_EMBEDDED_SIGNATURE
      ∧ htonl (read32 sig 8) * sizeof_CS_BlobIndex + sizeof_CS_SuperBlob ≤ codeSignLen
  then (List.range' 0 (htonl (read32 sig 8))).filterMap
    (inBoundsCandidateAt sig codeSignLen sizeofCD)
  else []

end Dyld

/-! # Theorems -/

namespace Dyld

/-! ## Lemmas: `forEachLoadCommand` -/

theorem Diagnostics.error_ne (d : Diagnostics) (m : DiagMsg) : d.error m ≠ d := by
  intro h
  have := congrArg (fun x => x.msgs.length) h
  simp [Diagnostics.error] at this

theorem forEachLoadCommandLoop_eq_scan {σ : Type} (mh : Mem) (startCmds cmdsEnd cmdsLast : Nat)
    (callback : Nat → Diagnostics × σ → (Diagnostics × σ) × Bool) :
    ∀ (n i cmd : Nat) (st : Diagnostics × σ),
      forEachLoadCommandLoop mh startCmds cmdsEnd cmdsLast callback n i cmd st =
        let sc := scanLoadCommands mh startCmds cmdsEnd cmdsLast n i cmd
        let r := iterStop callback sc.1 st
        if r.2 then r.1 else
          match sc.2 with
          | none => r.1
          | some e => (r.1.1.error e, r.1.2) := by
  intro n
  induction n with
  | zero => intro i cmd st; simp [forEachLoadCommandLoop, scanLoadCommands, iterStop]
  | succ n ih =>
    intro i cmd st
    unfold forEachLoadCommandLoop scanLoadCommands
    by_cases h1 : cmd > cmdsLast
    · simp [h1, iterStop]
    · by_cases h2 : lc_cmdsize mh cmd < 8
      · simp [h1, h2, iterStop]
      · by_cases h3 : (lc_cmdsize mh cmd % 4 != 0) = true
        · simp only [h1, h2, h3, if_true, if_false, iterStop]
          simp
        · by_cases h4 : (decide (cmd + lc_cmdsize mh cmd > cmdsEnd)
              || decide (cmd + lc_cmdsize mh cmd < startCmds)) = true
          · simp only [h1, h2, h3, h4, if_true, if_false, iterStop]
            simp
          · simp only [h1, h2, h3, h4, if_false, iterStop]
            by_cases h5 : (callback cmd st).2 = true
            · simp [h5]
            · have ih2 := ih (i + 1) (cmd + lc_cmdsize mh cmd) (callback cmd st).1
              simp only [Bool.not_eq_true] at h5
              simp only [h5, ih2]
              simp

theorem machHeaderSize_ge (mh : Mem) : 28 ≤ machHeaderSize mh := by
  unfold machHeaderSize sizeof_mach_header_64 sizeof_mach_header
  split <;> omega

theorem forEachLoadCommand_eq_scan {σ : Type} (mh : Mem)
    (callback : Nat → Diagnostics × σ → (Diagnostics × σ) × Bool) (st : Diagnostics × σ)
    (hmagic : hasMachOMagic mh = true) (hft : filetype mh ≤ 12) :
    forEachLoadCommand mh callback st =
      finishScan (iterStop callback (scanImage mh).1 st) (scanImage mh).2 := by
  have hm : (magic mh == MH_MAGIC_64 || magic mh == MH_MAGIC) = true := by
    unfold hasMachOMagic at hmagic
    rw [Bool.or_comm]; exact hmagic
  have hft2 : ¬ filetype mh > 12 := by omega
  unfold forEachLoadCommand
  simp only [hm, if_true, hft2, if_false]
  rw [forEachLoadCommandLoop_eq_scan]
  unfold scanImage finishScan machHeaderSize is64
  rfl

theorem scan_step_valid (mh : Mem) (n i : Nat) (hv : cmdValid mh i) :
    scanLoadCommands mh (machHeaderSize mh) (machHeaderSize mh + sizeofcmds mh)
      (machHeaderSize mh + sizeofcmds mh - sizeof_load_command) (n + 1) i (cmdAddr mh i) =
    (cmdAddr mh i :: (scanLoadCommands mh (machHeaderSize mh) (machHeaderSize mh + sizeofcmds mh)
        (machHeaderSize mh + sizeofcmds mh - sizeof_load_command) n (i + 1) (cmdAddr mh (i + 1))).1,
      (scanLoadCommands mh (machHeaderSize mh) (machHeaderSize mh + sizeofcmds mh)
        (machHeaderSize mh + sizeofcmds mh - sizeof_load_command) n (i + 1) (cmdAddr mh (i + 1))).2) := by
  obtain ⟨h1, h2, h3, h4⟩ := hv
  have hH := machHeaderSize_ge mh
  have e1 : ¬ cmdAddr mh i > machHeaderSize mh + sizeofcmds mh - sizeof_load_command := by
    unfold cmdAddr sizeof_load_command; omega
  have e2 : ¬ lc_cmdsize mh (cmdAddr mh i) < 8 := by omega
  have e3 : (lc_cmdsize mh (cmdAddr mh i) % 4 != 0) = false := by simp [h3]
  have e4 : (decide (cmdAddr mh i + lc_cmdsize mh (cmdAddr mh i) > machHeaderSize mh + sizeofcmds mh)
      || decide (cmdAddr mh i + lc_cmdsize mh (cmdAddr mh i) < machHeaderSize mh)) = false := by
    have a : ¬ (cmdAddr mh i + lc_cmdsize mh (cmdAddr mh i) > machHeaderSize mh + sizeofcmds mh) := by
      unfold cmdAddr at *; omega
    have b : ¬ (cmdAddr mh i + lc_cmdsize mh (cmdAddr mh i) < machHeaderSize mh) := by
      unfold cmdAddr at *; omega
    simp [a, b]
  have e5 : cmdAddr mh i + lc_cmdsize mh (cmdAddr mh i) = cmdAddr mh (i + 1) := by
    simp only [cmdAddr, cmdOffset]; omega
  conv => lhs; unfold scanLoadCommands
  simp only [e1, e2, e3, e4, if_false, Bool.false_eq_true]
  rw [e5]

theorem scan_step_invalid (mh : Mem) (n i : Nat) (hv : ¬ cmdValid mh i) :
    ∃ e, scanLoadCommands mh (machHeaderSize mh) (machHeaderSize mh + sizeofcmds mh)
      (machHeaderSize mh + sizeofcmds mh - sizeof_load_command) (n + 1) i (cmdAddr mh i) =
      ([], some e) ∧ e.loadCommandIndex = some i := by
  have hH := machHeaderSize_ge mh
  by_cases e1 : cmdAddr mh i > machHeaderSize mh + sizeofcmds mh - sizeof_load_command
  · refine ⟨.lcExtendsPastSizeofcmds i (ncmds mh), ?_, rfl⟩
    unfold scanLoadCommands
    simp only [e1, if_true]
  · by_cases e2 : lc_cmdsize mh (cmdAddr mh i) < 8
    · refine ⟨.lcSizeTooSmall i (ncmds mh) (lc_cmdsize mh (cmdAddr mh i)), ?_, rfl⟩
      unfold scanLoadCommands
      simp only [e1, e2, if_true, if_false]
    · by_cases e3 : (lc_cmdsize mh (cmdAddr mh i) % 4 != 0) = true
      · refine ⟨.lcSizeNotMultipleOf4 i (ncmds mh) (lc_cmdsize mh (cmdAddr mh i)), ?_, rfl⟩
        unfold scanLoadCommands
        simp only [e1, e2, e3, if_true, if_false]
      · by_cases e4 : (decide (cmdAddr mh i + lc_cmdsize mh (cmdAddr mh i)
            > machHeaderSize mh + sizeofcmds mh)
          || decide (cmdAddr mh i + lc_cmdsize mh (cmdAddr mh i) < machHeaderSize mh)) = true
        · refine ⟨.lcSizeTooLarge i (ncmds mh) (lc_cmdsize mh (cmdAddr mh i)), ?_, rfl⟩
          unfold scanLoadCommands
          simp only [e1, e2, e3, e4, if_true, if_false]
          simp
        · exfalso
          apply hv
          simp only [bne_iff_ne, ne_eq, not_not] at e3
          simp only [Bool.or_eq_true, decide_eq_true_eq, not_or, not_lt] at e4
          simp only [cmdAddr, sizeof_load_command, cmdValid] at *
          refine ⟨by omega, by omega, e3, by omega⟩

theorem scan_all_valid (mh : Mem) :
    ∀ (n i : Nat), (∀ k, i ≤ k → k < i + n → cmdValid mh k) →
      scanLoadCommands mh (machHeaderSize mh) (machHeaderSize mh + sizeofcmds mh)
        (machHeaderSize mh + sizeofcmds mh - sizeof_load_command) n i (cmdAddr mh i) =
      ((List.range' i n).map (cmdAddr mh), none) := by
  intro n
  induction n with
  | zero => intro i _; simp [scanLoadCommands]
  | succ n ih =>
    intro i h
    rw [scan_step_valid mh n i (h i (le_refl _) (by omega))]
    rw [ih (i + 1) (fun k hk1 hk2 => h k (by omega) (by omega))]
    simp [List.range'_succ]

theorem scan_first_invalid (mh : Mem) :
    ∀ (n i j : Nat), i ≤ j → j < i + n → (∀ k, i ≤ k → k < j → cmdValid mh k) →
      ¬ cmdValid mh j →
      ∃ e, scanLoadCommands mh (machHeaderSize mh) (machHeaderSize mh + sizeofcmds mh)
        (machHeaderSize mh + sizeofcmds mh - sizeof_load_command) n i (cmdAddr mh i) =
        ((List.range' i (j - i)).map (cmdAddr mh), some e) ∧ e.loadCommandIndex = some j := by
  intro n
  induction n with
  | zero => intro i j h1 h2; omega
  | succ n ih =>
    intro i j hij hj hval hinv
    by_cases hji : j = i
    · subst hji
      obtain ⟨e, he, hidx⟩ := scan_step_invalid mh n j hinv
      exact ⟨e, by simpa using he, hidx⟩
    · rw [scan_step_valid mh n i (hval i (le_refl _) (by omega))]
      obtain ⟨e, he, hidx⟩ := ih (i + 1) j (by omega) (by omega)
        (fun k hk1 hk2 => hval k (by omega) hk2) hinv
      refine ⟨e, ?_, hidx⟩
      rw [he]
      have : j - i = (j - (i + 1)) + 1 := by omega
      rw [this, List.range'_succ]
      simp

theorem iterStop_noStop {α τ : Type} (callback : α → τ → τ × Bool)
    (hns : ∀ a t, (callback a t).2 = false) :
    ∀ (l : List α) (t : τ),
      iterStop callback l t = (l.foldl (fun t a => (callback a t).1) t, false) := by
  intro l
  induction l with
  | nil => intro t; rfl
  | cons a as ih => intro t; simp [iterStop, hns, ih]

theorem foldl_keeps_diag {σ : Type}
    (visitor : Nat → Diagnostics × σ → (Diagnostics × σ) × Bool)
    (hdiag : ∀ cmd st, (visitor cmd st).1.1 = st.1) :
    ∀ (l : List Nat) (st : Diagnostics × σ),
      (l.foldl (fun st cmd => (visitor cmd st).1) st).1 = st.1 := by
  intro l
  induction l with
  | nil => intro st; rfl
  | cons a as ih => intro st; simp only [List.foldl_cons]; rw [ih, hdiag]

theorem cmdOffset_mono (mh : Mem) (m : Nat)
    (hsz : ∀ k, k < m → 8 ≤ lc_cmdsize mh (cmdAddr mh k)) :
    ∀ k, k < m → cmdOffset mh k + 8 ≤ cmdOffset mh m := by
  induction m with
  | zero => intro k hk; omega
  | succ m ih =>
    intro k hk
    have hm := hsz m (by omega)
    have hstep : cmdOffset mh (m + 1) = cmdOffset mh m + lc_cmdsize mh (cmdAddr mh m) := rfl
    by_cases hkm : k = m
    · subst hkm; omega
    · have := ih (fun k hk => hsz k (by omega)) k (by omega)
      omega

/-! ## Lemmas: iteration with a stop flag -/

theorem forEachLoadCommand_eq_imageScan {σ : Type} (mh : Mem)
    (callback : Nat → Diagnostics × σ → (Diagnostics × σ) × Bool) (st : Diagnostics × σ) :
    forEachLoadCommand mh callback st =
      finishScan (iterStop callback (imageScan mh).1 st) (imageScan mh).2 := by
  by_cases hm : (magic mh == MH_MAGIC_64 || magic mh == MH_MAGIC) = true
  · by_cases hft : filetype mh > 12
    · simp [forEachLoadCommand, imageScan, hm, hft, finishScan, iterStop]
    · have hm2 : hasMachOMagic mh = true := by
        unfold hasMachOMagic; rw [Bool.or_comm]; exact hm
      rw [forEachLoadCommand_eq_scan mh callback st hm2 (by omega)]
      simp [imageScan, hm, hft]
  · by_cases hb : hasMachOBigEndianMagic mh = true
    · simp [forEachLoadCommand, imageScan, hm, hb, finishScan, iterStop]
    · simp [forEachLoadCommand, imageScan, hm, hb, finishScan, iterStop]

theorem finishScan_snd {σ : Type} (r : (Diagnostics × σ) × Bool) (err : Option DiagMsg) :
    (finishScan r err).2 = r.1.2 := by
  unfold finishScan
  split
  · rfl
  · split <;> rfl

theorem foldl_recordVisitor (l : List Nat) :
    ∀ (d : Diagnostics) (acc : List Nat),
      l.foldl (fun st cmd => (recordVisitor cmd st).1) (d, acc) = (d, acc ++ l) := by
  induction l with
  | nil => intro d acc; simp
  | cons a as ih =>
    intro d acc
    rw [List.foldl_cons]
    show List.foldl (fun st cmd => (recordVisitor cmd st).1) (d, acc ++ [a]) as = _
    rw [ih]
    simp

theorem loadCommandsOf_eq (mh : Mem) : loadCommandsOf mh = (imageScan mh).1 := by
  unfold loadCommandsOf
  rw [forEachLoadCommand_eq_imageScan, finishScan_snd,
    iterStop_noStop recordVisitor (fun _ _ => rfl), foldl_recordVisitor]
  simp

theorem iterStop_segmentCallback {τ : Type} (mh : Mem)
    (callback : SegmentInfo → τ → τ × Bool) :
    ∀ (l : List Nat) (d : Diagnostics) (t : τ) (idx : Nat),
      (iterStop (segmentCallback mh callback) l (d, (t, idx))).1.2.1 =
          (iterStop callback (segInfosFrom mh l idx) t).1 ∧
      (iterStop (segmentCallback mh callback) l (d, (t, idx))).2 =
          (iterStop callback (segInfosFrom mh l idx) t).2 := by
  intro l
  induction l with
  | nil => intro d t idx; simp [iterStop, segInfosFrom]
  | cons cmd rest ih =>
    intro d t idx
    by_cases h64 : (lc_cmd mh cmd == LC_SEGMENT_64) = true
    · by_cases hs : (callback (segmentInfo64 mh cmd idx) t).2 = true
      · simp [iterStop, segInfosFrom, segmentCallback, h64, hs]
      · simp only [Bool.not_eq_true] at hs
        simp only [iterStop, segInfosFrom, segmentCallback, h64, hs, if_true]
        simpa using ih d (callback (segmentInfo64 mh cmd idx) t).1 (idx + 1)
    · by_cases h32 : (lc_cmd mh cmd == LC_SEGMENT) = true
      · by_cases hs : (callback (segmentInfo32 mh cmd idx) t).2 = true
        · simp [iterStop, segInfosFrom, segmentCallback, h64, h32, hs]
        · simp only [Bool.not_eq_true] at hs
          simp only [iterStop, segInfosFrom, segmentCallback, h64, h32, hs, if_true]
          simpa using ih d (callback (segmentInfo32 mh cmd idx) t).1 (idx + 1)
      · simp only [iterStop, segInfosFrom, segmentCallback, h64, h32]
        simpa using ih d t idx

theorem forEachSegment_eq {τ : Type} (mh : Mem) (callback : SegmentInfo → τ → τ × Bool)
    (t : τ) :
    forEachSegment mh callback t =
      (iterStop callback (segInfosFrom mh (imageScan mh).1 0) t).1 := by
  unfold forEachSegment
  rw [forEachLoadCommand_eq_imageScan, finishScan_snd]
  exact (iterStop_segmentCallback mh callback (imageScan mh).1 {} t 0).1

theorem segmentsOf_eq (mh : Mem) : segmentsOf mh = segInfosFrom mh (imageScan mh).1 0 := by
  unfold segmentsOf
  rw [forEachSegment_eq, iterStop_noStop _ (fun _ _ => rfl)]
  generalize segInfosFrom mh (imageScan mh).1 0 = l
  have : ∀ (acc : List SegmentInfo),
      l.foldl (fun t a => (t ++ [a], false).1) acc = acc ++ l := by
    induction l with
    | nil => intro acc; simp
    | cons a as ih => intro acc; simp [ih]
  simpa using this []

theorem forEachSegment_eq_segmentsOf {τ : Type} (mh : Mem)
    (callback : SegmentInfo → τ → τ × Bool) (t : τ) :
    forEachSegment mh callback t = (iterStop callback (segmentsOf mh) t).1 := by
  rw [forEachSegment_eq, segmentsOf_eq]

theorem forEachLoadCommand_snd_eq {σ : Type} (mh : Mem)
    (callback : Nat → Diagnostics × σ → (Diagnostics × σ) × Bool) (st : Diagnostics × σ) :
    (forEachLoadCommand mh callback st).2 = (iterStop callback (loadCommandsOf mh) st).1.2 := by
  rw [forEachLoadCommand_eq_imageScan, finishScan_snd, loadCommandsOf_eq]

theorem iterStop_bad_mono {α τ : Type} (callback : α → τ → τ × Bool) (bad : τ → Bool)
    (hmono : ∀ a t, bad t = true → bad (callback a t).1 = true) :
    ∀ (l : List α) (t : τ), bad t = true → bad (iterStop callback l t).1 = true := by
  intro l
  induction l with
  | nil => intro t h; simpa [iterStop] using h
  | cons a as ih =>
    intro t h
    simp only [iterStop]
    split
    · exact hmono a t h
    · exact ih _ (hmono a t h)

theorem iterStop_ok_forall {α τ : Type} (callback : α → τ → τ × Bool) (bad : τ → Bool)
    (flag : α → Prop)
    (hmono : ∀ a t, bad t = true → bad (callback a t).1 = true)
    (hstop : ∀ a t, (callback a t).2 = true → bad (callback a t).1 = true)
    (hflag : ∀ a t, flag a → bad (callback a t).1 = true) :
    ∀ (l : List α) (t : τ), bad (iterStop callback l t).1 = false → ∀ a ∈ l, ¬ flag a := by
  intro l
  induction l with
  | nil => intro t _ a ha; simp at ha
  | cons x xs ih =>
    intro t hok a ha hfa
    simp only [iterStop] at hok
    by_cases hs : (callback x t).2 = true
    · simp only [hs, if_true] at hok
      rw [hstop x t hs] at hok
      exact Bool.noConfusion hok
    · simp only [Bool.not_eq_true] at hs
      simp only [hs, Bool.false_eq_true, if_false] at hok
      rcases List.mem_cons.mp ha with rfl | hmem
      · have h1 := hflag a t hfa
        have h2 := iterStop_bad_mono callback bad hmono xs _ h1
        rw [h2] at hok
        exact Bool.noConfusion hok
      · exact ih _ hok a hmem hfa

/-! ## Lemmas: the blocks of `validSegments` -/

theorem validSegments_true (mh : Mem) (ef : Malformed → Bool) (d : Diagnostics) (fileLen : Nat)
    (h : (validSegments mh ef d fileLen).2 = true) :
    ∃ (d2 d3 d4 : Diagnostics),
      (forEachLoadCommand mh (checkSegmentLoadCommand mh fileLen) (d, false)).2 = false ∧
      (forEachSegment mh (checkSegmentBounds mh ef fileLen)
          { diag := d2, badPermissions := false, badSize := false, hasTEXT := false,
            hasLINKEDIT := false }).badPermissions = false ∧
      (forEachSegment mh (checkSegmentBounds mh ef fileLen)
          { diag := d2, badPermissions := false, badSize := false, hasTEXT := false,
            hasLINKEDIT := false }).badSize = false ∧
      (forEachSegment mh (checkSegmentBounds mh ef fileLen)
          { diag := d2, badPermissions := false, badSize := false, hasTEXT := false,
            hasLINKEDIT := false }).hasTEXT = true ∧
      (forEachSegment mh (checkSegmentOverlaps mh ef) (d3, false)).2 = false ∧
      (forEachLoadCommand mh (checkSections mh ef) (d4, false)).2 = false := by
  unfold validSegments at h
  simp only at h
  split at h
  · exact absurd h (by simp)
  · rename_i h1
    split at h
    · exact absurd h (by simp)
    · rename_i h2
      split at h
      · exact absurd h (by simp)
      · rename_i h3
        split at h
        · exact absurd h (by simp)
        · split at h
          · exact absurd h (by simp)
          · rename_i h5
            simp only [Bool.or_eq_true, not_or, Bool.not_eq_true] at h2
            simp only [Bool.not_eq_true, Bool.not_eq_true', Bool.not_eq_false] at h1 h3 h5
            simp only [Bool.not_eq_true'] at h
            exact ⟨_, _, _, h1, h2.1, h2.2, h3, h5, h⟩

theorem checkSegmentLoadCommand_bad (mh : Mem) (fileLen cmd : Nat) (st : Diagnostics × Bool) :
    (checkSegmentLoadCommand mh fileLen cmd st).1.2 =
      (st.2 || (checkSegmentLoadCommand mh fileLen cmd ({}, false)).1.2) := by
  unfold checkSegmentLoadCommand checkSegmentCommand64 checkSegmentCommand32
  split_ifs <;> first | exact (Bool.or_true _).symm | exact (Bool.or_false _).symm

theorem checkSegmentLoadCommand_stop (mh : Mem) (fileLen cmd : Nat) (st : Diagnostics × Bool)
    (h : (checkSegmentLoadCommand mh fileLen cmd st).2 = true) :
    (checkSegmentLoadCommand mh fileLen cmd st).1.2 = true := by
  unfold checkSegmentLoadCommand checkSegmentCommand64 checkSegmentCommand32 at h ⊢
  split_ifs at h ⊢ <;> rfl

theorem stage1_ok (mh : Mem) (fileLen : Nat) (d : Diagnostics)
    (h : (forEachLoadCommand mh (checkSegmentLoadCommand mh fileLen) (d, false)).2 = false) :
    ∀ cmd ∈ loadCommandsOf mh,
      (checkSegmentLoadCommand mh fileLen cmd ({}, false)).1.2 = false := by
  rw [forEachLoadCommand_snd_eq] at h
  intro cmd hcmd
  have := iterStop_ok_forall (checkSegmentLoadCommand mh fileLen) (fun t => t.2)
    (fun c => (checkSegmentLoadCommand mh fileLen c ({}, false)).1.2 = true)
    (fun a t ht => by
      show (checkSegmentLoadCommand mh fileLen a t).1.2 = true
      rw [checkSegmentLoadCommand_bad]
      have ht2 : t.2 = true := ht
      rw [ht2]; rfl)
    (fun a t hs => checkSegmentLoadCommand_stop mh fileLen a t hs)
    (fun a t hf => by
      show (checkSegmentLoadCommand mh fileLen a t).1.2 = true
      rw [checkSegmentLoadCommand_bad, hf]; exact Bool.or_true _)
    (loadCommandsOf mh) (d, false) h cmd hcmd
  simpa only [Bool.not_eq_true] using this

theorem checkSegmentPermissions_step (ef : Malformed → Bool) (info : SegmentInfo)
    (st : SegmentCheckState) :
    ((st.badPermissions || st.badSize) = true →
      ((checkSegmentPermissions ef info st).1.badPermissions
        || (checkSegmentPermissions ef info st).1.badSize) = true) ∧
    ((checkSegmentPermissions ef info st).2 = true →
      ((checkSegmentPermissions ef info st).1.badPermissions
        || (checkSegmentPermissions ef info st).1.badSize) = true) := by
  unfold checkSegmentPermissions
  split_ifs
  all_goals
    refine ⟨fun h => ?_, fun h => ?_⟩ <;>
      first | rfl | exact h | exact False.elim h

theorem checkSegmentFileRange_step (fileLen : Nat) (info : SegmentInfo)
    (r : SegmentCheckState × Bool) :
    ((r.1.badPermissions || r.1.badSize) = true →
      ((checkSegmentFileRange fileLen info r).1.badPermissions
        || (checkSegmentFileRange fileLen info r).1.badSize) = true) ∧
    ((r.2 = true → (r.1.badPermissions || r.1.badSize) = true) →
      (checkSegmentFileRange fileLen info r).2 = true →
      ((checkSegmentFileRange fileLen info r).1.badPermissions
        || (checkSegmentFileRange fileLen info r).1.badSize) = true) ∧
    (greaterThanAddOrOverflow info.fileOffset info.fileSize fileLen = true →
      ((checkSegmentFileRange fileLen info r).1.badPermissions
        || (checkSegmentFileRange fileLen info r).1.badSize) = true) := by
  unfold checkSegmentFileRange
  split_ifs with hc
  · exact ⟨fun _ => Bool.or_true _, fun _ _ => Bool.or_true _, fun _ => Bool.or_true _⟩
  · exact ⟨fun h => h, fun h1 h2 => h1 h2, fun h => absurd h hc⟩

theorem checkSegmentVmWrap_step (mh : Mem) (info : SegmentInfo)
    (r : SegmentCheckState × Bool) :
    ((r.1.badPermissions || r.1.badSize) = true →
      ((checkSegmentVmWrap mh info r).1.badPermissions
        || (checkSegmentVmWrap mh info r).1.badSize) = true) ∧
    ((r.2 = true → (r.1.badPermissions || r.1.badSize) = true) →
      (checkSegmentVmWrap mh info r).2 = true →
      ((checkSegmentVmWrap mh info r).1.badPermissions
        || (checkSegmentVmWrap mh info r).1.badSize) = true) ∧
    (((is64 mh = true ∧ u64 (info.vmaddr + info.vmsize) < info.vmaddr)
        ∨ (is64 mh = false ∧ u32 (u64 (info.vmaddr + info.vmsize)) < u32 info.vmaddr)) →
      ((checkSegmentVmWrap mh info r).1.badPermissions
        || (checkSegmentVmWrap mh info r).1.badSize) = true) := by
  unfold checkSegmentVmWrap
  split_ifs with h64 hc hc
  · exact ⟨fun _ => Bool.or_true _, fun _ _ => Bool.or_true _, fun _ => Bool.or_true _⟩
  · refine ⟨fun h => h, fun h1 h2 => h1 h2, fun h => ?_⟩
    rcases h with ⟨_, h2⟩ | ⟨h1, _⟩
    · exact absurd h2 hc
    · rw [h64] at h1; exact Bool.noConfusion h1
  · exact ⟨fun _ => Bool.or_true _, fun _ _ => Bool.or_true _, fun _ => Bool.or_true _⟩
  · refine ⟨fun h => h, fun h1 h2 => h1 h2, fun h => ?_⟩
    rcases h with ⟨h1, _⟩ | ⟨_, h2⟩
    · exact absurd h1 h64
    · exact absurd h2 hc

theorem checkSegmentBounds_mono (mh : Mem) (ef : Malformed → Bool) (fileLen : Nat)
    (info : SegmentInfo) (st : SegmentCheckState)
    (h : (st.badPermissions || st.badSize) = true) :
    ((checkSegmentBounds mh ef fileLen info st).1.badPermissions
      || (checkSegmentBounds mh ef fileLen info st).1.badSize) = true := by
  unfold checkSegmentBounds
  exact (checkSegmentVmWrap_step mh info _).1
    ((checkSegmentFileRange_step fileLen info _).1
      ((checkSegmentPermissions_step ef info st).1 h))

theorem checkSegmentBounds_stop (mh : Mem) (ef : Malformed → Bool) (fileLen : Nat)
    (info : SegmentInfo) (st : SegmentCheckState)
    (h : (checkSegmentBounds mh ef fileLen info st).2 = true) :
    ((checkSegmentBounds mh ef fileLen info st).1.badPermissions
      || (checkSegmentBounds mh ef fileLen info st).1.badSize) = true := by
  unfold checkSegmentBounds at h ⊢
  exact (checkSegmentVmWrap_step mh info _).2.1
    ((checkSegmentFileRange_step fileLen info _).2.1
      (checkSegmentPermissions_step ef info st).2) h

theorem checkSegmentBounds_flag (mh : Mem) (ef : Malformed → Bool) (fileLen : Nat)
    (info : SegmentInfo) (st : SegmentCheckState)
    (h : greaterThanAddOrOverflow info.fileOffset info.fileSize fileLen = true
      ∨ (is64 mh = true ∧ u64 (info.vmaddr + info.vmsize) < info.vmaddr)
      ∨ (is64 mh = false ∧ u32 (u64 (info.vmaddr + info.vmsize)) < u32 info.vmaddr)) :
    ((checkSegmentBounds mh ef fileLen info st).1.badPermissions
      || (checkSegmentBounds mh ef fileLen info st).1.badSize) = true := by
  unfold checkSegmentBounds
  rcases h with h | h
  · exact (checkSegmentVmWrap_step mh info _).1
      ((checkSegmentFileRange_step fileLen info _).2.2 h)
  · exact (checkSegmentVmWrap_step mh info _).2.2 h

theorem stage2_ok (mh : Mem) (ef : Malformed → Bool) (fileLen : Nat) (st : SegmentCheckState)
    (hp : (forEachSegment mh (checkSegmentBounds mh ef fileLen) st).badPermissions = false)
    (hs : (forEachSegment mh (checkSegmentBounds mh ef fileLen) st).badSize = false) :
    ∀ info ∈ segmentsOf mh,
      greaterThanAddOrOverflow info.fileOffset info.fileSize fileLen = false ∧
      (is64 mh = true → info.vmaddr ≤ u64 (info.vmaddr + info.vmsize)) ∧
      (is64 mh = false → u32 info.vmaddr ≤ u32 (u64 (info.vmaddr + info.vmsize))) := by
  rw [forEachSegment_eq_segmentsOf] at hp hs
  intro info hinfo
  have hbad : (fun (t : SegmentCheckState) => t.badPermissions || t.badSize)
      (iterStop (checkSegmentBounds mh ef fileLen) (segmentsOf mh) st).1 = false := by
    show (_ || _) = false
    rw [hp, hs]; rfl
  have := iterStop_ok_forall (checkSegmentBounds mh ef fileLen)
    (fun t => t.badPermissions || t.badSize)
    (fun info => greaterThanAddOrOverflow info.fileOffset info.fileSize fileLen = true
      ∨ (is64 mh = true ∧ u64 (info.vmaddr + info.vmsize) < info.vmaddr)
      ∨ (is64 mh = false ∧ u32 (u64 (info.vmaddr + info.vmsize)) < u32 info.vmaddr))
    (fun a t ht => checkSegmentBounds_mono mh ef fileLen a t ht)
    (fun a t hs => checkSegmentBounds_stop mh ef fileLen a t hs)
    (fun a t hf => checkSegmentBounds_flag mh ef fileLen a t hf)
    (segmentsOf mh) st hbad info hinfo
  simp only [not_or, not_and, not_lt, Bool.not_eq_true] at this
  exact this

theorem iterStop_invariant {α τ : Type} (callback : α → τ → τ × Bool) (inv : τ → Prop)
    (hinv : ∀ a t, inv t → inv (callback a t).1) :
    ∀ (l : List α) (t : τ), inv t → inv (iterStop callback l t).1 := by
  intro l
  induction l with
  | nil => intro t h; simpa [iterStop] using h
  | cons a as ih =>
    intro t h
    simp only [iterStop]
    split
    · exact hinv a t h
    · exact ih _ (hinv a t h)

theorem checkPairVmOverlap_step (info1 info2 : SegmentInfo) (st : Diagnostics × Bool × Bool) :
    (st.2.1 = true → (checkPairVmOverlap info1 info2 st).1.2.1 = true) ∧
    ((checkPairVmOverlap info1 info2 st).2 = true →
      (checkPairVmOverlap info1 info2 st).1.2.1 = true) ∧
    ((st.2.2 = true → st.2.1 = true) →
      (checkPairVmOverlap info1 info2 st).1.2.2 = true →
      (checkPairVmOverlap info1 info2 st).1.2.1 = true) ∧
    (vmOverlapTest info1 info2 = true → (checkPairVmOverlap info1 info2 st).1.2.1 = true) := by
  unfold checkPairVmOverlap
  split_ifs with hc
  · exact ⟨fun _ => rfl, fun _ => rfl, fun _ _ => rfl, fun _ => rfl⟩
  · exact ⟨fun h => h, fun h => absurd h (by simp), fun h1 h2 => h1 h2, fun h => absurd h hc⟩

theorem checkPairFileOverlap_step (mh : Mem) (info1 info2 : SegmentInfo)
    (a : (Diagnostics × Bool × Bool) × Bool) :
    (a.1.2.1 = true → (checkPairFileOverlap mh info1 info2 a).1.2.1 = true) ∧
    ((a.2 = true → a.1.2.1 = true) →
      (checkPairFileOverlap mh info1 info2 a).2 = true →
      (checkPairFileOverlap mh info1 info2 a).1.2.1 = true) ∧
    ((a.1.2.2 = true → a.1.2.1 = true) →
      (checkPairFileOverlap mh info1 info2 a).1.2.2 = true →
      (checkPairFileOverlap mh info1 info2 a).1.2.1 = true) ∧
    (fileOverlapTest info1 info2 = true → inDyldCache mh = false →
      (checkPairFileOverlap mh info1 info2 a).1.2.1 = true) := by
  unfold checkPairFileOverlap
  by_cases hc : fileOverlapTest info1 info2 = true
  · by_cases hd : inDyldCache mh = true
    · rw [if_pos hc, hd]
      exact ⟨fun h => h, fun h1 h2 => h1 h2, fun h1 h2 => h1 h2,
        fun _ h => Bool.noConfusion h⟩
    · have hd2 : inDyldCache mh = false := by
        cases hx : inDyldCache mh
        · rfl
        · exact absurd hx hd
      rw [if_pos hc, hd2]
      exact ⟨fun _ => rfl, fun _ _ => rfl, fun _ _ => rfl, fun _ _ => rfl⟩
  · rw [if_neg hc]
    exact ⟨fun h => h, fun h1 h2 => h1 h2, fun h1 h2 => h1 h2, fun h _ => absurd h hc⟩

theorem checkPairOrder_step (mh : Mem) (ef : Malformed → Bool) (info1 info2 : SegmentInfo)
    (b : (Diagnostics × Bool × Bool) × Bool) :
    (b.1.2.1 = true → (checkPairOrder mh ef info1 info2 b).1.2.1 = true) ∧
    ((b.2 = true → b.1.2.1 = true) →
      (checkPairOrder mh ef info1 info2 b).2 = true →
      (checkPairOrder mh ef info1 info2 b).1.2.1 = true) ∧
    ((b.1.2.2 = true → b.1.2.1 = true) →
      (checkPairOrder mh ef info1 info2 b).1.2.2 = true →
      (checkPairOrder mh ef info1 info2 b).1.2.1 = true) := by
  unfold checkPairOrder
  split_ifs
  · exact ⟨fun _ => rfl, fun _ _ => rfl, fun _ _ => rfl⟩
  all_goals exact ⟨fun h => h, fun h1 h2 => h1 h2, fun h1 h2 => h1 h2⟩

theorem checkSegmentPair_mono (mh : Mem) (ef : Malformed → Bool) (info1 info2 : SegmentInfo)
    (st : Diagnostics × Bool × Bool) (h : st.2.1 = true) :
    (checkSegmentPair mh ef info1 info2 st).1.2.1 = true := by
  unfold checkSegmentPair
  split_ifs
  · exact h
  · exact (checkPairOrder_step mh ef info1 info2 _).1
      ((checkPairFileOverlap_step mh info1 info2 _).1
        ((checkPairVmOverlap_step info1 info2 st).1 h))

theorem checkSegmentPair_stop (mh : Mem) (ef : Malformed → Bool) (info1 info2 : SegmentInfo)
    (st : Diagnostics × Bool × Bool)
    (h : (checkSegmentPair mh ef info1 info2 st).2 = true) :
    (checkSegmentPair mh ef info1 info2 st).1.2.1 = true := by
  unfold checkSegmentPair at h ⊢
  split_ifs at h ⊢
  · exact (checkPairOrder_step mh ef info1 info2 _).2.1
      ((checkPairFileOverlap_step mh info1 info2 _).2.1
        (checkPairVmOverlap_step info1 info2 st).2.1) h

theorem checkSegmentPair_inv (mh : Mem) (ef : Malformed → Bool) (info1 info2 : SegmentInfo)
    (st : Diagnostics × Bool × Bool) (h : st.2.2 = true → st.2.1 = true) :
    (checkSegmentPair mh ef info1 info2 st).1.2.2 = true →
      (checkSegmentPair mh ef info1 info2 st).1.2.1 = true := by
  unfold checkSegmentPair
  split_ifs
  · exact h
  · exact (checkPairOrder_step mh ef info1 info2 _).2.2
      ((checkPairFileOverlap_step mh info1 info2 _).2.2.1
        ((checkPairVmOverlap_step info1 info2 st).2.2.1 h))

theorem checkSegmentPair_flag (mh : Mem) (ef : Malformed → Bool) (info1 info2 : SegmentInfo)
    (st : Diagnostics × Bool × Bool)
    (hidx : info1.segmentIndex ≠ info2.segmentIndex)
    (h : vmOverlapTest info1 info2 = true
      ∨ (fileOverlapTest info1 info2 = true ∧ inDyldCache mh = false)) :
    (checkSegmentPair mh ef info1 info2 st).1.2.1 = true := by
  unfold checkSegmentPair
  have hne : ¬ (info1.segmentIndex == info2.segmentIndex) = true := by
    simpa only [beq_iff_eq] using hidx
  rw [if_neg hne]
  rcases h with h | ⟨h1, h2⟩
  · exact (checkPairOrder_step mh ef info1 info2 _).1
      ((checkPairFileOverlap_step mh info1 info2 _).1
        ((checkPairVmOverlap_step info1 info2 st).2.2.2 h))
  · exact (checkPairOrder_step mh ef info1 info2 _).1
      ((checkPairFileOverlap_step mh info1 info2 _).2.2.2 h1 h2)

theorem checkSegmentOverlaps_eq (mh : Mem) (ef : Malformed → Bool) (info1 : SegmentInfo)
    (st : Diagnostics × Bool) :
    (checkSegmentOverlaps mh ef info1 st).1.2 =
        (iterStop (checkSegmentPair mh ef info1) (segmentsOf mh) (st.1, st.2, false)).1.2.1 ∧
    (checkSegmentOverlaps mh ef info1 st).2 =
        (iterStop (checkSegmentPair mh ef info1) (segmentsOf mh) (st.1, st.2, false)).1.2.2 := by
  unfold checkSegmentOverlaps
  rw [forEachSegment_eq_segmentsOf]
  exact ⟨rfl, rfl⟩

theorem stage3_ok (mh : Mem) (ef : Malformed → Bool) (d : Diagnostics)
    (h : (forEachSegment mh (checkSegmentOverlaps mh ef) (d, false)).2 = false) :
    ∀ info1 ∈ segmentsOf mh, ∀ info2 ∈ segmentsOf mh,
      info1.segmentIndex ≠ info2.segmentIndex →
        vmOverlapTest info1 info2 = false ∧
        (fileOverlapTest info1 info2 = true → inDyldCache mh = true) := by
  rw [forEachSegment_eq_segmentsOf] at h
  have houter := iterStop_ok_forall (checkSegmentOverlaps mh ef) (fun t => t.2)
    (fun info1 => ∃ info2 ∈ segmentsOf mh, info1.segmentIndex ≠ info2.segmentIndex ∧
      (vmOverlapTest info1 info2 = true
        ∨ (fileOverlapTest info1 info2 = true ∧ inDyldCache mh = false)))
    (fun a t ht => by
      show (checkSegmentOverlaps mh ef a t).1.2 = true
      rw [(checkSegmentOverlaps_eq mh ef a t).1]
      exact iterStop_bad_mono (checkSegmentPair mh ef a) (fun t => t.2.1)
        (fun b t hb => checkSegmentPair_mono mh ef a b t hb) _ _ ht)
    (fun a t hs => by
      show (checkSegmentOverlaps mh ef a t).1.2 = true
      rw [(checkSegmentOverlaps_eq mh ef a t).1]
      rw [(checkSegmentOverlaps_eq mh ef a t).2] at hs
      exact iterStop_invariant (checkSegmentPair mh ef a)
        (fun t => t.2.2 = true → t.2.1 = true)
        (fun b t hb => checkSegmentPair_inv mh ef a b t hb) _ _
        (fun hfalse => Bool.noConfusion hfalse) hs)
    (fun a t hf => by
      show (checkSegmentOverlaps mh ef a t).1.2 = true
      rw [(checkSegmentOverlaps_eq mh ef a t).1]
      by_contra hne
      simp only [Bool.not_eq_true] at hne
      obtain ⟨info2, hmem, hidx, htest⟩ := hf
      exact iterStop_ok_forall (checkSegmentPair mh ef a) (fun t => t.2.1)
        (fun b => a.segmentIndex ≠ b.segmentIndex ∧
          (vmOverlapTest a b = true ∨ (fileOverlapTest a b = true ∧ inDyldCache mh = false)))
        (fun b t hb => checkSegmentPair_mono mh ef a b t hb)
        (fun b t hb => checkSegmentPair_stop mh ef a b t hb)
        (fun b t hb => checkSegmentPair_flag mh ef a b t hb.1 hb.2)
        _ _ hne info2 hmem ⟨hidx, htest⟩)
    (segmentsOf mh) (d, false) h
  intro info1 h1 info2 h2 hidx
  have := houter info1 h1
  simp only [not_exists, not_and, not_or, Bool.not_eq_true] at this
  have h3 := this info2 h2 hidx
  refine ⟨h3.1, ?_⟩
  intro hf
  by_contra hc
  simp only [Bool.not_eq_true] at hc
  have := h3.2 hf
  simp [hc] at this

theorem segInfosFrom_index (mh : Mem) :
    ∀ (l : List Nat) (idx k : Nat) (info : SegmentInfo),
      (segInfosFrom mh l idx)[k]? = some info → info.segmentIndex = idx + k := by
  intro l
  induction l with
  | nil => intro idx k info h; simp [segInfosFrom] at h
  | cons cmd rest ih =>
    intro idx k info h
    unfold segInfosFrom at h
    split_ifs at h
    · cases k with
      | zero => simp at h; subst h; simp [segmentInfo64]
      | succ k => simp at h; have := ih (idx + 1) k info h; omega
    · cases k with
      | zero => simp at h; subst h; simp [segmentInfo32]
      | succ k => simp at h; have := ih (idx + 1) k info h; omega
    · exact ih idx k info h

theorem segmentsOf_index (mh : Mem) (k : Nat) (info : SegmentInfo)
    (h : (segmentsOf mh)[k]? = some info) : info.segmentIndex = k := by
  rw [segmentsOf_eq] at h
  simpa using segInfosFrom_index mh _ 0 k info h

/-! ## Lemmas: field ranges -/

theorem read8_lt (m : Mem) (a : Nat) : read8 m a < 256 := by
  unfold read8; omega

theorem read32_lt (m : Mem) (a : Nat) : read32 m a < 4294967296 := by
  have h0 := read8_lt m a
  have h1 := read8_lt m (a + 1)
  have h2 := read8_lt m (a + 2)
  have h3 := read8_lt m (a + 3)
  unfold read32; omega

theorem read64_lt (m : Mem) (a : Nat) : read64 m a < 18446744073709551616 := by
  have h0 := read32_lt m a
  have h1 := read32_lt m (a + 4)
  unfold read64; omega

theorem segInfosFrom_lt (mh : Mem) :
    ∀ (l : List Nat) (idx : Nat), ∀ info ∈ segInfosFrom mh l idx,
      info.vmaddr < 18446744073709551616 ∧ info.vmsize < 18446744073709551616 ∧
      info.fileOffset < 18446744073709551616 ∧ info.fileSize < 18446744073709551616 := by
  intro l
  induction l with
  | nil => intro idx info h; simp [segInfosFrom] at h
  | cons cmd rest ih =>
    intro idx info h
    unfold segInfosFrom at h
    split_ifs at h
    · rcases List.mem_cons.mp h with rfl | h'
      · exact ⟨read64_lt _ _, read64_lt _ _, read64_lt _ _, read64_lt _ _⟩
      · exact ih _ info h'
    · rcases List.mem_cons.mp h with rfl | h'
      · have a := read32_lt mh (cmd + 24)
        have b := read32_lt mh (cmd + 28)
        have c := read32_lt mh (cmd + 32)
        have d := read32_lt mh (cmd + 36)
        simp only [segmentInfo32, seg32_vmaddr, seg32_vmsize, seg32_fileoff, seg32_filesize]
        omega
      · exact ih _ info h'
    · exact ih _ info h

theorem segmentsOf_lt (mh : Mem) : ∀ info ∈ segmentsOf mh,
    info.vmaddr < 18446744073709551616 ∧ info.vmsize < 18446744073709551616 ∧
    info.fileOffset < 18446744073709551616 ∧ info.fileSize < 18446744073709551616 := by
  rw [segmentsOf_eq]
  exact segInfosFrom_lt mh _ 0

theorem greaterThanAddOrOverflow_false (a b c : Nat)
    (h : greaterThanAddOrOverflow a b c = false) :
    a + b ≤ c ∧ a + b < 18446744073709551616 := by
  unfold greaterThanAddOrOverflow at h
  simp only [Bool.or_eq_false_iff, decide_eq_false_iff_not, not_le, not_lt] at h
  omega

theorem checkSegmentLoadCommand_flag64 (mh : Mem) (fileLen cmd : Nat) (st : Diagnostics × Bool)
    (hc : lc_cmd mh cmd = LC_SEGMENT_64)
    (hgt : seg64_filesize mh cmd > seg64_vmsize mh cmd)
    (hex : seg64_vmsize mh cmd ≠ 0 ∨ seg64_flags mh cmd &&& SG_NORELOC = 0) :
    (checkSegmentLoadCommand mh fileLen cmd st).1.2 = true := by
  have hc' : (lc_cmd mh cmd == LC_SEGMENT_64) = true := by rw [hc]; rfl
  have hlast : (decide (seg64_filesize mh cmd > seg64_vmsize mh cmd)
      && (seg64_vmsize mh cmd != 0 || (seg64_flags mh cmd &&& SG_NORELOC) == 0)) = true := by
    simp only [Bool.and_eq_true, decide_eq_true_eq, Bool.or_eq_true, bne_iff_ne, ne_eq,
      beq_iff_eq]
    exact ⟨hgt, hex⟩
  unfold checkSegmentLoadCommand checkSegmentCommand64
  rw [if_pos hc', if_pos hlast]
  split_ifs <;> rfl

theorem checkSegmentLoadCommand_flag32 (mh : Mem) (fileLen cmd : Nat) (st : Diagnostics × Bool)
    (hc : lc_cmd mh cmd = LC_SEGMENT)
    (hgt : seg32_filesize mh cmd > seg32_vmsize mh cmd)
    (hex : seg32_vmsize mh cmd ≠ 0 ∨ seg32_flags mh cmd &&& SG_NORELOC = 0) :
    (checkSegmentLoadCommand mh fileLen cmd st).1.2 = true := by
  have hne : ¬ (lc_cmd mh cmd == LC_SEGMENT_64) = true := by
    rw [hc]; decide
  have hc' : (lc_cmd mh cmd == LC_SEGMENT) = true := by rw [hc]; rfl
  have hlast : (decide (seg32_filesize mh cmd > seg32_vmsize mh cmd)
      && (seg32_vmsize mh cmd != 0 || (seg32_flags mh cmd &&& SG_NORELOC) == 0)) = true := by
    simp only [Bool.and_eq_true, decide_eq_true_eq, Bool.or_eq_true, bne_iff_ne, ne_eq,
      beq_iff_eq]
    exact ⟨hgt, hex⟩
  unfold checkSegmentLoadCommand checkSegmentCommand32
  rw [if_neg hne, if_pos hc', if_pos hlast]
  split_ifs <;> rfl

/-! ## Lemmas: memory past a byte list, sections of zeros -/

theorem read8_memOfList_ge (l : List Nat) (a : Nat) (h : l.length ≤ a) :
    read8 (memOfList l) a = 0 := by
  unfold read8 memOfList
  rw [List.getD_eq_getElem?_getD, List.getElem?_eq_none h]
  rfl

theorem read32_memOfList_ge (l : List Nat) (a : Nat) (h : l.length ≤ a) :
    read32 (memOfList l) a = 0 := by
  unfold read32
  rw [read8_memOfList_ge l a h, read8_memOfList_ge l (a + 1) (by omega),
    read8_memOfList_ge l (a + 2) (by omega), read8_memOfList_ge l (a + 3) (by omega)]

theorem read64_memOfList_ge (l : List Nat) (a : Nat) (h : l.length ≤ a) :
    read64 (memOfList l) a = 0 := by
  unfold read64
  rw [read32_memOfList_ge l a h, read32_memOfList_ge l (a + 4) (by omega)]

theorem checkSection64_zero (mh : Mem) (ef : Malformed → Bool) (seg sect : Nat)
    (st : Diagnostics × Bool) (hv : seg64_vmaddr mh seg = 0)
    (ha : sect64_addr mh sect = 0) (hs : sect64_size mh sect = 0) :
    checkSection64 mh ef seg sect st = st := by
  unfold checkSection64
  rw [ha, hs, hv]
  have h1 : ¬ toInt64 0 < 0 := by decide
  have h2 : ¬ (0 : Nat) < 0 := by decide
  have h3 : ¬ u64 (0 + 0) > u64 (0 + seg64_vmsize mh seg) := by
    unfold u64; omega
  rw [if_neg h1, if_neg h2, if_neg h3]

theorem checkSections64_zero (mh : Mem) (ef : Malformed → Bool) (seg : Nat)
    (hv : seg64_vmaddr mh seg = 0)
    (hz : ∀ k, sect64_addr mh (sect64_at seg k) = 0 ∧ sect64_size mh (sect64_at seg k) = 0) :
    ∀ (n k : Nat) (st : Diagnostics × Bool), checkSections64 mh ef seg n k st = st := by
  intro n
  induction n with
  | zero => intro k st; rfl
  | succ n ih =>
    intro k st
    unfold checkSections64
    rw [checkSection64_zero mh ef seg _ st hv (hz k).1 (hz k).2]
    exact ih (k + 1) st

/-! ## Lemmas: `forEachSlice` with a visitor that never stops -/

theorem forEachSliceStep32_scan {σ : Type} (fat : Mem) (fileLen : Nat) (validate : Bool)
    (cb : Slice → σ → σ × Bool) (hns : ∀ s t, (cb s t).2 = false) (i : Nat)
    (d : Diagnostics) :
    ∃ (d' : Diagnostics) (vs : List Slice), ∀ (acc : List Slice) (t : σ),
      forEachSliceStep32 fat fileLen validate
          (fun s (acc : List Slice) => (acc ++ [s], false)) i (d, acc) =
        ((d', acc ++ vs), false) ∧
      forEachSliceStep32 fat fileLen validate cb i (d, t) =
        ((d', vs.foldl (fun t s => (cb s t).1) t), false) := by
  unfold forEachSliceStep32
  by_cases hv : (sliceValidation fat {} fileLen validate i (fatArch fat i)).2 = true
  · by_cases he : (sliceValidation fat {} fileLen validate i (fatArch fat i)).1.hasError = true
    · refine ⟨d.appendError
        (sliceValidation fat {} fileLen validate i (fatArch fat i)).1.errorMessageCStr,
        [fatArch fat i], fun acc t => ?_⟩
      simp only [if_pos hv, if_pos he, hns, Bool.false_eq_true, if_false, List.foldl_cons,
        List.foldl_nil, and_self]
    · refine ⟨d, [fatArch fat i], fun acc t => ?_⟩
      simp only [if_pos hv, if_neg he, hns, Bool.false_eq_true, if_false, List.foldl_cons,
        List.foldl_nil, and_self]
  · by_cases he : (sliceValidation fat {} fileLen validate i (fatArch fat i)).1.hasError = true
    · refine ⟨d.appendError
        (sliceValidation fat {} fileLen validate i (fatArch fat i)).1.errorMessageCStr,
        [], fun acc t => ?_⟩
      simp only [if_neg hv, if_pos he, List.append_nil, List.foldl_nil, and_self]
    · refine ⟨d, [], fun acc t => ?_⟩
      simp only [if_neg hv, if_neg he, List.append_nil, List.foldl_nil, and_self]

theorem forEachSliceLoop32_scan {σ : Type} (fat : Mem) (fileLen : Nat) (validate : Bool)
    (cb : Slice → σ → σ × Bool) (hns : ∀ s t, (cb s t).2 = false) :
    ∀ (n i : Nat) (d : Diagnostics),
      ∃ (d' : Diagnostics) (vs : List Slice), ∀ (acc : List Slice) (t : σ),
        forEachSliceLoop32 fat fileLen validate
            (fun s (acc : List Slice) => (acc ++ [s], false)) n i (d, acc) =
          (d', acc ++ vs) ∧
        forEachSliceLoop32 fat fileLen validate cb n i (d, t) =
          (d', vs.foldl (fun t s => (cb s t).1) t) := by
  intro n
  induction n with
  | zero =>
    intro i d
    exact ⟨d, [], fun acc t => by simp only [forEachSliceLoop32, List.append_nil,
      List.foldl_nil, and_self]⟩
  | succ n ih =>
    intro i d
    obtain ⟨d1, vs1, h1⟩ := forEachSliceStep32_scan fat fileLen validate cb hns i d
    obtain ⟨d2, vs2, h2⟩ := ih (i + 1) d1
    refine ⟨d2, vs1 ++ vs2, fun acc t => ?_⟩
    unfold forEachSliceLoop32
    rw [(h1 acc t).1, (h1 acc t).2]
    simp only [Bool.false_eq_true, if_false]
    rw [(h2 (acc ++ vs1) (vs1.foldl (fun t s => (cb s t).1) t)).1,
      (h2 (acc ++ vs1) (vs1.foldl (fun t s => (cb s t).1) t)).2]
    simp only [List.append_assoc, List.foldl_append, and_self]

theorem forEachSliceStep64_scan {σ : Type} (fat : Mem) (fileLen : Nat) (validate : Bool)
    (cb : Slice → σ → σ × Bool) (hns : ∀ s t, (cb s t).2 = false) (i : Nat)
    (d : Diagnostics) :
    ∃ (d' : Diagnostics) (vs : List Slice), ∀ (acc : List Slice) (t : σ),
      forEachSliceStep64 fat fileLen validate
          (fun s (acc : List Slice) => (acc ++ [s], false)) i (d, acc) =
        ((d', acc ++ vs), false) ∧
      forEachSliceStep64 fat fileLen validate cb i (d, t) =
        ((d', vs.foldl (fun t s => (cb s t).1) t), false) := by
  unfold forEachSliceStep64
  by_cases hv : (sliceValidation fat d fileLen validate i (fatArch64 fat i)).2 = true
  · refine ⟨(sliceValidation fat d fileLen validate i (fatArch64 fat i)).1,
      [fatArch64 fat i], fun acc t => ?_⟩
    simp only [if_pos hv, hns, List.foldl_cons, List.foldl_nil, and_self]
  · refine ⟨(sliceValidation fat d fileLen validate i (fatArch64 fat i)).1,
      [], fun acc t => ?_⟩
    simp only [if_neg hv, List.append_nil, List.foldl_nil, and_self]

theorem forEachSliceLoop64_scan {σ : Type} (fat : Mem) (fileLen : Nat) (validate : Bool)
    (cb : Slice → σ → σ × Bool) (hns : ∀ s t, (cb s t).2 = false) :
    ∀ (n i : Nat) (d : Diagnostics),
      ∃ (d' : Diagnostics) (vs : List Slice), ∀ (acc : List Slice) (t : σ),
        forEachSliceLoop64 fat fileLen validate
            (fun s (acc : List Slice) => (acc ++ [s], false)) n i (d, acc) =
          (d', acc ++ vs) ∧
        forEachSliceLoop64 fat fileLen validate cb n i (d, t) =
          (d', vs.foldl (fun t s => (cb s t).1) t) := by
  intro n
  induction n with
  | zero =>
    intro i d
    exact ⟨d, [], fun acc t => by simp only [forEachSliceLoop64, List.append_nil,
      List.foldl_nil, and_self]⟩
  | succ n ih =>
    intro i d
    obtain ⟨d1, vs1, h1⟩ := forEachSliceStep64_scan fat fileLen validate cb hns i d
    obtain ⟨d2, vs2, h2⟩ := ih (i + 1) d1
    refine ⟨d2, vs1 ++ vs2, fun acc t => ?_⟩
    unfold forEachSliceLoop64
    rw [(h1 acc t).1, (h1 acc t).2]
    simp only [Bool.false_eq_true, if_false]
    rw [(h2 (acc ++ vs1) (vs1.foldl (fun t s => (cb s t).1) t)).1,
      (h2 (acc ++ vs1) (vs1.foldl (fun t s => (cb s t).1) t)).2]
    simp only [List.append_assoc, List.foldl_append, and_self]

theorem forEachSliceExtra_scan {σ : Type} (fat : Mem) (fileLen : Nat) (validate : Bool)
    (cb : Slice → σ → σ × Bool) (numArchs maxArchs : Nat) (d : Diagnostics) :
    ∃ (d' : Diagnostics) (vs : List Slice), ∀ (acc : List Slice) (t : σ),
      forEachSliceExtra fat fileLen validate
          (fun s (acc : List Slice) => (acc ++ [s], false)) numArchs maxArchs (d, acc) =
        (d', acc ++ vs) ∧
      forEachSliceExtra fat fileLen validate cb numArchs maxArchs (d, t) =
        (d', vs.foldl (fun t s => (cb s t).1) t) := by
  unfold forEachSliceExtra
  by_cases h1 : (numArchs != maxArchs) = true
  · by_cases h2 : ((fatArch fat numArchs).cpuType == CPU_TYPE_ARM64
        && ((fatArch fat numArchs).cpuSubType == CPU_SUBTYPE_ARM64_ALL
          || (fatArch fat numArchs).cpuSubType == CPU_SUBTYPE_ARM64_V8)) = true
    · by_cases hv : (sliceValidation fat d fileLen validate numArchs
          (fatArch fat numArchs)).2 = true
      · refine ⟨(sliceValidation fat d fileLen validate numArchs (fatArch fat numArchs)).1,
          [fatArch fat numArchs], fun acc t => ?_⟩
        simp only [if_pos h1, if_pos h2, if_pos hv, List.foldl_cons, List.foldl_nil, and_self]
      · refine ⟨(sliceValidation fat d fileLen validate numArchs (fatArch fat numArchs)).1,
          [], fun acc t => ?_⟩
        simp only [if_pos h1, if_pos h2, if_neg hv, List.append_nil, List.foldl_nil, and_self]
    · refine ⟨d, [], fun acc t => ?_⟩
      simp only [if_pos h1, if_neg h2, List.append_nil, List.foldl_nil, and_self]
  · refine ⟨d, [], fun acc t => ?_⟩
    simp only [if_neg h1, List.append_nil, List.foldl_nil, and_self]

theorem forEachSlice_scan {σ : Type} (fat : Mem) (fileLen : Nat)
    (cb : Slice → σ → σ × Bool) (hns : ∀ s t, (cb s t).2 = false) (d : Diagnostics) (t : σ) :
    forEachSlice fat fileLen true cb (d, t) =
      ((sliceScan fat d fileLen).1,
        (sliceScan fat d fileLen).2.foldl (fun t s => (cb s t).1) t) := by
  have key : ∃ (d' : Diagnostics) (vs : List Slice), ∀ (acc : List Slice) (t : σ),
      forEachSlice fat fileLen true
          (fun s (acc : List Slice) => (acc ++ [s], false)) (d, acc) = (d', acc ++ vs) ∧
      forEachSlice fat fileLen true cb (d, t) =
        (d', vs.foldl (fun t s => (cb s t).1) t) := by
    unfold forEachSlice
    by_cases hm : (fat_magic fat == OSSwapBigToHostInt32 FAT_MAGIC) = true
    · simp only [if_pos hm]
      split_ifs
      · exact ⟨d.error (.fatHeaderTooLarge (OSSwapBigToHostInt32 (fat_nfat_arch fat))), [],
          fun acc t => by simp only [List.append_nil, List.foldl_nil, and_self]⟩
      · exact ⟨d.error .fatHeaderMalformed, [],
          fun acc t => by simp only [List.append_nil, List.foldl_nil, and_self]⟩
      · obtain ⟨d1, vs1, h1⟩ := forEachSliceLoop32_scan fat fileLen true cb hns
          (OSSwapBigToHostInt32 (fat_nfat_arch fat)) 0 d
        obtain ⟨d2, vs2, h2⟩ := forEachSliceExtra_scan fat fileLen true cb
          (OSSwapBigToHostInt32 (fat_nfat_arch fat))
          ((4096 - sizeof_fat_header) / sizeof_fat_arch) d1
        refine ⟨d2, vs1 ++ vs2, fun acc t => ?_⟩
        rw [(h1 acc t).1, (h1 acc t).2,
          (h2 (acc ++ vs1) (vs1.foldl (fun t s => (cb s t).1) t)).1,
          (h2 (acc ++ vs1) (vs1.foldl (fun t s => (cb s t).1) t)).2]
        simp only [List.append_assoc, List.foldl_append, and_self]
    · simp only [if_neg hm]
      split_ifs
      · exact ⟨d.error (.fatHeaderTooLarge (OSSwapBigToHostInt32 (fat_nfat_arch fat))), [],
          fun acc t => by simp only [List.append_nil, List.foldl_nil, and_self]⟩
      · exact ⟨d.error .fatHeaderMalformed, [],
          fun acc t => by simp only [List.append_nil, List.foldl_nil, and_self]⟩
      · obtain ⟨d1, vs1, h1⟩ := forEachSliceLoop64_scan fat fileLen true cb hns
          (OSSwapBigToHostInt32 (fat_nfat_arch fat)) 0 d
        exact ⟨d1, vs1, h1⟩
      · exact ⟨d.error .notFatFile, [],
          fun acc t => by simp only [List.append_nil, List.foldl_nil, and_self]⟩
  obtain ⟨d', vs, h⟩ := key
  have hs : sliceScan fat d fileLen = (d', vs) := by
    unfold sliceScan
    rw [(h [] t).1]
    simp only [List.nil_append]
  rw [hs, (h [] t).2]

/-! ## Lemmas: the best-grade fold of `isFatFileWithSlice` -/

theorem bestSlice_fold (archs : GradedArchs) (isOSBinary : Bool) :
    ∀ (vs : List Slice) (o l : Nat) (b : Int), 0 ≤ b →
      b ≤ (vs.foldl (fun t s => (bestSliceCallback archs isOSBinary s t).1) (o, l, b)).2.2 ∧
      (∀ w ∈ vs, sliceGrade archs isOSBinary w ≤
        (vs.foldl (fun t s => (bestSliceCallback archs isOSBinary s t).1) (o, l, b)).2.2) ∧
      ((vs.foldl (fun t s => (bestSliceCallback archs isOSBinary s t).1) (o, l, b) = (o, l, b))
        ∨ (b < (vs.foldl (fun t s => (bestSliceCallback archs isOSBinary s t).1) (o, l, b)).2.2
          ∧ ∃ (k : Nat) (v : Slice), vs[k]? = some v ∧
            vs.foldl (fun t s => (bestSliceCallback archs isOSBinary s t).1) (o, l, b) =
              (v.offset, v.size, sliceGrade archs isOSBinary v) ∧
            ∀ (k' : Nat) (w : Slice), k' < k → vs[k']? = some w →
              sliceGrade archs isOSBinary w < sliceGrade archs isOSBinary v)) := by
  intro vs
  induction vs with
  | nil =>
    intro o l b _
    refine ⟨le_refl _, fun w hw => ?_, Or.inl rfl⟩
    simp at hw
  | cons s rest ih =>
    intro o l b hb
    rw [List.foldl_cons]
    by_cases hgt : sliceGrade archs isOSBinary s > b
    · have hne : (sliceGrade archs isOSBinary s != 0) = true := by
        simp only [bne_iff_ne, ne_eq]; omega
      have hstep : (bestSliceCallback archs isOSBinary s (o, l, b)).1 =
          (s.offset, s.size, sliceGrade archs isOSBinary s) := by
        unfold bestSliceCallback
        rw [if_pos hne, if_pos hgt]
      rw [hstep]
      obtain ⟨h1, h2, h3⟩ := ih s.offset s.size (sliceGrade archs isOSBinary s) (by omega)
      refine ⟨by omega, ?_, Or.inr ?_⟩
      · intro w hw
        rcases List.mem_cons.mp hw with rfl | hw'
        · exact h1
        · exact h2 w hw'
      · rcases h3 with h3 | ⟨h3, k, v, hk, hv, hearlier⟩
        · refine ⟨by rw [h3]; exact hgt, 0, s, List.getElem?_cons_zero, h3, ?_⟩
          intro k' w hk' _
          omega
        · refine ⟨by omega, k + 1, v, by simpa using hk, hv, ?_⟩
          intro k' w hk' hw
          have hvg : (List.foldl (fun t s => (bestSliceCallback archs isOSBinary s t).1)
              (s.offset, s.size, sliceGrade archs isOSBinary s) rest).2.2 =
              sliceGrade archs isOSBinary v := by rw [hv]
          cases k' with
          | zero =>
            simp only [List.getElem?_cons_zero, Option.some.injEq] at hw
            subst hw
            omega
          | succ j =>
            simp only [List.getElem?_cons_succ] at hw
            exact hearlier j w (by omega) hw
    · have hstep : (bestSliceCallback archs isOSBinary s (o, l, b)).1 = (o, l, b) := by
        unfold bestSliceCallback
        split_ifs <;> rfl
      rw [hstep]
      obtain ⟨h1, h2, h3⟩ := ih o l b hb
      refine ⟨h1, ?_, ?_⟩
      · intro w hw
        rcases List.mem_cons.mp hw with rfl | hw'
        · omega
        · exact h2 w hw'
      · rcases h3 with h3 | ⟨h3, k, v, hk, hv, hearlier⟩
        · exact Or.inl h3
        · refine Or.inr ⟨h3, k + 1, v, by simpa using hk, hv, ?_⟩
          intro k' w hk' hw
          have hvg : (List.foldl (fun t s => (bestSliceCallback archs isOSBinary s t).1)
              (o, l, b) rest).2.2 = sliceGrade archs isOSBinary v := by rw [hv]
          cases k' with
          | zero =>
            simp only [List.getElem?_cons_zero, Option.some.injEq] at hw
            subst hw
            omega
          | succ j =>
            simp only [List.getElem?_cons_succ] at hw
            exact hearlier j w (by omega) hw

theorem mem_take_of_getElem? {α : Type} (l : List α) (k k' : Nat) (w : α)
    (hk : k' < k) (hw : l[k']? = some w) : w ∈ l.take k := by
  have : (l.take k)[k']? = some w := by rw [List.getElem?_take_of_lt hk]; exact hw
  exact List.getElem?_mem this

theorem getElem?_of_mem_take {α : Type} (l : List α) (k : Nat) (w : α)
    (hw : w ∈ l.take k) : ∃ k', k' < k ∧ l[k']? = some w := by
  obtain ⟨n, hn⟩ := List.mem_iff_getElem?.mp hw
  rw [List.getElem?_take] at hn
  by_cases h : n < k
  · rw [if_pos h] at hn; exact ⟨n, h, hn⟩
  · rw [if_neg h] at hn; exact absurd hn (by simp)

theorem bestSliceCallback_noStop (archs : GradedArchs) (isOSBinary : Bool) (s : Slice)
    (t : Nat × Nat × Int) : (bestSliceCallback archs isOSBinary s t).2 = false := by
  unfold bestSliceCallback
  split_ifs <;> rfl

theorem isFatFileWithSlice_eq (fat : Mem) (diag : Diagnostics) (fileLen : Nat)
    (archs : GradedArchs) (isOSBinary : Bool) (o0 l0 : Nat)
    (hmagic : fat_magic fat = OSSwapBigToHostInt32 FAT_MAGIC
      ∨ fat_magic fat = OSSwapBigToHostInt32 FAT_MAGIC_64)
    (hnodiag : (sliceScan fat diag fileLen).1.hasError = false) :
    isFatFileWithSlice fat diag fileLen archs isOSBinary o0 l0 =
      { result := ((sliceScan fat diag fileLen).2.foldl
            (fun t s => (bestSliceCallback archs isOSBinary s t).1) (o0, l0, 0)).2.2 != 0,
        sliceOffset := ((sliceScan fat diag fileLen).2.foldl
            (fun t s => (bestSliceCallback archs isOSBinary s t).1) (o0, l0, 0)).1,
        sliceLen := ((sliceScan fat diag fileLen).2.foldl
            (fun t s => (bestSliceCallback archs isOSBinary s t).1) (o0, l0, 0)).2.1,
        missingSlice := ((sliceScan fat diag fileLen).2.foldl
            (fun t s => (bestSliceCallback archs isOSBinary s t).1) (o0, l0, 0)).2.2 == 0,
        diag := (sliceScan fat diag fileLen).1 } := by
  have hm : ¬ (fat_magic fat != OSSwapBigToHostInt32 FAT_MAGIC
      && fat_magic fat != OSSwapBigToHostInt32 FAT_MAGIC_64) = true := by
    simp only [Bool.and_eq_true, bne_iff_ne, ne_eq, not_and, not_not]
    intro h
    rcases hmagic with h1 | h2
    · exact absurd h1 h
    · exact h2
  unfold isFatFileWithSlice
  rw [if_neg hm]
  simp only [forEachSlice_scan fat fileLen (bestSliceCallback archs isOSBinary)
    (bestSliceCallback_noStop archs isOSBinary) diag (o0, l0, 0)]
  rw [hnodiag]
  simp only [Bool.false_eq_true, if_false]

theorem gradeLoop_first_match (cputype cpusubtype : Nat) (isOSBinary : Bool)
    (T S : Nat) (g : Int) (post : List CpuGrade) (hT : T ≠ 0)
    (hcT : cputype = T) (hcS : cpusubtype &&& not32 CPU_SUBTYPE_MASK = S) :
    ∀ (pre : List CpuGrade), (∀ p ∈ pre, p.type ≠ 0 ∧ ¬ (p.type = T ∧ p.subtype = S)) →
      GradedArchs.gradeLoop cputype cpusubtype isOSBinary (pre ++ ⟨T, S, false, g⟩ :: post) = g := by
  intro pre
  induction pre with
  | nil =>
    intro _
    rw [List.nil_append]
    unfold GradedArchs.gradeLoop
    have e0 : ¬ ((⟨T, S, false, g⟩ : CpuGrade).type == 0) = true := by
      simpa only [beq_iff_eq] using hT
    have em : ((⟨T, S, false, g⟩ : CpuGrade).type == cputype
        && (⟨T, S, false, g⟩ : CpuGrade).subtype
          == (cpusubtype &&& not32 CPU_SUBTYPE_MASK)) = true := by
      simp only [Bool.and_eq_true, beq_iff_eq]
      exact ⟨hcT.symm, hcS.symm⟩
    rw [if_neg e0, if_pos em]
    rfl
  | cons p rest ih =>
    intro hpre
    have hp := hpre p (List.mem_cons_self _ _)
    rw [List.cons_append]
    unfold GradedArchs.gradeLoop
    have e0 : ¬ (p.type == 0) = true := by simpa only [beq_iff_eq] using hp.1
    have em : ¬ (p.type == cputype
        && p.subtype == (cpusubtype &&& not32 CPU_SUBTYPE_MASK)) = true := by
      simp only [Bool.and_eq_true, beq_iff_eq]
      intro h
      exact hp.2 ⟨by rw [h.1, hcT], by rw [h.2, hcS]⟩
    rw [if_neg e0, if_neg em]
    exact ih (fun q hq => hpre q (List.mem_cons_of_mem _ hq))

/-! ## Lemmas: `GradedArchs::grade` -/

theorem gradeLoop_eq_find (cputype cpusubtype : Nat) (isOSBinary : Bool) :
    ∀ (l : List CpuGrade),
      GradedArchs.gradeLoop cputype cpusubtype isOSBinary l =
        match (l.takeWhile (fun p => p.type != 0)).find?
            (fun p => p.qualifies cputype cpusubtype isOSBinary) with
        | some p => p.grade
        | none => 0 := by
  intro l
  induction l with
  | nil => rfl
  | cons p rest ih =>
    unfold GradedArchs.gradeLoop
    by_cases h0 : (p.type == 0) = true
    · rw [if_pos h0]
      have : (p.type != 0) = false := by
        rw [bne, h0]; rfl
      rw [List.takeWhile_cons, this]
      rfl
    · rw [if_neg h0]
      have hne : (p.type != 0) = true := by
        rw [bne]; simp only [Bool.not_eq_true] at h0; rw [h0]; rfl
      rw [List.takeWhile_cons, hne]
      simp only [if_true, List.find?_cons]
      by_cases hm : (p.type == cputype
          && p.subtype == (cpusubtype &&& not32 CPU_SUBTYPE_MASK)) = true
      · rw [if_pos hm]
        by_cases hos : p.osBinary = true
        · rw [if_pos hos]
          by_cases hb : isOSBinary = true
          · rw [if_pos hb]
            have hq : p.qualifies cputype cpusubtype isOSBinary = true := by
              unfold CpuGrade.qualifies; rw [hm, hos, hb]; rfl
            rw [hq]
          · rw [if_neg hb]
            have hq : p.qualifies cputype cpusubtype isOSBinary = false := by
              simp only [Bool.not_eq_true] at hb
              unfold CpuGrade.qualifies; rw [hm, hos, hb]; rfl
            rw [hq]
            exact ih
        · rw [if_neg hos]
          have hq : p.qualifies cputype cpusubtype isOSBinary = true := by
            simp only [Bool.not_eq_true] at hos
            unfold CpuGrade.qualifies; rw [hm, hos]; rfl
          rw [hq]
      · rw [if_neg hm]
        have hq : p.qualifies cputype cpusubtype isOSBinary = false := by
          simp only [Bool.not_eq_true] at hm
          unfold CpuGrade.qualifies; rw [hm]; rfl
        rw [hq]
        exact ih

theorem find?_max_of_pairwise {α : Type} (f : α → Int) (q : α → Bool) :
    ∀ (l : List α), l.Pairwise (fun a b => f b ≤ f a) →
      (∀ a, l.find? q = some a → ∀ b ∈ l, q b = true → f b ≤ f a) := by
  intro l
  induction l with
  | nil => intro _ a h; simp at h
  | cons x xs ih =>
    intro hp a hfind b hb hqb
    rw [List.pairwise_cons] at hp
    rw [List.find?_cons] at hfind
    by_cases hx : q x = true
    · rw [hx] at hfind
      simp only [Option.some.injEq] at hfind
      subst hfind
      rcases List.mem_cons.mp hb with rfl | hb'
      · exact le_refl _
      · exact hp.1 b hb'
    · simp only [Bool.not_eq_true] at hx
      rw [hx] at hfind
      rcases List.mem_cons.mp hb with rfl | hb'
      · rw [hx] at hqb; exact absurd hqb (by simp)
      · exact ih hp.2 a hfind b hb' hqb

/-- C1: on an image with magic `MH_MAGIC`/`MH_MAGIC_64` and filetype at most 12, with a
visitor that never requests stop (and leaves the diagnostics alone), `forEachLoadCommand`
records no error exactly when each of the `ncmds` back-to-back commands is well formed
(`cmdValid`), and then the visitor has run on all `ncmds` commands in file order;
otherwise the visitor has run exactly on the commands before the first violating index
`j` and the one recorded error names `j`.  In particular, when `sizeofcmds` is one byte
short of the end of the last command, the error names index `ncmds - 1`. -/
theorem forEachLoadCommand_validates_each_command {σ : Type} (mh : Mem)
    (visitor : Nat → Diagnostics × σ → (Diagnostics × σ) × Bool)
    (d0 : Diagnostics) (s0 : σ)
    (hmagic : magic mh = MH_MAGIC ∨ magic mh = MH_MAGIC_64)
    (hft : filetype mh ≤ 12)
    (hnostop : ∀ cmd st, (visitor cmd st).2 = false)
    (hdiag : ∀ cmd st, (visitor cmd st).1.1 = st.1) :
    ((forEachLoadCommand mh visitor (d0, s0)).1 = d0 ↔ ∀ k, k < ncmds mh → cmdValid mh k) ∧
    ((∀ k, k < ncmds mh → cmdValid mh k) →
      forEachLoadCommand mh visitor (d0, s0) =
        ((List.range (ncmds mh)).map (cmdAddr mh)).foldl
          (fun st cmd => (visitor cmd st).1) (d0, s0)) ∧
    (∀ j, j < ncmds mh → (∀ k, k < j → cmdValid mh k) → ¬ cmdValid mh j →
      ∃ e, e.loadCommandIndex = some j ∧
        forEachLoadCommand mh visitor (d0, s0) =
          (d0.error e,
            (((List.range j).map (cmdAddr mh)).foldl
              (fun st cmd => (visitor cmd st).1) (d0, s0)).2)) ∧
    (0 < ncmds mh →
      (∀ k, k < ncmds mh →
        8 ≤ lc_cmdsize mh (cmdAddr mh k) ∧ lc_cmdsize mh (cmdAddr mh k) % 4 = 0) →
      cmdOffset mh (ncmds mh) = sizeofcmds mh + 1 →
      ∃ e, e.loadCommandIndex = some (ncmds mh - 1) ∧
        (forEachLoadCommand mh visitor (d0, s0)).1 = d0.error e) := by
  have hm : hasMachOMagic mh = true := by
    unfold hasMachOMagic; rcases hmagic with h | h <;> simp [h]
  have hEq := forEachLoadCommand_eq_scan mh visitor (d0, s0) hm hft
  have hAll : (∀ k, k < ncmds mh → cmdValid mh k) →
      forEachLoadCommand mh visitor (d0, s0) =
        ((List.range (ncmds mh)).map (cmdAddr mh)).foldl
          (fun st cmd => (visitor cmd st).1) (d0, s0) := by
    intro hall
    have hs := scan_all_valid mh (ncmds mh) 0 (fun k _ hk => hall k (by omega))
    have hs2 : scanImage mh = ((List.range' 0 (ncmds mh)).map (cmdAddr mh), none) := by
      unfold scanImage; simpa [cmdAddr, cmdOffset] using hs
    rw [hEq, hs2, iterStop_noStop visitor hnostop]
    simp [finishScan, List.range_eq_range']
  have hBad : ∀ j, j < ncmds mh → (∀ k, k < j → cmdValid mh k) → ¬ cmdValid mh j →
      ∃ e, e.loadCommandIndex = some j ∧
        forEachLoadCommand mh visitor (d0, s0) =
          (d0.error e,
            (((List.range j).map (cmdAddr mh)).foldl
              (fun st cmd => (visitor cmd st).1) (d0, s0)).2) := by
    intro j hj hval hinv
    obtain ⟨e, he, hidx⟩ := scan_first_invalid mh (ncmds mh) 0 j (by omega) (by omega)
      (fun k _ hk => hval k hk) hinv
    have hs2 : scanImage mh = ((List.range' 0 j).map (cmdAddr mh), some e) := by
      unfold scanImage; simpa [cmdAddr, cmdOffset] using he
    refine ⟨e, hidx, ?_⟩
    rw [hEq, hs2, iterStop_noStop visitor hnostop]
    simp only [finishScan, Bool.false_eq_true, if_false, ← List.range_eq_range']
    rw [foldl_keeps_diag visitor hdiag]
  refine ⟨⟨?_, ?_⟩, hAll, hBad, ?_⟩
  · intro hno
    by_contra hne
    push_neg at hne
    have hex : ∃ j, j < ncmds mh ∧ ¬ cmdValid mh j := hne
    classical
    have hj := Nat.find_spec hex
    have hmin : ∀ k, k < Nat.find hex → cmdValid mh k := by
      intro k hk
      by_contra hk2
      exact Nat.find_min hex hk ⟨by omega, hk2⟩
    obtain ⟨e, _, he⟩ := hBad (Nat.find hex) hj.1 hmin hj.2
    rw [he] at hno
    exact Diagnostics.error_ne d0 e hno
  · intro hall
    rw [hAll hall, foldl_keeps_diag visitor hdiag]
  · intro hpos hsz hend
    have hmono := cmdOffset_mono mh (ncmds mh - 1) (fun k hk => (hsz k (by omega)).1)
    have hlast : cmdOffset mh (ncmds mh) =
        cmdOffset mh (ncmds mh - 1) + lc_cmdsize mh (cmdAddr mh (ncmds mh - 1)) := by
      have : ncmds mh = (ncmds mh - 1) + 1 := by omega
      conv => lhs; rw [this]
      rfl
    have hszl := hsz (ncmds mh - 1) (by omega)
    obtain ⟨e, hidx, he⟩ := hBad (ncmds mh - 1) (by omega)
      (fun k hk => by
        have h1 := hmono k hk
        have h2 := hsz k (by omega)
        have h3 : cmdOffset mh (k + 1) ≤ cmdOffset mh (ncmds mh - 1) := by
          by_cases hk1 : k + 1 = ncmds mh - 1
          · rw [hk1]
          · have := cmdOffset_mono mh (ncmds mh - 1) (fun k hk => (hsz k (by omega)).1)
              (k + 1) (by omega)
            omega
        have h4 : cmdOffset mh (k + 1) = cmdOffset mh k + lc_cmdsize mh (cmdAddr mh k) := rfl
        exact ⟨by omega, h2.1, h2.2, by omega⟩)
      (by
        intro hv
        obtain ⟨_, _, _, h4⟩ := hv
        omega)
    exact ⟨e, hidx, by rw [he]⟩

/-- Witness for C1: the one-command image, visited by the recording visitor. -/
theorem forEachLoadCommand_validates_each_command_witness :
    (magic oneCommandImage = MH_MAGIC ∨ magic oneCommandImage = MH_MAGIC_64) ∧
    filetype oneCommandImage ≤ 12 ∧
    ((forEachLoadCommand oneCommandImage recordVisitor ({}, [])).1 = {} ↔
      ∀ k, k < ncmds oneCommandImage → cmdValid oneCommandImage k) :=
  ⟨Or.inr (by decide), by decide,
    (forEachLoadCommand_validates_each_command oneCommandImage recordVisitor {} []
      (Or.inr (by decide)) (by decide) (fun _ _ => rfl) (fun _ _ => rfl)).1⟩

/-- C6 fails as stated: an image flagged `MH_DYLIB_IN_CACHE` with file ranges
`[0,0x1000)` and `[0x800,0x1800)` passes `validSegments`. -/
theorem validSegments_accepts_file_overlap_in_cache :
    (validSegments cacheOverlapImage enforceAll {} 0x2000).2 = true ∧
    ∃ a b, (segmentsOf cacheOverlapImage)[0]? = some a ∧
      (segmentsOf cacheOverlapImage)[1]? = some b ∧
      0 < a.fileSize ∧ 0 < b.fileSize ∧
      a.fileOffset < b.fileOffset + b.fileSize ∧ b.fileOffset < a.fileOffset + a.fileSize :=
  ⟨by decide,
    { segmentName := str_TEXT, vmaddr := 0x1000, vmsize := 0x1000, fileOffset := 0,
      fileSize := 0x1000, initProt := 5, segmentIndex := 0 },
    { segmentName := str_LINKEDIT, vmaddr := 0x2000, vmsize := 0x1000, fileOffset := 0x800,
      fileSize := 0x1000, initProt := 1, segmentIndex := 1 },
    by decide, by decide, by decide, by decide, by decide, by decide⟩

/-- C6 (amended): if `validSegments` returns true and the image is not flagged
`MH_DYLIB_IN_CACHE`, then no two distinct segments have non-empty, intersecting file
ranges `[fileOffset, fileOffset + fileSize)` (exact arithmetic). -/
theorem validSegments_no_file_overlap_outside_cache (mh : Mem) (ef : Malformed → Bool)
    (diag : Diagnostics) (fileLen : Nat)
    (h : (validSegments mh ef diag fileLen).2 = true) (hcache : inDyldCache mh = false) :
    ∀ (i j : Nat) (a b : SegmentInfo),
      (segmentsOf mh)[i]? = some a → (segmentsOf mh)[j]? = some b → i ≠ j →
      ¬ (0 < a.fileSize ∧ 0 < b.fileSize ∧
          a.fileOffset < b.fileOffset + b.fileSize ∧
          b.fileOffset < a.fileOffset + a.fileSize) := by
  obtain ⟨d2, d3, d4, _, hp, hs, _, h3, _⟩ := validSegments_true mh ef diag fileLen h
  intro i j a b ha hb hij hov
  obtain ⟨ha0, hb0, hab, hba⟩ := hov
  have hidx : a.segmentIndex ≠ b.segmentIndex := by
    rw [segmentsOf_index mh i a ha, segmentsOf_index mh j b hb]; exact hij
  have hamem := List.getElem?_mem ha
  have hbmem := List.getElem?_mem hb
  have hfa := (greaterThanAddOrOverflow_false _ _ _ (stage2_ok mh ef fileLen _ hp hs a hamem).1).2
  have hfb := (greaterThanAddOrOverflow_false _ _ _ (stage2_ok mh ef fileLen _ hp hs b hbmem).1).2
  have hno := (stage3_ok mh ef d3 h3 a hamem b hbmem hidx).2
  have hyes : fileOverlapTest a b = true := by
    unfold fileOverlapTest u64
    rw [Nat.mod_eq_of_lt hfa, Nat.mod_eq_of_lt hfb]
    by_cases hle : b.fileOffset ≤ a.fileOffset
    · have h1 : b.fileOffset + b.fileSize > a.fileOffset := hab
      have h2 : a.fileOffset + a.fileSize > a.fileOffset := by omega
      simp only [hle, h1, h2, decide_True, Bool.and_self, Bool.true_or]
    · have hge : b.fileOffset ≥ a.fileOffset := by omega
      have h2 : b.fileOffset + b.fileSize > b.fileOffset := by omega
      simp only [hge, hba, h2, decide_True, Bool.and_self, Bool.or_true]
  have := hno hyes
  rw [hcache] at this
  exact Bool.noConfusion this

/-- Witness for C6 (amended): the well-formed two-segment image, which is not flagged
as in the dyld cache. -/
theorem validSegments_no_file_overlap_outside_cache_witness :
    (validSegments goodImage enforceAll {} 0x2000).2 = true ∧
    inDyldCache goodImage = false ∧
    ∀ (i j : Nat) (a b : SegmentInfo),
      (segmentsOf goodImage)[i]? = some a → (segmentsOf goodImage)[j]? = some b → i ≠ j →
      ¬ (0 < a.fileSize ∧ 0 < b.fileSize ∧
          a.fileOffset < b.fileOffset + b.fileSize ∧
          b.fileOffset < a.fileOffset + a.fileSize) :=
  ⟨by decide, by decide,
    validSegments_no_file_overlap_outside_cache goodImage enforceAll {} 0x2000
      (by decide) (by decide)⟩

/-- C7 fails as stated: a segment marked `SG_NORELOC` whose `vmsize` is not zero is
rejected for `filesize > vmsize`. -/
theorem validSegments_rejects_noreloc_with_vmsize :
    lc_cmd norelocImage 176 = LC_SEGMENT_64 ∧
    seg64_flags norelocImage 176 &&& SG_NORELOC ≠ 0 ∧
    seg64_vmsize norelocImage 176 = 0x1000 ∧
    seg64_filesize norelocImage 176 = 0x2000 ∧
    validSegments norelocImage enforceAll {} 0x4000 =
      (⟨[DiagMsg.segFilesizeExceedsVmsize str_LLVM]⟩, false) :=
  ⟨by decide, by decide, by decide, by decide, by decide⟩

/-- C7 (amended): `validSegments` returns true only if every segment command has
`filesize ≤ vmsize` or is marked `SG_NORELOC` with `vmsize = 0`; and a segment command
marked `SG_NORELOC` whose `vmsize` is 0 is never rejected for `filesize > vmsize`
(the block never records that message for it). -/
theorem validSegments_filesize_exemption (mh : Mem) (ef : Malformed → Bool)
    (diag : Diagnostics) (fileLen : Nat) :
    ((validSegments mh ef diag fileLen).2 = true →
      ∀ cmd ∈ loadCommandsOf mh,
        (lc_cmd mh cmd = LC_SEGMENT_64 →
          seg64_filesize mh cmd ≤ seg64_vmsize mh cmd ∨
          (seg64_flags mh cmd &&& SG_NORELOC ≠ 0 ∧ seg64_vmsize mh cmd = 0)) ∧
        (lc_cmd mh cmd = LC_SEGMENT →
          seg32_filesize mh cmd ≤ seg32_vmsize mh cmd ∨
          (seg32_flags mh cmd &&& SG_NORELOC ≠ 0 ∧ seg32_vmsize mh cmd = 0))) ∧
    (∀ (cmd : Nat) (st : Diagnostics × Bool) (name : List Nat),
      ((lc_cmd mh cmd = LC_SEGMENT_64 ∧ seg64_flags mh cmd &&& SG_NORELOC ≠ 0
          ∧ seg64_vmsize mh cmd = 0)
        ∨ (lc_cmd mh cmd = LC_SEGMENT ∧ seg32_flags mh cmd &&& SG_NORELOC ≠ 0
          ∧ seg32_vmsize mh cmd = 0)) →
      (checkSegmentLoadCommand mh fileLen cmd st).1.1 ≠
        st.1.error (.segFilesizeExceedsVmsize name)) := by
  constructor
  · intro h
    obtain ⟨d2, d3, d4, h1, _⟩ := validSegments_true mh ef diag fileLen h
    intro cmd hcmd
    have hok := stage1_ok mh fileLen diag h1 cmd hcmd
    constructor
    · intro hc
      by_cases hle : seg64_filesize mh cmd ≤ seg64_vmsize mh cmd
      · exact Or.inl hle
      · by_cases hex : seg64_flags mh cmd &&& SG_NORELOC ≠ 0 ∧ seg64_vmsize mh cmd = 0
        · exact Or.inr hex
        · exfalso
          have hflag := checkSegmentLoadCommand_flag64 mh fileLen cmd ({}, false) hc
            (by omega) (by
              by_cases hv : seg64_vmsize mh cmd = 0
              · right
                by_contra hf
                exact hex ⟨hf, hv⟩
              · left; exact hv)
          rw [hok] at hflag
          exact Bool.noConfusion hflag
    · intro hc
      by_cases hle : seg32_filesize mh cmd ≤ seg32_vmsize mh cmd
      · exact Or.inl hle
      · by_cases hex : seg32_flags mh cmd &&& SG_NORELOC ≠ 0 ∧ seg32_vmsize mh cmd = 0
        · exact Or.inr hex
        · exfalso
          have hflag := checkSegmentLoadCommand_flag32 mh fileLen cmd ({}, false) hc
            (by omega) (by
              by_cases hv : seg32_vmsize mh cmd = 0
              · right
                by_contra hf
                exact hex ⟨hf, hv⟩
              · left; exact hv)
          rw [hok] at hflag
          exact Bool.noConfusion hflag
  · intro cmd st name hcase
    have hinj : ∀ (m : DiagMsg), m ≠ .segFilesizeExceedsVmsize name →
        st.1.error m ≠ st.1.error (.segFilesizeExceedsVmsize name) := by
      intro m hm heq
      apply hm
      have := congrArg Diagnostics.msgs heq
      simp only [Diagnostics.error, List.append_cancel_left_eq, List.cons.injEq, and_true]
        at this
      exact this
    have hself : st.1 ≠ st.1.error (.segFilesizeExceedsVmsize name) :=
      fun heq => Diagnostics.error_ne _ _ heq.symm
    rcases hcase with ⟨hc, hfl, hvm⟩ | ⟨hc, hfl, hvm⟩
    · have hc' : (lc_cmd mh cmd == LC_SEGMENT_64) = true := by rw [hc]; rfl
      have hlast : ¬ (decide (seg64_filesize mh cmd > seg64_vmsize mh cmd)
          && (seg64_vmsize mh cmd != 0 || (seg64_flags mh cmd &&& SG_NORELOC) == 0)) = true := by
        simp only [Bool.and_eq_true, decide_eq_true_eq, Bool.or_eq_true, bne_iff_ne, ne_eq,
          beq_iff_eq, not_and, not_or, not_not]
        intro _
        exact ⟨hvm, hfl⟩
      unfold checkSegmentLoadCommand checkSegmentCommand64
      rw [if_pos hc', if_neg hlast]
      split_ifs
      · exact hinj _ (fun hx => DiagMsg.noConfusion hx)
      · exact hinj _ (fun hx => DiagMsg.noConfusion hx)
      · exact hinj _ (fun hx => DiagMsg.noConfusion hx)
      · exact hinj _ (fun hx => DiagMsg.noConfusion hx)
      · exact hself
    · have hne : ¬ (lc_cmd mh cmd == LC_SEGMENT_64) = true := by
        rw [hc]; decide
      have hc' : (lc_cmd mh cmd == LC_SEGMENT) = true := by rw [hc]; rfl
      have hlast : ¬ (decide (seg32_filesize mh cmd > seg32_vmsize mh cmd)
          && (seg32_vmsize mh cmd != 0 || (seg32_flags mh cmd &&& SG_NORELOC) == 0)) = true := by
        simp only [Bool.and_eq_true, decide_eq_true_eq, Bool.or_eq_true, bne_iff_ne, ne_eq,
          beq_iff_eq, not_and, not_or, not_not]
        intro _
        exact ⟨hvm, hfl⟩
      unfold checkSegmentLoadCommand checkSegmentCommand32
      rw [if_neg hne, if_pos hc', if_neg hlast]
      split_ifs
      · exact hinj _ (fun hx => DiagMsg.noConfusion hx)
      · exact hinj _ (fun hx => DiagMsg.noConfusion hx)
      · exact hinj _ (fun hx => DiagMsg.noConfusion hx)
      · exact hself

/-- Witness for C7 (amended): the well-formed two-segment image. -/
theorem validSegments_filesize_exemption_witness :
    (validSegments goodImage enforceAll {} 0x2000).2 = true ∧
    ∀ cmd ∈ loadCommandsOf goodImage,
      (lc_cmd goodImage cmd = LC_SEGMENT_64 →
        seg64_filesize goodImage cmd ≤ seg64_vmsize goodImage cmd ∨
        (seg64_flags goodImage cmd &&& SG_NORELOC ≠ 0 ∧ seg64_vmsize goodImage cmd = 0)) ∧
      (lc_cmd goodImage cmd = LC_SEGMENT →
        seg32_filesize goodImage cmd ≤ seg32_vmsize goodImage cmd ∨
        (seg32_flags goodImage cmd &&& SG_NORELOC ≠ 0 ∧ seg32_vmsize goodImage cmd = 0)) :=
  ⟨by decide,
    (validSegments_filesize_exemption goodImage enforceAll {} 0x2000).1 (by decide)⟩

/-- C2 fails on the code: the `LC_SEGMENT_64` command of `truncatedNsectsImage` has
`cmdsize = 72` and `nsects = 0x10000000`, so `cmdsize ≠ 72 + 80 * nsects`, yet the size
block records nothing for it (`80 * nsects = 5 * 2^32` is 0 after the `int32_t` cast) and
`validSegments` returns true. -/
theorem validSegments_accepts_truncated_nsects :
    lc_cmd truncatedNsectsImage 32 = LC_SEGMENT_64 ∧
    lc_cmdsize truncatedNsectsImage 32 = 72 ∧
    seg64_nsects truncatedNsectsImage 32 = 0x10000000 ∧
    lc_cmdsize truncatedNsectsImage 32 ≠
      sizeof_segment_command_64 + seg64_nsects truncatedNsectsImage 32 * sizeof_section_64 ∧
    checkSegmentLoadCommand truncatedNsectsImage 0x1000 32 ({}, false) = (({}, false), false) ∧
    (validSegments truncatedNsectsImage enforceAll {} 0x1000).2 = true := by
  refine ⟨by decide, by decide, by decide, by decide, by decide, ?_⟩
  have h1 : forEachLoadCommand truncatedNsectsImage
      (checkSegmentLoadCommand truncatedNsectsImage 0x1000) ({}, false) = ({}, false) := by
    decide
  have h2 : forEachSegment truncatedNsectsImage
      (checkSegmentBounds truncatedNsectsImage enforceAll 0x1000)
      { diag := {}, badPermissions := false, badSize := false, hasTEXT := false,
        hasLINKEDIT := false } =
      { diag := {}, badPermissions := false, badSize := false, hasTEXT := true,
        hasLINKEDIT := false } := by decide
  have hpre : isPreload truncatedNsectsImage = true := by decide
  have h3 : forEachSegment truncatedNsectsImage
      (checkSegmentOverlaps truncatedNsectsImage enforceAll) ({}, false) = ({}, false) := by
    decide
  have hscan : imageScan truncatedNsectsImage = ([32], none) := by decide
  have hv : seg64_vmaddr truncatedNsectsImage 32 = 0 := by decide
  have hlen : (machHeader64 MH_PRELOAD 1 72 0
      ++ segmentCommand64 72 str_TEXT 0 0x1000 0 0x1000 5 0x10000000 0).length = 104 := by
    decide
  have hz : ∀ k, sect64_addr truncatedNsectsImage (sect64_at 32 k) = 0 ∧
      sect64_size truncatedNsectsImage (sect64_at 32 k) = 0 := by
    intro k
    unfold sect64_addr sect64_size sect64_at truncatedNsectsImage sizeof_segment_command_64
      sizeof_section_64
    exact ⟨read64_memOfList_ge _ _ (by rw [hlen]; omega),
      read64_memOfList_ge _ _ (by rw [hlen]; omega)⟩
  have hstep : checkSections truncatedNsectsImage enforceAll 32 ({}, false) =
      (({}, false), false) := by
    unfold checkSections
    rw [if_pos (by decide), checkSections64_zero truncatedNsectsImage enforceAll 32 hv hz]
  have h4 : forEachLoadCommand truncatedNsectsImage
      (checkSections truncatedNsectsImage enforceAll) ({}, false) = ({}, false) := by
    rw [forEachLoadCommand_eq_imageScan, hscan]
    unfold iterStop
    rw [hstep]
    rfl
  unfold validSegments
  simp only [h1, h2, hpre, h3, h4]
  decide

/-- C4 fails on the code: `wrapSectionImage` passes `validSegments` with every check
enforced although its section ends at `0xFFFFFFFFFFFFFFF0 + 0x20`, beyond the end
`0xFFFFFFFFFFFFF800` of its segment (the 64-bit sum `addr + size` wraps to `0x10`). -/
theorem validSegments_accepts_wrapping_section :
    validSegments wrapSectionImage enforceAll {} 0x1000 = ({}, true) ∧
    lc_cmd wrapSectionImage 32 = LC_SEGMENT_64 ∧
    seg64_nsects wrapSectionImage 32 = 1 ∧
    sect64_addr wrapSectionImage (sect64_at 32 0) + sect64_size wrapSectionImage (sect64_at 32 0)
      > seg64_vmaddr wrapSectionImage 32 + seg64_vmsize wrapSectionImage 32 :=
  ⟨by decide, by decide, by decide, by decide⟩

/-- C10: for every table and query, `GradedArchs::grade` returns the grade of the first
entry of the zero-terminated table, in table order, that qualifies (type equal, subtype
equal to `cpusubtype` with the feature bits cleared, os-binary requirement satisfied),
and 0 when no entry qualifies; in particular an entry that matches type and subtype but
requires os-binary is skipped for a non-os-binary query and the scan goes on with the
later entries. -/
theorem grade_is_first_qualifying_entry (archs : GradedArchs) (cputype cpusubtype : Nat)
    (isOSBinary : Bool) :
    (archs.grade cputype cpusubtype isOSBinary =
      match archs.entries.find? (fun p => p.qualifies cputype cpusubtype isOSBinary) with
      | some p => p.grade
      | none => 0) ∧
    (∀ (p : CpuGrade) (rest : List CpuGrade),
      p.type ≠ 0 → p.type = cputype →
      p.subtype = (cpusubtype &&& not32 CPU_SUBTYPE_MASK) →
      p.osBinary = true → isOSBinary = false →
      GradedArchs.grade ⟨p :: rest⟩ cputype cpusubtype isOSBinary =
        GradedArchs.grade ⟨rest⟩ cputype cpusubtype isOSBinary) := by
  constructor
  · unfold GradedArchs.grade GradedArchs.entries
    generalize archs.orderedCpuTypes = l
    induction l with
    | nil => rfl
    | cons p rest ih =>
      unfold GradedArchs.gradeLoop
      by_cases h0 : (p.type == 0) = true
      · rw [if_pos h0]
        have : (p.type != 0) = false := by
          rw [bne, h0]; rfl
        rw [List.takeWhile_cons, this]
        rfl
      · rw [if_neg h0]
        have hne : (p.type != 0) = true := by
          rw [bne]; simp only [Bool.not_eq_true] at h0; rw [h0]; rfl
        rw [List.takeWhile_cons, hne]
        simp only [if_true, List.find?_cons]
        by_cases hm : (p.type == cputype
            && p.subtype == (cpusubtype &&& not32 CPU_SUBTYPE_MASK)) = true
        · rw [if_pos hm]
          by_cases hos : p.osBinary = true
          · rw [if_pos hos]
            by_cases hb : isOSBinary = true
            · rw [if_pos hb]
              have hq : p.qualifies cputype cpusubtype isOSBinary = true := by
                unfold CpuGrade.qualifies; rw [hm, hos, hb]; rfl
              rw [hq]
            · rw [if_neg hb]
              have hq : p.qualifies cputype cpusubtype isOSBinary = false := by
                simp only [Bool.not_eq_true] at hb
                unfold CpuGrade.qualifies; rw [hm, hos, hb]; rfl
              rw [hq]
              exact ih
          · rw [if_neg hos]
            have hq : p.qualifies cputype cpusubtype isOSBinary = true := by
              simp only [Bool.not_eq_true] at hos
              unfold CpuGrade.qualifies; rw [hm, hos]; rfl
            rw [hq]
        · rw [if_neg hm]
          have hq : p.qualifies cputype cpusubtype isOSBinary = false := by
            simp only [Bool.not_eq_true] at hm
            unfold CpuGrade.qualifies; rw [hm]; rfl
          rw [hq]
          exact ih
  · intro p rest h0 ht hs hos hb
    unfold GradedArchs.grade
    show GradedArchs.gradeLoop cputype cpusubtype isOSBinary (p :: rest) = _
    conv => lhs; unfold GradedArchs.gradeLoop
    have e0 : ¬ (p.type == 0) = true := by simpa only [beq_iff_eq] using h0
    have em : (p.type == cputype
        && p.subtype == (cpusubtype &&& not32 CPU_SUBTYPE_MASK)) = true := by
      simp only [Bool.and_eq_true, beq_iff_eq]; exact ⟨ht, hs⟩
    have eb : ¬ isOSBinary = true := by rw [hb]; decide
    rw [if_neg e0, if_pos em, if_pos hos, if_neg eb]

/-- Witness for C10: in `arm64e_keysoff_pb` the arm64e entry requires os-binary, so a
non-os-binary arm64e query skips it and is answered by the rest of the table. -/
theorem grade_is_first_qualifying_entry_witness :
    GradedArchs.grade ⟨⟨CPU_TYPE_ARM64, CPU_SUBTYPE_ARM64E, true, 2⟩
        :: [⟨CPU_TYPE_ARM64, CPU_SUBTYPE_ARM64_ALL, false, 1⟩, ⟨0, 0, false, 0⟩]⟩
      CPU_TYPE_ARM64 CPU_SUBTYPE_ARM64E false =
    GradedArchs.grade ⟨[⟨CPU_TYPE_ARM64, CPU_SUBTYPE_ARM64_ALL, false, 1⟩, ⟨0, 0, false, 0⟩]⟩
      CPU_TYPE_ARM64 CPU_SUBTYPE_ARM64E false :=
  (grade_is_first_qualifying_entry GradedArchs.arm64e_keysoff_pb CPU_TYPE_ARM64
    CPU_SUBTYPE_ARM64E false).2 ⟨CPU_TYPE_ARM64, CPU_SUBTYPE_ARM64E, true, 2⟩ _
    (by decide) (by decide) (by decide) rfl rfl

/-- C8: on a buffer that starts with a fat magic and on which the slice scan records no
diagnostic, `isFatFileWithSlice` returns true exactly when some visited slice has a grade
greater than zero; it then outputs the offset and length of the first visited slice (in
descriptor order) whose grade is the maximum over all visited slices; and when no visited
slice has a positive grade it returns false with `missingSlice` set. -/
theorem isFatFileWithSlice_selects_first_best (fat : Mem) (diag : Diagnostics)
    (fileLen : Nat) (archs : GradedArchs) (isOSBinary : Bool) (o0 l0 : Nat)
    (hmagic : fat_magic fat = OSSwapBigToHostInt32 FAT_MAGIC
      ∨ fat_magic fat = OSSwapBigToHostInt32 FAT_MAGIC_64)
    (hnodiag : (sliceScan fat diag fileLen).1.hasError = false) :
    ((isFatFileWithSlice fat diag fileLen archs isOSBinary o0 l0).result = true ↔
      ∃ v ∈ (sliceScan fat diag fileLen).2, 0 < sliceGrade archs isOSBinary v) ∧
    ((isFatFileWithSlice fat diag fileLen archs isOSBinary o0 l0).result = true →
      ∃ (k : Nat) (v : Slice), (sliceScan fat diag fileLen).2[k]? = some v ∧
        (isFatFileWithSlice fat diag fileLen archs isOSBinary o0 l0).sliceOffset = v.offset ∧
        (isFatFileWithSlice fat diag fileLen archs isOSBinary o0 l0).sliceLen = v.size ∧
        (∀ w ∈ (sliceScan fat diag fileLen).2,
          sliceGrade archs isOSBinary w ≤ sliceGrade archs isOSBinary v) ∧
        (∀ w ∈ (sliceScan fat diag fileLen).2.take k,
          sliceGrade archs isOSBinary w < sliceGrade archs isOSBinary v)) ∧
    ((∀ v ∈ (sliceScan fat diag fileLen).2, sliceGrade archs isOSBinary v ≤ 0) →
      (isFatFileWithSlice fat diag fileLen archs isOSBinary o0 l0).result = false ∧
      (isFatFileWithSlice fat diag fileLen archs isOSBinary o0 l0).missingSlice = true) := by
  rw [isFatFileWithSlice_eq fat diag fileLen archs isOSBinary o0 l0 hmagic hnodiag]
  obtain ⟨h1, h2, h3⟩ := bestSlice_fold archs isOSBinary (sliceScan fat diag fileLen).2
    o0 l0 0 (le_refl _)
  generalize hF : (sliceScan fat diag fileLen).2.foldl
    (fun t s => (bestSliceCallback archs isOSBinary s t).1) (o0, l0, 0) = F at h1 h2 h3
  simp only [bne_iff_ne, ne_eq, beq_iff_eq]
  have hsel : F.2.2 ≠ 0 →
      ∃ (k : Nat) (v : Slice), (sliceScan fat diag fileLen).2[k]? = some v ∧
        F.1 = v.offset ∧ F.2.1 = v.size ∧ F.2.2 = sliceGrade archs isOSBinary v ∧
        (∀ w ∈ (sliceScan fat diag fileLen).2.take k,
          sliceGrade archs isOSBinary w < sliceGrade archs isOSBinary v) := by
    intro hne
    rcases h3 with h3 | ⟨_, k, v, hk, hv, hearlier⟩
    · rw [h3] at hne; exact absurd rfl hne
    · refine ⟨k, v, hk, by rw [hv], by rw [hv], by rw [hv], ?_⟩
      intro w hw
      obtain ⟨k', hk', hw'⟩ := getElem?_of_mem_take _ _ _ hw
      exact hearlier k' w hk' hw'
  refine ⟨⟨?_, ?_⟩, ?_, ?_⟩
  · intro hne
    obtain ⟨k, v, hk, _, _, hg, _⟩ := hsel hne
    exact ⟨v, List.getElem?_mem hk, by omega⟩
  · rintro ⟨v, hv, hpos⟩
    have := h2 v hv
    omega
  · intro hne
    obtain ⟨k, v, hk, ho, hl, hg, hearlier⟩ := hsel hne
    refine ⟨k, v, hk, ho, hl, ?_, hearlier⟩
    intro w hw
    have := h2 w hw
    omega
  · intro hall
    have : F.2.2 = 0 := by
      by_contra hne
      obtain ⟨k, v, hk, _, _, hg, _⟩ := hsel hne
      have := hall v (List.getElem?_mem hk)
      omega
    exact ⟨by rw [this]; rfl, by rw [this]⟩

/-- Witness for C8: two slices graded 1 and 2 by the table `x86_64h`; the grade-2 slice's
offset `0x2000` and length 32 are returned. -/
theorem isFatFileWithSlice_selects_first_best_witness :
    fat_magic twoSliceFat = OSSwapBigToHostInt32 FAT_MAGIC ∧
    (sliceScan twoSliceFat {} 0x2020).1.hasError = false ∧
    (sliceScan twoSliceFat {} 0x2020).2.map (sliceGrade GradedArchs.x86_64h false) = [1, 2] ∧
    isFatFileWithSlice twoSliceFat {} 0x2020 GradedArchs.x86_64h false 0 0 =
      { result := true, sliceOffset := 0x2000, sliceLen := 32, missingSlice := false,
        diag := {} } ∧
    ((isFatFileWithSlice twoSliceFat {} 0x2020 GradedArchs.x86_64h false 0 0).result = true ↔
      ∃ v ∈ (sliceScan twoSliceFat {} 0x2020).2, 0 < sliceGrade GradedArchs.x86_64h false v) :=
  ⟨by decide, by decide, by decide, by decide,
    (isFatFileWithSlice_selects_first_best twoSliceFat {} 0x2020 GradedArchs.x86_64h false 0 0
      (Or.inl (by decide)) (by decide)).1⟩

/-- C9 fails as stated: in `brokenFirstSliceFat` the x86_64 slice at `0x2000` passes its
validation and is the only slice graded by the table `x86_64`, but the first slice fails
validation with a diagnostic and `isFatFileWithSlice` returns false. -/
theorem isFatFileWithSlice_fails_after_invalid_slice :
    OSSwapBigToHostInt32 (fat_nfat_arch brokenFirstSliceFat) = 2 ∧
    fatArch brokenFirstSliceFat 1 = ⟨CPU_TYPE_X86_64, CPU_SUBTYPE_X86_64_ALL, 0x2000, 32⟩ ∧
    isValidSlice brokenFirstSliceFat {} 0x2020 1 CPU_TYPE_X86_64 CPU_SUBTYPE_X86_64_ALL
      0x2000 32 = ({}, true) ∧
    (isValidSlice brokenFirstSliceFat {} 0x2020 0 CPU_TYPE_I386 CPU_SUBTYPE_I386_ALL
      0x1000 32).2 = false ∧
    (isFatFileWithSlice brokenFirstSliceFat {} 0x2020 GradedArchs.x86_64 false 0 0).result
      = false ∧
    (isFatFileWithSlice brokenFirstSliceFat {} 0x2020 GradedArchs.x86_64 false 0 0).diag
      = ⟨[DiagMsg.notMachO]⟩ :=
  ⟨by decide, by decide, by decide, by decide, by decide, by decide⟩

/-- C9 (amended): for a fat archive on which the slice scan records no diagnostic (its
header passes the slice-count checks and every slice that fails validation fails
silently), a grading table in which `(T,S,false,g)` with `g > 0` is the first entry for
`(T,S)`, and any `isOSBinary`: if a slice declared `(T,S)` (up to feature bits of the
subtype) passes validation, no visited slice is graded above `g` and no earlier visited
slice is graded `g`, then `isFatFileWithSlice` returns true and outputs that slice's
offset and length. -/
theorem isFatFileWithSlice_returns_matching_slice (fat : Mem) (diag : Diagnostics)
    (fileLen : Nat) (pre post : List CpuGrade) (T S : Nat) (g : Int) (isOSBinary : Bool)
    (o0 l0 : Nat) (k : Nat) (v : Slice)
    (hmagic : fat_magic fat = OSSwapBigToHostInt32 FAT_MAGIC
      ∨ fat_magic fat = OSSwapBigToHostInt32 FAT_MAGIC_64)
    (hnodiag : (sliceScan fat diag fileLen).1.hasError = false)
    (hT : T ≠ 0) (hg : 0 < g)
    (hpre : ∀ p ∈ pre, p.type ≠ 0 ∧ ¬ (p.type = T ∧ p.subtype = S))
    (hv : (sliceScan fat diag fileLen).2[k]? = some v)
    (hvT : v.cpuType = T) (hvS : v.cpuSubType &&& not32 CPU_SUBTYPE_MASK = S)
    (hmax : ∀ w ∈ (sliceScan fat diag fileLen).2,
      sliceGrade ⟨pre ++ ⟨T, S, false, g⟩ :: post⟩ isOSBinary w ≤ g)
    (hfirst : ∀ w ∈ (sliceScan fat diag fileLen).2.take k,
      sliceGrade ⟨pre ++ ⟨T, S, false, g⟩ :: post⟩ isOSBinary w ≠ g) :
    (isFatFileWithSlice fat diag fileLen ⟨pre ++ ⟨T, S, false, g⟩ :: post⟩ isOSBinary
      o0 l0).result = true ∧
    (isFatFileWithSlice fat diag fileLen ⟨pre ++ ⟨T, S, false, g⟩ :: post⟩ isOSBinary
      o0 l0).sliceOffset = v.offset ∧
    (isFatFileWithSlice fat diag fileLen ⟨pre ++ ⟨T, S, false, g⟩ :: post⟩ isOSBinary
      o0 l0).sliceLen = v.size := by
  rw [isFatFileWithSlice_eq fat diag fileLen _ isOSBinary o0 l0 hmagic hnodiag]
  have hgv : sliceGrade ⟨pre ++ ⟨T, S, false, g⟩ :: post⟩ isOSBinary v = g := by
    unfold sliceGrade GradedArchs.grade
    exact gradeLoop_first_match v.cpuType v.cpuSubType isOSBinary T S g post hT hvT hvS pre hpre
  obtain ⟨h1, h2, h3⟩ := bestSlice_fold ⟨pre ++ ⟨T, S, false, g⟩ :: post⟩ isOSBinary
    (sliceScan fat diag fileLen).2 o0 l0 0 (le_refl _)
  generalize hF : (sliceScan fat diag fileLen).2.foldl
    (fun t s => (bestSliceCallback ⟨pre ++ ⟨T, S, false, g⟩ :: post⟩ isOSBinary s t).1)
    (o0, l0, 0) = F at h1 h2 h3
  have hFv := h2 v (List.getElem?_mem hv)
  rw [hgv] at hFv
  rcases h3 with h3 | ⟨_, k2, v2, hk2, hv2, hearlier⟩
  · rw [h3] at hFv
    exact absurd hFv (by simp only [not_le]; exact hg)
  · have hF2 : F.2.2 = sliceGrade ⟨pre ++ ⟨T, S, false, g⟩ :: post⟩ isOSBinary v2 := by
      rw [hv2]
    have hle := hmax v2 (List.getElem?_mem hk2)
    have hg2 : sliceGrade ⟨pre ++ ⟨T, S, false, g⟩ :: post⟩ isOSBinary v2 = g := by omega
    have hkk : k2 = k := by
      rcases Nat.lt_trichotomy k2 k with hlt | heq | hgt
      · exact absurd hg2 (hfirst v2 (mem_take_of_getElem? _ _ _ _ hlt hk2))
      · exact heq
      · have := hearlier k v hgt hv
        omega
    subst hkk
    have hvv : v2 = v := by
      rw [hk2] at hv; exact Option.some.inj hv
    subst hvv
    refine ⟨?_, by rw [hv2], by rw [hv2]⟩
    simp only [bne_iff_ne, ne_eq, decide_eq_true_eq]
    omega

/-- Witness for C9 (amended): in `twoSliceFat` the x86_64h slice is the one the entry
`(x86_64, x86_64h, false, 2)` of the table `x86_64h` selects. -/
theorem isFatFileWithSlice_returns_matching_slice_witness :
    (sliceScan twoSliceFat {} 0x2020).1.hasError = false ∧
    (sliceScan twoSliceFat {} 0x2020).2[1]? =
      some ⟨CPU_TYPE_X86_64, CPU_SUBTYPE_X86_64_H, 0x2000, 32⟩ ∧
    (isFatFileWithSlice twoSliceFat {} 0x2020
      ⟨[] ++ ⟨CPU_TYPE_X86_64, CPU_SUBTYPE_X86_64_H, false, 2⟩
        :: [⟨CPU_TYPE_X86_64, CPU_SUBTYPE_X86_64_ALL, false, 1⟩, ⟨0, 0, false, 0⟩]⟩
      false 0 0).result = true ∧
    (isFatFileWithSlice twoSliceFat {} 0x2020
      ⟨[] ++ ⟨CPU_TYPE_X86_64, CPU_SUBTYPE_X86_64_H, false, 2⟩
        :: [⟨CPU_TYPE_X86_64, CPU_SUBTYPE_X86_64_ALL, false, 1⟩, ⟨0, 0, false, 0⟩]⟩
      false 0 0).sliceOffset = 0x2000 ∧
    (isFatFileWithSlice twoSliceFat {} 0x2020
      ⟨[] ++ ⟨CPU_TYPE_X86_64, CPU_SUBTYPE_X86_64_H, false, 2⟩
        :: [⟨CPU_TYPE_X86_64, CPU_SUBTYPE_X86_64_ALL, false, 1⟩, ⟨0, 0, false, 0⟩]⟩
      false 0 0).sliceLen = 32 :=
  ⟨by decide, by decide,
    isFatFileWithSlice_returns_matching_slice twoSliceFat {} 0x2020 []
      [⟨CPU_TYPE_X86_64, CPU_SUBTYPE_X86_64_ALL, false, 1⟩, ⟨0, 0, false, 0⟩]
      CPU_TYPE_X86_64 CPU_SUBTYPE_X86_64_H 2 false 0 0 1
      ⟨CPU_TYPE_X86_64, CPU_SUBTYPE_X86_64_H, 0x2000, 32⟩
      (Or.inl (by decide)) (by decide) (by decide) (by decide)
      (fun p hp => absurd hp (List.not_mem_nil p)) (by decide) (by decide) (by decide)
      (by decide) (by decide)⟩

/-- C11 fails as stated: in a table holding `(i386, ALL, false, 1)` before
`(i386, ALL, false, 2)`, both entries match an i386 query, the maximum matching grade is
2, and `grade` returns 1, the grade of the first. -/
theorem grade_returns_first_not_maximum :
    GradedArchs.grade ⟨[GRADE_i386 1, GRADE_i386 2, .terminator]⟩
      CPU_TYPE_I386 CPU_SUBTYPE_I386_ALL false = 1 ∧
    GRADE_i386 2 ∈ GradedArchs.entries ⟨[GRADE_i386 1, GRADE_i386 2, .terminator]⟩ ∧
    (GRADE_i386 2).qualifies CPU_TYPE_I386 CPU_SUBTYPE_I386_ALL false = true ∧
    (GRADE_i386 2).grade = 2 :=
  ⟨by decide, by decide, by decide, by decide⟩

/-- C11 (amended): `grade` answers from the first matching entry; for a zero-terminated
table listed highest grade first this is the maximum grade over all entries that match
the query (type, masked subtype, os-binary requirement satisfied), and 0 when none
matches.  Every static table of the source is listed highest grade first. -/
theorem grade_is_maximum_when_highest_first (archs : GradedArchs) (cputype cpusubtype : Nat)
    (isOSBinary : Bool) :
    (archs.highestFirst →
      (∀ p ∈ archs.entries, p.qualifies cputype cpusubtype isOSBinary = true →
        p.grade ≤ archs.grade cputype cpusubtype isOSBinary) ∧
      ((∃ p ∈ archs.entries, p.qualifies cputype cpusubtype isOSBinary = true ∧
          archs.grade cputype cpusubtype isOSBinary = p.grade) ∨
        ((∀ p ∈ archs.entries, p.qualifies cputype cpusubtype isOSBinary = false) ∧
          archs.grade cputype cpusubtype isOSBinary = 0))) ∧
    (∀ t ∈ GradedArchs.staticTables, t.highestFirst) := by
  refine ⟨fun hs => ?_, by decide⟩
  have hgrade := gradeLoop_eq_find cputype cpusubtype isOSBinary archs.orderedCpuTypes
  change archs.grade cputype cpusubtype isOSBinary =
    match archs.entries.find? (fun p => p.qualifies cputype cpusubtype isOSBinary) with
    | some p => p.grade
    | none => 0 at hgrade
  cases hf : archs.entries.find? (fun p => p.qualifies cputype cpusubtype isOSBinary) with
  | none =>
    rw [hf] at hgrade
    have hnone := List.find?_eq_none.mp hf
    refine ⟨fun p hp hq => ?_, Or.inr ⟨fun p hp => ?_, hgrade⟩⟩
    · exact absurd hq (hnone p hp)
    · have := hnone p hp
      simpa only [Bool.not_eq_true] using this
  | some a =>
    rw [hf] at hgrade
    have hmem := List.mem_of_find?_eq_some hf
    have hqa := List.find?_some hf
    refine ⟨fun p hp hq => ?_, Or.inl ⟨a, hmem, hqa, hgrade⟩⟩
    rw [hgrade]
    have hs2 : archs.entries.Pairwise (fun p q => q.grade ≤ p.grade) := hs
    exact find?_max_of_pairwise (fun p => p.grade)
      (fun p => p.qualifies cputype cpusubtype isOSBinary) archs.entries hs2 a hf p hp hq

/-- Witness for C11 (amended): the table `launch_Intel_h` and an x86_64 query. -/
theorem grade_is_maximum_when_highest_first_witness :
    GradedArchs.highestFirst ⟨[GRADE_x86_64h 3, GRADE_x86_64 2, GRADE_i386 1, .terminator]⟩ ∧
    (∀ p ∈ GradedArchs.entries ⟨[GRADE_x86_64h 3, GRADE_x86_64 2, GRADE_i386 1, .terminator]⟩,
      p.qualifies CPU_TYPE_X86_64 CPU_SUBTYPE_X86_64_ALL false = true →
      p.grade ≤ GradedArchs.grade
        ⟨[GRADE_x86_64h 3, GRADE_x86_64 2, GRADE_i386 1, .terminator]⟩
        CPU_TYPE_X86_64 CPU_SUBTYPE_X86_64_ALL false) :=
  ⟨by decide,
    ((grade_is_maximum_when_highest_first
      ⟨[GRADE_x86_64h 3, GRADE_x86_64 2, GRADE_i386 1, .terminator]⟩
      CPU_TYPE_X86_64 CPU_SUBTYPE_X86_64_ALL false).1 (by decide)).1⟩

/-! ## Lemmas: descriptors read by `forEachSlice` -/

theorem Diagnostics.hasError_error (d : Diagnostics) (m : DiagMsg) :
    (d.error m).hasError = true := by
  simp [Diagnostics.hasError, Diagnostics.error]

theorem forEachSliceLoop32Reads_lt {σ : Type} (fat : Mem) (fileLen : Nat) (validate : Bool)
    (cb : Slice → σ → σ × Bool) :
    ∀ (n i : Nat) (st : Diagnostics × σ),
      ∀ j ∈ forEachSliceLoop32Reads fat fileLen validate cb n i st, j < i + n := by
  intro n
  induction n with
  | zero => intro i st j hj; simp [forEachSliceLoop32Reads] at hj
  | succ n ih =>
    intro i st j hj
    unfold forEachSliceLoop32Reads at hj
    rcases List.mem_cons.mp hj with rfl | hj'
    · omega
    · split_ifs at hj'
      · simp at hj'
      · have := ih (i + 1) _ j hj'
        omega

theorem forEachSliceLoop64Reads_lt {σ : Type} (fat : Mem) (fileLen : Nat) (validate : Bool)
    (cb : Slice → σ → σ × Bool) :
    ∀ (n i : Nat) (st : Diagnostics × σ),
      ∀ j ∈ forEachSliceLoop64Reads fat fileLen validate cb n i st, j < i + n := by
  intro n
  induction n with
  | zero => intro i st j hj; simp [forEachSliceLoop64Reads] at hj
  | succ n ih =>
    intro i st j hj
    unfold forEachSliceLoop64Reads at hj
    rcases List.mem_cons.mp hj with rfl | hj'
    · omega
    · split_ifs at hj'
      · simp at hj'
      · have := ih (i + 1) _ j hj'
        omega

theorem magic_of_startsWithArch (fat : Mem) (off : Nat) (h : startsWithArch fat off = true) :
    magic (shift fat off) = 0x72613C21 := by
  have h7 : List.range 7 = [0, 1, 2, 3, 4, 5, 6] := by decide
  unfold startsWithArch at h
  rw [h7] at h
  simp only [List.map, str_arch, beq_iff_eq, List.cons.injEq, Nat.add_zero] at h
  obtain ⟨h0, h1, h2, h3, _⟩ := h
  unfold magic read32
  have e0 : read8 (shift fat off) 0 = read8 fat off := rfl
  have e1 : read8 (shift fat off) (0 + 1) = read8 fat (off + 1) := rfl
  have e2 : read8 (shift fat off) (0 + 2) = read8 fat (off + 2) := rfl
  have e3 : read8 (shift fat off) (0 + 3) = read8 fat (off + 3) := rfl
  rw [e0, e1, e2, e3, h0, h1, h2, h3]

/-- C13 fails in the code: for a slice whose bytes begin with "!<arch>", `isValidSlice`
returns false with "slice extends beyond end of file", "MachO header exceeds file length"
or "file does not start with MH_MAGIC[_64]"; the test for the archive signature comes after
`isMachO`, which such bytes never pass, so "file is static library" is never recorded. -/
theorem isValidSlice_static_library_reported_as_not_macho (fat : Mem) (diag : Diagnostics)
    (fileLen sliceIndex sliceCpuType sliceCpuSubType sliceOffset sliceLen : Nat)
    (h : startsWithArch fat sliceOffset = true) :
    (isValidSlice fat diag fileLen sliceIndex sliceCpuType sliceCpuSubType sliceOffset
      sliceLen).2 = false ∧
    ((isValidSlice fat diag fileLen sliceIndex sliceCpuType sliceCpuSubType sliceOffset
        sliceLen).1 = diag.error (.sliceExtendsBeyondFile sliceIndex) ∨
      (isValidSlice fat diag fileLen sliceIndex sliceCpuType sliceCpuSubType sliceOffset
        sliceLen).1 = diag.error .headerExceedsFileLength ∨
      (isValidSlice fat diag fileLen sliceIndex sliceCpuType sliceCpuSubType sliceOffset
        sliceLen).1 = diag.error .notMachO) := by
  have hmagic := magic_of_startsWithArch fat sliceOffset h
  have hno : hasMachOMagic (shift fat sliceOffset) = false := by
    unfold hasMachOMagic; rw [hmagic]; decide
  have hnb : hasMachOBigEndianMagic (shift fat sliceOffset) = false := by
    unfold hasMachOBigEndianMagic; rw [hmagic]; decide
  have hm : isMachO (shift fat sliceOffset) diag sliceLen =
      if sliceLen < sizeof_mach_header then (diag.error .headerExceedsFileLength, false)
      else (diag.error .notMachO, false) := by
    unfold isMachO
    rw [hno, hnb]
    rfl
  unfold isValidSlice
  by_cases h1 : greaterThanAddOrOverflow sliceOffset sliceLen fileLen = true
  · rw [if_pos h1]
    exact ⟨rfl, Or.inl rfl⟩
  · rw [if_neg h1]
    simp only [hm]
    by_cases h2 : sliceLen < sizeof_mach_header
    · rw [if_pos h2]
      exact ⟨rfl, Or.inr (Or.inl rfl)⟩
    · rw [if_neg h2]
      exact ⟨rfl, Or.inr (Or.inr rfl)⟩

/-- Witness for C13: a 0x1000-byte buffer holding "!<arch>" and a newline at offset 0x30,
declared as an x86_64 slice of 0x100 bytes at offset 0x30 (within the file, not page
aligned): the diagnostic is "file does not start with MH_MAGIC[_64]". -/
theorem isValidSlice_static_library_reported_as_not_macho_witness :
    startsWithArch (memOfPieces [(0x30, str_arch ++ [0x0a])]) 0x30 = true ∧
    greaterThanAddOrOverflow 0x30 0x100 0x1000 = false ∧ 0x30 &&& 0xFFF ≠ 0 ∧
    isValidSlice (memOfPieces [(0x30, str_arch ++ [0x0a])]) {} 0x1000 0 CPU_TYPE_X86_64
      CPU_SUBTYPE_X86_64_ALL 0x30 0x100 = (Diagnostics.error {} .notMachO, false) ∧
    ((isValidSlice (memOfPieces [(0x30, str_arch ++ [0x0a])]) {} 0x1000 0 CPU_TYPE_X86_64
      CPU_SUBTYPE_X86_64_ALL 0x30 0x100).2 = false ∧
    ((isValidSlice (memOfPieces [(0x30, str_arch ++ [0x0a])]) {} 0x1000 0 CPU_TYPE_X86_64
        CPU_SUBTYPE_X86_64_ALL 0x30 0x100).1
          = Diagnostics.error {} (.sliceExtendsBeyondFile 0) ∨
      (isValidSlice (memOfPieces [(0x30, str_arch ++ [0x0a])]) {} 0x1000 0 CPU_TYPE_X86_64
        CPU_SUBTYPE_X86_64_ALL 0x30 0x100).1 = Diagnostics.error {} .headerExceedsFileLength ∨
      (isValidSlice (memOfPieces [(0x30, str_arch ++ [0x0a])]) {} 0x1000 0 CPU_TYPE_X86_64
        CPU_SUBTYPE_X86_64_ALL 0x30 0x100).1 = Diagnostics.error {} .notMachO)) :=
  ⟨by decide, by decide, by decide, by decide,
    isValidSlice_static_library_reported_as_not_macho
      (memOfPieces [(0x30, str_arch ++ [0x0a])]) {} 0x1000 0 CPU_TYPE_X86_64
      CPU_SUBTYPE_X86_64_ALL 0x30 0x100 (by decide)⟩

/-- C17 fails in the code: the ten bytes `80 80 80 80 80 80 80 80 80 02` encode 2^64, and
`read_uleb128` returns 0 for them, having consumed all ten bytes, with no error recorded;
the test `bit > 63` lets the tenth group through and the shift drops its upper bits. -/
theorem read_uleb128_truncates_tenth_byte :
    ulebEncoded (memOfList ulebTwoPow64) 0 10 ∧
    ulebValue (memOfList ulebTwoPow64) 0 10 = 2 ^ 64 ∧
    read_uleb128 (memOfList ulebTwoPow64) {} 0 10 = ({}, 10, 0) := by
  refine ⟨by decide, by decide, by decide⟩

/-! ## Lemmas: `walkChain` -/

theorem walkChainSwitch_chainEnd (pointer_format stride : Nat) (notifyNonPointers : Bool)
    (max_valid_pointer fuel chain chainContent : Nat) (mem : Mem)
    (h : endsChain pointer_format chainContent) :
    walkChainSwitch pointer_format stride notifyNonPointers max_valid_pointer fuel chain
      chainContent mem = .chainEnd := by
  unfold endsChain at h
  rcases h with ⟨hf, hn⟩ | ⟨hf, hn⟩ | ⟨hf, hn⟩ | ⟨hf, hn⟩ | ⟨hf, hn⟩ | ⟨hf, hn⟩
  · rcases hf with hf | hf | hf | hf | hf <;> subst hf <;>
      simp [walkChainSwitch, hn, DYLD_CHAINED_PTR_ARM64E, DYLD_CHAINED_PTR_ARM64E_KERNEL,
        DYLD_CHAINED_PTR_ARM64E_USERLAND, DYLD_CHAINED_PTR_ARM64E_USERLAND24,
        DYLD_CHAINED_PTR_ARM64E_FIRMWARE]
  · subst hf
    simp [walkChainSwitch, hn, DYLD_CHAINED_PTR_ARM64E, DYLD_CHAINED_PTR_ARM64E_KERNEL,
      DYLD_CHAINED_PTR_ARM64E_USERLAND, DYLD_CHAINED_PTR_ARM64E_USERLAND24,
      DYLD_CHAINED_PTR_ARM64E_FIRMWARE, DYLD_CHAINED_PTR_ARM64E_SHARED_CACHE]
  · rcases hf with hf | hf <;> subst hf <;>
      simp [walkChainSwitch, hn, DYLD_CHAINED_PTR_ARM64E, DYLD_CHAINED_PTR_ARM64E_KERNEL,
        DYLD_CHAINED_PTR_ARM64E_USERLAND, DYLD_CHAINED_PTR_ARM64E_USERLAND24,
        DYLD_CHAINED_PTR_ARM64E_FIRMWARE, DYLD_CHAINED_PTR_ARM64E_SHARED_CACHE,
        DYLD_CHAINED_PTR_64, DYLD_CHAINED_PTR_64_OFFSET]
  · subst hf
    simp [walkChainSwitch, hn, DYLD_CHAINED_PTR_ARM64E, DYLD_CHAINED_PTR_ARM64E_KERNEL,
      DYLD_CHAINED_PTR_ARM64E_USERLAND, DYLD_CHAINED_PTR_ARM64E_USERLAND24,
      DYLD_CHAINED_PTR_ARM64E_FIRMWARE, DYLD_CHAINED_PTR_ARM64E_SHARED_CACHE,
      DYLD_CHAINED_PTR_64, DYLD_CHAINED_PTR_64_OFFSET, DYLD_CHAINED_PTR_32]
  · rcases hf with hf | hf <;> subst hf <;>
      simp [walkChainSwitch, hn, DYLD_CHAINED_PTR_ARM64E, DYLD_CHAINED_PTR_ARM64E_KERNEL,
        DYLD_CHAINED_PTR_ARM64E_USERLAND, DYLD_CHAINED_PTR_ARM64E_USERLAND24,
        DYLD_CHAINED_PTR_ARM64E_FIRMWARE, DYLD_CHAINED_PTR_ARM64E_SHARED_CACHE,
        DYLD_CHAINED_PTR_64, DYLD_CHAINED_PTR_64_OFFSET, DYLD_CHAINED_PTR_32,
        DYLD_CHAINED_PTR_64_KERNEL_CACHE, DYLD_CHAINED_PTR_X86_64_KERNEL_CACHE]
  · subst hf
    simp [walkChainSwitch, hn, DYLD_CHAINED_PTR_ARM64E, DYLD_CHAINED_PTR_ARM64E_KERNEL,
      DYLD_CHAINED_PTR_ARM64E_USERLAND, DYLD_CHAINED_PTR_ARM64E_USERLAND24,
      DYLD_CHAINED_PTR_ARM64E_FIRMWARE, DYLD_CHAINED_PTR_ARM64E_SHARED_CACHE,
      DYLD_CHAINED_PTR_64, DYLD_CHAINED_PTR_64_OFFSET, DYLD_CHAINED_PTR_32,
      DYLD_CHAINED_PTR_64_KERNEL_CACHE, DYLD_CHAINED_PTR_X86_64_KERNEL_CACHE,
      DYLD_CHAINED_PTR_32_FIRMWARE]

/-- C18: for each pointer format the `switch` of `walkChain` handles and a first word
whose `next` field is 0, `walkChain` with a handler that does not ask to stop calls the
handler once, on the first location, records no error and returns false. -/
theorem walkChain_next_zero_visits_once {σ : Type} (diag : Diagnostics)
    (chain pointer_format stride : Nat) (notifyNonPointers : Bool) (max_valid_pointer : Nat)
    (handler : Nat → Mem × σ → (Mem × σ) × Bool) (st : Mem × σ) (fuel : Nat)
    (hfuel : 0 < fuel)
    (hnext : endsChain pointer_format (read64 st.1 chain))
    (hstop : (handler chain st).2 = false) :
    (walkChain diag chain pointer_format stride notifyNonPointers max_valid_pointer handler st
      fuel).returned = some false ∧
    (walkChain diag chain pointer_format stride notifyNonPointers max_valid_pointer handler st
      fuel).diag = diag ∧
    (walkChain diag chain pointer_format stride notifyNonPointers max_valid_pointer handler st
      fuel).state = (handler chain st).1 ∧
    (walkChain diag chain pointer_format stride notifyNonPointers max_valid_pointer handler st
      fuel).calls = [(chain, read64 st.1 chain)] := by
  obtain ⟨n, rfl⟩ := Nat.exists_eq_succ_of_ne_zero (Nat.pos_iff_ne_zero.mp hfuel)
  unfold walkChain walkChainLoop
  rw [if_neg (by rw [hstop]; exact Bool.false_ne_true),
    walkChainSwitch_chainEnd _ _ _ _ _ _ _ _ hnext]
  exact ⟨rfl, rfl, rfl, rfl⟩

/-- Witness for C18: a `DYLD_CHAINED_PTR_64` word with target 0x1000 and `next` 0, handed
to a handler that counts its calls. -/
theorem walkChain_next_zero_visits_once_witness :
    (walkChain {} 0 DYLD_CHAINED_PTR_64 4 false 0
      (fun _ (st : Mem × Nat) => ((st.1, st.2 + 1), false))
      (memOfList (le64 0x1000), 0) 1).returned = some false ∧
    (walkChain {} 0 DYLD_CHAINED_PTR_64 4 false 0
      (fun _ (st : Mem × Nat) => ((st.1, st.2 + 1), false))
      (memOfList (le64 0x1000), 0) 1).state.2 = 1 :=
  have h := walkChain_next_zero_visits_once {} 0 DYLD_CHAINED_PTR_64 4 false 0
    (fun _ (st : Mem × Nat) => ((st.1, st.2 + 1), false)) (memOfList (le64 0x1000), 0) 1
    (by decide) (Or.inr (Or.inr (Or.inl ⟨Or.inl rfl, by decide⟩))) rfl
  ⟨h.1, by rw [h.2.2.1]⟩

theorem skipNonPointers_stuck (mem : Mem) (max_valid_pointer loc : Nat)
    (hparked : isParkedNonPointer max_valid_pointer (read64 mem loc) = true)
    (hnext : generic32_rebase_next (read64 mem loc) = 0) :
    ∀ fuel, skipNonPointers mem max_valid_pointer fuel loc = none := by
  intro fuel
  induction fuel with
  | zero => rfl
  | succ n ih =>
    unfold skipNonPointers
    rw [if_pos hparked, hnext, Nat.zero_mul, Nat.add_zero]
    exact ih

theorem walkChainSwitch_ptr32_skip (stride max_valid_pointer fuel chain chainContent : Nat)
    (mem : Mem) (hn : generic32_rebase_next chainContent ≠ 0) :
    walkChainSwitch DYLD_CHAINED_PTR_32 stride false max_valid_pointer fuel chain
        chainContent mem =
      match skipNonPointers mem max_valid_pointer fuel
          (chain + generic32_rebase_next chainContent * 4) with
      | some c => .moveTo c
      | none => .noProgress := by
  simp [walkChainSwitch, hn, DYLD_CHAINED_PTR_ARM64E, DYLD_CHAINED_PTR_ARM64E_KERNEL,
    DYLD_CHAINED_PTR_ARM64E_USERLAND, DYLD_CHAINED_PTR_ARM64E_USERLAND24,
    DYLD_CHAINED_PTR_ARM64E_FIRMWARE, DYLD_CHAINED_PTR_ARM64E_SHARED_CACHE,
    DYLD_CHAINED_PTR_64, DYLD_CHAINED_PTR_64_OFFSET, DYLD_CHAINED_PTR_32]

/-- C19 fails in the code: in the `DYLD_CHAINED_PTR_32` format with
`notifyNonPointers = false`, when the word the first `next` link leads to has bind bit 0,
a target above `max_valid_pointer` and `next` 0, the inner loop adds `0*4` to `chain` and
tests the same word again; the run does not end, whatever the bound on its iterations. -/
theorem walkChain_stuck_on_parked_slot_with_next_zero {σ : Type} (diag : Diagnostics)
    (chain stride max_valid_pointer : Nat) (handler : Nat → Mem × σ → (Mem × σ) × Bool)
    (st : Mem × σ) (fuel : Nat)
    (hstop : (handler chain st).2 = false)
    (hn : generic32_rebase_next (read64 st.1 chain) ≠ 0)
    (hparked : isParkedNonPointer max_valid_pointer
      (read64 (handler chain st).1.1
        (chain + generic32_rebase_next (read64 st.1 chain) * 4)) = true)
    (hnext : generic32_rebase_next
      (read64 (handler chain st).1.1
        (chain + generic32_rebase_next (read64 st.1 chain) * 4)) = 0) :
    (walkChain diag chain DYLD_CHAINED_PTR_32 stride false max_valid_pointer handler st
      fuel).returned = none ∧
    chain + generic32_rebase_next (read64 st.1 chain) * 4
        + generic32_rebase_next
          (read64 (handler chain st).1.1
            (chain + generic32_rebase_next (read64 st.1 chain) * 4)) * 4
      = chain + generic32_rebase_next (read64 st.1 chain) * 4 := by
  refine ⟨?_, by rw [hnext, Nat.zero_mul, Nat.add_zero]⟩
  cases fuel with
  | zero => rfl
  | succ n =>
    unfold walkChain walkChainLoop
    rw [if_neg (by rw [hstop]; exact Bool.false_ne_true),
      walkChainSwitch_ptr32_skip _ _ _ _ _ _ hn,
      skipNonPointers_stuck _ _ _ hparked hnext]

/-- Witness for C19: the two-word chain `parkedEndChain` with `max_valid_pointer` 0x1000
and a handler that changes nothing, run with a bound of 1000 iterations. -/
theorem walkChain_stuck_on_parked_slot_with_next_zero_witness :
    generic32_rebase_next (read64 parkedEndChain 0) = 1 ∧
    isParkedNonPointer 0x1000 (read64 parkedEndChain 4) = true ∧
    generic32_rebase_next (read64 parkedEndChain 4) = 0 ∧
    (walkChain {} 0 DYLD_CHAINED_PTR_32 4 false 0x1000 idleHandler (parkedEndChain, ())
      1000).returned = none :=
  ⟨by decide, by decide, by decide,
    (walkChain_stuck_on_parked_slot_with_next_zero {} 0 4 0x1000 idleHandler
      (parkedEndChain, ()) 1000 rfl (by decide) (by decide) (by decide)).1⟩

theorem walkChainSwitch_ptr32 (stride : Nat) (notifyNonPointers : Bool)
    (max_valid_pointer fuel chain chainContent : Nat) (mem : Mem) :
    walkChainSwitch DYLD_CHAINED_PTR_32 stride notifyNonPointers max_valid_pointer fuel chain
        chainContent mem =
      if generic32_rebase_next chainContent == 0 then .chainEnd
      else if !notifyNonPointers then
        match skipNonPointers mem max_valid_pointer fuel
            (chain + generic32_rebase_next chainContent * 4) with
        | some c => .moveTo c
        | none => .noProgress
      else .moveTo (chain + generic32_rebase_next chainContent * 4) := by
  simp [walkChainSwitch, DYLD_CHAINED_PTR_ARM64E, DYLD_CHAINED_PTR_ARM64E_KERNEL,
    DYLD_CHAINED_PTR_ARM64E_USERLAND, DYLD_CHAINED_PTR_ARM64E_USERLAND24,
    DYLD_CHAINED_PTR_ARM64E_FIRMWARE, DYLD_CHAINED_PTR_ARM64E_SHARED_CACHE,
    DYLD_CHAINED_PTR_64, DYLD_CHAINED_PTR_64_OFFSET, DYLD_CHAINED_PTR_32]

theorem skipNonPointers_some (mem : Mem) (max_valid_pointer : Nat) :
    ∀ (fuel loc c : Nat), skipNonPointers mem max_valid_pointer fuel loc = some c →
      isParkedNonPointer max_valid_pointer (read64 mem c) = false := by
  intro fuel
  induction fuel with
  | zero => intro loc c h; simp [skipNonPointers] at h
  | succ n ih =>
    intro loc c h
    unfold skipNonPointers at h
    by_cases hp : isParkedNonPointer max_valid_pointer (read64 mem loc) = true
    · rw [if_pos hp] at h
      exact ih _ c h
    · rw [if_neg hp] at h
      simp only [Option.some.injEq] at h
      subst h
      simpa only [Bool.not_eq_true] using hp

theorem skipNonPointers_stays (mem : Mem) (max_valid_pointer fuel loc : Nat)
    (h : isParkedNonPointer max_valid_pointer (read64 mem loc) = false) :
    skipNonPointers mem max_valid_pointer (fuel + 1) loc = some loc := by
  unfold skipNonPointers
  rw [if_neg (by rw [h]; exact Bool.false_ne_true)]

/-- The step of `walkChainLoop` in the `DYLD_CHAINED_PTR_32` format when the handler does
not ask to stop. -/
theorem walkChainLoop_ptr32_succ {σ : Type} (stride : Nat) (notifyNonPointers : Bool)
    (max_valid_pointer : Nat) (handler : Nat → Mem × σ → (Mem × σ) × Bool) (fuel n : Nat)
    (diag : Diagnostics) (chain : Nat) (st : Mem × σ) :
    (walkChainLoop DYLD_CHAINED_PTR_32 stride notifyNonPointers max_valid_pointer handler fuel
        (n + 1) diag chain st).calls = [(chain, read64 st.1 chain)]
      ∧ ((walkChainLoop DYLD_CHAINED_PTR_32 stride notifyNonPointers max_valid_pointer handler
          fuel (n + 1) diag chain st).returned = some false →
        generic32_rebase_next (read64 st.1 chain) = 0)
    ∨ ∃ c, generic32_rebase_next (read64 st.1 chain) ≠ 0
      ∧ (notifyNonPointers = true → c = chain + generic32_rebase_next (read64 st.1 chain) * 4)
      ∧ (notifyNonPointers = false →
          isParkedNonPointer max_valid_pointer (read64 (handler chain st).1.1 c) = false)
      ∧ walkChainLoop DYLD_CHAINED_PTR_32 stride notifyNonPointers max_valid_pointer handler
          fuel (n + 1) diag chain st
        = (walkChainLoop DYLD_CHAINED_PTR_32 stride notifyNonPointers max_valid_pointer
            handler fuel n diag c (handler chain st).1).afterCall
              (chain, read64 st.1 chain) := by
  rw [walkChainLoop]
  by_cases hs : (handler chain st).2 = true
  · rw [if_pos hs]
    exact Or.inl ⟨rfl, fun h => by simp at h⟩
  · rw [if_neg hs, walkChainSwitch_ptr32]
    by_cases hn : (generic32_rebase_next (read64 st.1 chain) == 0) = true
    · rw [if_pos hn]
      exact Or.inl ⟨rfl, fun _ => by simpa using hn⟩
    · rw [if_neg hn]
      have hn' : generic32_rebase_next (read64 st.1 chain) ≠ 0 := by simpa using hn
      cases hnot : notifyNonPointers with
      | true =>
        simp only [Bool.not_true, Bool.false_eq_true, if_false]
        exact Or.inr ⟨_, hn', fun _ => rfl, fun h => by simp at h, rfl⟩
      | false =>
        simp only [Bool.not_false, if_true]
        cases hsk : skipNonPointers (handler chain st).1.1 max_valid_pointer fuel
            (chain + generic32_rebase_next (read64 st.1 chain) * 4) with
        | none => exact Or.inl ⟨rfl, fun h => by simp at h⟩
        | some c =>
          exact Or.inr ⟨c, hn', fun h => by simp at h,
            fun _ => skipNonPointers_some _ _ _ _ _ hsk, rfl⟩

theorem walkChainLoop_ptr32_head {σ : Type} (stride : Nat) (notifyNonPointers : Bool)
    (max_valid_pointer : Nat) (handler : Nat → Mem × σ → (Mem × σ) × Bool) (fuel n : Nat)
    (diag : Diagnostics) (chain : Nat) (st : Mem × σ) :
    (walkChainLoop DYLD_CHAINED_PTR_32 stride notifyNonPointers max_valid_pointer handler fuel
        (n + 1) diag chain st).calls.head? = some (chain, read64 st.1 chain) := by
  rcases walkChainLoop_ptr32_succ stride notifyNonPointers max_valid_pointer handler fuel n diag
    chain st with ⟨h, _⟩ | ⟨c, _, _, _, h⟩
  · rw [h]; rfl
  · rw [h]; rfl

theorem walkChainLoop_ptr32_calls {σ : Type} (stride : Nat) (notifyNonPointers : Bool)
    (max_valid_pointer : Nat) (handler : Nat → Mem × σ → (Mem × σ) × Bool) (fuel : Nat) :
    ∀ (n : Nat) (diag : Diagnostics) (chain : Nat) (st : Mem × σ),
      (notifyNonPointers = false →
        ∀ c ∈ (walkChainLoop DYLD_CHAINED_PTR_32 stride notifyNonPointers max_valid_pointer
            handler fuel n diag chain st).calls.tail,
          isParkedNonPointer max_valid_pointer c.2 = false)
      ∧ (notifyNonPointers = true →
        List.Chain' (fun a b => generic32_rebase_next a.2 ≠ 0
            ∧ b.1 = a.1 + generic32_rebase_next a.2 * 4)
          (walkChainLoop DYLD_CHAINED_PTR_32 stride notifyNonPointers max_valid_pointer
            handler fuel n diag chain st).calls)
      ∧ ((walkChainLoop DYLD_CHAINED_PTR_32 stride notifyNonPointers max_valid_pointer
            handler fuel n diag chain st).returned = some false →
        ∃ last, (walkChainLoop DYLD_CHAINED_PTR_32 stride notifyNonPointers max_valid_pointer
            handler fuel n diag chain st).calls.getLast? = some last
          ∧ generic32_rebase_next last.2 = 0) := by
  intro n
  induction n with
  | zero =>
    intro diag chain st
    refine ⟨fun _ c hc => ?_, fun _ => ?_, fun h => ?_⟩
    · simp [walkChainLoop] at hc
    · simp [walkChainLoop]
    · simp [walkChainLoop] at h
  | succ n ih =>
    intro diag chain st
    rcases walkChainLoop_ptr32_succ stride notifyNonPointers max_valid_pointer handler fuel n
      diag chain st with ⟨h, hend⟩ | ⟨c, hn, hc1, hc2, h⟩
    · refine ⟨fun _ c hc => ?_, fun _ => ?_, fun hr => ?_⟩
      · rw [h] at hc; simp at hc
      · rw [h]; exact List.chain'_singleton _
      · rw [h]; exact ⟨_, rfl, hend hr⟩
    · obtain ⟨ih1, ih2, ih3⟩ := ih diag c (handler chain st).1
      rw [h]
      cases n with
      | zero =>
        refine ⟨fun _ c hc => ?_, fun _ => ?_, fun hr => ?_⟩
        · simp [walkChainLoop, ChainWalk.afterCall] at hc
        · simp [walkChainLoop, ChainWalk.afterCall]
        · simp [walkChainLoop, ChainWalk.afterCall] at hr
      | succ k =>
        have hhead := walkChainLoop_ptr32_head stride notifyNonPointers max_valid_pointer
          handler fuel k diag c (handler chain st).1
        obtain ⟨rest, hrest⟩ : ∃ rest,
            (walkChainLoop DYLD_CHAINED_PTR_32 stride notifyNonPointers max_valid_pointer
              handler fuel (k + 1) diag c (handler chain st).1).calls
            = (c, read64 (handler chain st).1.1 c) :: rest := by
          cases hcalls : (walkChainLoop DYLD_CHAINED_PTR_32 stride notifyNonPointers
              max_valid_pointer handler fuel (k + 1) diag c (handler chain st).1).calls with
          | nil => rw [hcalls] at hhead; simp at hhead
          | cons x xs =>
            rw [hcalls] at hhead
            simp only [List.head?_cons, Option.some.injEq] at hhead
            exact ⟨xs, by rw [hhead]⟩
        refine ⟨fun hnot x hx => ?_, fun hnot => ?_, fun hr => ?_⟩
        · simp only [ChainWalk.afterCall, List.tail_cons] at hx
          have ih1' := ih1 hnot
          rw [hrest] at hx ih1'
          rcases List.mem_cons.mp hx with rfl | hx'
          · exact hc2 hnot
          · exact ih1' x (by simpa using hx')
        · simp only [ChainWalk.afterCall]
          have ih2' := ih2 hnot
          rw [hrest] at ih2' ⊢
          exact List.Chain'.cons ⟨hn, hc1 hnot⟩ ih2'
        · simp only [ChainWalk.afterCall] at hr ⊢
          obtain ⟨last, hl, hz⟩ := ih3 hr
          rw [hrest] at hl ⊢
          exact ⟨last, by rw [List.getLast?_cons_cons]; exact hl, hz⟩

/-- C20 fails as stated: with `notifyNonPointers = false` the handler is called on the
first word of a `DYLD_CHAINED_PTR_32` chain although its bind bit is 0 and its target,
0x3FFFFFF, exceeds `max_valid_pointer` = 0x1000. -/
theorem walkChain_visits_parked_first_slot :
    isParkedNonPointer 0x1000 (read64 parkedFirstChain 0) = true ∧
    (walkChain {} 0 DYLD_CHAINED_PTR_32 4 false 0x1000 idleHandler (parkedFirstChain, ())
      1).calls = [(0, 0x03FFFFFF)] :=
  ⟨by decide, by decide⟩

/-- C20 (amended): in the `DYLD_CHAINED_PTR_32` format the first word of the chain is
always handed to the handler.  With `notifyNonPointers = false` every later call is on a
word that is not parked (bind bit set or target ≤ `max_valid_pointer`), and when the word
the first `next` link leads to is not parked, as with a target equal to
`max_valid_pointer`, it is the second word handed over.  With `notifyNonPointers = true`
each call after the first is on the word the `next` link of the previous one leads to.
A run that returns false ends on a word whose `next` is 0. -/
theorem walkChain_ptr32_skips_parked_after_first {σ : Type} (diag : Diagnostics)
    (chain stride : Nat) (notifyNonPointers : Bool) (max_valid_pointer : Nat)
    (handler : Nat → Mem × σ → (Mem × σ) × Bool) (st : Mem × σ) (fuel : Nat) :
    (0 < fuel →
      (walkChain diag chain DYLD_CHAINED_PTR_32 stride notifyNonPointers max_valid_pointer
        handler st fuel).calls.head? = some (chain, read64 st.1 chain))
    ∧ (notifyNonPointers = false →
        ∀ c ∈ (walkChain diag chain DYLD_CHAINED_PTR_32 stride notifyNonPointers
            max_valid_pointer handler st fuel).calls.tail,
          isParkedNonPointer max_valid_pointer c.2 = false)
    ∧ (notifyNonPointers = false → 2 ≤ fuel → (handler chain st).2 = false →
        generic32_rebase_next (read64 st.1 chain) ≠ 0 →
        isParkedNonPointer max_valid_pointer (read64 (handler chain st).1.1
          (chain + generic32_rebase_next (read64 st.1 chain) * 4)) = false →
        (walkChain diag chain DYLD_CHAINED_PTR_32 stride notifyNonPointers max_valid_pointer
          handler st fuel).calls.tail.head?
          = some (chain + generic32_rebase_next (read64 st.1 chain) * 4,
              read64 (handler chain st).1.1
                (chain + generic32_rebase_next (read64 st.1 chain) * 4)))
    ∧ (notifyNonPointers = true →
        List.Chain' (fun a b => generic32_rebase_next a.2 ≠ 0
            ∧ b.1 = a.1 + generic32_rebase_next a.2 * 4)
          (walkChain diag chain DYLD_CHAINED_PTR_32 stride notifyNonPointers
            max_valid_pointer handler st fuel).calls)
    ∧ ((walkChain diag chain DYLD_CHAINED_PTR_32 stride notifyNonPointers max_valid_pointer
          handler st fuel).returned = some false →
        ∃ last, (walkChain diag chain DYLD_CHAINED_PTR_32 stride notifyNonPointers
            max_valid_pointer handler st fuel).calls.getLast? = some last
          ∧ generic32_rebase_next last.2 = 0) := by
  obtain ⟨h1, h2, h3⟩ := walkChainLoop_ptr32_calls stride notifyNonPointers max_valid_pointer
    handler fuel fuel diag chain st
  refine ⟨fun hf => ?_, h1, fun hnot hf hstop hn hp => ?_, h2, h3⟩
  · obtain ⟨n, rfl⟩ := Nat.exists_eq_succ_of_ne_zero (Nat.pos_iff_ne_zero.mp hf)
    exact walkChainLoop_ptr32_head _ _ _ _ _ _ _ _ _
  · obtain ⟨n, rfl⟩ : ∃ n, fuel = n + 2 := ⟨fuel - 2, by omega⟩
    subst hnot
    unfold walkChain
    rw [walkChainLoop, if_neg (by rw [hstop]; exact Bool.false_ne_true),
      walkChainSwitch_ptr32_skip _ _ _ _ _ _ hn, skipNonPointers_stays _ _ _ _ hp]
    exact walkChainLoop_ptr32_head _ _ _ _ _ _ _ _ _

/-- Witness for C20 (amended): a chain of two words, the second with bind bit 0 and
target 0x1000 equal to `max_valid_pointer`; it is the second word handed over. -/
theorem walkChain_ptr32_skips_parked_after_first_witness :
    isParkedNonPointer 0x1000 (read64 (memOfList (le32 0x04000010 ++ le32 0x1000)) 4) = false ∧
    (walkChain {} 0 DYLD_CHAINED_PTR_32 4 false 0x1000 idleHandler
      (memOfList (le32 0x04000010 ++ le32 0x1000), ()) 2).calls.tail.head?
        = some (0 + generic32_rebase_next
            (read64 (memOfList (le32 0x04000010 ++ le32 0x1000), ()).1 0) * 4,
          read64 (idleHandler 0 (memOfList (le32 0x04000010 ++ le32 0x1000), ())).1.1
            (0 + generic32_rebase_next
              (read64 (memOfList (le32 0x04000010 ++ le32 0x1000), ()).1 0) * 4)) :=
  ⟨by decide,
    (walkChain_ptr32_skips_parked_after_first {} 0 4 false 0x1000 idleHandler
      (memOfList (le32 0x04000010 ++ le32 0x1000), ()) 2).2.2.1 rfl (by decide) rfl
      (by decide) (by decide)⟩

/-! ## Lemmas: ULEB128 -/

theorem uleb_or_eq (result b bit : Nat) (hr : result < 2 ^ bit) (hbit : bit ≤ 63) :
    result ||| u64 ((b &&& 0x7f) <<< bit)
      = (result + (b % 128) * 2 ^ bit) % 18446744073709551616 := by
  unfold u64
  have h7 : b &&& 0x7f = b % 128 := Nat.and_pow_two_sub_one_eq_mod b 7
  rw [h7, Nat.shiftLeft_eq]
  have h64 : (18446744073709551616 : Nat) = 2 ^ bit * 2 ^ (64 - bit) := by
    have hb : bit + (64 - bit) = 64 := by omega
    rw [← Nat.pow_add, hb]
  have hmod : (b % 128 * 2 ^ bit) % 18446744073709551616
      = 2 ^ bit * ((b % 128) % 2 ^ (64 - bit)) := by
    rw [h64, Nat.mul_comm (b % 128) (2 ^ bit), Nat.mul_mod_mul_left]
  rw [hmod, Nat.or_comm, ← Nat.mul_add_lt_is_or hr]
  have hlt : (b % 128) % 2 ^ (64 - bit) < 2 ^ (64 - bit) := Nat.mod_lt _ (by positivity)
  have hsum : 2 ^ bit * ((b % 128) % 2 ^ (64 - bit)) + result < 18446744073709551616 := by
    rw [h64]
    calc 2 ^ bit * ((b % 128) % 2 ^ (64 - bit)) + result
        < 2 ^ bit * ((b % 128) % 2 ^ (64 - bit)) + 2 ^ bit := by omega
      _ = 2 ^ bit * ((b % 128) % 2 ^ (64 - bit) + 1) := by ring
      _ ≤ 2 ^ bit * 2 ^ (64 - bit) := Nat.mul_le_mul_left _ hlt
  have hdecomp : result + b % 128 * 2 ^ bit
      = (2 ^ bit * ((b % 128) % 2 ^ (64 - bit)) + result)
        + 18446744073709551616 * ((b % 128) / 2 ^ (64 - bit)) := by
    rw [h64]
    have := Nat.mod_add_div (b % 128) (2 ^ (64 - bit))
    calc result + b % 128 * 2 ^ bit
        = result + ((b % 128) % 2 ^ (64 - bit)
            + 2 ^ (64 - bit) * ((b % 128) / 2 ^ (64 - bit))) * 2 ^ bit := by rw [this]
      _ = _ := by ring
  rw [hdecomp, Nat.add_mul_mod_self_left, Nat.mod_eq_of_lt hsum]

/-- The continuation bit of a byte. -/
theorem continuation_bit (b : Nat) (hb : b < 256) :
    ((b &&& 0x80) != 0) = decide (128 ≤ b) := by
  have h : b &&& 128 = 128 * (b / 128 % 2) := by
    have h1 : b &&& 2 ^ 7 = (b.testBit 7).toNat * 2 ^ 7 := Nat.and_two_pow b 7
    have h2 : (2 : Nat) ^ 7 = 128 := by norm_num
    rw [h2] at h1
    rw [h1, Nat.testBit_to_div_mod, h2]
    by_cases hc : b / 128 % 2 = 1
    · simp [hc]
    · have : b / 128 % 2 = 0 := by omega
      simp [this]
  rw [h]
  by_cases h128 : 128 ≤ b
  · have : b / 128 % 2 = 1 := by omega
    simp [this, h128]
  · have : b / 128 % 2 = 0 := by omega
    simp [this, h128]

theorem continuation_bit_read8 (m : Mem) (p : Nat) :
    ((read8 m p &&& 0x80) != 0) = decide (128 ≤ read8 m p) :=
  continuation_bit _ (Nat.mod_lt _ (by decide))

theorem read_uleb128Loop_spec (m : Mem) (tend : Nat) (diag : Diagnostics) :
    ∀ (len fuel p result bit : Nat), ulebEncoded m p len → p + len ≤ tend →
      bit + 7 * len ≤ 70 → len ≤ fuel → result < 2 ^ bit →
      read_uleb128Loop m tend fuel diag p result bit
        = (diag, p + len, (result + 2 ^ bit * ulebValue m p len) % 18446744073709551616) := by
  intro len
  induction len with
  | zero => intro fuel p result bit h; exact absurd h (by simp [ulebEncoded])
  | succ n ih =>
    intro fuel p result bit henc hend hbit hfuel hres
    obtain ⟨f, rfl⟩ : ∃ f, fuel = f + 1 := ⟨fuel - 1, by omega⟩
    unfold read_uleb128Loop
    have hp : ¬ (p == tend) = true := by
      simp only [beq_iff_eq]; omega
    have hb : ¬ bit > 63 := by omega
    rw [if_neg hp, if_neg hb, continuation_bit_read8, uleb_or_eq _ _ _ hres (by omega)]
    unfold ulebEncoded at henc
    by_cases hn : n = 0
    · subst hn
      rw [if_pos rfl] at henc
      have hc : ¬ decide (128 ≤ read8 m p) = true := by
        simp only [decide_eq_true_eq]; omega
      rw [if_neg hc]
      simp only [ulebValue, Nat.mul_zero, Nat.add_zero]
      rw [Nat.mul_comm]
    · rw [if_neg hn] at henc
      have hc : decide (128 ≤ read8 m p) = true := by
        simp only [decide_eq_true_eq]; exact henc.1
      rw [if_pos hc]
      have hbit56 : bit ≤ 56 := by omega
      have hpow : 2 ^ (bit + 7) = 2 ^ bit * 128 := by rw [Nat.pow_add]
      have hlt : result + read8 m p % 128 * 2 ^ bit < 2 ^ (bit + 7) := by
        rw [hpow]
        have h1 : read8 m p % 128 * 2 ^ bit ≤ 127 * 2 ^ bit :=
          Nat.mul_le_mul_right _ (by omega)
        omega
      have hle : 2 ^ (bit + 7) ≤ 2 ^ 63 := Nat.pow_le_pow_right (by decide) (by omega)
      have h64 : result + read8 m p % 128 * 2 ^ bit < 18446744073709551616 := by
        have : (2 : Nat) ^ 63 < 18446744073709551616 := by decide
        omega
      rw [Nat.mod_eq_of_lt h64,
        ih f (p + 1) _ (bit + 7) henc.2 (by omega) (by omega) (by omega) hlt]
      have e1 : p + 1 + n = p + (n + 1) := by omega
      rw [e1]
      congr 2
      simp only [ulebValue]
      rw [hpow]
      ring_nf

theorem read_uleb128_spec (m : Mem) (tend : Nat) (diag : Diagnostics) (p len : Nat)
    (henc : ulebEncoded m p len) (hlen : len < 11) (hend : p + len ≤ tend) :
    read_uleb128 m diag p tend
      = (diag, p + len, ulebValue m p len % 18446744073709551616) := by
  unfold read_uleb128
  rw [read_uleb128Loop_spec m tend diag len 11 p 0 0 henc hend (by omega) (by omega)
    (by decide)]
  simp

/-- Whatever the bytes, `read_uleb128Loop` records an error or reads a whole encoding. -/
theorem read_uleb128Loop_sound (m : Mem) (tend : Nat) (diag : Diagnostics) :
    ∀ (fuel p result bit : Nat), p ≤ tend → bit ≤ 70 → 77 ≤ 7 * fuel + bit →
      result < 2 ^ bit →
      (∃ msg, (read_uleb128Loop m tend fuel diag p result bit).1 = diag.error msg)
      ∨ ∃ len, ulebEncoded m p len ∧ p + len ≤ tend ∧
          read_uleb128Loop m tend fuel diag p result bit
            = (diag, p + len,
                (result + 2 ^ bit * ulebValue m p len) % 18446744073709551616) := by
  intro fuel
  induction fuel with
  | zero => intro p result bit _ h1 h2; omega
  | succ f ih =>
    intro p result bit hple hbit hfuel hres
    unfold read_uleb128Loop
    by_cases hp : (p == tend) = true
    · rw [if_pos hp]; exact Or.inl ⟨_, rfl⟩
    · rw [if_neg hp]
      by_cases hb : bit > 63
      · rw [if_pos hb]; exact Or.inl ⟨_, rfl⟩
      · rw [if_neg hb, continuation_bit_read8, uleb_or_eq _ _ _ hres (by omega)]
        have hpow : 2 ^ (bit + 7) = 2 ^ bit * 128 := by rw [Nat.pow_add]
        have hlt : (result + read8 m p % 128 * 2 ^ bit) % 18446744073709551616
            < 2 ^ (bit + 7) := by
          refine lt_of_le_of_lt (Nat.mod_le _ _) ?_
          rw [hpow]
          have h1 : read8 m p % 128 * 2 ^ bit ≤ 127 * 2 ^ bit :=
            Nat.mul_le_mul_right _ (by omega)
          omega
        by_cases hc : decide (128 ≤ read8 m p) = true
        · rw [if_pos hc]
          have hc' : 128 ≤ read8 m p := by simpa using hc
          have hne : p ≠ tend := by simpa using hp
          rcases ih (p + 1) _ (bit + 7) (by omega) (by omega) (by omega) hlt with ⟨msg, h⟩ | ⟨len, he, hend, h⟩
          · exact Or.inl ⟨msg, h⟩
          · refine Or.inr ⟨len + 1, ?_, by omega, ?_⟩
            · unfold ulebEncoded
              have hlen0 : len ≠ 0 := by
                rintro rfl
                simp [ulebEncoded] at he
              rw [if_neg hlen0]
              exact ⟨hc', he⟩
            · rw [h]
              have e1 : p + 1 + len = p + (len + 1) := by omega
              rw [e1]
              congr 2
              simp only [ulebValue]
              rw [Nat.mod_add_mod, hpow]
              ring_nf
        · rw [if_neg hc]
          have hc' : read8 m p < 128 := by simpa using hc
          have hne : p ≠ tend := by simpa using hp
          refine Or.inr ⟨1, ?_, ?_, ?_⟩
          · unfold ulebEncoded
            rw [if_pos rfl]; exact hc'
          · omega
          · simp only [ulebValue, Nat.mul_zero, Nat.add_zero]
            rw [Nat.mul_comm]

theorem read_uleb128_sound (m : Mem) (tend : Nat) (diag : Diagnostics) (p : Nat)
    (hp : p ≤ tend) :
    (∃ msg, (read_uleb128 m diag p tend).1 = diag.error msg)
    ∨ ∃ len, ulebEncoded m p len ∧ p + len ≤ tend ∧
        read_uleb128 m diag p tend
          = (diag, p + len, ulebValue m p len % 18446744073709551616) := by
  unfold read_uleb128
  rcases read_uleb128Loop_sound m tend diag 11 p 0 0 hp (by omega) (by omega) (by decide) with
    h | ⟨len, he, hend, h⟩
  · exact Or.inl h
  · refine Or.inr ⟨len, he, hend, ?_⟩
    rw [h]
    simp

/-! ## Lemmas: `trieWalk` follows only edges that spell the symbol -/

theorem getD_zero_of_no_nul (symbol : List Nat) (hsym : ∀ c ∈ symbol, c ≠ 0) (i : Nat)
    (h : symbol.getD i 0 = 0) : symbol.length ≤ i := by
  by_contra hlt
  have hi : i < symbol.length := by omega
  rw [List.getD_eq_getElem _ _ hi] at h
  exact hsym _ (List.getElem_mem hi) h

theorem take_add_of_prefix (symbol l : List Nat) (i : Nat) (h : l <+: symbol.drop i) :
    symbol.take (i + l.length) = symbol.take i ++ l := by
  obtain ⟨t, ht⟩ := h
  rw [List.take_add, ← ht, List.take_left]

theorem trieEdgeScan_sound (m : Mem) (symbol : List Nat) :
    ∀ (fuel p ss : Nat) (w : Bool) (label : List Nat) (p1 ss1 : Nat) (label1 : List Nat),
      trieEdgeScan m symbol fuel p ss w label = some (p1, ss1, false, label1) →
      w = false ∧ ∃ l, label1 = label ++ l ∧ l <+: symbol.drop ss ∧ ss1 = ss + l.length := by
  intro fuel
  induction fuel with
  | zero => intro p ss w label p1 ss1 label1 h; simp [trieEdgeScan] at h
  | succ f ih =>
    intro p ss w label p1 ss1 label1 h
    unfold trieEdgeScan at h
    by_cases hz : (read8 m p == 0) = true
    · rw [if_pos hz] at h
      simp only [Option.some.injEq, Prod.mk.injEq] at h
      obtain ⟨_, h2, h3, h4⟩ := h
      exact ⟨h3, [], by rw [List.append_nil, h4], List.nil_prefix, by rw [← h2]; rfl⟩
    · rw [if_neg hz] at h
      cases w with
      | true =>
        rw [if_pos rfl] at h
        exact absurd (ih _ _ _ _ _ _ _ h).1 (by simp)
      | false =>
        rw [if_neg (by simp)] at h
        obtain ⟨hw, l, hl1, hl2, hl3⟩ := ih _ _ _ _ _ _ _ h
        have hc : read8 m p = symbol.getD ss 0 := by simpa using hw
        have hc0 : read8 m p ≠ 0 := by simpa using hz
        have hlt : ss < symbol.length := by
          by_contra hge
          rw [List.getD_eq_default _ _ (by omega)] at hc
          exact hc0 hc
        refine ⟨rfl, read8 m p :: l, ?_, ?_, ?_⟩
        · rw [hl1, List.append_assoc]; rfl
        · rw [List.drop_eq_getElem_cons hlt, hc, List.getD_eq_getElem _ _ hlt]
          exact (List.prefix_cons_inj _).mpr hl2
        · rw [hl3, List.length_cons]; omega

theorem trieChildrenLoop_matched (m : Mem) (tend : Nat) (symbol : List Nat) (fuel : Nat)
    (diag : Diagnostics) (si : Nat) :
    ∀ (n p : Nat) (d : Diagnostics) (off ss : Nat) (label : List Nat),
      trieChildrenLoop m tend symbol fuel diag si n p = .matched d off ss label →
      label <+: symbol.drop si ∧ ss = si + label.length ∧ off ≠ 0 ∧ off ≤ tend
        ∧ d.hasError = false := by
  intro n
  induction n with
  | zero => intro p d off ss label h; simp [trieChildrenLoop] at h
  | succ n ih =>
    intro p d off ss label h
    unfold trieChildrenLoop at h
    cases hscan : trieEdgeScan m symbol fuel p si false [] with
    | none => rw [hscan] at h; simp at h
    | some r =>
      obtain ⟨p1, ss1, w, lab⟩ := r
      rw [hscan] at h
      cases w with
      | true =>
        simp only [if_true] at h
        cases hskip : trieSkipUleb m fuel (p1 + 1) with
        | none => rw [hskip] at h; simp at h
        | some p2 =>
          rw [hskip] at h
          simp only at h
          by_cases hp2 : p2 > tend
          · rw [if_pos hp2] at h; simp at h
          · rw [if_neg hp2] at h
            exact ih _ _ _ _ _ h
      | false =>
        simp only [Bool.false_eq_true, if_false] at h
        by_cases he : (read_uleb128 m diag (p1 + 1) tend).1.hasError = true
        · rw [if_pos he] at h; simp at h
        · rw [if_neg he] at h
          by_cases hr : ((read_uleb128 m diag (p1 + 1) tend).2.2 == 0
              || decide ((read_uleb128 m diag (p1 + 1) tend).2.2 > tend)) = true
          · rw [if_pos hr] at h; simp at h
          · rw [if_neg hr] at h
            simp only [TrieChildren.matched.injEq] at h
            obtain ⟨h1, h2, h3, h4⟩ := h
            obtain ⟨_, l, hl1, hl2, hl3⟩ := trieEdgeScan_sound m symbol _ _ _ _ _ _ _ _ hscan
            rw [List.nil_append] at hl1
            simp only [Bool.or_eq_true, beq_iff_eq, decide_eq_true_eq, not_or, not_lt] at hr
            subst h1 h2 h3 h4 hl1
            exact ⟨hl2, hl3, hr.1, hr.2, by simpa using he⟩

theorem trieTerminalSize_sound (m : Mem) (tend : Nat) (diag : Diagnostics) (p : Nat)
    (hp : p ≤ tend)
    (h : ¬ (decide (read8 m p > 127) && (trieTerminalSize m tend diag p).1.hasError) = true) :
    ∃ len, ulebEncoded m p len ∧ (trieTerminalSize m tend diag p).2.1 = p + len
      ∧ (trieTerminalSize m tend diag p).2.2 = ulebValue m p len % 18446744073709551616 := by
  unfold trieTerminalSize at h ⊢
  by_cases hb : read8 m p > 127
  · rw [if_pos hb] at h ⊢
    rcases read_uleb128_sound m tend diag p hp with ⟨msg, hm⟩ | ⟨len, he, _, hr⟩
    · exfalso
      apply h
      rw [hm, Diagnostics.hasError_error]
      simp [hb]
    · exact ⟨len, he, by rw [hr], by rw [hr]⟩
  · rw [if_neg hb]
    refine ⟨1, ?_, rfl, ?_⟩
    · unfold ulebEncoded
      rw [if_pos rfl]; omega
    · simp only [ulebValue, Nat.mul_zero, Nat.add_zero]
      have h1 : read8 m p % 128 = read8 m p := Nat.mod_eq_of_lt (by omega)
      rw [h1, Nat.mod_eq_of_lt (by omega)]

theorem trieWalkBody_sound (m : Mem) (tend : Nat) (symbol : List Nat) (fuel : Nat)
    (hsym : ∀ c ∈ symbol, c ≠ 0) (s : TrieState) (hp : s.p < tend)
    (hinv : s.spells symbol) :
    match trieWalkBody m tend symbol fuel s with
    | .done r => r.foundSound m symbol
    | .next s' => s'.spells symbol := by
  obtain ⟨hi1, hi2, hi3⟩ := hinv
  unfold trieWalkBody
  by_cases h1 : (decide (read8 m s.p > 127)
      && (trieTerminalSize m tend s.diag s.p).1.hasError) = true
  · rw [if_pos h1]
    intro pos hpos
    simp at hpos
  · rw [if_neg h1]
    by_cases h2 : (symbol.getD s.symbol 0 == 0
        && (trieTerminalSize m tend s.diag s.p).2.2 != 0) = true
    · rw [if_pos h2]
      intro pos hpos
      simp only [TrieOutcome.found.injEq] at hpos
      simp only [Bool.and_eq_true, beq_iff_eq, bne_iff_ne, ne_eq] at h2
      obtain ⟨len, he, hpl, hts⟩ := trieTerminalSize_sound m tend s.diag s.p (by omega) h1
      have hlen := getD_zero_of_no_nul symbol hsym _ h2.1
      refine ⟨?_, hi2, hi3, s.p, len, ?_, he, ?_, ?_⟩
      · show (s.edges.map Prod.fst).flatten = symbol
        rw [hi1, List.take_of_length_le hlen]
      · show (s.nodes ++ [s.p]).getLast? = some s.p
        rw [List.getLast?_append]; rfl
      · intro hv
        apply h2.2
        rw [hts, hv]
      · rw [← hpos, hpl]
    · rw [if_neg h2]
      by_cases h3 : (trieTerminalSize m tend s.diag s.p).2.1
          + (trieTerminalSize m tend s.diag s.p).2.2 > tend
      · rw [if_pos h3]
        intro pos hpos
        simp at hpos
      · rw [if_neg h3]
        cases hch : trieChildrenLoop m tend symbol fuel (trieTerminalSize m tend s.diag s.p).1
            s.symbol
            (read8 m ((trieTerminalSize m tend s.diag s.p).2.1
              + (trieTerminalSize m tend s.diag s.p).2.2))
            ((trieTerminalSize m tend s.diag s.p).2.1
              + (trieTerminalSize m tend s.diag s.p).2.2 + 1) with
        | returned d e => intro pos hpos; simp at hpos
        | noProgress => intro pos hpos; simp at hpos
        | noMatch => intro pos hpos; simp at hpos
        | matched d off ss label =>
          obtain ⟨hl1, hl2, _, _, _⟩ := trieChildrenLoop_matched m tend symbol fuel _ _ _ _ _
            _ _ _ hch
          simp only
          by_cases h4 : off > tend
          · rw [if_pos h4]
            intro pos hpos; simp at hpos
          · rw [if_neg h4]
            by_cases h5 : s.visitedNodeOffsets.contains off = true
            · rw [if_pos h5]
              intro pos hpos; simp at hpos
            · rw [if_neg h5]
              refine ⟨?_, ?_, ?_⟩
              · show ((s.edges ++ [(label, off)]).map Prod.fst).flatten = symbol.take ss
                rw [List.map_append, List.flatten_append, hi1, hl2,
                  take_add_of_prefix symbol label s.symbol hl1]
                simp
              · show (s.edges ++ [(label, off)]).map Prod.snd
                  = (s.nodes ++ [s.p] ++ [off]).tail
                have e : (s.nodes ++ [s.p] ++ [off]).tail = (s.nodes ++ [s.p]).tail ++ [off] :=
                  List.tail_append_of_ne_nil (by simp)
                rw [List.map_append, hi2, e]
                rfl
              · show (s.nodes ++ [s.p] ++ [off]).head? = some 0
                rw [List.head?_append_of_ne_nil _ (by simp)]
                exact hi3

theorem trieWalkLoop_sound (m : Mem) (tend : Nat) (symbol : List Nat) (fuel : Nat)
    (hsym : ∀ c ∈ symbol, c ≠ 0) :
    ∀ (n : Nat) (s : TrieState), s.spells symbol →
      (trieWalkLoop m tend symbol fuel n s).foundSound m symbol := by
  intro n
  induction n with
  | zero =>
    intro s _ pos hpos
    simp [trieWalkLoop] at hpos
  | succ n ih =>
    intro s hinv
    unfold trieWalkLoop
    by_cases hp : ¬ s.p < tend
    · rw [if_pos hp]
      intro pos hpos
      simp at hpos
    · rw [if_neg hp]
      have hb := trieWalkBody_sound m tend symbol fuel hsym s (by omega) hinv
      cases hbody : trieWalkBody m tend symbol fuel s with
      | done r => rw [hbody] at hb; exact hb
      | next s' => rw [hbody] at hb; exact ih s' hb

/-- C14: if `trieWalk` returns a position, then the labels of the child edges it followed
from the root, concatenated, are the symbol name; these edges lead from the root (offset
0) through the nodes walked; the node it stopped at starts with a ULEB128 whose value,
the terminal-payload size, is not zero; and the returned position is the byte right after
that ULEB128. -/
theorem trieWalk_found_spells_symbol (m : Mem) (tend : Nat) (symbol : List Nat)
    (diag : Diagnostics) (fuel pos : Nat) (hsym : ∀ c ∈ symbol, c ≠ 0)
    (hfound : (trieWalk m tend symbol diag fuel).outcome = .found pos) :
    ((trieWalk m tend symbol diag fuel).edges.map Prod.fst).flatten = symbol
    ∧ (trieWalk m tend symbol diag fuel).edges.map Prod.snd
        = (trieWalk m tend symbol diag fuel).nodes.tail
    ∧ (trieWalk m tend symbol diag fuel).nodes.head? = some 0
    ∧ ∃ node len, (trieWalk m tend symbol diag fuel).nodes.getLast? = some node
        ∧ ulebEncoded m node len ∧ ulebValue m node len ≠ 0 ∧ pos = node + len :=
  trieWalkLoop_sound m tend symbol fuel hsym fuel ⟨diag, 0, 0, [0], [], []⟩
    ⟨rfl, rfl, rfl⟩ pos hfound

/-- Witness for C14: looking up "_foobar" in the trie of "_foo" and "_foobar". -/
theorem trieWalk_found_spells_symbol_witness :
    (trieWalk fooTrie 21 str_foobar {} 21).outcome = .found 18 ∧
    ((trieWalk fooTrie 21 str_foobar {} 21).edges.map Prod.fst).flatten = str_foobar :=
  ⟨by decide,
    (trieWalk_found_spells_symbol fooTrie 21 str_foobar {} 21 18 (by decide)
      (by decide)).1⟩

/-! ## Lemmas: the cycle test of `trieWalk` -/

theorem trieChildrenLoop_returned (m : Mem) (tend : Nat) (symbol : List Nat) (fuel : Nat)
    (diag : Diagnostics) (si : Nat) :
    ∀ (n p : Nat) (d : Diagnostics) (label : List Nat) (off : Nat),
      trieChildrenLoop m tend symbol fuel diag si n p = .returned d (some (label, off)) →
      ∃ d0 : Diagnostics, d = d0.error (.trieNodeOffsetOutOfRange off) := by
  intro n
  induction n with
  | zero => intro p d label off h; simp [trieChildrenLoop] at h
  | succ n ih =>
    intro p d label off h
    unfold trieChildrenLoop at h
    cases hscan : trieEdgeScan m symbol fuel p si false [] with
    | none => rw [hscan] at h; simp at h
    | some r =>
      obtain ⟨p1, ss1, w, lab⟩ := r
      rw [hscan] at h
      cases w with
      | true =>
        simp only [if_true] at h
        cases hskip : trieSkipUleb m fuel (p1 + 1) with
        | none => rw [hskip] at h; simp at h
        | some p2 =>
          rw [hskip] at h
          simp only at h
          by_cases hp2 : p2 > tend
          · rw [if_pos hp2] at h; simp at h
          · rw [if_neg hp2] at h
            exact ih _ _ _ _ h
      | false =>
        simp only [Bool.false_eq_true, if_false] at h
        by_cases he : (read_uleb128 m diag (p1 + 1) tend).1.hasError = true
        · rw [if_pos he] at h; simp at h
        · rw [if_neg he] at h
          by_cases hr : ((read_uleb128 m diag (p1 + 1) tend).2.2 == 0
              || decide ((read_uleb128 m diag (p1 + 1) tend).2.2 > tend)) = true
          · rw [if_pos hr] at h
            simp only [TrieChildren.returned.injEq, Option.some.injEq, Prod.mk.injEq] at h
            obtain ⟨h1, _, h3⟩ := h
            exact ⟨_, by rw [← h1, h3]⟩
          · rw [if_neg hr] at h; simp at h

theorem TrieState.acyclic_stop (tend : Nat) (s : TrieState) (hinv : s.acyclic tend)
    (o : TrieOutcome) :
    TrieWalk.acyclic ⟨o, s.diag, s.visitedNodeOffsets, s.nodes, s.edges⟩ := by
  obtain ⟨h1, h2, h3, _, _⟩ := hinv
  have hnd : s.nodes.Nodup := (List.nodup_append.mp h2).1
  have hp : s.p ∉ s.nodes := by
    intro hmem
    have := (List.nodup_append.mp h2).2.2
    exact this hmem (List.mem_singleton.mpr rfl)
  refine ⟨hnd, fun x hx => ?_, ?_⟩
  · show x ∈ s.visitedNodeOffsets
    rw [h1]; exact List.mem_append_left _ hx
  · show s.edges.map Prod.snd = s.nodes.tail ∨ _
    by_cases hn : s.nodes = []
    · left
      rw [h3, hn]; rfl
    · right
      refine ⟨s.p, ?_, fun hmem => absurd hmem hp⟩
      rw [h3, List.tail_append_of_ne_nil hn]

theorem TrieState.acyclic_done (tend : Nat) (s : TrieState) (hinv : s.acyclic tend)
    (o : TrieOutcome) (d : Diagnostics) :
    TrieWalk.acyclic ⟨o, d, s.visitedNodeOffsets, s.nodes ++ [s.p], s.edges⟩ := by
  obtain ⟨h1, h2, h3, _, _⟩ := hinv
  refine ⟨h2, fun x hx => ?_, Or.inl h3⟩
  show x ∈ s.visitedNodeOffsets
  rw [h1]; exact hx

theorem TrieState.acyclic_rejected (tend : Nat) (s : TrieState) (hinv : s.acyclic tend)
    (d : Diagnostics) (label : List Nat) (off : Nat)
    (hd : ∃ d0 : Diagnostics, d = d0.error (.trieCycle off)
      ∨ d = d0.error (.trieNodeOffsetOutOfRange off)) :
    TrieWalk.acyclic ⟨.null, d, s.visitedNodeOffsets, s.nodes ++ [s.p],
      s.edges ++ [(label, off)]⟩ := by
  obtain ⟨h1, h2, h3, _, _⟩ := hinv
  refine ⟨h2, fun x hx => ?_, Or.inr ⟨off, ?_, fun _ => ⟨rfl, hd⟩⟩⟩
  · show x ∈ s.visitedNodeOffsets
    rw [h1]; exact hx
  · show (s.edges ++ [(label, off)]).map Prod.snd = (s.nodes ++ [s.p]).tail ++ [off]
    rw [List.map_append, h3]; rfl

theorem trieWalkBody_acyclic (m : Mem) (tend : Nat) (symbol : List Nat) (fuel : Nat)
    (hsize : tend < 4294967296) (s : TrieState) (hp : s.p < tend)
    (hinv : s.acyclic tend) :
    match trieWalkBody m tend symbol fuel s with
    | .done r => r.acyclic
    | .next s' => s'.acyclic tend := by
  unfold trieWalkBody
  by_cases h1 : (decide (read8 m s.p > 127)
      && (trieTerminalSize m tend s.diag s.p).1.hasError) = true
  · rw [if_pos h1]
    exact TrieState.acyclic_done tend s hinv _ _
  · rw [if_neg h1]
    by_cases h2 : (symbol.getD s.symbol 0 == 0
        && (trieTerminalSize m tend s.diag s.p).2.2 != 0) = true
    · rw [if_pos h2]
      exact TrieState.acyclic_done tend s hinv _ _
    · rw [if_neg h2]
      by_cases h3 : (trieTerminalSize m tend s.diag s.p).2.1
          + (trieTerminalSize m tend s.diag s.p).2.2 > tend
      · rw [if_pos h3]
        exact TrieState.acyclic_done tend s hinv _ _
      · rw [if_neg h3]
        cases hch : trieChildrenLoop m tend symbol fuel (trieTerminalSize m tend s.diag s.p).1
            s.symbol
            (read8 m ((trieTerminalSize m tend s.diag s.p).2.1
              + (trieTerminalSize m tend s.diag s.p).2.2))
            ((trieTerminalSize m tend s.diag s.p).2.1
              + (trieTerminalSize m tend s.diag s.p).2.2 + 1) with
        | returned d e =>
          cases e with
          | none =>
            simp only [Option.toList, List.append_nil]
            exact TrieState.acyclic_done tend s hinv _ _
          | some e =>
            obtain ⟨label, off⟩ := e
            obtain ⟨d0, hd0⟩ := trieChildrenLoop_returned m tend symbol fuel _ _ _ _ _ _ _ hch
            exact TrieState.acyclic_rejected tend s hinv d label off ⟨d0, Or.inr hd0⟩
        | noProgress => exact TrieState.acyclic_done tend s hinv _ _
        | noMatch => exact TrieState.acyclic_done tend s hinv _ _
        | matched d off ss label =>
          obtain ⟨_, _, _, hle, _⟩ := trieChildrenLoop_matched m tend symbol fuel _ _ _ _ _
            _ _ _ hch
          simp only
          by_cases h4 : off > tend
          · rw [if_pos h4]
            exact TrieState.acyclic_rejected tend s hinv _ label off ⟨d, Or.inr rfl⟩
          · rw [if_neg h4]
            by_cases h5 : s.visitedNodeOffsets.contains off = true
            · rw [if_pos h5]
              exact TrieState.acyclic_rejected tend s hinv _ label off ⟨d, Or.inl rfl⟩
            · rw [if_neg h5]
              obtain ⟨i1, i2, i3, i4, i5⟩ := hinv
              have hu : u32 off = off := Nat.mod_eq_of_lt (by omega)
              have hnot : off ∉ s.nodes ++ [s.p] := by
                rw [← i1]
                intro hmem
                apply h5
                simpa using hmem
              refine ⟨?_, ?_, ?_, hle, ?_⟩
              · show s.visitedNodeOffsets ++ [u32 off] = s.nodes ++ [s.p] ++ [off]
                rw [hu, i1]
              · show (s.nodes ++ [s.p] ++ [off]).Nodup
                rw [List.nodup_append]
                refine ⟨i2, List.nodup_singleton _, ?_⟩
                intro a ha hb
                rw [List.mem_singleton] at hb
                subst hb
                exact hnot ha
              · show (s.edges ++ [(label, off)]).map Prod.snd
                  = (s.nodes ++ [s.p] ++ [off]).tail
                have e : (s.nodes ++ [s.p] ++ [off]).tail = (s.nodes ++ [s.p]).tail ++ [off] :=
                  List.tail_append_of_ne_nil (by simp)
                rw [List.map_append, i3, e]
                rfl
              · intro x hx
                show x < tend
                rcases List.mem_append.mp hx with hx | hx
                · exact i5 x hx
                · rw [List.mem_singleton] at hx
                  rw [hx]; exact hp

theorem trieWalkLoop_acyclic (m : Mem) (tend : Nat) (symbol : List Nat) (fuel : Nat)
    (hsize : tend < 4294967296) :
    ∀ (n : Nat) (s : TrieState), s.acyclic tend →
      (trieWalkLoop m tend symbol fuel n s).acyclic := by
  intro n
  induction n with
  | zero =>
    intro s hinv
    exact TrieState.acyclic_stop tend s hinv _
  | succ n ih =>
    intro s hinv
    unfold trieWalkLoop
    by_cases hp : ¬ s.p < tend
    · rw [if_pos hp]
      exact TrieState.acyclic_stop tend s hinv _
    · rw [if_neg hp]
      have hb := trieWalkBody_acyclic m tend symbol fuel hsize s (by omega) hinv
      cases hbody : trieWalkBody m tend symbol fuel s with
      | done r => rw [hbody] at hb; exact hb
      | next s' => rw [hbody] at hb; exact ih s' hb

/-- C16 fails as stated: in a blob of 2^32 + 32 bytes whose node at offset 2^32 + 16 has
an edge "a" to itself, the lookup of "aa" is positioned at that node twice and records no
error; `visitedNodeOffsets` holds the offset cut to 32 bits, 16, which the 64-bit
`nodeOffset` never equals. -/
theorem trieWalk_revisits_node_beyond_4GiB :
    (trieWalk largeCyclicTrie 4294967328 [0x61, 0x61] {} 6).nodes
      = [0, 4294967312, 4294967312] ∧
    (trieWalk largeCyclicTrie 4294967328 [0x61, 0x61] {} 6).visitedNodeOffsets
      = [0, 16, 16] ∧
    (trieWalk largeCyclicTrie 4294967328 [0x61, 0x61] {} 6).outcome = .null ∧
    (trieWalk largeCyclicTrie 4294967328 [0x61, 0x61] {} 6).diag.hasError = false := by
  refine ⟨by decide, by decide, by decide, by decide⟩

/-- C16 (amended): for a trie blob shorter than 2^32 bytes, `trieWalk` is never positioned
at the same node offset twice, `visitedNodeOffsets` holds every node it was positioned at,
and when the edge that matched leads to a node walked before (the root at offset 0
included) the edge is not followed: `nullptr` is returned and the diagnostic recorded
last names that offset. -/
theorem trieWalk_never_revisits_a_node (m : Mem) (tend : Nat) (symbol : List Nat)
    (diag : Diagnostics) (fuel : Nat) (hsize : tend < 4294967296) :
    (trieWalk m tend symbol diag fuel).nodes.Nodup
    ∧ (∀ x ∈ (trieWalk m tend symbol diag fuel).nodes,
        x ∈ (trieWalk m tend symbol diag fuel).visitedNodeOffsets)
    ∧ ((trieWalk m tend symbol diag fuel).edges.map Prod.snd
          = (trieWalk m tend symbol diag fuel).nodes.tail
      ∨ ∃ off, (trieWalk m tend symbol diag fuel).edges.map Prod.snd
            = (trieWalk m tend symbol diag fuel).nodes.tail ++ [off]
          ∧ (off ∈ (trieWalk m tend symbol diag fuel).nodes →
            (trieWalk m tend symbol diag fuel).outcome = .null
            ∧ ∃ d : Diagnostics,
                (trieWalk m tend symbol diag fuel).diag = d.error (.trieCycle off)
                ∨ (trieWalk m tend symbol diag fuel).diag
                    = d.error (.trieNodeOffsetOutOfRange off))) :=
  trieWalkLoop_acyclic m tend symbol fuel hsize fuel ⟨diag, 0, 0, [0], [], []⟩
    ⟨rfl, List.nodup_singleton 0, rfl, Nat.zero_le _, fun _ h => absurd h (List.not_mem_nil _)⟩

/-- Witness for C16 (amended): a blob of 32 bytes, the root at 0 with the edge "a" to the
node at 16, which has no terminal payload and the edge "a" to itself. -/
theorem trieWalk_never_revisits_a_node_witness :
    (trieWalk (memOfPieces [(0, [0x00, 0x01, 0x61, 0x00, 0x10]),
        (16, [0x00, 0x01, 0x61, 0x00, 0x10])]) 32 [0x61, 0x61, 0x61] {} 3).nodes = [0, 16] ∧
    (trieWalk (memOfPieces [(0, [0x00, 0x01, 0x61, 0x00, 0x10]),
        (16, [0x00, 0x01, 0x61, 0x00, 0x10])]) 32 [0x61, 0x61, 0x61] {} 3).diag
      = Diagnostics.error {} (.trieCycle 16) ∧
    (trieWalk (memOfPieces [(0, [0x00, 0x01, 0x61, 0x00, 0x10]),
        (16, [0x00, 0x01, 0x61, 0x00, 0x10])]) 32 [0x61, 0x61, 0x61] {} 3).nodes.Nodup :=
  ⟨by decide, by decide,
    (trieWalk_never_revisits_a_node (memOfPieces [(0, [0x00, 0x01, 0x61, 0x00, 0x10]),
        (16, [0x00, 0x01, 0x61, 0x00, 0x10])]) 32 [0x61, 0x61, 0x61] {} 3 (by decide)).1⟩

/-! ## Lemmas: `trieWalk` on a well-formed trie -/

theorem trieEdgeScan_spec (m : Mem) (symbol : List Nat) :
    ∀ (l : List Nat) (fuel p ss : Nat) (w : Bool) (lab : List Nat),
      bytesAt m p l → (∀ c ∈ l, c ≠ 0) → read8 m (p + l.length) = 0 → l.length < fuel →
      ∃ ss' w', trieEdgeScan m symbol fuel p ss w lab = some (p + l.length, ss', w', lab ++ l)
        ∧ (w' = false ↔ (w = false ∧ l <+: symbol.drop ss))
        ∧ (w' = false → ss' = ss + l.length) := by
  intro l
  induction l with
  | nil =>
    intro fuel p ss w lab _ _ hz hf
    obtain ⟨f, rfl⟩ : ∃ f, fuel = f + 1 := ⟨fuel - 1, by simp at hf; omega⟩
    refine ⟨ss, w, ?_, ?_, ?_⟩
    · unfold trieEdgeScan
      rw [if_pos (by simpa using hz)]
      simp
    · simp
    · intro _; rfl
  | cons c l ih =>
    intro fuel p ss w lab hb hnz hz hf
    obtain ⟨f, rfl⟩ : ∃ f, fuel = f + 1 := ⟨fuel - 1, by simp at hf; omega⟩
    obtain ⟨hc, hb'⟩ := hb
    have hc0 : c ≠ 0 := hnz c (List.mem_cons_self _ _)
    have hz' : read8 m (p + 1 + l.length) = 0 := by
      have e : p + 1 + l.length = p + (c :: l).length := by simp; omega
      rw [e]; exact hz
    have hf' : l.length < f := by simp at hf; omega
    have hnz' : ∀ x ∈ l, x ≠ 0 := fun x hx => hnz x (List.mem_cons_of_mem _ hx)
    have hlen : p + 1 + l.length = p + (c :: l).length := by simp; omega
    unfold trieEdgeScan
    rw [if_neg (by rw [hc]; simpa using hc0)]
    cases w with
    | true =>
      rw [if_pos rfl]
      obtain ⟨ss', w', h1, h2, h3⟩ := ih f (p + 1) ss true (lab ++ [read8 m p]) hb' hnz' hz' hf'
      refine ⟨ss', w', ?_, ?_, ?_⟩
      · rw [h1, hlen, hc]; simp
      · rw [h2]; simp
      · intro hw
        exact absurd (h2.mp hw).1 (by simp)
    | false =>
      rw [if_neg (by simp)]
      obtain ⟨ss', w', h1, h2, h3⟩ := ih f (p + 1) (ss + 1) (read8 m p != symbol.getD ss 0)
        (lab ++ [read8 m p]) hb' hnz' hz' hf'
      refine ⟨ss', w', ?_, ?_, ?_⟩
      · rw [h1, hlen, hc]; simp
      · rw [h2, hc]
        constructor
        · rintro ⟨hne, hpre⟩
          have hceq : c = symbol.getD ss 0 := by simpa using hne
          have hlt : ss < symbol.length := by
            by_contra hge
            rw [List.getD_eq_default _ _ (by omega)] at hceq
            exact hc0 hceq
          refine ⟨rfl, ?_⟩
          rw [List.drop_eq_getElem_cons hlt, hceq, List.getD_eq_getElem _ _ hlt]
          exact (List.prefix_cons_inj _).mpr hpre
        · rintro ⟨_, hpre⟩
          have hlt : ss < symbol.length := by
            by_contra hge
            rw [List.drop_of_length_le (by omega)] at hpre
            simp at hpre
          rw [List.drop_eq_getElem_cons hlt] at hpre
          obtain ⟨t, ht⟩ := hpre
          simp only [List.cons_append, List.cons.injEq] at ht
          refine ⟨?_, ⟨t, ht.2⟩⟩
          rw [List.getD_eq_getElem _ _ hlt, ← ht.1]
          simp
      · intro hw
        rw [h3 hw]; simp; omega

theorem trieSkipUleb_spec (m : Mem) :
    ∀ (len fuel p : Nat), ulebEncoded m p len → len ≤ fuel →
      trieSkipUleb m fuel p = some (p + len) := by
  intro len
  induction len with
  | zero => intro fuel p h; exact absurd h (by simp [ulebEncoded])
  | succ n ih =>
    intro fuel p henc hf
    obtain ⟨f, rfl⟩ : ∃ f, fuel = f + 1 := ⟨fuel - 1, by omega⟩
    unfold trieSkipUleb
    rw [continuation_bit_read8]
    unfold ulebEncoded at henc
    by_cases hn : n = 0
    · subst hn
      rw [if_pos rfl] at henc
      rw [if_neg (by simp only [decide_eq_true_eq]; omega)]
    · rw [if_neg hn] at henc
      rw [if_pos (by simp only [decide_eq_true_eq]; exact henc.1),
        ih f (p + 1) henc.2 (by omega)]
      congr 1; omega

theorem ulebEncoded_one (m : Mem) (p len : Nat) (h : ulebEncoded m p len)
    (hb : read8 m p < 128) : len = 1 := by
  cases len with
  | zero => exact absurd h (by simp [ulebEncoded])
  | succ n =>
    unfold ulebEncoded at h
    by_cases hn : n = 0
    · rw [hn]
    · rw [if_neg hn] at h
      omega

theorem trieTerminalSize_spec (m : Mem) (tend : Nat) (diag : Diagnostics) (o : Nat)
    (node : TrieNode) (hsize : tend < 18446744073709551616)
    (h : trieNodeAt m tend o node) :
    trieTerminalSize m tend diag o = (diag, node.payload, node.terminalSize) := by
  obtain ⟨len, hlen, henc, hval, hpay, hend, _, _⟩ := h
  unfold trieTerminalSize
  by_cases hb : read8 m o > 127
  · rw [if_pos hb, read_uleb128_spec m tend diag o len henc hlen (by omega), hval, hpay,
      Nat.mod_eq_of_lt (by omega)]
  · rw [if_neg hb]
    have h1 := ulebEncoded_one m o len henc (by omega)
    subst h1
    simp only [ulebValue, Nat.mul_zero, Nat.add_zero] at hval
    have h2 : read8 m o % 128 = read8 m o := Nat.mod_eq_of_lt (by omega)
    rw [hpay, ← hval, h2]

theorem trieChildrenLoop_spec (m : Mem) (tend : Nat) (symbol : List Nat) (fuel : Nat)
    (diag : Diagnostics) (si : Nat) (hdiag : diag.hasError = false) (hfuel : tend ≤ fuel)
    (hsize : tend < 18446744073709551616) :
    ∀ (ch : List (List Nat × Nat)) (p : Nat), trieChildrenAt m tend p ch →
      (∀ e ∈ ch, e.2 ≠ 0 ∧ e.2 < tend) →
      (∃ e ∈ ch, e.1 <+: symbol.drop si
        ∧ trieChildrenLoop m tend symbol fuel diag si ch.length p
          = .matched diag e.2 (si + e.1.length) e.1)
      ∨ ((∀ e ∈ ch, ¬ e.1 <+: symbol.drop si)
        ∧ trieChildrenLoop m tend symbol fuel diag si ch.length p = .noMatch) := by
  intro ch
  induction ch with
  | nil =>
    intro p _ _
    exact Or.inr ⟨fun e he => absurd he (List.not_mem_nil _), rfl⟩
  | cons e rest ih =>
    intro p hat hoff
    obtain ⟨hnz, hbytes, hnul, len, hlen, henc, hval, hend, hrest⟩ := hat
    obtain ⟨ss', w', hscan, hw, hss⟩ := trieEdgeScan_spec m symbol e.1 fuel p si false []
      hbytes hnz hnul (by omega)
    rw [List.nil_append] at hscan
    rw [List.length_cons]
    unfold trieChildrenLoop
    rw [hscan]
    cases w' with
    | true =>
      have hnp : ¬ e.1 <+: symbol.drop si := by
        intro hp
        have := hw.mpr ⟨rfl, hp⟩
        simp at this
      simp only [if_true]
      rw [trieSkipUleb_spec m len fuel _ henc (by omega)]
      simp only
      rw [if_neg (by omega)]
      rcases ih _ hrest (fun x hx => hoff x (List.mem_cons_of_mem _ hx)) with
        ⟨x, hx, hpx, hres⟩ | ⟨hall, hres⟩
      · exact Or.inl ⟨x, List.mem_cons_of_mem _ hx, hpx, hres⟩
      · refine Or.inr ⟨fun x hx => ?_, hres⟩
        rcases List.mem_cons.mp hx with rfl | hx'
        · exact hnp
        · exact hall x hx'
    | false =>
      have hp := (hw.mp rfl).2
      have hs := hss rfl
      have hoffe := hoff e (List.mem_cons_self _ _)
      simp only [Bool.false_eq_true, if_false]
      rw [read_uleb128_spec m tend diag _ len henc hlen hend, hval,
        Nat.mod_eq_of_lt (by omega)]
      simp only
      rw [if_neg (by rw [hdiag]; simp),
        if_neg (by simp only [Bool.or_eq_true, beq_iff_eq, decide_eq_true_eq, not_or, not_lt]
                   exact ⟨hoffe.1, by omega⟩)]
      exact Or.inl ⟨e, List.mem_cons_self _ _, hp, by rw [hs]⟩

theorem TriePath.inv (t : Nat → Option TrieNode) (o : Nat) (r : List Nat) (o' : Nat)
    (h : TriePath t o r o') :
    (r = [] ∧ o' = o)
    ∨ ∃ node e s, t o = some node ∧ e ∈ node.children ∧ r = e.1 ++ s
        ∧ TriePath t e.2 s o' := by
  cases h with
  | here => exact Or.inl ⟨rfl, rfl⟩
  | edge _ node e s _ h1 h2 h3 => exact Or.inr ⟨node, e, s, h1, h2, rfl, h3⟩

theorem getD_of_drop_nil (symbol : List Nat) (i : Nat) (h : symbol.drop i = []) :
    symbol.getD i 0 = 0 := by
  rw [List.drop_eq_nil_iff] at h
  exact List.getD_eq_default _ _ h

theorem drop_add_of_prefix (symbol l : List Nat) (i : Nat) (h : l <+: symbol.drop i) :
    l ++ symbol.drop (i + l.length) = symbol.drop i := by
  obtain ⟨t, ht⟩ := h
  have : symbol.drop (i + l.length) = t := by
    rw [← List.drop_drop, ← ht, List.drop_left]
  rw [this, ht]

/-- One iteration of the outer loop of `trieWalk` at a node of a well-formed trie. -/
theorem trieWalkBody_complete (m : Mem) (tend : Nat) (symbol : List Nat) (fuel : Nat)
    (t : Nat → Option TrieNode) (rank : Nat → Nat) (hwf : WellFormedTrie m tend t rank)
    (hsize : tend < 4294967296) (hsym : ∀ c ∈ symbol, c ≠ 0) (hfuel : tend ≤ fuel)
    (s : TrieState) (node : TrieNode) (hnode : t s.p = some node)
    (hdiag : s.diag.hasError = false)
    (hvis : ∀ v ∈ s.visitedNodeOffsets, rank s.p ≤ rank v) :
    (∃ r, trieWalkBody m tend symbol fuel s = .done r ∧ r.diag = s.diag
      ∧ ((∃ o' node', TriePath t s.p (symbol.drop s.symbol) o' ∧ t o' = some node'
            ∧ node'.terminalSize ≠ 0 ∧ r.outcome = .found node'.payload)
        ∨ (r.outcome = .null ∧ ¬ trieHasSymbol t s.p (symbol.drop s.symbol))))
    ∨ ∃ s', trieWalkBody m tend symbol fuel s = .next s' ∧ s'.diag = s.diag
        ∧ (∃ child, t s'.p = some child) ∧ rank s'.p < rank s.p
        ∧ (∀ v ∈ s'.visitedNodeOffsets, rank s'.p ≤ rank v)
        ∧ (∀ o', TriePath t s'.p (symbol.drop s'.symbol) o'
            → TriePath t s.p (symbol.drop s.symbol) o')
        ∧ (trieHasSymbol t s.p (symbol.drop s.symbol)
            → trieHasSymbol t s'.p (symbol.drop s'.symbol)) := by
  have hat := hwf.encoded _ _ hnode
  have htts := trieTerminalSize_spec m tend s.diag s.p node (by omega) hat
  obtain ⟨len, _, _, _, _, hend, hcount, hch⟩ := hat
  -- no path of length zero reaches a terminal node unless the loop returns at once
  have hhere : ¬ (symbol.getD s.symbol 0 == 0 && node.terminalSize != 0) = true →
      ∀ o' node', (symbol.drop s.symbol = [] ∧ o' = s.p) → t o' = some node' →
        node'.terminalSize ≠ 0 → False := by
    intro h2 o' node' hr hno' hts'
    apply h2
    rw [hr.2, hnode] at hno'
    simp only [Option.some.injEq] at hno'
    subst hno'
    rw [getD_of_drop_nil symbol _ hr.1]
    simpa using hts'
  unfold trieWalkBody
  rw [htts]
  dsimp only
  rw [if_neg (by rw [hdiag]; simp)]
  by_cases h2 : (symbol.getD s.symbol 0 == 0 && node.terminalSize != 0) = true
  · rw [if_pos h2]
    simp only [Bool.and_eq_true, beq_iff_eq, bne_iff_ne, ne_eq] at h2
    refine Or.inl ⟨_, rfl, rfl, Or.inl ⟨s.p, node, ?_, hnode, h2.2, rfl⟩⟩
    rw [List.drop_of_length_le (getD_zero_of_no_nul symbol hsym _ h2.1)]
    exact TriePath.here _
  · rw [if_neg h2, if_neg (by omega), hcount]
    rcases trieChildrenLoop_spec m tend symbol fuel s.diag s.symbol hdiag hfuel (by omega)
      node.children _ hch (fun e he => ⟨(hwf.children _ _ hnode e he).1,
        (hwf.children _ _ hnode e he).2.1⟩) with ⟨e, he, hpre, hres⟩ | ⟨hall, hres⟩
    · rw [hres]
      dsimp only
      obtain ⟨he0, hlt, hchild, hrank⟩ := hwf.children _ _ hnode e he
      have hnotin : ¬ s.visitedNodeOffsets.contains e.2 = true := by
        intro hc
        have hmem : e.2 ∈ s.visitedNodeOffsets := by simpa using hc
        have := hvis _ hmem
        omega
      rw [if_neg (by omega), if_neg hnotin]
      have hu : u32 e.2 = e.2 := Nat.mod_eq_of_lt (by omega)
      refine Or.inr ⟨_, rfl, rfl, hchild, hrank, ?_, ?_, ?_⟩
      · intro v hv
        show rank e.2 ≤ rank v
        rcases List.mem_append.mp hv with hv | hv
        · have := hvis v hv
          omega
        · rw [List.mem_singleton] at hv
          rw [hv, hu]
      · intro o' hpath
        show TriePath t s.p (symbol.drop s.symbol) o'
        rw [← drop_add_of_prefix symbol e.1 s.symbol hpre]
        exact TriePath.edge s.p node e _ o' hnode he hpath
      · rintro ⟨o', node', hpath, hno', hts'⟩
        show trieHasSymbol t e.2 (symbol.drop (s.symbol + e.1.length))
        rcases TriePath.inv t _ _ _ hpath with hr | ⟨node2, e', r, hn2, he', hr, hp'⟩
        · exact absurd (hhere h2 o' node' hr hno' hts') id
        · rw [hnode] at hn2
          simp only [Option.some.injEq] at hn2
          subst hn2
          have hpre' : e'.1 <+: symbol.drop s.symbol := ⟨r, hr.symm⟩
          have hee : e' = e := by
            by_contra hne
            have hsib := (hwf.siblings _ _ hnode).forall
              (fun a b hab => ⟨hab.2, hab.1⟩) he' he hne
            rcases List.prefix_or_prefix_of_prefix hpre' hpre with h | h
            · exact hsib.1 h
            · exact hsib.2 h
          subst hee
          have hr' : r = symbol.drop (s.symbol + e'.1.length) := by
            have := drop_add_of_prefix symbol e'.1 s.symbol hpre
            rw [hr] at this
            exact (List.append_cancel_left this).symm
          rw [hr'] at hp'
          exact ⟨o', node', hp', hno', hts'⟩
    · rw [hres]
      dsimp only
      refine Or.inl ⟨_, rfl, rfl, Or.inr ⟨rfl, ?_⟩⟩
      rintro ⟨o', node', hpath, hno', hts'⟩
      rcases TriePath.inv t _ _ _ hpath with hr | ⟨node2, e', r, hn2, he', hr, _⟩
      · exact hhere h2 o' node' hr hno' hts'
      · rw [hnode] at hn2
        simp only [Option.some.injEq] at hn2
        subst hn2
        exact hall e' he' ⟨r, hr.symm⟩

theorem trieWalkLoop_complete (m : Mem) (tend : Nat) (symbol : List Nat) (fuel : Nat)
    (t : Nat → Option TrieNode) (rank : Nat → Nat) (hwf : WellFormedTrie m tend t rank)
    (hsize : tend < 4294967296) (hsym : ∀ c ∈ symbol, c ≠ 0) (hfuel : tend ≤ fuel) :
    ∀ (n : Nat) (s : TrieState), (∃ node, t s.p = some node) → s.diag.hasError = false →
      (∀ v ∈ s.visitedNodeOffsets, rank s.p ≤ rank v) → rank s.p < n →
      (trieWalkLoop m tend symbol fuel n s).diag = s.diag
      ∧ ((∃ o' node', TriePath t s.p (symbol.drop s.symbol) o' ∧ t o' = some node'
            ∧ node'.terminalSize ≠ 0
            ∧ (trieWalkLoop m tend symbol fuel n s).outcome = .found node'.payload)
        ∨ ((trieWalkLoop m tend symbol fuel n s).outcome = .null
            ∧ ¬ trieHasSymbol t s.p (symbol.drop s.symbol))) := by
  intro n
  induction n with
  | zero => intro s _ _ _ h; omega
  | succ n ih =>
    intro s ⟨node, hnode⟩ hdiag hvis hrank
    have hlt : s.p < tend := by
      obtain ⟨len, _, _, _, hpay, hend, _, _⟩ := hwf.encoded _ _ hnode
      omega
    unfold trieWalkLoop
    rw [if_neg (by omega)]
    rcases trieWalkBody_complete m tend symbol fuel t rank hwf hsize hsym hfuel s node hnode
      hdiag hvis with ⟨r, hb, hd, hr⟩ | ⟨s', hb, hd, hchild, hrk, hvis', hfwd, hbwd⟩
    · rw [hb]
      exact ⟨hd, hr⟩
    · rw [hb]
      dsimp only
      obtain ⟨h1, h2⟩ := ih s' hchild (by rw [hd]; exact hdiag) hvis' (by omega)
      refine ⟨by rw [h1, hd], ?_⟩
      rcases h2 with ⟨o', node', hpath, hno', hts', hout⟩ | ⟨hout, hno⟩
      · exact Or.inl ⟨o', node', hfwd o' hpath, hno', hts', hout⟩
      · exact Or.inr ⟨hout, fun h => hno (hbwd h)⟩

theorem fooTrie_wellFormed : WellFormedTrie fooTrie 21 fooTrieNodes fooTrieRank where
  root := ⟨_, rfl⟩
  encoded := by
    intro o node h
    unfold fooTrieNodes at h
    split_ifs at h with h0 h1 h2
    · simp only [Option.some.injEq] at h
      subst h h0
      exact ⟨1, by decide, by decide, by decide, rfl, by decide, by decide,
        by decide, by decide, by decide, 1, by decide, by decide, by decide, by decide,
        trivial⟩
    · simp only [Option.some.injEq] at h
      subst h h1
      exact ⟨1, by decide, by decide, by decide, rfl, by decide, by decide,
        by decide, by decide, by decide, 1, by decide, by decide, by decide, by decide,
        trivial⟩
    · simp only [Option.some.injEq] at h
      subst h h2
      exact ⟨1, by decide, by decide, by decide, rfl, by decide, by decide, trivial⟩
  children := by
    intro o node h e he
    unfold fooTrieNodes at h
    split_ifs at h with h0 h1 h2
    · simp only [Option.some.injEq] at h
      subst h h0
      simp only [List.mem_singleton] at he
      subst he
      exact ⟨by decide, by decide, ⟨_, rfl⟩, by decide⟩
    · simp only [Option.some.injEq] at h
      subst h h1
      simp only [List.mem_singleton] at he
      subst he
      exact ⟨by decide, by decide, ⟨_, rfl⟩, by decide⟩
    · simp only [Option.some.injEq] at h
      subst h
      exact absurd he (List.not_mem_nil _)
  siblings := by
    intro o node h
    unfold fooTrieNodes at h
    split_ifs at h <;> simp only [Option.some.injEq] at h <;> subst h <;> simp

theorem largeTrie_wellFormed :
    WellFormedTrie largeTrie 4294967328 largeTrieNodes largeTrieRank where
  root := ⟨_, rfl⟩
  encoded := by
    intro o node h
    unfold largeTrieNodes at h
    split_ifs at h with h0 h1 h2
    · simp only [Option.some.injEq] at h
      subst h h0
      exact ⟨1, by decide, by decide, by decide, rfl, by decide, by decide,
        by decide, by decide, by decide, 5, by decide, by decide, by decide, by decide,
        trivial⟩
    · simp only [Option.some.injEq] at h
      subst h h1
      exact ⟨1, by decide, by decide, by decide, rfl, by decide, by decide,
        by decide, by decide, by decide, 1, by decide, by decide, by decide, by decide,
        trivial⟩
    · simp only [Option.some.injEq] at h
      subst h h2
      exact ⟨1, by decide, by decide, by decide, rfl, by decide, by decide, trivial⟩
  children := by
    intro o node h e he
    unfold largeTrieNodes at h
    split_ifs at h with h0 h1 h2
    · simp only [Option.some.injEq] at h
      subst h h0
      simp only [List.mem_singleton] at he
      subst he
      exact ⟨by decide, by decide, ⟨_, rfl⟩, by decide⟩
    · simp only [Option.some.injEq] at h
      subst h h1
      simp only [List.mem_singleton] at he
      subst he
      exact ⟨by decide, by decide, ⟨_, rfl⟩, by decide⟩
    · simp only [Option.some.injEq] at h
      subst h
      exact absurd he (List.not_mem_nil _)
  siblings := by
    intro o node h
    unfold largeTrieNodes at h
    split_ifs at h <;> simp only [Option.some.injEq] at h <;> subst h <;> simp

/-- C15 fails as stated: the blob `largeTrie`, of 2^32 + 32 bytes, is a well-formed
encoding of an acyclic trie in which the path spelling "ab" ends at the node at offset 16,
whose terminal payload has one byte; looking up "ab" returns `nullptr` with the error
"cycle to nodeOffset=0x10", because `visitedNodeOffsets` holds the offset 2^32 + 16 of
the node in between cut to 32 bits. -/
theorem trieWalk_false_cycle_beyond_4GiB :
    WellFormedTrie largeTrie 4294967328 largeTrieNodes largeTrieRank ∧
    TriePath largeTrieNodes 0 [0x61, 0x62] 16 ∧
    largeTrieNodes 16 = some ⟨1, 17, []⟩ ∧
    (trieWalk largeTrie 4294967328 [0x61, 0x62] {} 4294967400).outcome = .null ∧
    (trieWalk largeTrie 4294967328 [0x61, 0x62] {} 4294967400).diag
      = Diagnostics.error {} (.trieCycle 16) := by
  refine ⟨largeTrie_wellFormed, ?_, rfl, ?_, ?_⟩
  · exact TriePath.edge 0 ⟨0, 1, [([0x61], 4294967312)]⟩ ([0x61], 4294967312) [0x62] 16 rfl
      (List.mem_singleton.mpr rfl)
      (TriePath.edge 4294967312 ⟨0, 4294967313, [([0x62], 16)]⟩ ([0x62], 16) [] 16 rfl
        (List.mem_singleton.mpr rfl) (TriePath.here 16))
  · decide
  · decide

/-- C15 (amended): let the blob, shorter than 2^32 bytes, be a well-formed encoding of a
trie: every node is encoded as its terminal size (a ULEB128 of at most ten bytes), the
payload, the child count and the child edges (a label without NUL, a NUL, the child offset
as a ULEB128 of at most ten bytes); all child offsets are non-zero and inside the blob;
the trie is acyclic; no sibling label is a prefix of another.  Then for every symbol name
without NUL and a `Diagnostics` holding no error, `trieWalk`, once its loops may run more
iterations than the blob is long and the trie is high, records no error and returns the
first payload byte of a node at which the path spelling the symbol ends and whose terminal
size is not zero, if there is one, and `nullptr` otherwise. -/
theorem trieWalk_finds_symbol_in_well_formed_trie (m : Mem) (tend : Nat) (symbol : List Nat)
    (diag : Diagnostics) (fuel : Nat) (t : Nat → Option TrieNode) (rank : Nat → Nat)
    (hwf : WellFormedTrie m tend t rank) (hsize : tend < 4294967296)
    (hdiag : diag.hasError = false) (hsym : ∀ c ∈ symbol, c ≠ 0)
    (hfuel : rank 0 + tend < fuel) :
    (trieWalk m tend symbol diag fuel).diag = diag
    ∧ ((∃ o node, TriePath t 0 symbol o ∧ t o = some node ∧ node.terminalSize ≠ 0
          ∧ (trieWalk m tend symbol diag fuel).outcome = .found node.payload)
      ∨ ((trieWalk m tend symbol diag fuel).outcome = .null ∧ ¬ trieHasSymbol t 0 symbol)) :=
  trieWalkLoop_complete m tend symbol fuel t rank hwf hsize hsym (by omega) fuel
    ⟨diag, 0, 0, [0], [], []⟩ hwf.root hdiag
    (fun v hv => by rw [List.mem_singleton.mp hv]) (by show rank 0 < fuel; omega)

/-- Witness for C15 (amended): in the trie of "_foo" and "_foobar", the lookup of
"_foobar" returns offset 18, the payload of the node the edges "_foo" and "bar" lead to,
and the lookup of "_foobaz" returns `nullptr`; neither records an error. -/
theorem trieWalk_finds_symbol_in_well_formed_trie_witness :
    (trieWalk fooTrie 21 str_foobar {} 24).outcome = .found 18 ∧
    (trieWalk fooTrie 21 str_foobaz {} 24).outcome = .null ∧
    (trieWalk fooTrie 21 str_foobaz {} 24).diag = {} ∧
    (trieWalk fooTrie 21 str_foobar {} 24).diag = {} ∧
    ((∃ o node, TriePath fooTrieNodes 0 str_foobar o ∧ fooTrieNodes o = some node
          ∧ node.terminalSize ≠ 0
          ∧ (trieWalk fooTrie 21 str_foobar {} 24).outcome = .found node.payload)
      ∨ ((trieWalk fooTrie 21 str_foobar {} 24).outcome = .null
          ∧ ¬ trieHasSymbol fooTrieNodes 0 str_foobar)) :=
  ⟨by decide, by decide, by decide,
    (trieWalk_finds_symbol_in_well_formed_trie fooTrie 21 str_foobar {} 24 fooTrieNodes
      fooTrieRank fooTrie_wellFormed (by decide) rfl (by decide) (by decide)).1,
    (trieWalk_finds_symbol_in_well_formed_trie fooTrie 21 str_foobar {} 24 fooTrieNodes
      fooTrieRank fooTrie_wellFormed (by decide) rfl (by decide) (by decide)).2⟩

theorem walkChainSwitch_unknown (pointer_format stride : Nat) (notifyNonPointers : Bool)
    (max_valid_pointer fuel chain chainContent : Nat) (mem : Mem)
    (h : ¬ handledByWalkChain pointer_format) :
    walkChainSwitch pointer_format stride notifyNonPointers max_valid_pointer fuel chain
      chainContent mem = .unknownFormat := by
  unfold handledByWalkChain at h
  simp only [not_or] at h
  obtain ⟨h1, h2, h3, h4, h5, h6, h7, h8, h9, h10, h11, h12⟩ := h
  unfold walkChainSwitch
  rw [if_neg (by simp [h1, h2, h3, h4, h5]), if_neg (by simp [h6]),
    if_neg (by simp [h7, h8]), if_neg (by simp [h9]), if_neg (by simp [h10, h11]),
    if_neg (by simp [h12])]

/-- C21 fails as stated: with the pointer format 0, which the `switch` has no case for,
and a handler that asks to stop on its first call, `walkChain` returns true and records
no error; the format is looked at only after the handler, under `if ( !stop )`. -/
theorem walkChain_unknown_format_no_error_when_stopped :
    ¬ handledByWalkChain 0 ∧
    (walkChain {} 0 0 4 false 0 stoppingHandler (memOfList (le64 0x1000), ()) 1).returned
      = some true ∧
    (walkChain {} 0 0 4 false 0 stoppingHandler (memOfList (le64 0x1000), ()) 1).diag.hasError
      = false ∧
    (walkChain {} 0 0 4 false 0 stoppingHandler (memOfList (le64 0x1000), ()) 1).calls
      = [(0, 0x1000)] :=
  ⟨by decide, by decide, by decide, by decide⟩

/-- C21 (amended): for a pointer format the `switch` of `walkChain` has no case for,
`walkChain` calls the handler once, on the first location, and returns true; when the
handler did not ask to stop, the error "unknown pointer format" is recorded, and when it
did, nothing is recorded.  It never returns false for such a format. -/
theorem walkChain_unknown_format {σ : Type} (diag : Diagnostics)
    (chain pointer_format stride : Nat) (notifyNonPointers : Bool) (max_valid_pointer : Nat)
    (handler : Nat → Mem × σ → (Mem × σ) × Bool) (st : Mem × σ) (fuel : Nat)
    (hfuel : 0 < fuel) (hformat : ¬ handledByWalkChain pointer_format) :
    (walkChain diag chain pointer_format stride notifyNonPointers max_valid_pointer handler st
      fuel).returned = some true ∧
    (walkChain diag chain pointer_format stride notifyNonPointers max_valid_pointer handler st
      fuel).calls = [(chain, read64 st.1 chain)] ∧
    (walkChain diag chain pointer_format stride notifyNonPointers max_valid_pointer handler st
      fuel).state = (handler chain st).1 ∧
    (walkChain diag chain pointer_format stride notifyNonPointers max_valid_pointer handler st
      fuel).diag
      = if (handler chain st).2 then diag
        else diag.error (.unknownPointerFormat pointer_format) := by
  obtain ⟨n, rfl⟩ := Nat.exists_eq_succ_of_ne_zero (Nat.pos_iff_ne_zero.mp hfuel)
  unfold walkChain walkChainLoop
  by_cases hs : (handler chain st).2 = true
  · rw [if_pos hs, if_pos hs]
    exact ⟨rfl, rfl, rfl, rfl⟩
  · rw [if_neg hs, if_neg hs, walkChainSwitch_unknown _ _ _ _ _ _ _ _ hformat]
    exact ⟨rfl, rfl, rfl, rfl⟩

/-- Witness for C21 (amended): the format `DYLD_CHAINED_PTR_32_CACHE` and a handler that
does not ask to stop. -/
theorem walkChain_unknown_format_witness :
    ¬ handledByWalkChain DYLD_CHAINED_PTR_32_CACHE ∧
    (walkChain {} 0 DYLD_CHAINED_PTR_32_CACHE 4 false 0 idleHandler
      (memOfList (le64 0x1000), ()) 1).returned = some true ∧
    (walkChain {} 0 DYLD_CHAINED_PTR_32_CACHE 4 false 0 idleHandler
      (memOfList (le64 0x1000), ()) 1).diag
      = Diagnostics.error {} (.unknownPointerFormat DYLD_CHAINED_PTR_32_CACHE) :=
  ⟨by decide,
    (walkChain_unknown_format {} 0 DYLD_CHAINED_PTR_32_CACHE 4 false 0 idleHandler
      (memOfList (le64 0x1000), ()) 1 (by decide) (by decide)).1,
    (walkChain_unknown_format {} 0 DYLD_CHAINED_PTR_32_CACHE 4 false 0 idleHandler
      (memOfList (le64 0x1000), ()) 1 (by decide) (by decide)).2.2.2⟩

/-! ## Lemmas: `forEachChainedFixupTarget` -/

theorem forEachChainedFixupTargetLoop_record (header : Mem) (imports_format
    maxSymbolOffset : Nat) :
    ∀ (n i : Nat) (d : Diagnostics) (acc : List ImportTarget),
      ∃ k, k ≤ n ∧
        (forEachChainedFixupTargetLoop header imports_format maxSymbolOffset
          (fun t (acc : List ImportTarget) => (acc ++ [t], false)) n i (d, acc)).2
          = acc ++ (List.range' i k).map (importTarget header imports_format)
        ∧ ∀ j, i ≤ j → j < i + k →
            importNameOffset header imports_format j ≤ maxSymbolOffset := by
  intro n
  induction n with
  | zero =>
    intro i d acc
    exact ⟨0, le_refl _, by simp [forEachChainedFixupTargetLoop], fun j h1 h2 => by omega⟩
  | succ n ih =>
    intro i d acc
    unfold forEachChainedFixupTargetLoop
    by_cases h : importNameOffset header imports_format i > maxSymbolOffset
    · rw [if_pos h]
      exact ⟨0, Nat.zero_le _, by simp, fun j h1 h2 => by omega⟩
    · rw [if_neg h, if_neg (by simp)]
      obtain ⟨k, hk, hres, hle⟩ := ih (i + 1) d (acc ++ [importTarget header imports_format i])
      refine ⟨k + 1, by omega, ?_, ?_⟩
      · rw [hres, List.range'_succ, List.map_cons, List.append_assoc]
        rfl
      · intro j h1 h2
        by_cases hj : j = i
        · subst hj; omega
        · exact hle j (by omega) (by omega)

theorem toInt8_high (v : Nat) (h1 : 0xF0 < v) (h2 : v < 256) : toInt8 v = (v : Int) - 256 := by
  unfold toInt8
  rw [Nat.mod_eq_of_lt h2, if_neg (by omega)]

theorem toInt16_high (v : Nat) (h1 : 0xFFF0 < v) (h2 : v < 65536) :
    toInt16 v = (v : Int) - 65536 := by
  unfold toInt16
  rw [Nat.mod_eq_of_lt h2, if_neg (by omega)]

/-- C22: every target `forEachChainedFixupTarget` reports is that of an import record,
and for each record the reported `libOrdinal` is, for the formats `DYLD_CHAINED_IMPORT`
and `DYLD_CHAINED_IMPORT_ADDEND` (8-bit field `v`), `v` when `v ≤ 0xF0` and `v - 256`
otherwise, and for `DYLD_CHAINED_IMPORT_ADDEND64` (16-bit field `v`), `v` when
`v ≤ 0xFFF0` and `v - 65536` otherwise; so it is at least -15, and negative exactly
when the field is above the threshold. -/
theorem forEachChainedFixupTarget_libOrdinal (header : Mem) (datasize : Nat) :
    (∀ t ∈ (importTargets header datasize).2, ∃ i, i < fixups_imports_count header
      ∧ t = importTarget header (fixups_imports_format header) i)
    ∧ (∀ (imports_format i : Nat),
        (imports_format = DYLD_CHAINED_IMPORT ∨ imports_format = DYLD_CHAINED_IMPORT_ADDEND →
          importLibVal header imports_format i < 256
          ∧ (importTarget header imports_format i).libOrdinal
            = (if importLibVal header imports_format i ≤ 0xF0
                then (importLibVal header imports_format i : Int)
                else (importLibVal header imports_format i : Int) - 256)
          ∧ -15 ≤ (importTarget header imports_format i).libOrdinal
          ∧ ((importTarget header imports_format i).libOrdinal < 0
              ↔ 0xF0 < importLibVal header imports_format i))
        ∧ (imports_format = DYLD_CHAINED_IMPORT_ADDEND64 →
          importLibVal header imports_format i < 65536
          ∧ (importTarget header imports_format i).libOrdinal
            = (if importLibVal header imports_format i ≤ 0xFFF0
                then (importLibVal header imports_format i : Int)
                else (importLibVal header imports_format i : Int) - 65536)
          ∧ -15 ≤ (importTarget header imports_format i).libOrdinal
          ∧ ((importTarget header imports_format i).libOrdinal < 0
              ↔ 0xFFF0 < importLibVal header imports_format i))) := by
  constructor
  · intro t ht
    unfold importTargets forEachChainedFixupTarget at ht
    by_cases h1 : (decide (fixups_imports_offset header > datasize)
        || decide (fixups_symbols_offset header > datasize)) = true
    · rw [if_pos h1] at ht
      exact absurd ht (List.not_mem_nil _)
    · rw [if_neg h1] at ht
      by_cases h2 : (fixups_imports_format header == DYLD_CHAINED_IMPORT
          || fixups_imports_format header == DYLD_CHAINED_IMPORT_ADDEND
          || fixups_imports_format header == DYLD_CHAINED_IMPORT_ADDEND64) = true
      · rw [if_pos h2] at ht
        obtain ⟨k, hk, hres, _⟩ := forEachChainedFixupTargetLoop_record header
          (fixups_imports_format header) (datasize - fixups_symbols_offset header)
          (fixups_imports_count header) 0 {} []
        rw [hres, List.nil_append] at ht
        obtain ⟨i, hi, rfl⟩ := List.mem_map.mp ht
        rw [List.mem_range'_1] at hi
        exact ⟨i, by omega, rfl⟩
      · rw [if_neg h2] at ht
        exact absurd ht (List.not_mem_nil _)
  · intro imports_format i
    constructor
    · intro hf
      have hv : importLibVal header imports_format i < 256 := by
        unfold importLibVal import_lib_ordinal
        rcases hf with hf | hf <;> subst hf
        · rw [if_pos (by decide)]; exact Nat.mod_lt _ (by decide)
        · rw [if_neg (by decide), if_pos (by decide)]; exact Nat.mod_lt _ (by decide)
      have hl : (importTarget header imports_format i).libOrdinal
          = libOrdinal8 (importLibVal header imports_format i) := by
        unfold importTarget
        rcases hf with hf | hf <;> subst hf
        · rw [if_pos (by decide)]
        · rw [if_neg (by decide), if_pos (by decide)]
      rw [hl]
      unfold libOrdinal8
      by_cases hle : importLibVal header imports_format i ≤ 0xF0
      · rw [if_neg (by omega), if_pos hle]
        exact ⟨hv, rfl, by omega, by omega⟩
      · rw [if_pos (by omega), if_neg hle, toInt8_high _ (by omega) hv]
        exact ⟨hv, rfl, by omega, by omega⟩
    · intro hf
      subst hf
      have hv : importLibVal header DYLD_CHAINED_IMPORT_ADDEND64 i < 65536 := by
        unfold importLibVal import64_lib_ordinal
        rw [if_neg (by decide), if_neg (by decide)]; exact Nat.mod_lt _ (by decide)
      have hl : (importTarget header DYLD_CHAINED_IMPORT_ADDEND64 i).libOrdinal
          = libOrdinal16 (importLibVal header DYLD_CHAINED_IMPORT_ADDEND64 i) := by
        unfold importTarget
        rw [if_neg (by decide), if_neg (by decide)]
      rw [hl]
      unfold libOrdinal16
      by_cases hle : importLibVal header DYLD_CHAINED_IMPORT_ADDEND64 i ≤ 0xFFF0
      · rw [if_neg (by omega), if_pos hle]
        exact ⟨hv, rfl, by omega, by omega⟩
      · rw [if_pos (by omega), if_neg hle, toInt16_high _ (by omega) hv]
        exact ⟨hv, rfl, by omega, by omega⟩

/-- Witness for C22: two `DYLD_CHAINED_IMPORT` records with `lib_ordinal` 0xF0 and 0xFE
are reported with the ordinals 240 and -2. -/
theorem forEachChainedFixupTarget_libOrdinal_witness :
    (importTargets specialOrdinalHeader 0x40).2
      = [⟨0xF0, 0x31, 0, false⟩, ⟨-2, 0x32, 0, false⟩] ∧
    importLibVal specialOrdinalHeader DYLD_CHAINED_IMPORT 1 = 0xFE ∧
    ((importTarget specialOrdinalHeader DYLD_CHAINED_IMPORT 1).libOrdinal < 0
      ↔ 0xF0 < importLibVal specialOrdinalHeader DYLD_CHAINED_IMPORT 1) :=
  ⟨by decide, by decide,
    (((forEachChainedFixupTarget_libOrdinal specialOrdinalHeader 0x40).2
      DYLD_CHAINED_IMPORT 1).1 (Or.inl rfl)).2.2.2⟩

/-- C23 fails in the code: in a blob of 0x40 bytes with the symbol pool at 0x30, an import
whose `name_offset` is 0x10 is handed to the callback, with no error recorded, although its
name starts at offset 0x40, the end of the blob; the test is
`name_offset > maxSymbolOffset`, which lets `name_offset == maxSymbolOffset` through. -/
theorem forEachChainedFixupTarget_accepts_name_at_end_of_pool :
    fixups_symbols_offset poolEndImportHeader = 0x30 ∧
    importNameOffset poolEndImportHeader DYLD_CHAINED_IMPORT 0 = 0x10 ∧
    ¬ (fixups_symbols_offset poolEndImportHeader
        + importNameOffset poolEndImportHeader DYLD_CHAINED_IMPORT 0 < 0x40) ∧
    importTargets poolEndImportHeader 0x40 = ({}, [⟨1, 0x40, 0, false⟩]) :=
  ⟨by decide, by decide, by decide, by decide⟩

/-- C24: the metadata decoded from a fixup word has `authenticated` equal to the word's
auth bit in the arm64e formats and the arm64e shared-cache format, and 0 in every other
format.  When it is authenticated, `key`, `usesAddrDiversity` and `diversity` are the
word's fields (in the shared-cache format `key` is 2 if `keyIsData` and 0 otherwise) and
`high8` is 0.  When it is not, `diversity`, `key` and `usesAddrDiversity` are 0, and `high8`
is the word's `high8` field for a rebase, and 0 for a bind in the arm64e and generic 64-bit
formats and in the formats that have no such field. -/
theorem PointerMetaData_decoding (raw pointer_format : Nat) :
    ((PointerMetaData.ofFixup raw pointer_format).authenticated
      = if isArm64eFamily pointer_format then arm64e_authRebase_auth raw
        else if pointer_format = DYLD_CHAINED_PTR_ARM64E_SHARED_CACHE then
          cache64e_auth_auth raw
        else 0)
    ∧ ((PointerMetaData.ofFixup raw pointer_format).authenticated ≠ 0 →
        (PointerMetaData.ofFixup raw pointer_format).high8 = 0
        ∧ (isArm64eFamily pointer_format = true →
            (PointerMetaData.ofFixup raw pointer_format).key = arm64e_authRebase_key raw
            ∧ (PointerMetaData.ofFixup raw pointer_format).usesAddrDiversity
                = arm64e_authRebase_addrDiv raw
            ∧ (PointerMetaData.ofFixup raw pointer_format).diversity
                = arm64e_authRebase_diversity raw)
        ∧ (pointer_format = DYLD_CHAINED_PTR_ARM64E_SHARED_CACHE →
            (PointerMetaData.ofFixup raw pointer_format).key
                = (if cache64e_auth_keyIsData raw ≠ 0 then 2 else 0)
            ∧ (PointerMetaData.ofFixup raw pointer_format).usesAddrDiversity
                = cache64e_auth_addrDiv raw
            ∧ (PointerMetaData.ofFixup raw pointer_format).diversity
                = cache64e_auth_diversity raw))
    ∧ ((PointerMetaData.ofFixup raw pointer_format).authenticated = 0 →
        (PointerMetaData.ofFixup raw pointer_format).diversity = 0
        ∧ (PointerMetaData.ofFixup raw pointer_format).key = 0
        ∧ (PointerMetaData.ofFixup raw pointer_format).usesAddrDiversity = 0
        ∧ (PointerMetaData.ofFixup raw pointer_format).high8
            = if isArm64eFamily pointer_format then
                (if arm64e_bind_bind raw = 0 then arm64e_rebase_high8 raw else 0)
              else if pointer_format = DYLD_CHAINED_PTR_ARM64E_SHARED_CACHE then
                cache64e_regular_high8 raw
              else if pointer_format = DYLD_CHAINED_PTR_64
                  ∨ pointer_format = DYLD_CHAINED_PTR_64_OFFSET then
                (if generic64_bind_bind raw = 0 then generic64_rebase_high8 raw else 0)
              else 0) := by
  unfold PointerMetaData.ofFixup
  by_cases hfam : isArm64eFamily pointer_format = true
  · have hne : pointer_format ≠ DYLD_CHAINED_PTR_ARM64E_SHARED_CACHE := by
      rintro rfl
      exact absurd hfam (by decide)
    simp only [hfam, if_true]
    by_cases hauth : arm64e_authRebase_auth raw = 0
    · by_cases hbind : arm64e_bind_bind raw = 0
      · simp [hauth, hbind]
      · simp [hauth, hbind]
    · simp [hauth, hne]
  · have hfam' : isArm64eFamily pointer_format = false := by simpa using hfam
    simp only [hfam', Bool.false_eq_true, if_false]
    by_cases hsc : pointer_format = DYLD_CHAINED_PTR_ARM64E_SHARED_CACHE
    · subst hsc
      simp only [beq_self_eq_true, if_true]
      by_cases hauth : cache64e_auth_auth raw = 0
      · simp [hauth]
      · by_cases hk : cache64e_auth_keyIsData raw = 0
        · simp [hauth, hk]
        · simp [hauth, hk]
    · have hsc' : (pointer_format == DYLD_CHAINED_PTR_ARM64E_SHARED_CACHE) = false := by
        simpa using hsc
      simp only [hsc', Bool.false_eq_true, if_false, hsc]
      by_cases h64 : pointer_format = DYLD_CHAINED_PTR_64
          ∨ pointer_format = DYLD_CHAINED_PTR_64_OFFSET
      · have h64' : (pointer_format == DYLD_CHAINED_PTR_64
            || pointer_format == DYLD_CHAINED_PTR_64_OFFSET) = true := by
          simpa using h64
        simp only [h64', if_true, h64]
        by_cases hbind : generic64_bind_bind raw = 0
        · simp [hbind]
        · simp [hbind]
      · have h64' : (pointer_format == DYLD_CHAINED_PTR_64
            || pointer_format == DYLD_CHAINED_PTR_64_OFFSET) = false := by
          simpa using h64
        simp [h64', h64]

/-- Witness for C24: an authenticated `DYLD_CHAINED_PTR_ARM64E` word with key 2, address
diversity and diversity 0x1234. -/
theorem PointerMetaData_decoding_witness :
    PointerMetaData.ofFixup (2 ^ 63 + 2 * 2 ^ 49 + 2 ^ 48 + 0x1234 * 2 ^ 32 + 0x1000)
      DYLD_CHAINED_PTR_ARM64E = ⟨0x1234, 0, 1, 2, 1⟩ ∧
    ((PointerMetaData.ofFixup (2 ^ 63 + 2 * 2 ^ 49 + 2 ^ 48 + 0x1234 * 2 ^ 32 + 0x1000)
      DYLD_CHAINED_PTR_ARM64E).high8 = 0
    ∧ (isArm64eFamily DYLD_CHAINED_PTR_ARM64E = true →
        (PointerMetaData.ofFixup (2 ^ 63 + 2 * 2 ^ 49 + 2 ^ 48 + 0x1234 * 2 ^ 32 + 0x1000)
          DYLD_CHAINED_PTR_ARM64E).key
          = arm64e_authRebase_key (2 ^ 63 + 2 * 2 ^ 49 + 2 ^ 48 + 0x1234 * 2 ^ 32 + 0x1000)
        ∧ (PointerMetaData.ofFixup (2 ^ 63 + 2 * 2 ^ 49 + 2 ^ 48 + 0x1234 * 2 ^ 32 + 0x1000)
            DYLD_CHAINED_PTR_ARM64E).usesAddrDiversity
            = arm64e_authRebase_addrDiv
              (2 ^ 63 + 2 * 2 ^ 49 + 2 ^ 48 + 0x1234 * 2 ^ 32 + 0x1000)
        ∧ (PointerMetaData.ofFixup (2 ^ 63 + 2 * 2 ^ 49 + 2 ^ 48 + 0x1234 * 2 ^ 32 + 0x1000)
            DYLD_CHAINED_PTR_ARM64E).diversity
            = arm64e_authRebase_diversity
              (2 ^ 63 + 2 * 2 ^ 49 + 2 ^ 48 + 0x1234 * 2 ^ 32 + 0x1000))) :=
  ⟨by decide,
    ⟨((PointerMetaData_decoding (2 ^ 63 + 2 * 2 ^ 49 + 2 ^ 48 + 0x1234 * 2 ^ 32 + 0x1000)
        DYLD_CHAINED_PTR_ARM64E).2.1 (by decide)).1,
      ((PointerMetaData_decoding (2 ^ 63 + 2 * 2 ^ 49 + 2 ^ 48 + 0x1234 * 2 ^ 32 + 0x1000)
        DYLD_CHAINED_PTR_ARM64E).2.1 (by decide)).2.1⟩⟩

/-! ## Lemmas: `forEachCodeDirectoryBlob` -/

theorem sub64_of_le (a b : Nat) (ha : a < 18446744073709551616) (hb : b ≤ a) :
    sub64 a b = a - b := by
  unfold sub64
  have h1 : a % 18446744073709551616 = a := Nat.mod_eq_of_lt ha
  have h2 : b % 18446744073709551616 = b := Nat.mod_eq_of_lt (by omega)
  rw [h1, h2]
  omega

theorem forEachCodeDirectoryBlobStep_idle {σ : Type} (mh : Mem) (isWatchOS : Bool) (sig : Mem)
    (codeSignLen sizeofCD i : Nat) (st : Option Nat × σ) :
    (forEachCodeDirectoryBlobStep mh isWatchOS sig codeSignLen sizeofCD (fun _ s => s) i
      st).2 = st.2 := by
  unfold forEachCodeDirectoryBlobStep
  cases codeDirectoryAt sig codeSignLen sizeofCD i with
  | none => rfl
  | some cd =>
    dsimp only
    split_ifs <;> rfl

theorem forEachCodeDirectoryBlobLoop_idle {σ : Type} (mh : Mem) (isWatchOS : Bool) (sig : Mem)
    (codeSignLen sizeofCD : Nat) :
    ∀ (n i : Nat) (st : Option Nat × σ),
      (forEachCodeDirectoryBlobLoop mh isWatchOS sig codeSignLen sizeofCD (fun _ s => s) n i
        st).2 = st.2 := by
  intro n
  induction n with
  | zero => intro i st; rfl
  | succ n ih =>
    intro i st
    unfold forEachCodeDirectoryBlobLoop
    rw [ih, forEachCodeDirectoryBlobStep_idle]

/-- Off the watchOS main executable the loop leaves what the callback captures alone and
folds `betterCodeDirectory` over the candidates. -/
theorem forEachCodeDirectoryBlobLoop_fold {σ : Type} (mh : Mem) (isWatchOS : Bool) (sig : Mem)
    (codeSignLen sizeofCD : Nat) (callback : Nat → σ → σ)
    (hnot : (isWatchOS && isMainExecutable mh) = false) :
    ∀ (n i : Nat) (best : Option Nat) (st : σ),
      forEachCodeDirectoryBlobLoop mh isWatchOS sig codeSignLen sizeofCD callback n i (best, st)
        = (((List.range' i n).filterMap (cdCandidateAt sig codeSignLen sizeofCD)).foldl
            (fun b cd => betterCodeDirectory isWatchOS sig cd b) best, st) := by
  intro n
  induction n with
  | zero => intro i best st; rfl
  | succ n ih =>
    intro i best st
    unfold forEachCodeDirectoryBlobLoop
    have hstep : forEachCodeDirectoryBlobStep mh isWatchOS sig codeSignLen sizeofCD callback i
        (best, st)
        = (((cdCandidateAt sig codeSignLen sizeofCD i).toList).foldl
            (fun b cd => betterCodeDirectory isWatchOS sig cd b) best, st) := by
      unfold forEachCodeDirectoryBlobStep cdCandidateAt
      cases codeDirectoryAt sig codeSignLen sizeofCD i with
      | none => rfl
      | some cd =>
        dsimp only
        rw [if_neg (by rw [hnot]; exact Bool.false_ne_true)]
        by_cases hm : (read32 sig cd == htonl CSMAGIC_CODEDIRECTORY) = true
        · rw [if_pos hm, if_pos hm]; rfl
        · rw [if_neg hm, if_neg hm]; rfl
    rw [hstep, ih, List.range'_succ, List.filterMap_cons]
    cases cdCandidateAt sig codeSignLen sizeofCD i with
    | none => rfl
    | some cd => rfl

/-- The rank of `bestCd`, one more than the hash rank, and 0 for `nullptr`. -/
theorem betterCodeDirectory_fold (isWatchOS : Bool) (sig : Mem) :
    ∀ (cands : List Nat) (best : Option Nat),
      (∀ b, best = some b →
        ∃ b', cands.foldl (fun b cd => betterCodeDirectory isWatchOS sig cd b) best = some b'
          ∧ hashRankFn isWatchOS sig b ≤ hashRankFn isWatchOS sig b')
      ∧ (∀ c ∈ cands, ∃ b',
          cands.foldl (fun b cd => betterCodeDirectory isWatchOS sig cd b) best = some b'
          ∧ hashRankFn isWatchOS sig c ≤ hashRankFn isWatchOS sig b')
      ∧ (cands.foldl (fun b cd => betterCodeDirectory isWatchOS sig cd b) best = best
        ∨ ∃ k cd, cands[k]? = some cd
            ∧ cands.foldl (fun b cd => betterCodeDirectory isWatchOS sig cd b) best = some cd
            ∧ (∀ b, best = some b → hashRankFn isWatchOS sig b < hashRankFn isWatchOS sig cd)
            ∧ ∀ (k' w : Nat), k' < k → cands[k']? = some w →
                hashRankFn isWatchOS sig w < hashRankFn isWatchOS sig cd) := by
  intro cands
  induction cands with
  | nil =>
    intro best
    exact ⟨fun b hb => ⟨b, hb, le_refl _⟩, fun c hc => absurd hc (List.not_mem_nil _),
      Or.inl rfl⟩
  | cons c rest ih =>
    intro best
    rw [List.foldl_cons]
    cases best with
    | none =>
      obtain ⟨h1, h2, h3⟩ := ih (some c)
      obtain ⟨b', hb', hle⟩ := h1 c rfl
      refine ⟨fun b hb => by simp at hb, ?_, Or.inr ?_⟩
      · intro x hx
        rcases List.mem_cons.mp hx with rfl | hx'
        · exact ⟨b', hb', hle⟩
        · exact h2 x hx'
      · rcases h3 with h3 | ⟨k, cd, hk, hcd, hlt, hearlier⟩
        · exact ⟨0, c, List.getElem?_cons_zero, h3, fun b hb => by simp at hb,
            fun k' w hk' _ => by omega⟩
        · refine ⟨k + 1, cd, by simpa using hk, hcd, fun b hb => by simp at hb, ?_⟩
          intro k' w hk' hw
          cases k' with
          | zero =>
            simp only [List.getElem?_cons_zero, Option.some.injEq] at hw
            subst hw
            exact hlt _ rfl
          | succ j =>
            simp only [List.getElem?_cons_succ] at hw
            exact hearlier j w (by omega) hw
    | some b0 =>
      by_cases hgt : hashRankFn isWatchOS sig c > hashRankFn isWatchOS sig b0
      · have hb : betterCodeDirectory isWatchOS sig c (some b0) = some c := by
          unfold betterCodeDirectory
          exact if_pos hgt
        rw [hb]
        obtain ⟨h1, h2, h3⟩ := ih (some c)
        obtain ⟨b', hb', hle⟩ := h1 c rfl
        refine ⟨?_, ?_, Or.inr ?_⟩
        · intro b hb
          simp only [Option.some.injEq] at hb
          subst hb
          exact ⟨b', hb', by omega⟩
        · intro x hx
          rcases List.mem_cons.mp hx with rfl | hx'
          · exact ⟨b', hb', hle⟩
          · exact h2 x hx'
        · rcases h3 with h3 | ⟨k, cd, hk, hcd, hlt, hearlier⟩
          · refine ⟨0, c, List.getElem?_cons_zero, h3, ?_, fun k' w hk' _ => by omega⟩
            intro b hb
            simp only [Option.some.injEq] at hb
            subst hb
            exact hgt
          · refine ⟨k + 1, cd, by simpa using hk, hcd, ?_, ?_⟩
            · intro b hb
              simp only [Option.some.injEq] at hb
              subst hb
              have := hlt c rfl
              omega
            · intro k' w hk' hw
              cases k' with
              | zero =>
                simp only [List.getElem?_cons_zero, Option.some.injEq] at hw
                subst hw
                exact hlt _ rfl
              | succ j =>
                simp only [List.getElem?_cons_succ] at hw
                exact hearlier j w (by omega) hw
      · have hb : betterCodeDirectory isWatchOS sig c (some b0) = some b0 := by
          unfold betterCodeDirectory
          exact if_neg hgt
        rw [hb]
        obtain ⟨h1, h2, h3⟩ := ih (some b0)
        obtain ⟨b', hb', hle⟩ := h1 b0 rfl
        refine ⟨?_, ?_, ?_⟩
        · intro b hb
          simp only [Option.some.injEq] at hb
          subst hb
          exact ⟨b', hb', hle⟩
        · intro x hx
          rcases List.mem_cons.mp hx with rfl | hx'
          · exact ⟨b', hb', by omega⟩
          · exact h2 x hx'
        · rcases h3 with h3 | ⟨k, cd, hk, hcd, hlt, hearlier⟩
          · exact Or.inl h3
          · refine Or.inr ⟨k + 1, cd, by simpa using hk, hcd, hlt, ?_⟩
            intro k' w hk' hw
            cases k' with
            | zero =>
              simp only [List.getElem?_cons_zero, Option.some.injEq] at hw
              subst hw
              have := hlt b0 rfl
              omega
            | succ j =>
              simp only [List.getElem?_cons_succ] at hw
              exact hearlier j w (by omega) hw

/-- C25: `forEachCodeDirectoryBlob` leaves what its callback captures untouched, whatever
the callback, so invokes it zero times, when the signature is shorter than the SuperBlob
header, when the magic is not the embedded-signature magic, or when
`subBlobCount * sizeof(CS_BlobIndex) + sizeof(CS_SuperBlob) > codeSignLen`; and for a
`codeSignLen` of at least `sizeof(CS_SuperBlob)` the test of the code, which divides, is
equivalent to this inequality. -/
theorem forEachCodeDirectoryBlob_rejects_bad_superblob {σ : Type} (mh : Mem)
    (isWatchOS : Bool) (sig : Mem) (codeSignLen sizeofCD : Nat) (callback : Nat → σ → σ)
    (st : σ) (hlen : codeSignLen < 18446744073709551616) :
    ((codeSignLen < sizeof_CS_SuperBlob
        ∨ read32 sig 0 ≠ htonl CSMAGIC_EMBEDDED_SIGNATURE
        ∨ htonl (read32 sig 8) * sizeof_CS_BlobIndex + sizeof_CS_SuperBlob > codeSignLen) →
      forEachCodeDirectoryBlob mh isWatchOS sig codeSignLen sizeofCD callback st = st)
    ∧ (∀ subBlobCount : Nat, sizeof_CS_SuperBlob ≤ codeSignLen →
        (sub64 codeSignLen sizeof_CS_SuperBlob / sizeof_CS_BlobIndex < subBlobCount
          ↔ subBlobCount * sizeof_CS_BlobIndex + sizeof_CS_SuperBlob > codeSignLen)) := by
  have hequiv : ∀ subBlobCount : Nat, sizeof_CS_SuperBlob ≤ codeSignLen →
      (sub64 codeSignLen sizeof_CS_SuperBlob / sizeof_CS_BlobIndex < subBlobCount
        ↔ subBlobCount * sizeof_CS_BlobIndex + sizeof_CS_SuperBlob > codeSignLen) := by
    intro c hge
    rw [sub64_of_le _ _ hlen hge]
    simp only [sizeof_CS_SuperBlob, sizeof_CS_BlobIndex] at hge ⊢
    omega
  refine ⟨fun h => ?_, hequiv⟩
  have hrej : superBlobRejected sig codeSignLen = true := by
    unfold superBlobRejected
    simp only [Bool.or_eq_true, decide_eq_true_eq, bne_iff_ne, ne_eq]
    by_cases h1 : codeSignLen < sizeof_CS_SuperBlob
    · exact Or.inl (Or.inl h1)
    · rcases h with h | h | h
      · exact absurd h h1
      · exact Or.inl (Or.inr h)
      · exact Or.inr ((hequiv _ (by omega)).mpr h)
  unfold forEachCodeDirectoryBlob
  rw [if_pos hrej]

/-- Witness for C25: a SuperBlob of 20 bytes that declares two sub-blobs. -/
theorem forEachCodeDirectoryBlob_rejects_bad_superblob_witness :
    htonl (read32 (memOfList (superBlobHeader 20 2 ++ be32 0 ++ be32 12)) 8)
        * sizeof_CS_BlobIndex + sizeof_CS_SuperBlob > 20 ∧
    forEachCodeDirectoryBlob (memOfList []) false
      (memOfList (superBlobHeader 20 2 ++ be32 0 ++ be32 12)) 20 88
      (fun cd (acc : List Nat) => acc ++ [cd]) [] = [] :=
  ⟨by decide,
    (forEachCodeDirectoryBlob_rejects_bad_superblob (memOfList []) false
      (memOfList (superBlobHeader 20 2 ++ be32 0 ++ be32 12)) 20 88
      (fun cd (acc : List Nat) => acc ++ [cd]) [] (by decide)).1 (Or.inr (Or.inr (by decide)))⟩

/-- Off the watchOS main executable `forEachCodeDirectoryBlob` makes no call when no
sub-blob passes the tests of the loop as the code makes them (`cdCandidates`), and
otherwise one call, with the first of them in index order whose hash rank is maximal. -/
theorem forEachCodeDirectoryBlob_selects_among_tested {σ : Type} (mh : Mem)
    (isWatchOS : Bool) (sig : Mem) (codeSignLen sizeofCD : Nat) (callback : Nat → σ → σ)
    (st : σ) (hnot : (isWatchOS && isMainExecutable mh) = false) :
    (cdCandidates sig codeSignLen sizeofCD = [] →
      forEachCodeDirectoryBlob mh isWatchOS sig codeSignLen sizeofCD callback st = st)
    ∧ (cdCandidates sig codeSignLen sizeofCD ≠ [] →
      ∃ k cd, (cdCandidates sig codeSignLen sizeofCD)[k]? = some cd
        ∧ forEachCodeDirectoryBlob mh isWatchOS sig codeSignLen sizeofCD callback st
            = callback cd st
        ∧ (∀ c ∈ cdCandidates sig codeSignLen sizeofCD,
            hashRankFn isWatchOS sig c ≤ hashRankFn isWatchOS sig cd)
        ∧ ∀ (k' w : Nat), k' < k → (cdCandidates sig codeSignLen sizeofCD)[k']? = some w →
            hashRankFn isWatchOS sig w < hashRankFn isWatchOS sig cd) := by
  refine ⟨?_, ?_⟩
  · intro hnil
    unfold forEachCodeDirectoryBlob
    by_cases hrej : superBlobRejected sig codeSignLen = true
    · rw [if_pos hrej]
    · rw [if_neg hrej, forEachCodeDirectoryBlobLoop_fold mh isWatchOS sig codeSignLen sizeofCD
        callback hnot]
      unfold cdCandidates at hnil
      rw [if_neg hrej] at hnil
      rw [hnil]
      rfl
  · intro hne
    by_cases hrej : superBlobRejected sig codeSignLen = true
    · exact absurd (by unfold cdCandidates; rw [if_pos hrej]) hne
    · have hc : cdCandidates sig codeSignLen sizeofCD
          = (List.range' 0 (htonl (read32 sig 8))).filterMap
              (cdCandidateAt sig codeSignLen sizeofCD) := by
        unfold cdCandidates
        rw [if_neg hrej]
      have hrun : ∀ b, (cdCandidates sig codeSignLen sizeofCD).foldl
            (fun b cd => betterCodeDirectory isWatchOS sig cd b) none = some b →
          forEachCodeDirectoryBlob mh isWatchOS sig codeSignLen sizeofCD callback st
            = callback b st := by
        intro b hb
        unfold forEachCodeDirectoryBlob
        rw [if_neg hrej, forEachCodeDirectoryBlobLoop_fold mh isWatchOS sig codeSignLen
          sizeofCD callback hnot, ← hc, hb]
      obtain ⟨_, h2, h3⟩ := betterCodeDirectory_fold isWatchOS sig
        (cdCandidates sig codeSignLen sizeofCD) none
      obtain ⟨c0, hc0⟩ := List.exists_mem_of_ne_nil _ hne
      obtain ⟨b0, hb0, _⟩ := h2 c0 hc0
      rcases h3 with h3 | ⟨k, cd, hk, hcd, _, hearlier⟩
      · rw [hb0] at h3
        exact absurd h3 (by simp)
      · refine ⟨k, cd, hk, hrun cd hcd, ?_, hearlier⟩
        intro c hcmem
        obtain ⟨b', hb', hle⟩ := h2 c hcmem
        rw [hcd] at hb'
        simp only [Option.some.injEq] at hb'
        subst hb'
        exact hle

/-- The rank of `hash_rank`, by hash type. -/
theorem hashRankFn_off_watchOS (sig : Mem) (cd : Nat) :
    hashRankFn false sig cd =
      if cd_hashType sig cd = CS_HASHTYPE_SHA1 then 1
      else if cd_hashType sig cd = CS_HASHTYPE_SHA256_TRUNCATED then 2
      else if cd_hashType sig cd = CS_HASHTYPE_SHA256 then 3
      else if cd_hashType sig cd = CS_HASHTYPE_SHA384 then 4 else 0 := by
  unfold hashRankFn hash_rank hashPriorities
  generalize cd_hashType sig cd = t
  simp only [hashRankIn, CS_HASHTYPE_SHA1, CS_HASHTYPE_SHA256_TRUNCATED, CS_HASHTYPE_SHA256,
    CS_HASHTYPE_SHA384, beq_iff_eq, Bool.false_eq_true, if_false, Nat.zero_add, Nat.reduceAdd,
    @eq_comm Nat _ t]

/-- The rank of `hash_rank_watchOS_dylibs`, by hash type. -/
theorem hashRankFn_on_watchOS (sig : Mem) (cd : Nat) :
    hashRankFn true sig cd =
      if cd_hashType sig cd = CS_HASHTYPE_SHA256_TRUNCATED then 1
      else if cd_hashType sig cd = CS_HASHTYPE_SHA256 then 2
      else if cd_hashType sig cd = CS_HASHTYPE_SHA384 then 3
      else if cd_hashType sig cd = CS_HASHTYPE_SHA1 then 4 else 0 := by
  unfold hashRankFn hash_rank_watchOS_dylibs hashPriorities_watchOS_dylibs
  generalize cd_hashType sig cd = t
  simp only [hashRankIn, CS_HASHTYPE_SHA1, CS_HASHTYPE_SHA256_TRUNCATED, CS_HASHTYPE_SHA256,
    CS_HASHTYPE_SHA384, beq_iff_eq, if_true, Nat.zero_add, Nat.reduceAdd,
    @eq_comm Nat _ t]

/-- The byte swap of a 32-bit value given by its four bytes. -/
theorem OSSwapBigToHostInt32_bytes (a b c d : Nat) (ha : a < 256) (hb : b < 256)
    (hc : c < 256) (hd : d < 256) :
    OSSwapBigToHostInt32 (a + 256 * b + 65536 * c + 16777216 * d)
      = d + 256 * c + 65536 * b + 16777216 * a := by
  have h0 : (a + 256 * b + 65536 * c + 16777216 * d) % 256 = a := by omega
  have h1 : (a + 256 * b + 65536 * c + 16777216 * d) / 256 % 256 = b := by omega
  have h2 : (a + 256 * b + 65536 * c + 16777216 * d) / 65536 % 256 = c := by omega
  have h3 : (a + 256 * b + 65536 * c + 16777216 * d) / 16777216 % 256 = d := by omega
  unfold OSSwapBigToHostInt32
  rw [h0, h1, h2, h3]
  omega

/-- Swapping the bytes of a 32-bit value twice gives it back. -/
theorem htonl_htonl (x : Nat) (hx : x < 4294967296) : htonl (htonl x) = x := by
  have e1 : x / 65536 = x / 256 / 256 := by rw [Nat.div_div_eq_div_mul]
  have e2 : x / 16777216 = x / 256 / 256 / 256 := by
    rw [Nat.div_div_eq_div_mul, Nat.div_div_eq_div_mul]
  obtain ⟨a, b, c, d, ha, hb, hc, hd, rfl⟩ : ∃ a b c d, a < 256 ∧ b < 256 ∧ c < 256
      ∧ d < 256 ∧ x = a + 256 * b + 65536 * c + 16777216 * d :=
    ⟨x % 256, x / 256 % 256, x / 256 / 256 % 256, x / 256 / 256 / 256, by omega, by omega,
      by omega, by omega, by omega⟩
  unfold htonl
  rw [OSSwapBigToHostInt32_bytes a b c d ha hb hc hd,
    OSSwapBigToHostInt32_bytes d c b a hd hc hb ha]

/-- Equality with a constant may be tested on either side of the byte swap. -/
theorem htonl_eq_iff (x c : Nat) (hx : x < 4294967296) (hc : c < 4294967296) :
    htonl x = c ↔ x = htonl c := by
  constructor
  · intro h
    rw [← h, htonl_htonl x hx]
  · intro h
    rw [h, htonl_htonl c hc]

/-- A sub-blob whose decoded slot type is a code-directory type passes the slot test of
the code. -/
theorem isCodeDirectorySlot_of_type (sig : Mem) (i : Nat)
    (h : isCodeDirectoryType (slotType sig i)) : isCodeDirectorySlot sig i = true := by
  have hr : blobIndex_type sig i = htonl (slotType sig i) :=
    (htonl_htonl _ (read32_lt _ _)).symm
  unfold isCodeDirectorySlot
  rw [hr]
  revert h
  generalize slotType sig i = t
  intro h
  rcases h with h | ⟨h1, h2⟩
  · rw [h]
    decide
  · simp only [CSSLOT_ALTERNATE_CODEDIRECTORIES, CSSLOT_ALTERNATE_CODEDIRECTORY_LIMIT] at h1 h2
    interval_cases t <;> decide

/-- For a signature of at least `sizeof(CS_CodeDirectory)` bytes, a sub-blob that passes
the slot test only with a code-directory type is a candidate of the loop exactly when it
is an in-bounds candidate carrying the code-directory magic. -/
theorem cdCandidateAt_eq_inBoundsCandidateAt (sig : Mem) (codeSignLen sizeofCD i : Nat)
    (hlen : codeSignLen < 18446744073709551616) (hsize : sizeofCD ≤ codeSignLen)
    (hslot : isCodeDirectorySlot sig i = true → isCodeDirectoryType (slotType sig i)) :
    cdCandidateAt sig codeSignLen sizeofCD i = inBoundsCandidateAt sig codeSignLen sizeofCD i := by
  have hmagic : ∀ cd, (read32 sig cd == htonl CSMAGIC_CODEDIRECTORY) = true
      ↔ htonl (read32 sig cd) = CSMAGIC_CODEDIRECTORY := fun cd =>
    beq_iff_eq.trans (htonl_eq_iff _ _ (read32_lt _ _) (by decide)).symm
  by_cases hs : isCodeDirectorySlot sig i = true
  · have ht := hslot hs
    by_cases h1 : htonl (blobIndex_offset sig i) > codeSignLen - sizeofCD
    · have hL : codeDirectoryAt sig codeSignLen sizeofCD i = none := by
        unfold codeDirectoryAt
        rw [if_pos hs, sub64_of_le _ _ hlen hsize, if_pos h1]
      unfold cdCandidateAt inBoundsCandidateAt
      rw [hL, if_neg (fun hc => by omega)]
    · by_cases h2 : htonl (read32 sig (htonl (blobIndex_offset sig i) + 4))
          > codeSignLen - htonl (blobIndex_offset sig i)
      · have hL : codeDirectoryAt sig codeSignLen sizeofCD i = none := by
          unfold codeDirectoryAt
          rw [if_pos hs, sub64_of_le _ _ hlen hsize, if_neg h1,
            sub64_of_le _ _ hlen (by omega), if_pos h2]
        unfold cdCandidateAt inBoundsCandidateAt
        rw [hL, if_neg (fun hc => by omega)]
      · have hL : codeDirectoryAt sig codeSignLen sizeofCD i
            = some (htonl (blobIndex_offset sig i)) := by
          unfold codeDirectoryAt
          rw [if_pos hs, sub64_of_le _ _ hlen hsize, if_neg h1,
            sub64_of_le _ _ hlen (by omega), if_neg h2]
        unfold cdCandidateAt inBoundsCandidateAt
        rw [hL]
        dsimp only
        by_cases hm : htonl (read32 sig (htonl (blobIndex_offset sig i)))
            = CSMAGIC_CODEDIRECTORY
        · rw [if_pos ((hmagic _).mpr hm)]
          exact (if_pos ⟨ht, by omega, by omega, hm⟩).symm
        · rw [if_neg (fun hc => hm ((hmagic _).mp hc))]
          exact (if_neg (fun hc => hm hc.2.2.2)).symm
  · have hL : codeDirectoryAt sig codeSignLen sizeofCD i = none := by
      unfold codeDirectoryAt
      rw [if_neg hs]
    unfold cdCandidateAt inBoundsCandidateAt
    rw [hL]
    exact (if_neg (fun hc => hs (isCodeDirectorySlot_of_type sig i hc.1))).symm

/-- The head tests of the code pass exactly for a SuperBlob with the embedded-signature
magic whose index fits in the signature. -/
theorem superBlobRejected_eq_false_iff (sig : Mem) (codeSignLen : Nat)
    (hlen : codeSignLen < 18446744073709551616) :
    ¬ superBlobRejected sig codeSignLen = true
      ↔ (sizeof_CS_SuperBlob ≤ codeSignLen
        ∧ htonl (read32 sig 0) = CSMAGIC_EMBEDDED_SIGNATURE
        ∧ htonl (read32 sig 8) * sizeof_CS_BlobIndex + sizeof_CS_SuperBlob ≤ codeSignLen) := by
  have hmagic : htonl (read32 sig 0) = CSMAGIC_EMBEDDED_SIGNATURE
      ↔ read32 sig 0 = htonl CSMAGIC_EMBEDDED_SIGNATURE :=
    htonl_eq_iff _ _ (read32_lt _ _) (by decide)
  unfold superBlobRejected
  simp only [Bool.or_eq_true, decide_eq_true_eq, bne_iff_ne, ne_eq, not_or, not_lt, not_not]
  rw [hmagic]
  by_cases hge : sizeof_CS_SuperBlob ≤ codeSignLen
  · rw [sub64_of_le _ _ hlen hge]
    simp only [sizeof_CS_SuperBlob, sizeof_CS_BlobIndex] at hge ⊢
    constructor
    · rintro ⟨⟨_, hm⟩, hc⟩
      exact ⟨hge, hm, by omega⟩
    · rintro ⟨_, hm, hc⟩
      exact ⟨⟨hge, hm⟩, by omega⟩
  · constructor
    · rintro ⟨⟨h, _⟩, _⟩
      exact absurd h hge
    · rintro ⟨h, _⟩
      exact absurd h hge

/-- For a signature of at least `sizeof(CS_CodeDirectory)` bytes in which only sub-blobs
of a code-directory type pass the slot test, the candidates of the loop are the in-bounds
candidates carrying the code-directory magic. -/
theorem cdCandidates_eq_inBoundsCandidates (sig : Mem) (codeSignLen sizeofCD : Nat)
    (hlen : codeSignLen < 18446744073709551616) (hsize : sizeofCD ≤ codeSignLen)
    (hslots : ∀ i, i < htonl (read32 sig 8) →
      isCodeDirectorySlot sig i = true → isCodeDirectoryType (slotType sig i)) :
    cdCandidates sig codeSignLen sizeofCD = inBoundsCandidates sig codeSignLen sizeofCD := by
  unfold cdCandidates inBoundsCandidates
  by_cases hrej : superBlobRejected sig codeSignLen = true
  · rw [if_pos hrej, if_neg (fun hc =>
      ((superBlobRejected_eq_false_iff sig codeSignLen hlen).mpr hc) hrej)]
  · rw [if_neg hrej, if_pos ((superBlobRejected_eq_false_iff sig codeSignLen hlen).mp hrej)]
    apply List.filterMap_congr
    intro i hi
    have hlt : i < htonl (read32 sig 8) := by
      have := (List.mem_range'_1.mp hi).2
      omega
    exact cdCandidateAt_eq_inBoundsCandidateAt sig codeSignLen sizeofCD i hlen hsize
      (hslots i hlt)

/-- C27: with a signature buffer shorter than `sizeof(CS_CodeDirectory)` the subtraction
`codeSignLen - sizeof(CS_CodeDirectory)` wraps around, and so does
`codeSignLen - cdOffset`: for a buffer of 20 bytes whose one index entry has offset
0x1000, the code directory at 0x1000 is handed to the callback, although neither
`cdOffset + sizeof(CS_CodeDirectory)` nor `cdOffset + cdLength` is within the buffer. -/
theorem forEachCodeDirectoryBlob_hands_out_directory_past_buffer :
    codeDirectoryBlobs dylibHeader false shortSignature 20 88 = [0x1000]
    ∧ htonl (blobIndex_offset shortSignature 0) = 0x1000
    ∧ htonl (read32 shortSignature (0x1000 + 4)) = 0x60
    ∧ ¬ (0x1000 + 88 ≤ 20) ∧ ¬ (0x1000 + 0x60 ≤ 20) := by
  decide

/-- C28: the slot test compares the stored big-endian word with byte-swapped bounds, so a
slot of type `CSSLOT_REQUIREMENTS` (2, stored as 0x02000000, between 0x00100000 and
0x05100000) passes it.  On a watchOS main executable the requirements blob in that slot
is handed to the callback; off watchOS a sub-blob in that slot with the bytes of a code
directory is selected. -/
theorem forEachCodeDirectoryBlob_takes_requirements_slot :
    htonl (blobIndex_type requirementsSignature 0) = CSSLOT_REQUIREMENTS
    ∧ CSSLOT_REQUIREMENTS ≠ CSSLOT_CODEDIRECTORY
    ∧ ¬ (CSSLOT_ALTERNATE_CODEDIRECTORIES ≤ CSSLOT_REQUIREMENTS
        ∧ CSSLOT_REQUIREMENTS ≤ CSSLOT_ALTERNATE_CODEDIRECTORY_LIMIT)
    ∧ isCodeDirectorySlot requirementsSignature 0 = true
    ∧ codeDirectoryAt requirementsSignature 0x100 88 0 = some 0x20
    ∧ codeDirectoryBlobs mainExecutableHeader true requirementsSignature 0x100 88 = [0x20]
    ∧ htonl (blobIndex_type misfiledDirectorySignature 0) = CSSLOT_REQUIREMENTS
    ∧ codeDirectoryBlobs dylibHeader false misfiledDirectorySignature 0x100 88 = [0x20] := by
  decide

/-- C29 (as claimed, refuted): a signature whose SHA-256 code directory
`forEachCodeDirectoryBlob` selects, and for which `forEachCDHashOfCodeSignature` does not
invoke a callback that counts its invocations. -/
theorem forEachCDHashOfCodeSignature_no_call_for_selected_directory :
    codeDirectoryBlobs dylibHeader false sha1ThenSha256Signature 0x200 88 = [0x100]
    ∧ forEachCDHashOfCodeSignature dylibHeader false sha1ThenSha256Signature 0x200 88
        (fun _ (n : Nat) => n + 1) 0 = 0 := by
  decide

/-- C29 (amended): `forEachCDHashOfCodeSignature` never invokes its callback: with the
digest code commented out, the block it passes to `forEachCodeDirectoryBlob` only reads
the length of the directory, so whatever the callback captures is left as it was. -/
theorem forEachCDHashOfCodeSignature_never_calls {σ : Type} (mh : Mem) (isWatchOS : Bool)
    (sig : Mem) (codeSignLen sizeofCD : Nat) (callback : List Nat → σ → σ) (st : σ) :
    forEachCDHashOfCodeSignature mh isWatchOS sig codeSignLen sizeofCD callback st = st := by
  unfold forEachCDHashOfCodeSignature forEachCodeDirectoryBlob
  by_cases hrej : superBlobRejected sig codeSignLen = true
  · rw [if_pos hrej]
  · rw [if_neg hrej]
    have h := forEachCodeDirectoryBlobLoop_idle mh isWatchOS sig codeSignLen sizeofCD
      (htonl (read32 sig 8)) 0 ((none : Option Nat), st)
    revert h
    generalize forEachCodeDirectoryBlobLoop mh isWatchOS sig codeSignLen sizeofCD
      (fun _ s => s) (htonl (read32 sig 8)) 0 ((none : Option Nat), st) = r
    intro h
    obtain ⟨b, s⟩ := r
    cases b with
    | none => exact h
    | some bestCd => exact h

/-! ## Lemmas: `removeLoadCommand` -/

theorem read8_write32_of_ne (m : Mem) (a v x : Nat) (h : x < a ∨ a + 4 ≤ x) :
    read8 (write32 m a v) x = read8 m x := by
  unfold read8 write32
  rw [if_neg (by omega), if_neg (by omega), if_neg (by omega), if_neg (by omega)]

theorem read32_write32_same (m : Mem) (a v : Nat) :
    read32 (write32 m a v) a = v % 4294967296 := by
  unfold read32 read8 write32
  rw [if_pos rfl, if_neg (by omega), if_pos rfl, if_neg (by omega), if_neg (by omega),
    if_pos rfl, if_neg (by omega), if_neg (by omega), if_neg (by omega), if_pos rfl]
  omega

theorem read32_write32_other (m : Mem) (a v b : Nat) (h : b + 4 ≤ a ∨ a + 4 ≤ b) :
    read32 (write32 m a v) b = read32 m b := by
  unfold read32
  rw [read8_write32_of_ne m a v b (by omega), read8_write32_of_ne m a v (b + 1) (by omega),
    read8_write32_of_ne m a v (b + 2) (by omega), read8_write32_of_ne m a v (b + 3) (by omega)]

theorem read8_memmove_lt (m : Mem) (dst src n x : Nat) (h : x < dst) :
    read8 (memmove m dst src n) x = read8 m x := by
  unfold read8 memmove
  rw [if_neg (by omega)]

theorem read8_memmove_in (m : Mem) (dst src n x : Nat) (h1 : dst ≤ x) (h2 : x < dst + n) :
    read8 (memmove m dst src n) x = read8 m (src + (x - dst)) := by
  unfold read8 memmove
  rw [if_pos ⟨h1, h2⟩]

theorem read8_memmove_ge (m : Mem) (dst src n x : Nat) (h : dst + n ≤ x) :
    read8 (memmove m dst src n) x = read8 m x := by
  unfold read8 memmove
  rw [if_neg (by omega)]

theorem read32_memmove_lt (m : Mem) (dst src n b : Nat) (h : b + 4 ≤ dst) :
    read32 (memmove m dst src n) b = read32 m b := by
  unfold read32
  rw [read8_memmove_lt m dst src n b (by omega), read8_memmove_lt m dst src n (b + 1) (by omega),
    read8_memmove_lt m dst src n (b + 2) (by omega),
    read8_memmove_lt m dst src n (b + 3) (by omega)]

theorem read32_congr (m1 m2 : Mem) (a b : Nat)
    (h : ∀ t, t < 4 → read8 m1 (a + t) = read8 m2 (b + t)) : read32 m1 a = read32 m2 b := by
  unfold read32
  have h0 := h 0 (by omega)
  rw [Nat.add_zero, Nat.add_zero] at h0
  rw [h0, h 1 (by omega), h 2 (by omega), h 3 (by omega)]

theorem readBytes_length (m : Mem) : ∀ (n a : Nat), (readBytes m a n).length = n := by
  intro n
  induction n with
  | zero => intro a; rfl
  | succ n ih => intro a; unfold readBytes; rw [List.length_cons, ih]

theorem readBytes_getD (m : Mem) :
    ∀ (n a j : Nat), j < n → (readBytes m a n).getD j 0 = read8 m (a + j) := by
  intro n
  induction n with
  | zero => intro a j hj; omega
  | succ n ih =>
    intro a j hj
    unfold readBytes
    cases j with
    | zero => rfl
    | succ j =>
      rw [List.getD_cons_succ, ih (a + 1) j (by omega)]
      congr 1
      omega

theorem readBytes_congr (m1 m2 : Mem) :
    ∀ (n a b : Nat), (∀ j, j < n → read8 m1 (a + j) = read8 m2 (b + j)) →
      readBytes m1 a n = readBytes m2 b n := by
  intro n
  induction n with
  | zero => intro a b _; rfl
  | succ n ih =>
    intro a b h
    unfold readBytes
    have h0 := h 0 (by omega)
    rw [Nat.add_zero, Nat.add_zero] at h0
    rw [h0, ih (a + 1) (b + 1) (fun j hj => by
      have := h (j + 1) (by omega)
      rw [Nat.add_assoc, Nat.add_assoc, Nat.add_comm 1 j]
      exact this)]

/-- Memory that agrees byte for byte with a list holds the list. -/
theorem bytesAt_of_getD (m : Mem) :
    ∀ (l : List Nat) (p : Nat), (∀ j, j < l.length → read8 m (p + j) = l.getD j 0) →
      bytesAt m p l := by
  intro l
  induction l with
  | nil => intro p _; trivial
  | cons c l ih =>
    intro p h
    unfold bytesAt
    refine ⟨?_, ih (p + 1) (fun j hj => ?_)⟩
    · have h0 := h 0 (by simp)
      rw [Nat.add_zero] at h0
      exact h0
    · have := h (j + 1) (by simp; omega)
      rw [Nat.add_assoc, Nat.add_comm 1 j]
      exact this

theorem commandBytes_length (mh : Mem) (k : Nat) :
    (commandBytes mh k).length = lc_cmdsize mh (cmdAddr mh k) := by
  unfold commandBytes
  exact readBytes_length _ _ _

theorem keptCommands_snoc (mh : Mem) (b : Bool) :
    ∀ (marks : List Bool) (k : Nat),
      keptCommands mh k (marks ++ [b])
        = keptCommands mh k marks
          ++ (if b then [] else commandBytes mh (k + marks.length)) := by
  intro marks
  induction marks with
  | nil =>
    intro k
    cases b
    · simp [keptCommands]
    · simp [keptCommands]
  | cons a marks ih =>
    intro k
    have hk : k + (a :: marks).length = k + 1 + marks.length := by
      rw [List.length_cons]; omega
    cases a
    · rw [List.cons_append]
      unfold keptCommands
      rw [ih (k + 1), hk, List.append_assoc]
    · rw [List.cons_append]
      unfold keptCommands
      rw [ih (k + 1), hk]

theorem removedSize_snoc (mh : Mem) (b : Bool) :
    ∀ (marks : List Bool) (k : Nat),
      removedSize mh k (marks ++ [b])
        = removedSize mh k marks
          + (if b then lc_cmdsize mh (cmdAddr mh (k + marks.length)) else 0) := by
  intro marks
  induction marks with
  | nil =>
    intro k
    cases b
    · simp [removedSize]
    · simp [removedSize]
  | cons a marks ih =>
    intro k
    have hk : k + (a :: marks).length = k + 1 + marks.length := by
      rw [List.length_cons]; omega
    cases a
    · rw [List.cons_append]
      unfold removedSize
      rw [ih (k + 1), hk]
    · rw [List.cons_append]
      unfold removedSize
      rw [ih (k + 1), hk]
      exact (Nat.add_assoc _ _ _).symm

theorem removeCommandMem_ncmds (m : Mem) (cmd bytesRemaining : Nat) (hcmd : 24 ≤ cmd) :
    ncmds (removeCommandMem m cmd bytesRemaining) = u32 (ncmds m + 4294967296 - 1) := by
  unfold removeCommandMem removeCount
  have h1 : ncmds (memmove (removeShrink m cmd) cmd (cmd + lc_cmdsize m cmd) bytesRemaining)
      = ncmds m := by
    unfold ncmds removeShrink
    rw [read32_memmove_lt _ _ _ _ _ (by omega), read32_write32_other _ _ _ _ (by omega)]
  rw [h1]
  unfold ncmds
  rw [read32_write32_same]
  unfold u32
  exact Nat.mod_mod _ _

theorem removeCommandMem_sizeofcmds (m : Mem) (cmd bytesRemaining : Nat) (hcmd : 24 ≤ cmd) :
    sizeofcmds (removeCommandMem m cmd bytesRemaining)
      = u32 (sizeofcmds m + 4294967296 - lc_cmdsize m cmd) := by
  unfold removeCommandMem removeCount sizeofcmds removeShrink
  rw [read32_write32_other _ _ _ _ (by omega), read32_memmove_lt _ _ _ _ _ (by omega),
    read32_write32_same]
  unfold u32
  exact Nat.mod_mod _ _

theorem removeCommandMem_read8_lt (m : Mem) (cmd bytesRemaining x : Nat) (hx : 24 ≤ x)
    (hlt : x < cmd) :
    read8 (removeCommandMem m cmd bytesRemaining) x = read8 m x := by
  unfold removeCommandMem removeCount removeShrink
  rw [read8_write32_of_ne _ _ _ _ (by omega), read8_memmove_lt _ _ _ _ _ hlt,
    read8_write32_of_ne _ _ _ _ (by omega)]

theorem removeCommandMem_read8_in (m : Mem) (cmd bytesRemaining x : Nat) (hcmd : 24 ≤ cmd)
    (h1 : cmd ≤ x) (h2 : x < cmd + bytesRemaining) :
    read8 (removeCommandMem m cmd bytesRemaining) x
      = read8 m (cmd + lc_cmdsize m cmd + (x - cmd)) := by
  unfold removeCommandMem removeCount removeShrink
  rw [read8_write32_of_ne _ _ _ _ (by omega), read8_memmove_in _ _ _ _ _ h1 h2,
    read8_write32_of_ne _ _ _ _ (by omega)]

theorem removeLoadCommand_cmdsize {σ : Type} (mh : Mem) (i : Nat) (s : RemoveRun σ)
    (hinv : RemoveInv mh i s) (hv : cmdValid mh i) :
    lc_cmdsize s.mem s.cmd = lc_cmdsize mh (cmdAddr mh i) := by
  obtain ⟨hv1, _, _, _⟩ := hv
  unfold lc_cmdsize cmdAddr
  apply read32_congr
  intro t ht
  have h := hinv.rest (4 + t) (by omega)
  rw [Nat.add_assoc s.cmd 4 t, Nat.add_assoc (machHeaderSize mh + cmdOffset mh i) 4 t]
  exact h

theorem removeLoadCommand_bytes {σ : Type} (mh : Mem) (i : Nat) (s : RemoveRun σ)
    (hinv : RemoveInv mh i s) (hv : cmdValid mh i) :
    readBytes s.mem s.cmd (lc_cmdsize s.mem s.cmd) = commandBytes mh i := by
  rw [removeLoadCommand_cmdsize mh i s hinv hv]
  obtain ⟨_, _, _, hv4⟩ := hv
  unfold commandBytes
  apply readBytes_congr
  intro j hj
  exact hinv.rest j (by omega)

theorem removeAfterCallback_inv {σ : Type} (mh : Mem)
    (callback : Mem → Nat → Diagnostics × σ → (Diagnostics × σ) × Bool × Bool)
    (i : Nat) (s : RemoveRun σ) (hinv : RemoveInv mh i s) (hi : i < ncmds mh)
    (hv : cmdValid mh i) :
    RemoveInv mh (i + 1) (removeAfterCallback callback s) := by
  have hcs := removeLoadCommand_cmdsize mh i s hinv hv
  have hbytes := removeLoadCommand_bytes mh i s hinv hv
  obtain ⟨hv1, hv2, hv3, hv4⟩ := hv
  have hS := machHeaderSize_ge mh
  have ho : cmdOffset mh (i + 1) = cmdOffset mh i + lc_cmdsize mh (cmdAddr mh i) := rfl
  have hlen : (s.calls.map Prod.snd).length = i := by rw [List.length_map]; exact hinv.len
  have hclen : (commandBytes mh i).length = lc_cmdsize mh (cmdAddr mh i) :=
    commandBytes_length mh i
  have hseen : ∀ b : Bool, (s.calls ++ [(commandBytes mh i, b)]).map Prod.fst
      = (List.range (i + 1)).map (commandBytes mh) := by
    intro b
    rw [List.map_append, hinv.seen, List.range_succ, List.map_append]
    rfl
  have hmarks : ∀ b : Bool, (s.calls ++ [(commandBytes mh i, b)]).map Prod.snd
      = s.calls.map Prod.snd ++ [b] := by
    intro b
    rw [List.map_append]
    rfl
  have hkept : ∀ b : Bool, keptCommands mh 0 (s.calls.map Prod.snd ++ [b])
      = keptCommands mh 0 (s.calls.map Prod.snd)
        ++ (if b then [] else commandBytes mh i) := by
    intro b
    rw [keptCommands_snoc, hlen, Nat.zero_add]
  have hrem : ∀ b : Bool, removedSize mh 0 (s.calls.map Prod.snd ++ [b])
      = removedSize mh 0 (s.calls.map Prod.snd)
        + (if b then lc_cmdsize mh (cmdAddr mh i) else 0) := by
    intro b
    rw [removedSize_snoc, hlen, Nat.zero_add]
  have hcountle : (s.calls.map Prod.snd).count true ≤ i := by
    rw [← hlen]; exact List.count_le_length _ _
  have hn := read32_lt s.mem 16
  have hsz := read32_lt s.mem 20
  have hszmh := read32_lt mh 20
  have hcmd := hinv.cmd_eq
  have hsplit := hinv.split
  have hremaining := hinv.remaining
  have hcount := hinv.count
  have hsize := hinv.size
  unfold removeAfterCallback
  by_cases hrm : (callback s.mem s.cmd s.st).2.1 = true
  · rw [if_pos hrm, hbytes]
    have hk := hkept true
    rw [if_pos rfl, List.append_nil] at hk
    have hr := hrem true
    rw [if_pos rfl] at hr
    refine ⟨hseen true, ?_, ?_, ?_, hremaining, ?_, ?_, ?_, ?_⟩
    · show (s.calls ++ [(commandBytes mh i, true)]).length = i + 1
      rw [List.length_append, hinv.len]; rfl
    · show s.cmd = machHeaderSize mh
        + (keptCommands mh 0 ((s.calls ++ [(commandBytes mh i, true)]).map Prod.snd)).length
      rw [hmarks, hk]; exact hcmd
    · show (keptCommands mh 0 ((s.calls ++ [(commandBytes mh i, true)]).map Prod.snd)).length
        + removedSize mh 0 ((s.calls ++ [(commandBytes mh i, true)]).map Prod.snd)
        = cmdOffset mh (i + 1)
      rw [hmarks, hk, hr, ho]; omega
    · show ∀ j, j < (keptCommands mh 0
          ((s.calls ++ [(commandBytes mh i, true)]).map Prod.snd)).length →
        read8 (removeCommandMem s.mem s.cmd s.bytesRemaining) (machHeaderSize mh + j)
          = (keptCommands mh 0 ((s.calls ++ [(commandBytes mh i, true)]).map Prod.snd)).getD j 0
      rw [hmarks, hk]
      intro j hj
      rw [removeCommandMem_read8_lt _ _ _ _ (by omega) (by omega)]
      exact hinv.kept j hj
    · show ∀ j, cmdOffset mh (i + 1) + j < sizeofcmds mh →
        read8 (removeCommandMem s.mem s.cmd s.bytesRemaining) (s.cmd + j)
          = read8 mh (machHeaderSize mh + cmdOffset mh (i + 1) + j)
      intro j hj
      rw [ho] at hj ⊢
      rw [removeCommandMem_read8_in _ _ _ _ (by omega) (by omega) (by omega), hcs,
        Nat.add_sub_cancel_left]
      have h := hinv.rest (lc_cmdsize mh (cmdAddr mh i) + j) (by omega)
      have e1 : s.cmd + lc_cmdsize mh (cmdAddr mh i) + j
          = s.cmd + (lc_cmdsize mh (cmdAddr mh i) + j) := by omega
      have e2 : machHeaderSize mh + (cmdOffset mh i + lc_cmdsize mh (cmdAddr mh i)) + j
          = machHeaderSize mh + cmdOffset mh i + (lc_cmdsize mh (cmdAddr mh i) + j) := by omega
      rw [e1, e2]
      exact h
    · show ncmds (removeCommandMem s.mem s.cmd s.bytesRemaining)
        + ((s.calls ++ [(commandBytes mh i, true)]).map Prod.snd).count true = ncmds mh
      rw [hmarks, removeCommandMem_ncmds _ _ _ (by omega), List.count_append]
      have h1 : List.count true [true] = 1 := rfl
      rw [h1]
      unfold u32
      unfold ncmds at hcount hi ⊢
      omega
    · show sizeofcmds (removeCommandMem s.mem s.cmd s.bytesRemaining)
        + removedSize mh 0 ((s.calls ++ [(commandBytes mh i, true)]).map Prod.snd)
        = sizeofcmds mh
      rw [hmarks, hr, removeCommandMem_sizeofcmds _ _ _ (by omega), hcs]
      unfold u32
      unfold sizeofcmds at hsize hv4 ⊢
      omega
  · rw [if_neg hrm, hbytes]
    have hk := hkept false
    rw [if_neg Bool.false_ne_true] at hk
    have hr := hrem false
    rw [if_neg Bool.false_ne_true, Nat.add_zero] at hr
    have hbr : u32 (s.bytesRemaining + 4294967296 - lc_cmdsize s.mem s.cmd)
        = s.bytesRemaining - lc_cmdsize mh (cmdAddr mh i) := by
      rw [hcs]
      unfold u32
      unfold sizeofcmds at hremaining hv4 hszmh
      omega
    refine ⟨hseen false, ?_, ?_, ?_, ?_, ?_, ?_, ?_, ?_⟩
    · show (s.calls ++ [(commandBytes mh i, false)]).length = i + 1
      rw [List.length_append, hinv.len]; rfl
    · show s.cmd + lc_cmdsize s.mem s.cmd = machHeaderSize mh
        + (keptCommands mh 0 ((s.calls ++ [(commandBytes mh i, false)]).map Prod.snd)).length
      rw [hmarks, hk, List.length_append, hclen, hcs]; omega
    · show (keptCommands mh 0 ((s.calls ++ [(commandBytes mh i, false)]).map Prod.snd)).length
        + removedSize mh 0 ((s.calls ++ [(commandBytes mh i, false)]).map Prod.snd)
        = cmdOffset mh (i + 1)
      rw [hmarks, hk, hr, ho, List.length_append, hclen]; omega
    · show s.cmd + lc_cmdsize s.mem s.cmd
        + u32 (s.bytesRemaining + 4294967296 - lc_cmdsize s.mem s.cmd)
        = machHeaderSize mh + sizeofcmds mh
      rw [hbr, hcs]; omega
    · show ∀ j, j < (keptCommands mh 0
          ((s.calls ++ [(commandBytes mh i, false)]).map Prod.snd)).length →
        read8 s.mem (machHeaderSize mh + j)
          = (keptCommands mh 0 ((s.calls ++ [(commandBytes mh i, false)]).map Prod.snd)).getD j 0
      rw [hmarks, hk, List.length_append, hclen]
      intro j hj
      by_cases hjk : j < (keptCommands mh 0 (s.calls.map Prod.snd)).length
      · rw [List.getD_append _ _ _ _ hjk]
        exact hinv.kept j hjk
      · rw [List.getD_append_right _ _ _ _ (by omega)]
        unfold commandBytes
        rw [readBytes_getD _ _ _ _ (by omega)]
        have h := hinv.rest (j - (keptCommands mh 0 (s.calls.map Prod.snd)).length) (by omega)
        have e1 : machHeaderSize mh + j
            = s.cmd + (j - (keptCommands mh 0 (s.calls.map Prod.snd)).length) := by omega
        rw [e1, h]
        rfl
    · show ∀ j, cmdOffset mh (i + 1) + j < sizeofcmds mh →
        read8 s.mem (s.cmd + lc_cmdsize s.mem s.cmd + j)
          = read8 mh (machHeaderSize mh + cmdOffset mh (i + 1) + j)
      intro j hj
      rw [ho] at hj ⊢
      rw [hcs]
      have h := hinv.rest (lc_cmdsize mh (cmdAddr mh i) + j) (by omega)
      have e1 : s.cmd + lc_cmdsize mh (cmdAddr mh i) + j
          = s.cmd + (lc_cmdsize mh (cmdAddr mh i) + j) := by omega
      have e2 : machHeaderSize mh + (cmdOffset mh i + lc_cmdsize mh (cmdAddr mh i)) + j
          = machHeaderSize mh + cmdOffset mh i + (lc_cmdsize mh (cmdAddr mh i) + j) := by omega
      rw [e1, e2]
      exact h
    · show ncmds s.mem + ((s.calls ++ [(commandBytes mh i, false)]).map Prod.snd).count true
        = ncmds mh
      rw [hmarks, List.count_append]
      have h1 : List.count true [false] = 0 := rfl
      rw [h1, Nat.add_zero]
      exact hcount
    · show sizeofcmds s.mem
        + removedSize mh 0 ((s.calls ++ [(commandBytes mh i, false)]).map Prod.snd)
        = sizeofcmds mh
      rw [hmarks, hr]
      exact hsize

theorem read8_bzero_lt (m : Mem) (p n x : Nat) (h : x < p) :
    read8 (bzero m p n) x = read8 m x := by
  unfold read8 bzero
  rw [if_neg (by omega)]

theorem read32_bzero_lt (m : Mem) (p n b : Nat) (h : b + 4 ≤ p) :
    read32 (bzero m p n) b = read32 m b := by
  unfold read32
  rw [read8_bzero_lt m p n b (by omega), read8_bzero_lt m p n (b + 1) (by omega),
    read8_bzero_lt m p n (b + 2) (by omega), read8_bzero_lt m p n (b + 3) (by omega)]

theorem removeLoadCommandBody_next {σ : Type} (mh : Mem)
    (callback : Mem → Nat → Diagnostics × σ → (Diagnostics × σ) × Bool × Bool)
    (hstop : ∀ m cmd st, (callback m cmd st).2.2 = false)
    (i : Nat) (s : RemoveRun σ) (hinv : RemoveInv mh i s) (hv : cmdValid mh i) :
    removeLoadCommandBody (machHeaderSize mh) (machHeaderSize mh + sizeofcmds mh) callback i s
      = .next (removeAfterCallback callback s) := by
  have hcs := removeLoadCommand_cmdsize mh i s hinv hv
  obtain ⟨_, hv2, _, hv4⟩ := hv
  have hcmd := hinv.cmd_eq
  have hsplit := hinv.split
  unfold removeLoadCommandBody
  rw [if_neg (by omega), if_neg (by omega),
    if_neg (by rw [hstop]; exact Bool.false_ne_true)]

theorem removeLoadCommandLoop_inv {σ : Type} (mh : Mem)
    (callback : Mem → Nat → Diagnostics × σ → (Diagnostics × σ) × Bool × Bool)
    (hstop : ∀ m cmd st, (callback m cmd st).2.2 = false)
    (hvalid : ∀ k, k < ncmds mh → cmdValid mh k) :
    ∀ (n i : Nat) (s : RemoveRun σ), i + n = ncmds mh → RemoveInv mh i s →
      (removeLoadCommandLoop (machHeaderSize mh) (machHeaderSize mh + sizeofcmds mh) callback
        n i s).2 = false
      ∧ RemoveInv mh (ncmds mh)
          (removeLoadCommandLoop (machHeaderSize mh) (machHeaderSize mh + sizeofcmds mh)
            callback n i s).1 := by
  intro n
  induction n with
  | zero =>
    intro i s hin hinv
    rw [Nat.add_zero] at hin
    subst hin
    exact ⟨rfl, hinv⟩
  | succ n ih =>
    intro i s hin hinv
    unfold removeLoadCommandLoop
    rw [removeLoadCommandBody_next mh callback hstop i s hinv (hvalid i (by omega))]
    exact ih (i + 1) _ (by omega)
      (removeAfterCallback_inv mh callback i s hinv (by omega) (hvalid i (by omega)))

/-- C30: `removeLoadCommand` on an image all of whose load commands are well formed, with
a callback that never sets `stop`.  The callback is handed each command of the image
once, in order, with its original bytes; call a command marked when the callback left
`remove` set for it.  Afterwards `ncmds` is the original count minus the number of marked
commands, `sizeofcmds` is the original size minus the sum of their `cmdsize`, the
load-command region begins with the bytes of the commands that are not marked, in their
original order, and every byte from there to the original end of the region is zero.  The
`memmove` of a removal reads `cmdsize` bytes past the end of the region; the memory of
the model is defined there. -/
theorem removeLoadCommand_compacts {σ : Type} (mh : Mem)
    (callback : Mem → Nat → Diagnostics × σ → (Diagnostics × σ) × Bool × Bool)
    (st : Diagnostics × σ)
    (hmagic : magic mh = MH_MAGIC_64 ∨ magic mh = MH_MAGIC)
    (hvalid : ∀ k, k < ncmds mh → cmdValid mh k)
    (hstop : ∀ m cmd s, (callback m cmd s).2.2 = false) :
    (removeLoadCommand mh callback st).calls.map Prod.fst
        = (List.range (ncmds mh)).map (commandBytes mh)
    ∧ ncmds (removeLoadCommand mh callback st).mem
        = ncmds mh - ((removeLoadCommand mh callback st).calls.map Prod.snd).count true
    ∧ sizeofcmds (removeLoadCommand mh callback st).mem
        = sizeofcmds mh
          - removedSize mh 0 ((removeLoadCommand mh callback st).calls.map Prod.snd)
    ∧ bytesAt (removeLoadCommand mh callback st).mem (machHeaderSize mh)
        (keptCommands mh 0 ((removeLoadCommand mh callback st).calls.map Prod.snd))
    ∧ ∀ a, machHeaderSize mh
          + (keptCommands mh 0
              ((removeLoadCommand mh callback st).calls.map Prod.snd)).length ≤ a →
        a < machHeaderSize mh + sizeofcmds mh →
        (removeLoadCommand mh callback st).mem a = 0 := by
  have hS := machHeaderSize_ge mh
  have hinit : RemoveInv mh 0
      ({ mem := mh, st := st, cmd := machHeaderSize mh, bytesRemaining := sizeofcmds mh,
         calls := [] } : RemoveRun σ) :=
    ⟨rfl, rfl, rfl, rfl, rfl, fun j hj => absurd hj (Nat.not_lt_zero _), fun j _ => rfl,
      rfl, rfl⟩
  obtain ⟨hret, hinv⟩ := removeLoadCommandLoop_inv mh callback hstop hvalid (ncmds mh) 0 _
    (Nat.zero_add _) hinit
  have hrun : removeLoadCommand mh callback st
      = removeLoadCommandFinish
          (removeLoadCommandLoop (machHeaderSize mh) (machHeaderSize mh + sizeofcmds mh)
            callback (ncmds mh) 0
            { mem := mh, st := st, cmd := machHeaderSize mh, bytesRemaining := sizeofcmds mh,
              calls := [] }) := by
    unfold removeLoadCommand
    rw [if_pos (by
      rcases hmagic with h | h
      · rw [h]; rfl
      · rw [h]; rfl)]
    rfl
  revert hret hinv
  rw [hrun]
  generalize removeLoadCommandLoop (machHeaderSize mh) (machHeaderSize mh + sizeofcmds mh)
    callback (ncmds mh) 0
    ({ mem := mh, st := st, cmd := machHeaderSize mh, bytesRemaining := sizeofcmds mh,
       calls := [] } : RemoveRun σ) = r
  intro hret hinv
  obtain ⟨s, ret⟩ := r
  have hret2 : ret = false := hret
  subst hret2
  have hcmd : s.cmd = machHeaderSize mh
      + (keptCommands mh 0 (s.calls.map Prod.snd)).length := hinv.cmd_eq
  have hremaining : s.cmd + s.bytesRemaining = machHeaderSize mh + sizeofcmds mh :=
    hinv.remaining
  have hcount : ncmds s.mem + (s.calls.map Prod.snd).count true = ncmds mh := hinv.count
  have hsize : sizeofcmds s.mem + removedSize mh 0 (s.calls.map Prod.snd) = sizeofcmds mh :=
    hinv.size
  have hseen : s.calls.map Prod.fst = (List.range (ncmds mh)).map (commandBytes mh) :=
    hinv.seen
  have hkept : ∀ j, j < (keptCommands mh 0 (s.calls.map Prod.snd)).length →
      read8 s.mem (machHeaderSize mh + j)
        = (keptCommands mh 0 (s.calls.map Prod.snd)).getD j 0 := hinv.kept
  show s.calls.map Prod.fst = (List.range (ncmds mh)).map (commandBytes mh)
    ∧ ncmds (bzero s.mem s.cmd s.bytesRemaining)
        = ncmds mh - (s.calls.map Prod.snd).count true
    ∧ sizeofcmds (bzero s.mem s.cmd s.bytesRemaining)
        = sizeofcmds mh - removedSize mh 0 (s.calls.map Prod.snd)
    ∧ bytesAt (bzero s.mem s.cmd s.bytesRemaining) (machHeaderSize mh)
        (keptCommands mh 0 (s.calls.map Prod.snd))
    ∧ ∀ a, machHeaderSize mh + (keptCommands mh 0 (s.calls.map Prod.snd)).length ≤ a →
        a < machHeaderSize mh + sizeofcmds mh → bzero s.mem s.cmd s.bytesRemaining a = 0
  refine ⟨hseen, ?_, ?_, ?_, ?_⟩
  · unfold ncmds at hcount ⊢
    rw [read32_bzero_lt _ _ _ _ (by omega)]
    omega
  · unfold sizeofcmds at hsize hremaining ⊢
    rw [read32_bzero_lt _ _ _ _ (by omega)]
    omega
  · apply bytesAt_of_getD
    intro j hj
    rw [read8_bzero_lt _ _ _ _ (by omega)]
    exact hkept j hj
  · intro a h1 h2
    unfold bzero
    rw [if_pos ⟨by omega, by omega⟩]

/-- Witness for C30: three commands of 8, 12 and 8 bytes, the second one removed. -/
theorem removeLoadCommand_compacts_witness :
    (magic threeCommandImage = MH_MAGIC_64 ∨ magic threeCommandImage = MH_MAGIC)
    ∧ (∀ k, k < ncmds threeCommandImage → cmdValid threeCommandImage k)
    ∧ (removeLoadCommand threeCommandImage dropVisitor ({}, ())).calls.map Prod.snd
        = [false, true, false]
    ∧ ((removeLoadCommand threeCommandImage dropVisitor ({}, ())).calls.map Prod.fst
        = (List.range (ncmds threeCommandImage)).map (commandBytes threeCommandImage)
      ∧ ncmds (removeLoadCommand threeCommandImage dropVisitor ({}, ())).mem
        = ncmds threeCommandImage
          - ((removeLoadCommand threeCommandImage dropVisitor ({}, ())).calls.map
              Prod.snd).count true
      ∧ sizeofcmds (removeLoadCommand threeCommandImage dropVisitor ({}, ())).mem
        = sizeofcmds threeCommandImage
          - removedSize threeCommandImage 0
              ((removeLoadCommand threeCommandImage dropVisitor ({}, ())).calls.map Prod.snd)
      ∧ bytesAt (removeLoadCommand threeCommandImage dropVisitor ({}, ())).mem
          (machHeaderSize threeCommandImage)
          (keptCommands threeCommandImage 0
            ((removeLoadCommand threeCommandImage dropVisitor ({}, ())).calls.map Prod.snd))
      ∧ ∀ a, machHeaderSize threeCommandImage
            + (keptCommands threeCommandImage 0
                ((removeLoadCommand threeCommandImage dropVisitor ({}, ())).calls.map
                  Prod.snd)).length ≤ a →
          a < machHeaderSize threeCommandImage + sizeofcmds threeCommandImage →
          (removeLoadCommand threeCommandImage dropVisitor ({}, ())).mem a = 0) :=
  ⟨by decide, by decide, by decide,
    removeLoadCommand_compacts threeCommandImage dropVisitor ({}, ()) (by decide) (by decide)
      (fun _ _ _ => rfl)⟩

/-- C31 fails in the code: on the image of three commands, a visitor that marks nothing
and asks to stop at its first call is called once; the loop is left by `break` with
`bytesRemaining` 20, and `bzero(cmd, bytesRemaining)` wipes the second and third command,
which the visitor never saw.  `ncmds` and `sizeofcmds` still say three commands in 28
bytes, and `forEachLoadCommand` on the result stops at command 1 with "size too small". -/
theorem removeLoadCommand_stop_wipes_untouched_commands :
    (removeLoadCommand threeCommandImage stopVisitor ({}, ())).calls.map Prod.snd = [false]
    ∧ ncmds (removeLoadCommand threeCommandImage stopVisitor ({}, ())).mem = 3
    ∧ sizeofcmds (removeLoadCommand threeCommandImage stopVisitor ({}, ())).mem = 28
    ∧ commandBytes threeCommandImage 1 = le32 0x26 ++ le32 12 ++ le32 7
    ∧ readBytes (removeLoadCommand threeCommandImage stopVisitor ({}, ())).mem 40 20
        = List.replicate 20 0
    ∧ forEachLoadCommand (removeLoadCommand threeCommandImage stopVisitor ({}, ())).mem
        recordVisitor ({}, [])
        = (Diagnostics.error {} (.lcSizeTooSmall 1 3 0), [32]) := by
  decide

/-- C33 (as claimed, refuted): on a header with magic `MH_CIGAM_64`, `forEachLoadCommand`
returns with no diagnostic recorded. -/
theorem forEachLoadCommand_big_endian_records_nothing :
    magic bigEndianImage = MH_CIGAM_64
    ∧ (forEachLoadCommand bigEndianImage recordVisitor ({}, [])).1.hasError = false
    ∧ forEachLoadCommand bigEndianImage recordVisitor ({}, []) = ({}, []) := by
  decide

/-- C33 (amended): on a header whose magic is `MH_CIGAM` or `MH_CIGAM_64`,
`forEachLoadCommand` returns at once, with the diagnostics and what the visitor captures
left as they were; on a header whose magic is none of the four Mach-O values it records
"file does not start with MH_MAGIC[_64]" with the first two words of the header and
leaves what the visitor captures as it was. -/
theorem forEachLoadCommand_rejects_other_magic {σ : Type} (mh : Mem)
    (callback : Nat → Diagnostics × σ → (Diagnostics × σ) × Bool) (st : Diagnostics × σ) :
    (hasMachOBigEndianMagic mh = true → forEachLoadCommand mh callback st = st)
    ∧ (hasMachOMagic mh = false → hasMachOBigEndianMagic mh = false →
        forEachLoadCommand mh callback st
          = (st.1.error (.notMachOWords (read32 mh 0) (read32 mh 4)), st.2)) := by
  constructor
  · intro hbe
    have hne : ¬ (magic mh == MH_MAGIC_64 || magic mh == MH_MAGIC) = true := by
      unfold hasMachOBigEndianMagic at hbe
      simp only [Bool.or_eq_true, beq_iff_eq] at hbe ⊢
      rcases hbe with h | h <;> rw [h] <;> decide
    unfold forEachLoadCommand
    rw [if_neg hne, if_pos hbe]
  · intro hm hbe
    have hne : ¬ (magic mh == MH_MAGIC_64 || magic mh == MH_MAGIC) = true := by
      unfold hasMachOMagic at hm
      simp only [Bool.or_eq_false_iff, beq_eq_false_iff_ne, ne_eq] at hm
      simp only [Bool.or_eq_true, beq_iff_eq, not_or]
      exact ⟨hm.2, hm.1⟩
    unfold forEachLoadCommand
    rw [if_neg hne, if_neg (by rw [hbe]; exact Bool.false_ne_true)]

/-- Witness for C33 (amended): the header with magic `MH_CIGAM_64`, and the header
whose first word is 0x12345678. -/
theorem forEachLoadCommand_rejects_other_magic_witness :
    hasMachOBigEndianMagic bigEndianImage = true
    ∧ forEachLoadCommand bigEndianImage recordVisitor ({}, []) = ({}, [])
    ∧ hasMachOMagic unknownMagicImage = false
    ∧ hasMachOBigEndianMagic unknownMagicImage = false
    ∧ forEachLoadCommand unknownMagicImage recordVisitor ({}, [])
        = (Diagnostics.error {} (.notMachOWords (read32 unknownMagicImage 0)
            (read32 unknownMagicImage 4)), []) :=
  ⟨by decide,
    (forEachLoadCommand_rejects_other_magic bigEndianImage recordVisitor ({}, [])).1
      (by decide),
    by decide, by decide,
    (forEachLoadCommand_rejects_other_magic unknownMagicImage recordVisitor ({}, [])).2
      (by decide) (by decide)⟩

/-- C34 fails in the code: in a `FAT_MAGIC` archive that declares one slice and has the
descriptor of an arm64 slice after it, a visitor that sets `stop` at its first call is
called a second time, on the arm64 slice: the loop is left by `break`, and the "look for
one more slice" statements after it do not test `stop`. -/
theorem forEachSlice_calls_visitor_after_stop :
    fat_magic hiddenArm64Fat = OSSwapBigToHostInt32 FAT_MAGIC
    ∧ OSSwapBigToHostInt32 (fat_nfat_arch hiddenArm64Fat) = 1
    ∧ forEachSlice hiddenArm64Fat 0x4020 true stopAtSlice ({}, [])
        = ({}, [⟨CPU_TYPE_X86_64, CPU_SUBTYPE_X86_64_ALL, 0x1000, 32⟩,
            ⟨CPU_TYPE_ARM64, CPU_SUBTYPE_ARM64_ALL, 0x4000, 32⟩]) := by
  decide

/-- C40 (as claimed, refuted): ".hidden/lib.dylib" and ".." do not begin with '/', and
`isFileRelativePath` returns false for both, so `loadFile` does not reject them when
relative paths are not allowed. -/
theorem isFileRelativePath_false_for_dot_names :
    str_hiddenLib.getD 0 0 ≠ 0x2f
    ∧ isFileRelativePath str_hiddenLib = false
    ∧ loadFileRejectsAsRelative false str_hiddenLib = false
    ∧ str_dotdot.getD 0 0 ≠ 0x2f
    ∧ isFileRelativePath str_dotdot = false
    ∧ loadFileRejectsAsRelative false str_dotdot = false := by
  decide

/-- C40 (amended): `isFileRelativePath` returns true exactly for the paths whose first
character is neither '/' nor '.', and for those that begin with "./" or "../"; it returns
false for every path that begins with '/' and for every other path that begins with '.'.
`loadFile` rejects a path as relative exactly when relative paths are not allowed and
`isFileRelativePath` returns true. -/
theorem isFileRelativePath_classification (path : List Nat) (allowRelativePaths : Bool) :
    (isFileRelativePath path = true ↔
      path.getD 0 0 ≠ 0x2f
        ∧ (path.getD 0 0 ≠ 0x2e ∨ path.getD 1 0 = 0x2f
          ∨ (path.getD 1 0 = 0x2e ∧ path.getD 2 0 = 0x2f)))
    ∧ (loadFileRejectsAsRelative allowRelativePaths path = true ↔
        allowRelativePaths = false ∧ isFileRelativePath path = true) := by
  constructor
  · unfold isFileRelativePath
    generalize path.getD 0 0 = a
    generalize path.getD 1 0 = b
    generalize path.getD 2 0 = c
    by_cases h0 : a = 0x2f
    · simp [h0]
    · by_cases h1 : a = 0x2e
      · by_cases h2 : b = 0x2f
        · simp [h1, h2]
        · by_cases h3 : b = 0x2e
          · by_cases h4 : c = 0x2f
            · simp [h1, h3, h4]
            · simp [h1, h3, h4]
          · simp [h1, h2, h3]
      · simp [h0, h1]
  · unfold loadFileRejectsAsRelative
    cases allowRelativePaths <;> simp

/-! ## Lemmas: `enforceFormat` -/

theorem threshold_mono (t sdk sdk' : Nat) (r r' : Bool) (hsdk : sdk ≤ sdk')
    (hr : r = true → r' = true) (h : (if sdk ≥ t then true else r) = true) :
    (if sdk' ≥ t then true else r') = true := by
  by_cases ht : sdk ≥ t
  · rw [if_pos (by omega)]
  · rw [if_neg ht] at h
    by_cases ht' : sdk' ≥ t
    · rw [if_pos ht']
    · rw [if_neg ht']; exact hr h

theorem enforceFormat_macOS_mono (kind : Malformed) (sdk sdk' : Nat) (r r' : Bool)
    (hsdk : sdk ≤ sdk') (hr : r = true → r' = true)
    (h : enforceFormat_macOS kind sdk r = true) : enforceFormat_macOS kind sdk' r' = true := by
  cases kind <;> exact threshold_mono _ _ _ _ _ hsdk hr h

theorem enforceFormat_iOS_mono (kind : Malformed) (sdk sdk' : Nat) (r r' : Bool)
    (hsdk : sdk ≤ sdk') (hr : r = true → r' = true)
    (h : enforceFormat_iOS kind sdk r = true) : enforceFormat_iOS kind sdk' r' = true := by
  cases kind <;> first | rfl | exact threshold_mono _ _ _ _ _ hsdk hr h

theorem enforceFormat_watchOS_mono (kind : Malformed) (sdk sdk' : Nat) (r r' : Bool)
    (hsdk : sdk ≤ sdk') (hr : r = true → r' = true)
    (h : enforceFormat_watchOS kind sdk r = true) :
    enforceFormat_watchOS kind sdk' r' = true := by
  cases kind <;> first | rfl | exact threshold_mono _ _ _ _ _ hsdk hr h

theorem enforceFormat_visionOS_mono (kind : Malformed) (sdk sdk' : Nat) (hsdk : sdk ≤ sdk')
    (h : (if kind = .sdkOnOrAfter2022 then (if sdk < 0x00020000 then false else true)
      else true) = true) :
    (if kind = .sdkOnOrAfter2022 then (if sdk' < 0x00020000 then false else true)
      else true) = true := by
  by_cases hk : kind = .sdkOnOrAfter2022
  · rw [if_pos hk] at h ⊢
    by_cases hs : sdk < 0x00020000
    · rw [if_pos hs] at h; exact absurd h (by decide)
    · rw [if_neg (by omega)]
  · rw [if_neg hk]

theorem enforceFormatBlock_mono (kind : Malformed) (p p' : PlatformAndVersions)
    (r r' : Bool) (hp : p.platform = p'.platform) (hsdk : p.sdk ≤ p'.sdk)
    (hr : r = true → r' = true) (h : enforceFormatBlock kind p r = true) :
    enforceFormatBlock kind p' r' = true := by
  unfold enforceFormatBlock at h ⊢
  rw [← hp]
  by_cases h1 : p.platform = .macOS
  · rw [if_pos h1] at h ⊢
    exact enforceFormat_macOS_mono kind _ _ _ _ hsdk hr h
  · rw [if_neg h1] at h ⊢
    by_cases h2 : p.platform = .iOS ∨ p.platform = .tvOS ∨ p.platform = .macCatalyst
    · rw [if_pos h2] at h ⊢
      exact enforceFormat_iOS_mono kind _ _ _ _ hsdk hr h
    · rw [if_neg h2] at h ⊢
      by_cases h3 : p.platform = .watchOS
      · rw [if_pos h3] at h ⊢
        exact enforceFormat_watchOS_mono kind _ _ _ _ hsdk hr h
      · rw [if_neg h3] at h ⊢
        by_cases h4 : p.platform = .driverKit
        · rw [if_pos h4]
        · rw [if_neg h4] at h ⊢
          by_cases h5 : p.platform = .visionOS ∨ p.platform = .visionOS_simulator
          · rw [if_pos h5] at h ⊢
            exact enforceFormat_visionOS_mono kind _ _ hsdk h
          · rw [if_neg h5] at h ⊢
            by_cases h6 : p.platform = .empty
            · rw [if_pos h6] at h
              exact absurd h (by decide)
            · rw [if_neg h6]

theorem enforceFormat_fold_mono (kind : Malformed) :
    ∀ (ps ps' : List PlatformAndVersions) (r r' : Bool),
      List.Forall₂ (fun p p' => p.platform = p'.platform ∧ p.sdk ≤ p'.sdk) ps ps' →
      (r = true → r' = true) →
      ps.foldl (fun result p => enforceFormatBlock kind p result) r = true →
      ps'.foldl (fun result p => enforceFormatBlock kind p result) r' = true := by
  intro ps ps' r r' hall
  induction hall generalizing r r' with
  | nil => intro hr h; exact hr h
  | cons hab _ ih =>
    intro hr h
    rw [List.foldl_cons] at h ⊢
    exact ih _ _ (fun hx => enforceFormatBlock_mono kind _ _ _ _ hab.1 hab.2 hr hx) h

/-- C39: `enforceFormat` is monotone in the SDK version: when it is true for an image, it
is true for every image with the same platforms (the one platform of the image, or the
two of a zippered image) whose SDK versions are not lower; and it is false for every
check kind when the image carries no platform information. -/
theorem enforceFormat_monotone_in_sdk (kind : Malformed)
    (unzipped unzipped' : List PlatformAndVersions)
    (hsame : List.Forall₂ (fun p p' => p.platform = p'.platform ∧ p.sdk ≤ p'.sdk)
      unzipped unzipped')
    (h : enforceFormat kind unzipped = true) :
    enforceFormat kind unzipped' = true
    ∧ (∀ (platform : Platform) (v v' : Nat), v ≤ v' →
        enforceFormat kind [⟨platform, v⟩] = true →
        enforceFormat kind [⟨platform, v'⟩] = true)
    ∧ (∀ (k : Malformed) (sdk : Nat), enforceFormat k [⟨.empty, sdk⟩] = false)
    ∧ (∀ k : Malformed, enforceFormat k [] = false) := by
  refine ⟨enforceFormat_fold_mono kind _ _ false false hsame (fun hx => hx) h, ?_, ?_, ?_⟩
  · intro platform v v' hv hx
    exact enforceFormat_fold_mono kind [⟨platform, v⟩] [⟨platform, v'⟩] false false
      (List.Forall₂.cons ⟨rfl, hv⟩ List.Forall₂.nil) (fun hx => hx) hx
  · intro k sdk
    rfl
  · intro k
    rfl

/-- Witness for C39: the segment-order check is enforced for macOS with SDK 10.15 and so
with SDK 11.0; it is not enforced with SDK 10.14. -/
theorem enforceFormat_monotone_in_sdk_witness :
    enforceFormat .segmentOrder [⟨.macOS, 0x000A0F00⟩] = true
    ∧ enforceFormat .segmentOrder [⟨.macOS, 0x000A0E00⟩] = false
    ∧ enforceFormat .segmentOrder [⟨.macOS, 0x000B0000⟩] = true :=
  ⟨by decide, by decide,
    (enforceFormat_monotone_in_sdk .segmentOrder [⟨.macOS, 0x000A0F00⟩]
      [⟨.macOS, 0x000B0000⟩]
      (List.Forall₂.cons ⟨rfl, by decide⟩ List.Forall₂.nil) (by decide)).1⟩

/-! ## Lemmas: `isMachO` -/

theorem Diagnostics.noError_error (d : Diagnostics) (m : DiagMsg) :
    (d.error m).noError = false := by
  unfold Diagnostics.noError Diagnostics.error
  cases d.msgs <;> rfl

/-- When `forEachLoadCommand` with an empty block leaves no error, the file type is at
most 12 and every command is well formed. -/
theorem forEachLoadCommand_noError_valid (mh : Mem) (d : Diagnostics)
    (hmagic : hasMachOMagic mh = true)
    (h : (forEachLoadCommand mh (fun _ (st : Diagnostics × Unit) => (st, false))
      (d, ())).1.noError = true) :
    filetype mh ≤ 12 ∧ ∀ k, k < ncmds mh → cmdValid mh k := by
  have hm : (magic mh == MH_MAGIC_64 || magic mh == MH_MAGIC) = true := by
    unfold hasMachOMagic at hmagic
    rw [Bool.or_comm]; exact hmagic
  have hft : filetype mh ≤ 12 := by
    by_contra hgt
    unfold forEachLoadCommand at h
    rw [if_pos hm] at h
    simp only at h
    rw [if_pos (by omega)] at h
    rw [Diagnostics.noError_error] at h
    exact Bool.noConfusion h
  refine ⟨hft, ?_⟩
  by_contra hne
  push_neg at hne
  have hex : ∃ j, j < ncmds mh ∧ ¬ cmdValid mh j := hne
  classical
  have hj := Nat.find_spec hex
  have hmin : ∀ k, k < Nat.find hex → cmdValid mh k := by
    intro k hk
    by_contra hk2
    exact Nat.find_min hex hk ⟨by omega, hk2⟩
  obtain ⟨e, he, _⟩ := scan_first_invalid mh (ncmds mh) 0 (Nat.find hex) (by omega)
    (by omega) (fun k _ hk => hmin k hk) hj.2
  have hs2 : scanImage mh = ((List.range' 0 (Nat.find hex)).map (cmdAddr mh), some e) := by
    unfold scanImage; simpa [cmdAddr, cmdOffset] using he
  rw [forEachLoadCommand_eq_scan mh _ (d, ()) hmagic hft, hs2,
    iterStop_noStop _ (fun _ _ => rfl)] at h
  unfold finishScan at h
  rw [if_neg Bool.false_ne_true] at h
  simp only at h
  rw [Diagnostics.noError_error] at h
  exact Bool.noConfusion h

/-- C32: `isMachO(diag, fileSize)` returns false and records a diagnostic for every
`fileSize` below `machHeaderSize()`, so for every one below 28; when it returns true, the
magic is `MH_MAGIC` or `MH_MAGIC_64`, `machHeaderSize() + sizeofcmds ≤ fileSize`, and each
of the `ncmds` load commands is well formed, so lies in the load-command region; and on a
header with a big-endian magic it returns false, and records nothing unless the file is
shorter than 28 bytes, which is tested first and falls under the first case. -/
theorem isMachO_sound (mh : Mem) (diag : Diagnostics) (fileSize : Nat) :
    (fileSize < machHeaderSize mh →
      (isMachO mh diag fileSize).2 = false
      ∧ ∃ e, (isMachO mh diag fileSize).1 = diag.error e)
    ∧ (fileSize < sizeof_mach_header →
        isMachO mh diag fileSize = (diag.error .headerExceedsFileLength, false))
    ∧ ((isMachO mh diag fileSize).2 = true →
        (magic mh = MH_MAGIC ∨ magic mh = MH_MAGIC_64)
        ∧ machHeaderSize mh + sizeofcmds mh ≤ fileSize
        ∧ ∀ k, k < ncmds mh → cmdValid mh k)
    ∧ (hasMachOBigEndianMagic mh = true →
        isMachO mh diag fileSize
          = if fileSize < sizeof_mach_header then (diag.error .headerExceedsFileLength, false)
            else (diag, false)) := by
  have hbig : hasMachOBigEndianMagic mh = true → hasMachOMagic mh = false := by
    intro hbe
    unfold hasMachOBigEndianMagic at hbe
    unfold hasMachOMagic
    simp only [Bool.or_eq_true, beq_iff_eq] at hbe
    rcases hbe with h | h <;> rw [h] <;> decide
  have hsmall : fileSize < sizeof_mach_header →
      isMachO mh diag fileSize = (diag.error .headerExceedsFileLength, false) := by
    intro h
    unfold isMachO
    rw [if_pos h]
  refine ⟨?_, hsmall, ?_, ?_⟩
  · intro hlt
    by_cases h28 : fileSize < sizeof_mach_header
    · rw [hsmall h28]
      exact ⟨rfl, _, rfl⟩
    · have h64 : is64 mh = true := by
        unfold machHeaderSize at hlt
        by_contra hne
        rw [if_neg hne] at hlt
        exact h28 hlt
      have hm : hasMachOMagic mh = true := by
        unfold is64 at h64
        unfold hasMachOMagic
        rw [h64, Bool.or_true]
      unfold isMachO
      rw [if_neg h28, if_neg (by rw [hm]; decide), if_pos (by omega)]
      exact ⟨rfl, _, rfl⟩
  · intro htrue
    unfold isMachO at htrue
    by_cases h28 : fileSize < sizeof_mach_header
    · rw [if_pos h28] at htrue
      exact Bool.noConfusion htrue
    · rw [if_neg h28] at htrue
      by_cases hm : hasMachOMagic mh = true
      · rw [if_neg (by rw [hm]; decide)] at htrue
        by_cases hsz : sizeofcmds mh + machHeaderSize mh > fileSize
        · rw [if_pos hsz] at htrue
          exact Bool.noConfusion htrue
        · rw [if_neg hsz] at htrue
          have hv := forEachLoadCommand_noError_valid mh diag hm htrue
          refine ⟨?_, by omega, hv.2⟩
          unfold hasMachOMagic at hm
          simpa only [Bool.or_eq_true, beq_iff_eq] using hm
      · rw [if_pos (by simpa using hm)] at htrue
        by_cases hbe : hasMachOBigEndianMagic mh = true
        · rw [if_neg (by rw [hbe]; decide)] at htrue
          exact Bool.noConfusion htrue
        · rw [if_pos (by simpa using hbe)] at htrue
          exact Bool.noConfusion htrue
  · intro hbe
    by_cases h28 : fileSize < sizeof_mach_header
    · rw [if_pos h28]; exact hsmall h28
    · rw [if_neg h28]
      unfold isMachO
      rw [if_neg h28, if_pos (by rw [hbig hbe]; rfl), if_neg (by rw [hbe]; decide)]

/-- Witness for C32: the one-command image in a file of 40 bytes is accepted; in a file
of 30 bytes, shorter than its 64-bit header, it is rejected with a diagnostic. -/
theorem isMachO_sound_witness :
    (isMachO oneCommandImage {} 40).2 = true
    ∧ ((magic oneCommandImage = MH_MAGIC ∨ magic oneCommandImage = MH_MAGIC_64)
      ∧ machHeaderSize oneCommandImage + sizeofcmds oneCommandImage ≤ 40
      ∧ ∀ k, k < ncmds oneCommandImage → cmdValid oneCommandImage k)
    ∧ 30 < machHeaderSize oneCommandImage
    ∧ (isMachO oneCommandImage {} 30).2 = false
    ∧ hasMachOBigEndianMagic bigEndianImage = true
    ∧ isMachO bigEndianImage {} 40 = ({}, false) :=
  ⟨by decide, (isMachO_sound oneCommandImage {} 40).2.2.1 (by decide), by decide,
    ((isMachO_sound oneCommandImage {} 30).1 (by decide)).1, by decide,
    (isMachO_sound bigEndianImage {} 40).2.2.2 (by decide)⟩

/-! ## Lemmas: the segment-order check of `validSegments` -/

theorem iterStop_ok_forall_inv {α τ : Type} (callback : α → τ → τ × Bool) (bad : τ → Bool)
    (flag : α → Prop) (inv : τ → Prop)
    (hinv : ∀ a t, inv t → inv (callback a t).1)
    (hmono : ∀ a t, bad t = true → bad (callback a t).1 = true)
    (hstop : ∀ a t, inv t → (callback a t).2 = true → bad (callback a t).1 = true)
    (hflag : ∀ a t, inv t → flag a → bad (callback a t).1 = true) :
    ∀ (l : List α) (t : τ), inv t → bad (iterStop callback l t).1 = false →
      ∀ a ∈ l, ¬ flag a := by
  intro l
  induction l with
  | nil => intro t _ _ a ha; simp at ha
  | cons x xs ih =>
    intro t ht hok a ha hfa
    simp only [iterStop] at hok
    by_cases hs : (callback x t).2 = true
    · simp only [hs, if_true] at hok
      rw [hstop x t ht hs] at hok
      exact Bool.noConfusion hok
    · simp only [Bool.not_eq_true] at hs
      simp only [hs, Bool.false_eq_true, if_false] at hok
      rcases List.mem_cons.mp ha with rfl | hmem
      · have h1 := hflag a t ht hfa
        have h2 := iterStop_bad_mono callback bad hmono xs _ h1
        rw [h2] at hok
        exact Bool.noConfusion hok
      · exact ih _ (hinv x t ht) hok a hmem hfa

/-- A pair out of order, under enforcement and with neither segment named `__DWARF`,
sets `badSegments`. -/
theorem checkSegmentPair_orderFlag (mh : Mem) (ef : Malformed → Bool)
    (info1 info2 : SegmentInfo) (st : Diagnostics × Bool × Bool)
    (hinv : st.2.2 = true → st.2.1 = true)
    (hlt : info1.segmentIndex < info2.segmentIndex)
    (htest : orderTest info1 info2 = true)
    (hcache : inDyldCache mh = false) (hef : ef .segmentOrder = true)
    (hstatic : isStaticExecutable mh = false)
    (hn1 : info1.segmentName ≠ str_DWARF) (hn2 : info2.segmentName ≠ str_DWARF) :
    (checkSegmentPair mh ef info1 info2 st).1.2.1 = true := by
  unfold checkSegmentPair
  have hne : ¬ (info1.segmentIndex == info2.segmentIndex) = true := by
    simp only [beq_iff_eq]; omega
  rw [if_neg hne]
  have hb := (checkPairFileOverlap_step mh info1 info2 (checkPairVmOverlap info1 info2 st)).2.2.1
    ((checkPairVmOverlap_step info1 info2 st).2.2.1 hinv)
  generalize checkPairFileOverlap mh info1 info2 (checkPairVmOverlap info1 info2 st) = b at hb
  by_cases hbad : b.1.2.1 = true
  · exact (checkPairOrder_step mh ef info1 info2 b).1 hbad
  · have hstop1 : b.1.2.2 = false := by
      cases hx : b.1.2.2
      · rfl
      · exact absurd (hb hx) hbad
    unfold checkPairOrder
    unfold orderTest at htest
    rw [if_pos (by rw [hstop1]; simpa using hlt), if_pos htest,
      if_pos (by rw [hcache, hef, hstatic]; rfl),
      if_pos (by simpa using And.intro hn1 hn2)]

/-- When the third block of `validSegments` leaves `badSegments` false and the order
check is enforced, no pair of segments in command order, neither named `__DWARF`, fails
the order test. -/
theorem stage3_order (mh : Mem) (ef : Malformed → Bool) (d : Diagnostics)
    (h : (forEachSegment mh (checkSegmentOverlaps mh ef) (d, false)).2 = false)
    (hcache : inDyldCache mh = false) (hef : ef .segmentOrder = true)
    (hstatic : isStaticExecutable mh = false) :
    ∀ info1 ∈ segmentsOf mh, ∀ info2 ∈ segmentsOf mh,
      info1.segmentIndex < info2.segmentIndex →
      info1.segmentName ≠ str_DWARF → info2.segmentName ≠ str_DWARF →
        orderTest info1 info2 = false := by
  rw [forEachSegment_eq_segmentsOf] at h
  have houter := iterStop_ok_forall (checkSegmentOverlaps mh ef) (fun t => t.2)
    (fun info1 => ∃ info2 ∈ segmentsOf mh, info1.segmentIndex < info2.segmentIndex ∧
      info1.segmentName ≠ str_DWARF ∧ info2.segmentName ≠ str_DWARF ∧
      orderTest info1 info2 = true)
    (fun a t ht => by
      show (checkSegmentOverlaps mh ef a t).1.2 = true
      rw [(checkSegmentOverlaps_eq mh ef a t).1]
      exact iterStop_bad_mono (checkSegmentPair mh ef a) (fun t => t.2.1)
        (fun b t hb => checkSegmentPair_mono mh ef a b t hb) _ _ ht)
    (fun a t hs => by
      show (checkSegmentOverlaps mh ef a t).1.2 = true
      rw [(checkSegmentOverlaps_eq mh ef a t).1]
      rw [(checkSegmentOverlaps_eq mh ef a t).2] at hs
      exact iterStop_invariant (checkSegmentPair mh ef a)
        (fun t => t.2.2 = true → t.2.1 = true)
        (fun b t hb => checkSegmentPair_inv mh ef a b t hb) _ _
        (fun hfalse => Bool.noConfusion hfalse) hs)
    (fun a t hf => by
      show (checkSegmentOverlaps mh ef a t).1.2 = true
      rw [(checkSegmentOverlaps_eq mh ef a t).1]
      by_contra hne
      simp only [Bool.not_eq_true] at hne
      obtain ⟨info2, hmem, hidx, hn1, hn2, htest⟩ := hf
      exact iterStop_ok_forall_inv (checkSegmentPair mh ef a) (fun t => t.2.1)
        (fun b => a.segmentIndex < b.segmentIndex ∧ b.segmentName ≠ str_DWARF
          ∧ orderTest a b = true)
        (fun t => t.2.2 = true → t.2.1 = true)
        (fun b t hb => checkSegmentPair_inv mh ef a b t hb)
        (fun b t hb => checkSegmentPair_mono mh ef a b t hb)
        (fun b t _ hb => checkSegmentPair_stop mh ef a b t hb)
        (fun b t hi hb => checkSegmentPair_orderFlag mh ef a b t hi hb.1 hb.2.2 hcache hef
          hstatic hn1 hb.2.1)
        _ _ (fun hfalse => Bool.noConfusion hfalse) hne info2 hmem ⟨hidx, hn2, htest⟩)
    (segmentsOf mh) (d, false) h
  intro info1 h1 info2 h2 hidx hn1 hn2
  have := houter info1 h1
  simp only [not_exists, not_and, Bool.not_eq_true] at this
  exact this info2 h2 hidx hn1 hn2

/-- C38 (as claimed, refuted): with every check enforced, on a dylib that is not in the
dyld cache, `validSegments` returns true although the first segment's file offset,
0x1000, is above the second's, 0; neither is named `__DWARF`.  The order test leaves a
pair alone when one of the two file offsets is 0. -/
theorem validSegments_accepts_falling_file_offset_to_zero :
    (validSegments zeroOffsetLastImage enforceAll {} 0x2000).2 = true
    ∧ enforceAll .segmentOrder = true
    ∧ inDyldCache zeroOffsetLastImage = false
    ∧ isStaticExecutable zeroOffsetLastImage = false
    ∧ (segmentsOf zeroOffsetLastImage).map (fun s => (s.segmentName, s.vmaddr, s.fileOffset))
        = [(str_LINKEDIT, 0x1000, 0x1000), (str_TEXT, 0x2000, 0)]
    ∧ ¬ (0x1000 ≤ 0) := by
  decide

/-- C38 (amended): when the segment-order check is enforced (`enforceFormat(segmentOrder)`
is true, the image is not flagged as in the dyld cache and is not a static executable) and
`validSegments` returns true, then for every pair of segments `i < j` in load-command
order, neither named `__DWARF`, `vmaddr_i ≤ vmaddr_j`, and `fileOffset_i ≤ fileOffset_j`
unless `fileOffset_j` is 0. -/
theorem validSegments_segments_in_order (mh : Mem) (ef : Malformed → Bool)
    (diag : Diagnostics) (fileLen : Nat)
    (hvalid : (validSegments mh ef diag fileLen).2 = true)
    (hef : ef .segmentOrder = true) (hcache : inDyldCache mh = false)
    (hstatic : isStaticExecutable mh = false)
    (i j : Nat) (a b : SegmentInfo)
    (ha : (segmentsOf mh)[i]? = some a) (hb : (segmentsOf mh)[j]? = some b) (hij : i < j)
    (hna : a.segmentName ≠ str_DWARF) (hnb : b.segmentName ≠ str_DWARF) :
    a.vmaddr ≤ b.vmaddr ∧ (a.fileOffset ≤ b.fileOffset ∨ b.fileOffset = 0) := by
  obtain ⟨d2, d3, d4, _, _, _, _, h3, _⟩ := validSegments_true mh ef diag fileLen hvalid
  have hidx : a.segmentIndex < b.segmentIndex := by
    rw [segmentsOf_index mh i a ha, segmentsOf_index mh j b hb]; exact hij
  have hno := stage3_order mh ef d3 h3 hcache hef hstatic a (List.getElem?_mem ha) b
    (List.getElem?_mem hb) hidx hna hnb
  unfold orderTest at hno
  simp only [Bool.or_eq_false_iff, Bool.and_eq_false_iff, decide_eq_false_iff_not, gt_iff_lt,
    not_lt, bne_eq_false_iff_eq] at hno
  refine ⟨hno.1, ?_⟩
  rcases hno.2 with (h | h) | h
  · exact Or.inl h
  · exact Or.inl (by omega)
  · exact Or.inr h

/-- Witness for C38 (amended): the two segments of `goodImage`. -/
theorem validSegments_segments_in_order_witness :
    (validSegments goodImage enforceAll {} 0x2000).2 = true
    ∧ (segmentsOf goodImage)[0]? = some
      { segmentName := str_TEXT, vmaddr := 0x1000, vmsize := 0x1000, fileOffset := 0,
        fileSize := 0x1000, initProt := 5, segmentIndex := 0 }
    ∧ (segmentsOf goodImage)[1]? = some
      { segmentName := str_LINKEDIT, vmaddr := 0x2000, vmsize := 0x1000,
        fileOffset := 0x1000, fileSize := 0x1000, initProt := 1, segmentIndex := 1 }
    ∧ ((0x1000 : Nat) ≤ 0x2000 ∧ ((0 : Nat) ≤ 0x1000 ∨ (0x1000 : Nat) = 0)) :=
  ⟨by decide, by decide, by decide,
    validSegments_segments_in_order goodImage enforceAll {} 0x2000 (by decide) rfl
      (by decide) (by decide) 0 1
      { segmentName := str_TEXT, vmaddr := 0x1000, vmsize := 0x1000, fileOffset := 0,
        fileSize := 0x1000, initProt := 5, segmentIndex := 0 }
      { segmentName := str_LINKEDIT, vmaddr := 0x2000, vmsize := 0x1000,
        fileOffset := 0x1000, fileSize := 0x1000, initProt := 1, segmentIndex := 1 }
      (by decide) (by decide) (by decide) (by decide) (by decide)⟩

/-! ## Lemmas: `walkChain` and the writes of its visitor -/

theorem read64_congr_ge (m1 m2 : Mem) (c : Nat) (h : ∀ x, c ≤ x → m1 x = m2 x) :
    read64 m1 c = read64 m2 c := by
  unfold read64 read32 read8
  rw [h c (le_refl _), h (c + 1) (by omega), h (c + 2) (by omega), h (c + 3) (by omega),
    h (c + 4) (by omega), h (c + 4 + 1) (by omega), h (c + 4 + 2) (by omega),
    h (c + 4 + 3) (by omega)]

theorem skipNonPointers_congr (m1 m2 : Mem) (max_valid_pointer : Nat) :
    ∀ (fuel p : Nat), (∀ x, p ≤ x → m1 x = m2 x) →
      skipNonPointers m1 max_valid_pointer fuel p = skipNonPointers m2 max_valid_pointer fuel p
      ∧ ∀ c, skipNonPointers m1 max_valid_pointer fuel p = some c → p ≤ c := by
  intro fuel
  induction fuel with
  | zero =>
    intro p _
    exact ⟨rfl, fun c hc => by simp [skipNonPointers] at hc⟩
  | succ n ih =>
    intro p h
    unfold skipNonPointers
    rw [← read64_congr_ge m1 m2 p h]
    by_cases hp : isParkedNonPointer max_valid_pointer (read64 m1 p) = true
    · rw [if_pos hp, if_pos hp]
      obtain ⟨h1, h2⟩ := ih (p + generic32_rebase_next (read64 m1 p) * 4)
        (fun x hx => h x (by omega))
      exact ⟨h1, fun c hc => by have := h2 c hc; omega⟩
    · rw [if_neg hp, if_neg hp]
      refine ⟨rfl, fun c hc => ?_⟩
      simp only [Option.some.injEq] at hc
      omega

/-- Outside the format `DYLD_CHAINED_PTR_32` the `switch` reads nothing but the
snapshot. -/
theorem walkChainSwitch_firstHop (pointer_format stride : Nat) (notifyNonPointers : Bool)
    (max_valid_pointer fuel chain chainContent : Nat) (mem : Mem)
    (h : pointer_format ≠ DYLD_CHAINED_PTR_32) :
    walkChainSwitch pointer_format stride notifyNonPointers max_valid_pointer fuel chain
      chainContent mem = firstHop pointer_format stride chain chainContent := by
  have hne : (pointer_format == DYLD_CHAINED_PTR_32) = false := by simpa using h
  unfold firstHop walkChainSwitch
  rw [hne]
  rfl

/-- The `switch` gives the same step in two memories that agree from `chain + slot` on,
when the link clears the slot; and a step onwards leads at least `slot` bytes on. -/
theorem walkChainSwitch_congr (pointer_format stride : Nat) (notifyNonPointers : Bool)
    (max_valid_pointer fuel chain chainContent slot : Nat) (m1 m2 : Mem)
    (hgap : linkClearsSlot pointer_format stride slot chain chainContent)
    (hagree : ∀ x, chain + slot ≤ x → m1 x = m2 x) :
    walkChainSwitch pointer_format stride notifyNonPointers max_valid_pointer fuel chain
        chainContent m1
      = walkChainSwitch pointer_format stride notifyNonPointers max_valid_pointer fuel chain
        chainContent m2
    ∧ ∀ c, walkChainSwitch pointer_format stride notifyNonPointers max_valid_pointer fuel chain
        chainContent m1 = .moveTo c → chain + slot ≤ c := by
  by_cases h32 : pointer_format = DYLD_CHAINED_PTR_32
  · subst h32
    unfold linkClearsSlot firstHop at hgap
    rw [walkChainSwitch_ptr32] at hgap
    rw [walkChainSwitch_ptr32, walkChainSwitch_ptr32]
    by_cases hn : (generic32_rebase_next chainContent == 0) = true
    · rw [if_pos hn, if_pos hn]
      exact ⟨rfl, fun c hc => ChainStep.noConfusion hc⟩
    · rw [if_neg hn] at hgap
      simp only [Bool.not_true, Bool.false_eq_true, if_false] at hgap
      rw [if_neg hn, if_neg hn]
      cases notifyNonPointers with
      | true =>
        rw [if_neg (by decide), if_neg (by decide)]
        refine ⟨rfl, fun c hc => ?_⟩
        simp only [ChainStep.moveTo.injEq] at hc
        omega
      | false =>
        rw [if_pos (by decide), if_pos (by decide)]
        obtain ⟨h1, h2⟩ := skipNonPointers_congr m1 m2 max_valid_pointer fuel
          (chain + generic32_rebase_next chainContent * 4) (fun x hx => hagree x (by omega))
        rw [← h1]
        refine ⟨rfl, fun c hc => ?_⟩
        cases hsk : skipNonPointers m1 max_valid_pointer fuel
            (chain + generic32_rebase_next chainContent * 4) with
        | none => rw [hsk] at hc; exact ChainStep.noConfusion hc
        | some c0 =>
          rw [hsk] at hc
          simp only [ChainStep.moveTo.injEq] at hc
          have := h2 c0 hsk
          omega
  · rw [walkChainSwitch_firstHop _ _ _ _ _ _ _ m1 h32,
      walkChainSwitch_firstHop _ _ _ _ _ _ _ m2 h32]
    refine ⟨rfl, fun c hc => ?_⟩
    unfold linkClearsSlot at hgap
    rw [hc] at hgap
    exact hgap

theorem walkChainLoop_head_call {σ : Type} (pointer_format stride : Nat)
    (notifyNonPointers : Bool) (max_valid_pointer : Nat)
    (handler : Nat → Mem × σ → (Mem × σ) × Bool) (fuel n : Nat) (diag : Diagnostics)
    (chain : Nat) (st : Mem × σ) :
    (chain, read64 st.1 chain)
      ∈ (walkChainLoop pointer_format stride notifyNonPointers max_valid_pointer handler fuel
          (n + 1) diag chain st).calls := by
  rw [walkChainLoop]
  by_cases hs : (handler chain st).2 = true
  · rw [if_pos hs]; exact List.mem_singleton.mpr rfl
  · rw [if_neg hs]
    cases walkChainSwitch pointer_format stride notifyNonPointers max_valid_pointer fuel chain
        (read64 st.1 chain) (handler chain st).1.1 with
    | chainEnd => exact List.mem_singleton.mpr rfl
    | moveTo c => exact List.mem_cons_self _ _
    | unknownFormat => exact List.mem_singleton.mpr rfl
    | noProgress => exact List.mem_singleton.mpr rfl

theorem walkChainLoop_independent {σ1 σ2 : Type} (pointer_format stride : Nat)
    (notifyNonPointers : Bool) (max_valid_pointer : Nat)
    (h1 : Nat → Mem × σ1 → (Mem × σ1) × Bool) (h2 : Nat → Mem × σ2 → (Mem × σ2) × Bool)
    (fuel slot : Nat)
    (hstop1 : ∀ c st, (h1 c st).2 = false) (hstop2 : ∀ c st, (h2 c st).2 = false)
    (hw1 : ∀ c st x, x < c ∨ c + slot ≤ x → (h1 c st).1.1 x = st.1 x)
    (hw2 : ∀ c st x, x < c ∨ c + slot ≤ x → (h2 c st).1.1 x = st.1 x) :
    ∀ (n : Nat) (diag : Diagnostics) (chain : Nat) (st1 : Mem × σ1) (st2 : Mem × σ2),
      (∀ x, chain ≤ x → st1.1 x = st2.1 x) →
      (∀ c ∈ (walkChainLoop pointer_format stride notifyNonPointers max_valid_pointer h1 fuel
          n diag chain st1).calls, linkClearsSlot pointer_format stride slot c.1 c.2) →
      (walkChainLoop pointer_format stride notifyNonPointers max_valid_pointer h1 fuel n diag
          chain st1).calls
        = (walkChainLoop pointer_format stride notifyNonPointers max_valid_pointer h2 fuel n
          diag chain st2).calls
      ∧ (walkChainLoop pointer_format stride notifyNonPointers max_valid_pointer h1 fuel n diag
          chain st1).returned
        = (walkChainLoop pointer_format stride notifyNonPointers max_valid_pointer h2 fuel n
          diag chain st2).returned
      ∧ (walkChainLoop pointer_format stride notifyNonPointers max_valid_pointer h1 fuel n diag
          chain st1).diag
        = (walkChainLoop pointer_format stride notifyNonPointers max_valid_pointer h2 fuel n
          diag chain st2).diag := by
  intro n
  induction n with
  | zero =>
    intro diag chain st1 st2 _ _
    exact ⟨rfl, rfl, rfl⟩
  | succ n ih =>
    intro diag chain st1 st2 hagree hgap
    have hraw : read64 st1.1 chain = read64 st2.1 chain := read64_congr_ge _ _ chain hagree
    have hhead := hgap _ (walkChainLoop_head_call pointer_format stride notifyNonPointers
      max_valid_pointer h1 fuel n diag chain st1)
    have hafter : ∀ x, chain + slot ≤ x → (h1 chain st1).1.1 x = (h2 chain st2).1.1 x := by
      intro x hx
      rw [hw1 chain st1 x (Or.inr hx), hw2 chain st2 x (Or.inr hx)]
      exact hagree x (by omega)
    obtain ⟨hsw, hfar⟩ := walkChainSwitch_congr pointer_format stride notifyNonPointers
      max_valid_pointer fuel chain (read64 st1.1 chain) slot (h1 chain st1).1.1
      (h2 chain st2).1.1 hhead hafter
    rw [walkChainLoop] at hgap ⊢
    rw [walkChainLoop]
    rw [if_neg (by rw [hstop1]; exact Bool.false_ne_true)] at hgap ⊢
    rw [if_neg (by rw [hstop2]; exact Bool.false_ne_true), ← hraw, ← hsw]
    cases hstep : walkChainSwitch pointer_format stride notifyNonPointers max_valid_pointer
        fuel chain (read64 st1.1 chain) (h1 chain st1).1.1 with
    | chainEnd => exact ⟨rfl, rfl, rfl⟩
    | unknownFormat => exact ⟨rfl, rfl, rfl⟩
    | noProgress => exact ⟨rfl, rfl, rfl⟩
    | moveTo c =>
      rw [hstep] at hgap
      have hc := hfar c hstep
      obtain ⟨e1, e2, e3⟩ := ih diag c (h1 chain st1).1 (h2 chain st2).1
        (fun x hx => hafter x (by omega))
        (fun c' hc' => hgap c' (List.mem_cons_of_mem _ hc'))
      refine ⟨?_, e2, e3⟩
      show (chain, read64 st1.1 chain) :: _ = (chain, read64 st1.1 chain) :: _
      rw [e1]

/-- C37 (as claimed, refuted): in the format `DYLD_CHAINED_PTR_X86_64_KERNEL_CACHE`, whose
stride is 1, on a chain whose first word has `next` 1, a visitor that writes nothing is
handed the locations 0 and 1, and a visitor that fills the slot it is handed with 0xFF is
handed 0, 1 and 32: the word at 1 overlaps the slot at 0, and the walk reads it after the
visitor wrote. -/
theorem walkChain_depends_on_write_into_overlapping_slot :
    (walkChain {} 0 DYLD_CHAINED_PTR_X86_64_KERNEL_CACHE 1 false 0 idleHandler
      (unalignedChain, ()) 4).calls.map Prod.fst = [0, 1]
    ∧ (walkChain {} 0 DYLD_CHAINED_PTR_X86_64_KERNEL_CACHE 1 false 0 fillHandler
      (unalignedChain, ()) 4).calls.map Prod.fst = [0, 1, 32]
    ∧ (walkChain {} 0 DYLD_CHAINED_PTR_X86_64_KERNEL_CACHE 1 false 0 idleHandler
      (unalignedChain, ()) 4).returned = some false
    ∧ (walkChain {} 0 DYLD_CHAINED_PTR_X86_64_KERNEL_CACHE 1 false 0 fillHandler
      (unalignedChain, ()) 4).returned = some false := by
  decide

/-- C37 (amended): take two visitors that never ask to stop and that change no byte of
memory outside the `slot` bytes at the location they are handed, whatever they write
there and whatever else they keep.  If along the walk with the first visitor every link
ends the chain or leads at least `slot` bytes on, then `walkChain` hands both visitors
the same locations with the same snapshots, and returns the same value and leaves the
same diagnostics with both, for every bound on the iterations. -/
theorem walkChain_independent_of_slot_writes {σ1 σ2 : Type} (diag : Diagnostics)
    (chain pointer_format stride : Nat) (notifyNonPointers : Bool) (max_valid_pointer : Nat)
    (h1 : Nat → Mem × σ1 → (Mem × σ1) × Bool) (h2 : Nat → Mem × σ2 → (Mem × σ2) × Bool)
    (m : Mem) (s1 : σ1) (s2 : σ2) (fuel slot : Nat)
    (hstop1 : ∀ c st, (h1 c st).2 = false) (hstop2 : ∀ c st, (h2 c st).2 = false)
    (hw1 : ∀ c st x, x < c ∨ c + slot ≤ x → (h1 c st).1.1 x = st.1 x)
    (hw2 : ∀ c st x, x < c ∨ c + slot ≤ x → (h2 c st).1.1 x = st.1 x)
    (hgap : ∀ c ∈ (walkChain diag chain pointer_format stride notifyNonPointers
        max_valid_pointer h1 (m, s1) fuel).calls,
      linkClearsSlot pointer_format stride slot c.1 c.2) :
    (walkChain diag chain pointer_format stride notifyNonPointers max_valid_pointer h1
        (m, s1) fuel).calls
      = (walkChain diag chain pointer_format stride notifyNonPointers max_valid_pointer h2
        (m, s2) fuel).calls
    ∧ (walkChain diag chain pointer_format stride notifyNonPointers max_valid_pointer h1
        (m, s1) fuel).returned
      = (walkChain diag chain pointer_format stride notifyNonPointers max_valid_pointer h2
        (m, s2) fuel).returned
    ∧ (walkChain diag chain pointer_format stride notifyNonPointers max_valid_pointer h1
        (m, s1) fuel).diag
      = (walkChain diag chain pointer_format stride notifyNonPointers max_valid_pointer h2
        (m, s2) fuel).diag :=
  walkChainLoop_independent pointer_format stride notifyNonPointers max_valid_pointer h1 h2
    fuel slot hstop1 hstop2 hw1 hw2 fuel diag chain (m, s1) (m, s2) (fun _ _ => rfl) hgap

/-- Witness for C37 (amended): two `DYLD_CHAINED_PTR_64` words eight bytes apart, walked
with a visitor that writes nothing and with one that fills each slot with 0xFF. -/
theorem walkChain_independent_of_slot_writes_witness :
    (∀ c ∈ (walkChain {} 0 DYLD_CHAINED_PTR_64 4 false 0 idleHandler
        (twoWordChain, ()) 4).calls, linkClearsSlot DYLD_CHAINED_PTR_64 4 8 c.1 c.2)
    ∧ (walkChain {} 0 DYLD_CHAINED_PTR_64 4 false 0 fillHandler (twoWordChain, ()) 4).calls
        = [(0, 2 * 2 ^ 51 + 0x1000), (8, 0x2000)]
    ∧ (walkChain {} 0 DYLD_CHAINED_PTR_64 4 false 0 idleHandler (twoWordChain, ()) 4).calls
        = (walkChain {} 0 DYLD_CHAINED_PTR_64 4 false 0 fillHandler (twoWordChain, ()) 4).calls
    ∧ (walkChain {} 0 DYLD_CHAINED_PTR_64 4 false 0 idleHandler (twoWordChain, ()) 4).returned
        = (walkChain {} 0 DYLD_CHAINED_PTR_64 4 false 0 fillHandler
            (twoWordChain, ()) 4).returned :=
  ⟨by decide, by decide,
    (walkChain_independent_of_slot_writes {} 0 DYLD_CHAINED_PTR_64 4 false 0 idleHandler
      fillHandler twoWordChain () () 4 8 (fun _ _ => rfl) (fun _ _ => rfl)
      (fun _ _ _ _ => rfl)
      (fun c st x hx => if_neg (by omega)) (by decide)).1,
    (walkChain_independent_of_slot_writes {} 0 DYLD_CHAINED_PTR_64 4 false 0 idleHandler
      fillHandler twoWordChain () () 4 8 (fun _ _ => rfl) (fun _ _ => rfl)
      (fun _ _ _ _ => rfl)
      (fun c st x hx => if_neg (by omega)) (by decide)).2.1⟩

/-- C35 fails in the code: `trieWalk` reads bytes at and after `end`.  For a blob of one
byte (a root with no payload, so that `children == end`) and the symbol "a", the result
depends on the bytes after the blob: with zero bytes there the walk ends with no error,
with a child count, an edge "a" and a child offset there it records "nodeOffset out of
range".  For a blob of three bytes whose one label "a" has no NUL inside the blob, the
diagnostic recorded depends on the bytes after the blob as well.  In each pair the two
memories agree on every byte of the blob. -/
theorem trieWalk_reads_past_end :
    (∀ a, a < 1 → read8 oneByteTrie a = read8 oneByteTrieThenEdge a)
    ∧ (trieWalk oneByteTrie 1 [0x61] {} 8).outcome = .null
    ∧ (trieWalk oneByteTrie 1 [0x61] {} 8).diag = {}
    ∧ (trieWalk oneByteTrieThenEdge 1 [0x61] {} 8).outcome = .null
    ∧ (trieWalk oneByteTrieThenEdge 1 [0x61] {} 8).diag
        = Diagnostics.error {} (.trieNodeOffsetOutOfRange 5)
    ∧ (∀ a, a < 3 → read8 openLabelTrie a = read8 openLabelTrieThenB a)
    ∧ (trieWalk openLabelTrie 3 [0x61] {} 8).diag
        = Diagnostics.error {} (.trieNodeOffsetOutOfRange 0)
    ∧ (trieWalk openLabelTrieThenB 3 [0x61] {} 8).diag
        = Diagnostics.error {} .trieChildPastEnd := by
  decide

/-! ## Lemmas: a lookup that does not end -/

theorem emptyLabelLoop_children (f p : Nat) (hp : p = 2 ∨ p = 4294967314) :
    trieChildrenLoop emptyLabelLoopTrie 4294967328 [0x61] (f + 1) {} 0 1 p
      = .matched {} 4294967312 0 [] := by
  rcases hp with rfl | rfl
  · rw [trieChildrenLoop, trieEdgeScan, if_pos (by decide)]
    dsimp only
    rw [if_neg (by decide), if_neg (by decide), if_neg (by decide)]
    decide
  · rw [trieChildrenLoop, trieEdgeScan, if_pos (by decide)]
    dsimp only
    rw [if_neg (by decide), if_neg (by decide), if_neg (by decide)]
    decide

/-- The turn of the outer loop of `trieWalk` in which an edge matches and is followed. -/
theorem trieWalkBody_follow (m : Mem) (tend : Nat) (symbol : List Nat) (fuel : Nat)
    (s : TrieState) (d d' : Diagnostics) (p1 ts off ss : Nat) (label : List Nat)
    (hts : trieTerminalSize m tend s.diag s.p = (d, p1, ts))
    (h1 : ¬ (decide (read8 m s.p > 127) && d.hasError) = true)
    (h2 : ¬ (symbol.getD s.symbol 0 == 0 && ts != 0) = true)
    (h3 : ¬ p1 + ts > tend)
    (hch : trieChildrenLoop m tend symbol fuel d s.symbol (read8 m (p1 + ts)) (p1 + ts + 1)
      = .matched d' off ss label)
    (h4 : ¬ off > tend) (h5 : ¬ s.visitedNodeOffsets.contains off = true) :
    trieWalkBody m tend symbol fuel s
      = .next ⟨d', off, ss, s.visitedNodeOffsets ++ [u32 off], s.nodes ++ [s.p],
          s.edges ++ [(label, off)]⟩ := by
  unfold trieWalkBody
  rw [hts]
  dsimp only
  rw [if_neg h1, if_neg h2, if_neg h3, hch]
  dsimp only
  rw [if_neg h4, if_neg h5]

theorem emptyLabelLoop_body (f : Nat) (s : TrieState) (hp : s.p = 0 ∨ s.p = 4294967312)
    (hsym : s.symbol = 0) (hdiag : s.diag = {})
    (hvis : ∀ v ∈ s.visitedNodeOffsets, v < 4294967296) :
    trieWalkBody emptyLabelLoopTrie 4294967328 [0x61] (f + 1) s
      = .next ⟨{}, 4294967312, 0, s.visitedNodeOffsets ++ [16], s.nodes ++ [s.p],
          s.edges ++ [([], 4294967312)]⟩ := by
  have hnot : ¬ s.visitedNodeOffsets.contains 4294967312 = true := by
    intro hc
    have hmem : 4294967312 ∈ s.visitedNodeOffsets := by simpa using hc
    have := hvis _ hmem
    omega
  rcases hp with hp | hp
  · exact trieWalkBody_follow emptyLabelLoopTrie 4294967328 [0x61] (f + 1) s {} {} 1 0
      4294967312 0 [] (by rw [hdiag, hp]; decide) (by rw [hp]; decide)
      (by rw [hsym]; decide) (by decide)
      (by rw [hsym]; exact emptyLabelLoop_children f (1 + 0 + 1) (Or.inl rfl))
      (by decide) hnot
  · exact trieWalkBody_follow emptyLabelLoopTrie 4294967328 [0x61] (f + 1) s {} {}
      4294967313 0 4294967312 0 [] (by rw [hdiag, hp]; decide) (by rw [hp]; decide)
      (by rw [hsym]; decide) (by decide)
      (by rw [hsym]; exact emptyLabelLoop_children f (4294967313 + 0 + 1) (Or.inr rfl))
      (by decide) hnot

theorem emptyLabelLoop_loop (f : Nat) :
    ∀ (n : Nat) (s : TrieState), (s.p = 0 ∨ s.p = 4294967312) → s.symbol = 0 → s.diag = {} →
      (∀ v ∈ s.visitedNodeOffsets, v < 4294967296) →
      (trieWalkLoop emptyLabelLoopTrie 4294967328 [0x61] (f + 1) n s).outcome = .noProgress
      ∧ (trieWalkLoop emptyLabelLoopTrie 4294967328 [0x61] (f + 1) n s).nodes.length
          = s.nodes.length + n := by
  intro n
  induction n with
  | zero => intro s _ _ _ _; exact ⟨rfl, rfl⟩
  | succ n ih =>
    intro s hp hsym hdiag hvis
    rw [trieWalkLoop, if_neg (by rcases hp with h | h <;> rw [h] <;> decide),
      emptyLabelLoop_body f s hp hsym hdiag hvis]
    obtain ⟨h1, h2⟩ := ih ⟨{}, 4294967312, 0, s.visitedNodeOffsets ++ [16], s.nodes ++ [s.p],
        s.edges ++ [([], 4294967312)]⟩ (Or.inr rfl) rfl rfl (by
      intro v hv
      rcases List.mem_append.mp hv with h | h
      · exact hvis v h
      · rw [List.mem_singleton.mp h]; decide)
    refine ⟨h1, ?_⟩
    rw [h2, List.length_append, List.length_singleton]
    omega

/-- In the blob `emptyLabelLoopTrie` the lookup of "a" is cut off by every bound, after as
many turns of the outer loop as the bound allows. -/
theorem emptyLabelLoop_never_ends (fuel : Nat) :
    (trieWalk emptyLabelLoopTrie 4294967328 [0x61] {} fuel).outcome = .noProgress
    ∧ (trieWalk emptyLabelLoopTrie 4294967328 [0x61] {} fuel).nodes.length = fuel := by
  cases fuel with
  | zero => exact ⟨rfl, rfl⟩
  | succ f =>
    obtain ⟨h1, h2⟩ := emptyLabelLoop_loop f (f + 1) ⟨{}, 0, 0, [0], [], []⟩ (Or.inl rfl) rfl
      rfl (fun v hv => by rw [List.mem_singleton.mp hv]; decide)
    refine ⟨h1, ?_⟩
    unfold trieWalk
    rw [h2]
    exact Nat.zero_add _

/-- C36 (as claimed, refuted): in a blob of n = 2^32 + 32 bytes whose node at offset
2^32 + 16 has an edge of empty label, NUL-terminated inside the blob, to itself, the
lookup of "a" has not ended after n + 2 turns of the outer loop, each on a node; within
its first three turns it is at the node at 2^32 + 16 twice.  The walk comes back to the
node without consuming the symbol, and the cycle test compares the offset with its copy
cut to 32 bits. -/
theorem trieWalk_does_not_end_beyond_4GiB :
    (trieWalk emptyLabelLoopTrie 4294967328 [0x61] {} 4294967330).outcome = .noProgress
    ∧ (trieWalk emptyLabelLoopTrie 4294967328 [0x61] {} 4294967330).nodes.length
        = 4294967328 + 2
    ∧ (trieWalk emptyLabelLoopTrie 4294967328 [0x61] {} 3).nodes
        = [0, 4294967312, 4294967312] :=
  ⟨(emptyLabelLoop_never_ends 4294967330).1, (emptyLabelLoop_never_ends 4294967330).2,
    by decide⟩

/-! ## Lemmas: the lookup ends -/

theorem trieEdgeScan_some (m : Mem) (symbol : List Nat) :
    ∀ (fuel p ss : Nat) (wrongEdge : Bool) (label : List Nat),
      (∃ k, k < fuel ∧ read8 m (p + k) = 0) →
      ∃ r, trieEdgeScan m symbol fuel p ss wrongEdge label = some r := by
  intro fuel
  induction fuel with
  | zero => intro p ss w label h; obtain ⟨k, hk, _⟩ := h; omega
  | succ n ih =>
    intro p ss w label h
    obtain ⟨k, hk, hz⟩ := h
    unfold trieEdgeScan
    by_cases h0 : (read8 m p == 0) = true
    · rw [if_pos h0]; exact ⟨_, rfl⟩
    · rw [if_neg h0]
      have hk0 : k ≠ 0 := by
        rintro rfl
        rw [Nat.add_zero] at hz
        exact h0 (by rw [hz]; rfl)
      have hnext : ∃ k', k' < n ∧ read8 m (p + 1 + k') = 0 :=
        ⟨k - 1, by omega, by
          have e : p + 1 + (k - 1) = p + k := by omega
          rw [e]; exact hz⟩
      by_cases hw : w = true
      · rw [if_pos hw]; exact ih _ _ _ _ hnext
      · rw [if_neg hw]; exact ih _ _ _ _ hnext

theorem trieSkipUleb_some (m : Mem) :
    ∀ (fuel p : Nat), (∃ k, k < fuel ∧ read8 m (p + k) = 0) →
      ∃ r, trieSkipUleb m fuel p = some r := by
  intro fuel
  induction fuel with
  | zero => intro p h; obtain ⟨k, hk, _⟩ := h; omega
  | succ n ih =>
    intro p h
    obtain ⟨k, hk, hz⟩ := h
    unfold trieSkipUleb
    by_cases h0 : ((read8 m p &&& 0x80) != 0) = true
    · rw [if_pos h0]
      have hk0 : k ≠ 0 := by
        rintro rfl
        rw [Nat.add_zero] at hz
        rw [hz] at h0
        exact absurd h0 (by decide)
      exact ih _ ⟨k - 1, by omega, by
        have e : p + 1 + (k - 1) = p + k := by omega
        rw [e]; exact hz⟩
    · rw [if_neg h0]; exact ⟨_, rfl⟩

/-- In a memory where a NUL byte follows every position within `fuel` bytes, the loop over
the children of a node is not cut off by the bound. -/
theorem trieChildrenLoop_ends (m : Mem) (tend : Nat) (symbol : List Nat) (fuel : Nat)
    (diag : Diagnostics) (si : Nat)
    (hnul : ∀ p, ∃ k, k < fuel ∧ read8 m (p + k) = 0) :
    ∀ (n p : Nat), trieChildrenLoop m tend symbol fuel diag si n p ≠ .noProgress := by
  intro n
  induction n with
  | zero => intro p h; simp [trieChildrenLoop] at h
  | succ n ih =>
    intro p
    unfold trieChildrenLoop
    obtain ⟨r, hr⟩ := trieEdgeScan_some m symbol fuel p si false [] (hnul p)
    obtain ⟨p1, ss, w, label⟩ := r
    rw [hr]
    dsimp only
    cases w with
    | true =>
      rw [if_pos rfl]
      obtain ⟨p2, hp2⟩ := trieSkipUleb_some m fuel (p1 + 1) (hnul (p1 + 1))
      rw [hp2]
      dsimp only
      by_cases hgt : p2 > tend
      · rw [if_pos hgt]; exact fun h => TrieChildren.noConfusion h
      · rw [if_neg hgt]; exact ih p2
    | false =>
      rw [if_neg Bool.false_ne_true]
      split_ifs <;> exact fun h => TrieChildren.noConfusion h

/-- What a turn of the outer loop does to the nodes walked, and when it is cut off. -/
theorem trieWalkBody_nodes (m : Mem) (tend : Nat) (symbol : List Nat) (fuel : Nat)
    (s : TrieState)
    (hch : ∀ d n p, trieChildrenLoop m tend symbol fuel d s.symbol n p ≠ .noProgress) :
    match trieWalkBody m tend symbol fuel s with
    | .done r => r.nodes = s.nodes ++ [s.p] ∧ r.outcome ≠ .noProgress
    | .next s' => s'.nodes = s.nodes ++ [s.p] := by
  unfold trieWalkBody
  by_cases h1 : (decide (read8 m s.p > 127)
      && (trieTerminalSize m tend s.diag s.p).1.hasError) = true
  · rw [if_pos h1]
    exact ⟨rfl, fun h => TrieOutcome.noConfusion h⟩
  · rw [if_neg h1]
    by_cases h2 : (symbol.getD s.symbol 0 == 0
        && (trieTerminalSize m tend s.diag s.p).2.2 != 0) = true
    · rw [if_pos h2]
      exact ⟨rfl, fun h => TrieOutcome.noConfusion h⟩
    · rw [if_neg h2]
      by_cases h3 : (trieTerminalSize m tend s.diag s.p).2.1
          + (trieTerminalSize m tend s.diag s.p).2.2 > tend
      · rw [if_pos h3]
        exact ⟨rfl, fun h => TrieOutcome.noConfusion h⟩
      · rw [if_neg h3]
        cases hc : trieChildrenLoop m tend symbol fuel (trieTerminalSize m tend s.diag s.p).1
            s.symbol
            (read8 m ((trieTerminalSize m tend s.diag s.p).2.1
              + (trieTerminalSize m tend s.diag s.p).2.2))
            ((trieTerminalSize m tend s.diag s.p).2.1
              + (trieTerminalSize m tend s.diag s.p).2.2 + 1) with
        | returned d e => exact ⟨rfl, fun h => TrieOutcome.noConfusion h⟩
        | noProgress => exact absurd hc (hch _ _ _)
        | noMatch => exact ⟨rfl, fun h => TrieOutcome.noConfusion h⟩
        | matched d nodeOffset ss label =>
          dsimp only
          by_cases h4 : nodeOffset > tend
          · rw [if_pos h4]
            exact ⟨rfl, fun h => TrieOutcome.noConfusion h⟩
          · rw [if_neg h4]
            by_cases h5 : s.visitedNodeOffsets.contains nodeOffset = true
            · rw [if_pos h5]
              exact ⟨rfl, fun h => TrieOutcome.noConfusion h⟩
            · rw [if_neg h5]

theorem nodup_length_le (l : List Nat) (n : Nat) (hnd : l.Nodup) (hlt : ∀ x ∈ l, x < n) :
    l.length ≤ n := by
  have h1 : l.toFinset ⊆ Finset.range n := by
    intro x hx
    rw [List.mem_toFinset] at hx
    exact Finset.mem_range.mpr (hlt x hx)
  have h2 := Finset.card_le_card h1
  rw [List.toFinset_card_of_nodup hnd, Finset.card_range] at h2
  exact h2

theorem trieWalkLoop_ends (m : Mem) (tend : Nat) (symbol : List Nat) (fuel : Nat)
    (hsize : tend < 4294967296)
    (hnul : ∀ p, ∃ k, k < fuel ∧ read8 m (p + k) = 0) :
    ∀ (n : Nat) (s : TrieState), s.acyclic tend → tend < s.nodes.length + n →
      (trieWalkLoop m tend symbol fuel n s).outcome ≠ .noProgress
      ∧ ∀ x ∈ (trieWalkLoop m tend symbol fuel n s).nodes, x < tend := by
  intro n
  induction n with
  | zero =>
    intro s hinv hlen
    obtain ⟨_, h2, _, _, h5⟩ := hinv
    have := nodup_length_le s.nodes tend (List.nodup_append.mp h2).1 h5
    omega
  | succ n ih =>
    intro s hinv hlen
    unfold trieWalkLoop
    by_cases hp : ¬ s.p < tend
    · rw [if_pos hp]
      exact ⟨fun h => TrieOutcome.noConfusion h, hinv.2.2.2.2⟩
    · rw [if_neg hp]
      have hp' : s.p < tend := by omega
      have hb := trieWalkBody_acyclic m tend symbol fuel hsize s hp' hinv
      have hn := trieWalkBody_nodes m tend symbol fuel s
        (fun d n p => trieChildrenLoop_ends m tend symbol fuel d s.symbol hnul n p)
      have hall : ∀ x ∈ s.nodes ++ [s.p], x < tend := by
        intro x hx
        rcases List.mem_append.mp hx with h | h
        · exact hinv.2.2.2.2 x h
        · rw [List.mem_singleton.mp h]; exact hp'
      cases hbody : trieWalkBody m tend symbol fuel s with
      | done r =>
        rw [hbody] at hn
        exact ⟨hn.2, fun x hx => hall x (by rw [← hn.1]; exact hx)⟩
      | next s' =>
        rw [hbody] at hb hn
        have hn' : s'.nodes = s.nodes ++ [s.p] := hn
        exact ih s' hb (by rw [hn', List.length_append, List.length_singleton]; omega)

theorem memOfList_nul (l : List Nat) (bound : Nat) (hl : l.length < bound) :
    ∀ p, ∃ k, k < bound ∧ read8 (memOfList l) (p + k) = 0 := by
  intro p
  by_cases hp : p < l.length
  · refine ⟨l.length - p, by omega, ?_⟩
    unfold read8 memOfList
    rw [List.getD_eq_default _ _ (by omega)]
  · refine ⟨0, by omega, ?_⟩
    unfold read8 memOfList
    rw [List.getD_eq_default _ _ (by omega)]

/-- C36 (amended): for a blob of fewer than 2^32 bytes, in a memory where a NUL byte
follows every position within `fuel` bytes, and for every symbol, `trieWalk` ends within
`fuel` iterations of each of its loops when `fuel` is above the length of the blob; it
walks no node twice, and every node it walks is inside the blob, so it walks at most as
many nodes as the blob has bytes. -/
theorem trieWalk_ends_below_4GiB (m : Mem) (tend : Nat) (symbol : List Nat)
    (diag : Diagnostics) (fuel : Nat)
    (hsize : tend < 4294967296)
    (hnul : ∀ p, ∃ k, k < fuel ∧ read8 m (p + k) = 0)
    (hfuel : tend < fuel) :
    (trieWalk m tend symbol diag fuel).outcome ≠ .noProgress
    ∧ (trieWalk m tend symbol diag fuel).nodes.Nodup
    ∧ (∀ x ∈ (trieWalk m tend symbol diag fuel).nodes, x < tend)
    ∧ (trieWalk m tend symbol diag fuel).nodes.length ≤ tend := by
  have hinit : TrieState.acyclic tend ⟨diag, 0, 0, [0], [], []⟩ :=
    ⟨rfl, List.nodup_singleton 0, rfl, Nat.zero_le _,
      fun x hx => absurd hx (List.not_mem_nil x)⟩
  obtain ⟨h1, h2⟩ := trieWalkLoop_ends m tend symbol fuel hsize hnul fuel
    ⟨diag, 0, 0, [0], [], []⟩ hinit (by show tend < 0 + fuel; omega)
  have h3 := (trieWalkLoop_acyclic m tend symbol fuel hsize fuel ⟨diag, 0, 0, [0], [], []⟩
    hinit).1
  exact ⟨h1, h3, h2, nodup_length_le _ tend h3 h2⟩

/-- Witness for C36 (amended): the lookup of "_foobar" in the trie of 21 bytes. -/
theorem trieWalk_ends_below_4GiB_witness :
    (21 : Nat) < 4294967296
    ∧ (trieWalk fooTrie 21 str_foobar {} 22).outcome ≠ .noProgress
    ∧ (trieWalk fooTrie 21 str_foobar {} 22).nodes.length ≤ 21 :=
  ⟨by decide,
    (trieWalk_ends_below_4GiB fooTrie 21 str_foobar {} 22 (by decide)
      (fun p => memOfList_nul _ 22 (by decide) p) (by decide)).1,
    (trieWalk_ends_below_4GiB fooTrie 21 str_foobar {} 22 (by decide)
      (fun p => memOfList_nul _ 22 (by decide) p) (by decide)).2.2.2⟩

end Dyld
